import Mathlib

/-!
# Constant evaluator, struct layout, scopes and specifiers of the C front-end

A shallow embedding of `src/src/evaluate.c` (the constant folder `eval`), of the struct
member layout of `src/src/parser.c` (`parseStructDeclarationList`,
`adjustBitFieldStorage`, `alignMemberOffset`, `computeStructAlignment`,
`checkFlexibleMember`), of its `sizeof` and of `parseDeclarationSpecifiers`, together with
`computeTypeSize`, `makeTypeRef` and the scope and symbol functions of `src/src/sema.c`
(`findSymbol`, `declareSymbol`, `declareGenericSymbol`, `isTypeName`).

Machine integers are mathematical integers with explicit wrapping. A 64-bit constant
payload is kept as the signed value of its bit pattern, a 32-bit `unsigned` as a natural
number below `2 ^ 32`. Scopes, symbols and, where sharing matters, types are objects at
addresses: indices into the lists of objects allocated so far.
-/

namespace CCompiler

/-! ## Machine arithmetic -/

/-- The signed value of the low 64 bits of `x` (two's complement). -/
def wrap64 (x : Int) : Int := (x + 2 ^ 63) % 2 ^ 64 - 2 ^ 63

/-- The signed value of the low 32 bits of `x`: the C conversion to `int` / `int32_t`. -/
def wrap32 (x : Int) : Int := (x + 2 ^ 31) % 2 ^ 32 - 2 ^ 31

/-- Truncate `x` to `w` bits and sign-extend: the C conversion to a signed `w`-bit type. -/
def signExtend (w : Nat) (x : Int) : Int := (x + 2 ^ (w - 1)) % 2 ^ w - 2 ^ (w - 1)

/-- Truncate `x` to `w` bits and zero-extend: the C conversion to an unsigned `w`-bit type. -/
def zeroExtend (w : Nat) (x : Int) : Int := x % 2 ^ w

/-! ## Types

`types.h` is not among the sources; the shapes below are the fields that `evaluate.c`,
`parser.c`, `sema.c` and `treeDump.c` read and write. Qualifier flags, names and
coordinates are left out: no function embedded here reads them. -/

inductive TypeId
  | T_VOID | T_BOOL
  | T_S1 | T_S2 | T_S4 | T_S8
  | T_U1 | T_U2 | T_U4 | T_U8
  | T_F4 | T_F8 | T_F10
  | T_STRUCT | T_UNION | T_ENUM | T_ERROR
  deriving DecidableEq

inductive TypeDefinitionKind
  | TDK_STRUCT | TDK_UNION | TDK_ENUM
  deriving DecidableEq

/-- The fields of `TypeDefiniton` that the layout code reads through a member's type. -/
structure TypeDefiniton where
  kind : TypeDefinitionKind
  name : String
  align : Int
  isDefined : Bool
  isFlexible : Bool
  deriving DecidableEq

structure TypeDesc where
  typeId : TypeId
  size : Int
  typeDefinition : Option TypeDefiniton
  deriving DecidableEq

inductive TypeRef
  | TR_VALUE (descriptorDesc : TypeDesc)
  | TR_POINTED (pointed : TypeRef)
  | TR_ARRAY (elementType : TypeRef) (size : Int)
  | TR_VLA (elementType : TypeRef)
  | TR_FUNCTION (returnType : TypeRef)
  | TR_BITFIELD (storageType : TypeRef) (offset : Int) (width : Int)
  deriving DecidableEq

/-- Modelled from the spec: `isErrorType` is declared in `sema.h` and its body is not in
the sources. The error type is the `Error` sentinel, which `makeErrorRef` (sema.c) builds
as a value type over the descriptor with type id `T_ERROR`. -/
def isErrorType : TypeRef → Bool
  | .TR_VALUE d => d.typeId == .T_ERROR
  | _ => false

/-- The table `builtInTypeDescriptors` of sema.c, by type id (size in bytes). -/
def builtInTypeSize : TypeId → Option Int
  | .T_VOID => some 0
  | .T_S1 => some 1 | .T_S2 => some 2 | .T_S4 => some 4 | .T_S8 => some 8
  | .T_U1 => some 1 | .T_U2 => some 2 | .T_U4 => some 4 | .T_U8 => some 8
  | .T_F4 => some 4 | .T_F8 => some 8
  | _ => none

/-- Modelled from the spec: `makePrimitiveType` is not in the sources; primitive types
come from the fixed table `builtInTypeDescriptors` (sema.c), wrapped as a value type. -/
def makePrimitiveType (id : TypeId) : TypeRef :=
  .TR_VALUE { typeId := id, size := (builtInTypeSize id).getD 0, typeDefinition := none }

/-! ## Constants and expressions -/

inductive ConstKind
  | CK_INT_CONST | CK_FLOAT_CONST | CK_STRING_LITERAL
  deriving DecidableEq

/-- An `AstConst`: the kind tag `op` and the 64-bit payload. The C structure keeps the
integer `i`, the floating value `f` and the string literal `l` in one union; `i` here is
the signed value of those 64 bits, whichever member was written. -/
structure AstConst where
  op : ConstKind
  i : Int
  deriving DecidableEq

/-- Modelled from the spec: `createAstConst` is not in the sources; it allocates a
constant of the given kind holding the value it is handed. -/
def createAstConst (op : ConstKind) (v : Int) : AstConst := { op := op, i := v }

/-- The floating-point operations of the host C compiler on `float64_const_t`, acting on
the 64-bit payload. They are kept abstract: nothing below depends on their values. -/
structure FloatOps where
  /-- The negation `-f`. -/
  minus : Int → Int
  /-- The logical negation `!f`, converted back to floating. -/
  exl : Int → Int
  /-- The increment `f + 1.0f`. -/
  inc : Int → Int
  /-- The decrement `f - 1.0f`. -/
  dec : Int → Int
  plus : Int → Int → Int
  sub : Int → Int → Int
  mul : Int → Int → Int
  div : Int → Int → Int
  andand : Int → Int → Int
  oror : Int → Int → Int
  eq : Int → Int → Int
  ne : Int → Int → Int
  lt : Int → Int → Int
  le : Int → Int → Int
  gt : Int → Int → Int
  ge : Int → Int → Int
  /-- The conversion `(float64_const_t)iv` of a signed 64-bit `iv`. -/
  ofInt : Int → Int
  /-- The conversion `(float)iv`, stored back as `float64_const_t`. -/
  ofIntSingle : Int → Int
  /-- The conversion `(float)f`, stored back as `float64_const_t`. -/
  toSingle : Int → Int
  /-- The conversion `(intN_t)f` to a signed type of `w` bits, as a 64-bit value. -/
  toSigned : Nat → Int → Int
  /-- The conversion `(uintN_t)f` to an unsigned type of `w` bits, as a 64-bit value. -/
  toUnsigned : Nat → Int → Int

inductive BinaryOp
  | EB_ADD | EB_SUB | EB_MUL | EB_DIV | EB_MOD | EB_LHS | EB_RHS
  | EB_AND | EB_OR | EB_XOR | EB_ANDAND | EB_OROR
  | EB_EQ | EB_NE | EB_LT | EB_LE | EB_GT | EB_GE
  | EB_A_ACC | EB_COMMA
  | EB_ASSIGN | EB_ASG_MUL | EB_ASG_DIV | EB_ASG_MOD | EB_ASG_ADD | EB_ASG_SUB
  | EB_ASG_SHL | EB_ASG_SHR | EB_ASG_AND | EB_ASG_XOR | EB_ASG_OR
  deriving DecidableEq

inductive UnaryOp
  | EU_PRE_INC | EU_POST_INC | EU_PRE_DEC | EU_POST_DEC
  | EU_DEREF | EU_REF | EU_PLUS | EU_MINUS | EU_TILDA | EU_EXL
  deriving DecidableEq

inductive FieldOp
  | EF_DOT | EF_ARROW
  deriving DecidableEq

/-- The expression kinds for which `eval` has no case of its own (its `default`). -/
inductive OtherOp
  | E_ERROR | E_COMPOUND | E_BLOCK | E_VA_ARG | E_BIT_EXTEND
  deriving DecidableEq

/-- The kinds of `Symbol` (sema.h). -/
inductive SymbolKind
  | FunctionSymbol | UnionSymbol | StructSymbol | TypedefSymbol | ValueSymbol
  | EnumSymbol | EnumConstSymbol
  deriving DecidableEq

/-- A `Symbol` (sema.h). Of the payload union only the type it leads to is kept: the
`typeref` of a typedef, the declared type of a value (`variableDesc->type`), the functional
type of a function; `none` while no payload is set. -/
structure Symbol where
  kind : SymbolKind
  name : String
  type : Option TypeRef
  deriving DecidableEq

/-- An `AstExpression`: every node carries its `type`; the constructor is the union member
selected by the node's `op`. Of a field access only the member's `offset` is kept, of a
name reference its symbol, of a call its callee. -/
inductive AstExpression
  | E_CONST (type : TypeRef) (constExpr : AstConst)
  | binaryExpr (op : BinaryOp) (type : TypeRef) (left right : AstExpression)
  | ternaryExpr (type : TypeRef) (condition ifTrue ifFalse : AstExpression)
  | E_PAREN (type : TypeRef) (parened : AstExpression)
  | castExpr (type : TypeRef) (toType : TypeRef) (argument : AstExpression)
  | unaryExpr (op : UnaryOp) (type : TypeRef) (argument : AstExpression)
  | fieldExpr (op : FieldOp) (type : TypeRef) (recevier : AstExpression) (memberOffset : Int)
  | E_CALL (type : TypeRef) (callee : AstExpression)
  | E_NAMEREF (type : TypeRef) (s : Symbol)
  | E_LABEL_REF (type : TypeRef) (label : String)
  | other (op : OtherOp) (type : TypeRef)
  deriving DecidableEq

def AstExpression.type : AstExpression → TypeRef
  | .E_CONST t _ => t
  | .binaryExpr _ t _ _ => t
  | .ternaryExpr t _ _ _ => t
  | .E_PAREN t _ => t
  | .castExpr t _ _ => t
  | .unaryExpr _ t _ => t
  | .fieldExpr _ t _ _ => t
  | .E_CALL t _ => t
  | .E_NAMEREF t _ => t
  | .E_LABEL_REF t _ => t
  | .other _ t => t

/-- What a call of `eval` does: return a constant, return `NULL`, or stop in
`unreachable(...)` (the `T_F10` case of `evalCast`). -/
inductive EvalResult
  | some (c : AstConst)
  | none
  | unreachable
  deriving DecidableEq

/-! ## evaluate.c -/

def derefIntConst (astConst : AstConst) : Option Int :=
  if astConst.op = .CK_INT_CONST then some astConst.i else none

def derefFloatConst (astConst : AstConst) : Option Int :=
  if astConst.op = .CK_FLOAT_CONST then some astConst.i else none

/-! `int64_const_t` is declared in `common.h`, which is not among the sources; following
the spec it is the 64-bit two's-complement integer. -/

def ee_i_u_minus (i : Int) : Int := wrap64 (-i)
def ee_i_u_tilda (i : Int) : Int := wrap64 (~~~i)
def ee_i_u_exl (i : Int) : Int := if i = 0 then 1 else 0
def ee_i_u_inc (i : Int) : Int := wrap64 (i + 1)
def ee_i_u_dec (i : Int) : Int := wrap64 (i - 1)

def ee_i_b_plus (l r : Int) : Int := wrap64 (l + r)
def ee_i_b_minus (l r : Int) : Int := wrap64 (l - r)
def ee_i_b_mul (l r : Int) : Int := wrap64 (l * r)
def ee_i_b_div (l r : Int) : Int := wrap64 (Int.tdiv l r)
def ee_i_b_mod (l r : Int) : Int := wrap64 (Int.tmod l r)
/-- The shift `l << r`; the shift count is taken modulo 64 as the shift instruction does. -/
def ee_i_b_lhs (l r : Int) : Int := wrap64 (l * 2 ^ (r % 64).toNat)
/-- The shift `l >> r`; the shift count is taken modulo 64 as the shift instruction does. -/
def ee_i_b_rhs (l r : Int) : Int := wrap64 (l / 2 ^ (r % 64).toNat)
def ee_i_b_and (l r : Int) : Int := wrap64 (Int.land l r)
def ee_i_b_or (l r : Int) : Int := wrap64 (Int.lor l r)
def ee_i_b_xor (l r : Int) : Int := wrap64 (Int.xor l r)
def ee_i_b_andand (l r : Int) : Int := if l ≠ 0 ∧ r ≠ 0 then 1 else 0
def ee_i_b_oror (l r : Int) : Int := if l ≠ 0 ∨ r ≠ 0 then 1 else 0
def ee_i_b_eq (l r : Int) : Int := if l = r then 1 else 0
def ee_i_b_ne (l r : Int) : Int := if l ≠ r then 1 else 0
def ee_i_b_lt (l r : Int) : Int := if l < r then 1 else 0
def ee_i_b_le (l r : Int) : Int := if l ≤ r then 1 else 0
def ee_i_b_gt (l r : Int) : Int := if l > r then 1 else 0
def ee_i_b_ge (l r : Int) : Int := if l ≥ r then 1 else 0

def no_checks (_l _r : Int) : Bool := true

def div_check (_l r : Int) : Bool := r != 0

def evaluateUnaryConst (expr : AstConst) (eInt : Int → Int) (eFloat : Option (Int → Int)) :
    Option AstConst :=
  if expr.op = .CK_FLOAT_CONST then
    match eFloat with
    | none => none
    | some ef => some (createAstConst expr.op (ef expr.i))
  else
    let v := (derefIntConst expr).getD 0
    some (createAstConst expr.op (eInt v))

def evaluateBinaryConst (fo : FloatOps) (left right : AstConst) (checker : Int → Int → Bool)
    (eInt : Int → Int → Int) (eFloat : Option (Int → Int → Int)) : Option AstConst :=
  if left.op = .CK_FLOAT_CONST ∨ right.op = .CK_FLOAT_CONST then
    match eFloat with
    | none => none
    | some ef =>
      let (lv, rv) :=
        if left.op = .CK_FLOAT_CONST ∧ right.op = .CK_FLOAT_CONST then (left.i, right.i)
        else if left.op ≠ .CK_FLOAT_CONST then
          (fo.ofInt ((derefIntConst left).getD 0), right.i)
        else (left.i, fo.ofInt ((derefIntConst right).getD 0))
      some (createAstConst .CK_FLOAT_CONST (ef lv rv))
  else
    let lv := (derefIntConst left).getD 0
    let rv := (derefIntConst right).getD 0
    if checker lv rv then some (createAstConst .CK_INT_CONST (eInt lv rv)) else none

/-- The integer casts of `evalCast`: the payload after `(T)arg->f` or `(T)arg->i`. -/
def castToInt (fo : FloatOps) (signed : Bool) (w : Nat) (arg : AstConst) : AstConst :=
  { op := .CK_INT_CONST,
    i := if arg.op = .CK_FLOAT_CONST then
           (if signed then fo.toSigned w arg.i else fo.toUnsigned w arg.i)
         else (if signed then signExtend w arg.i else zeroExtend w arg.i) }

def evalCast (fo : FloatOps) (toType : TypeRef) (arg : AstConst) : EvalResult :=
  match toType with
  | .TR_POINTED _ => .some arg
  | .TR_VALUE desc =>
    match desc.typeId with
    | .T_S1 => .some (castToInt fo true 8 arg)
    | .T_S2 => .some (castToInt fo true 16 arg)
    | .T_S4 => .some (castToInt fo true 32 arg)
    | .T_S8 => .some (castToInt fo true 64 arg)
    | .T_U1 => .some (castToInt fo false 8 arg)
    | .T_U2 => .some (castToInt fo false 16 arg)
    | .T_U4 => .some (castToInt fo false 32 arg)
    | .T_U8 =>
      .some { op := .CK_INT_CONST,
              i := if arg.op = .CK_FLOAT_CONST then fo.toSigned 64 arg.i else wrap64 arg.i }
    | .T_F4 =>
      .some { op := .CK_FLOAT_CONST,
              i := if arg.op = .CK_FLOAT_CONST then fo.toSingle arg.i
                   else fo.ofIntSingle (wrap64 arg.i) }
    | .T_F8 =>
      .some { op := .CK_FLOAT_CONST,
              i := if arg.op = .CK_FLOAT_CONST then arg.i else fo.ofInt (wrap64 arg.i) }
    | .T_F10 => .unreachable
    | _ => .none
  | _ => .some arg

/-- The `switch (op)` of `eval` for the binary operators that go to the `binary:` label:
the checker and the two evaluators the case sets (`none` where it sets no float
evaluator, and for the operators that do not reach `binary:`). -/
def binaryEvaluators (fo : FloatOps) :
    BinaryOp → Option ((Int → Int → Bool) × (Int → Int → Int) × Option (Int → Int → Int))
  | .EB_ADD => some (no_checks, ee_i_b_plus, some fo.plus)
  | .EB_SUB => some (no_checks, ee_i_b_minus, some fo.sub)
  | .EB_MUL => some (no_checks, ee_i_b_mul, some fo.mul)
  | .EB_DIV => some (div_check, ee_i_b_div, some fo.div)
  | .EB_MOD => some (div_check, ee_i_b_mod, none)
  | .EB_LHS => some (no_checks, ee_i_b_lhs, none)
  | .EB_RHS => some (no_checks, ee_i_b_rhs, none)
  | .EB_AND => some (no_checks, ee_i_b_and, none)
  | .EB_OR => some (no_checks, ee_i_b_or, none)
  | .EB_XOR => some (no_checks, ee_i_b_xor, none)
  | .EB_ANDAND => some (no_checks, ee_i_b_andand, some fo.andand)
  | .EB_OROR => some (no_checks, ee_i_b_oror, some fo.oror)
  | .EB_EQ => some (no_checks, ee_i_b_eq, some fo.eq)
  | .EB_NE => some (no_checks, ee_i_b_ne, some fo.ne)
  | .EB_LT => some (no_checks, ee_i_b_lt, some fo.lt)
  | .EB_LE => some (no_checks, ee_i_b_le, some fo.le)
  | .EB_GT => some (no_checks, ee_i_b_gt, some fo.gt)
  | .EB_GE => some (no_checks, ee_i_b_ge, some fo.ge)
  | _ => none

/-- The evaluators the `switch (op)` of `eval` sets before the `unary:` label. The cases
`EU_POST_INC`, `EU_POST_DEC` and `EU_PLUS` fall through to the assignments of
`EU_PRE_INC`. -/
def unaryEvaluators (fo : FloatOps) : UnaryOp → Option ((Int → Int) × Option (Int → Int))
  | .EU_POST_INC => some (ee_i_u_inc, some fo.inc)
  | .EU_POST_DEC => some (ee_i_u_inc, some fo.inc)
  | .EU_PLUS => some (ee_i_u_inc, some fo.inc)
  | .EU_PRE_INC => some (ee_i_u_inc, some fo.inc)
  | .EU_PRE_DEC => some (ee_i_u_dec, some fo.dec)
  | .EU_MINUS => some (ee_i_u_minus, some fo.minus)
  | .EU_TILDA => some (ee_i_u_tilda, none)
  | .EU_EXL => some (ee_i_u_exl, some fo.exl)
  | _ => none

def EvalResult.ofOption : Option AstConst → EvalResult
  | Option.some c => .some c
  | Option.none => .none

/-- The value `cond_v` of the ternary case: `(int)cond->i`, `(int)cond->f` or `TRUE`. -/
def condValue (fo : FloatOps) (cond : AstConst) : Int :=
  match cond.op with
  | .CK_INT_CONST => wrap32 cond.i
  | .CK_FLOAT_CONST => fo.toSigned 32 cond.i
  | .CK_STRING_LITERAL => 1

def eval (fo : FloatOps) : AstExpression → EvalResult
  | .E_CONST type constExpr => if isErrorType type then .none else .some constExpr
  | .binaryExpr op type left right =>
    if isErrorType type then .none else
    match op with
    | .EB_COMMA => eval fo right
    | _ =>
      match binaryEvaluators fo op with
      | Option.none => .none
      | Option.some (chk_eval, bin_i_eval, bin_f_eval) =>
        match eval fo left with
        | .some l =>
          match eval fo right with
          | .some r =>
            EvalResult.ofOption (evaluateBinaryConst fo l r chk_eval bin_i_eval bin_f_eval)
          | res => res
        | res => res
  | .ternaryExpr type condition ifTrue ifFalse =>
    if isErrorType type then .none else
    match eval fo condition with
    | .some cond => if condValue fo cond ≠ 0 then eval fo ifTrue else eval fo ifFalse
    | res => res
  | .E_PAREN type parened => if isErrorType type then .none else eval fo parened
  | .castExpr type toType argument =>
    if isErrorType type then .none else
    match eval fo argument with
    | .some arg => evalCast fo toType arg
    | res => res
  | .unaryExpr op type argument =>
    if isErrorType type then .none else
    match op with
    | .EU_REF => eval fo argument
    | .EU_DEREF => .none
    | _ =>
      match unaryEvaluators fo op with
      | Option.none => .none
      | Option.some (un_i_eval, un_f_eval) =>
        match eval fo argument with
        | .some expr =>
          if op = .EU_POST_INC ∨ op = .EU_POST_DEC ∨ op = .EU_PLUS then .some expr
          else EvalResult.ofOption (evaluateUnaryConst expr un_i_eval un_f_eval)
        | res => res
  | .fieldExpr op type recevier memberOffset =>
    if isErrorType type then .none else
    match op with
    | .EF_DOT => .none
    | .EF_ARROW =>
      match eval fo recevier with
      | .some c => .some { c with i := wrap64 (c.i + memberOffset) }
      | res => res
  | .E_CALL type _ => if isErrorType type then .none else .none
  | .E_NAMEREF type _ => if isErrorType type then .none else .none
  | .E_LABEL_REF type _ => if isErrorType type then .none else .none
  | .other _ type => if isErrorType type then .none else .none

/-! ## sema.c and sema.h: sizes -/

def POINTER_TYPE_SIZE : Int := 8
def BYTE_BIT_SIZE : Int := 8
def UNKNOWN_SIZE : Int := -1

/-- The function `computeTypeSize` of sema.c. It is defined there with result type
`size_t`, so the product for an array wraps at 64 bits; the result is given as the signed
value of those 64 bits. -/
def computeTypeSize : TypeRef → Int
  | .TR_VALUE descriptorDesc => descriptorDesc.size
  | .TR_POINTED _ => POINTER_TYPE_SIZE
  | .TR_ARRAY elementType size => wrap64 (size * computeTypeSize elementType)
  | _ => POINTER_TYPE_SIZE

/-- A call of `computeTypeSize` from parser.c, which sees the declaration
`int computeTypeSize(TypeRef *type)` of sema.h. -/
def computeTypeSizeInt (type : TypeRef) : Int := wrap32 (computeTypeSize type)

/-! ## parser.c: struct member layout -/

/-- The value of `x` as a 32-bit `unsigned`. -/
def u32 (x : Int) : Int := x % 2 ^ 32

/-- Modelled from the spec: the macro `ALIGN_SIZE` is not in the sources;
`align_member_offset(type, offset) = round_up(offset, align(type))`, the least multiple of
`align` that is not below `len`. -/
def ALIGN_SIZE (len align : Int) : Int := (len + align - 1) / align * align

/-- Modelled from the spec: `isStructualType` is not in the sources; a value type whose
descriptor is a struct (parser.c tests `isStructualType(t) || isUnionType(t)`). -/
def isStructualType : TypeRef → Bool
  | .TR_VALUE d => d.typeId == .T_STRUCT
  | _ => false

/-- Modelled from the spec: `isUnionType` is not in the sources; a value type whose
descriptor is a union. -/
def isUnionType : TypeRef → Bool
  | .TR_VALUE d => d.typeId == .T_UNION
  | _ => false

/-- Modelled from the spec: `isCompositeType` is not in the sources; a struct or union
type. -/
def isCompositeType (type : TypeRef) : Bool := isStructualType type || isUnionType type

/-- Modelled from the spec: `isIntegerType` is declared in sema.h and its body is not in
the sources; a value type over one of the integer descriptors s1..s8, u1..u8. -/
def isIntegerType : TypeRef → Bool
  | .TR_VALUE d =>
    match d.typeId with
    | .T_S1 | .T_S2 | .T_S4 | .T_S8 | .T_U1 | .T_U2 | .T_U4 | .T_U8 => true
    | _ => false
  | _ => false

/-- Modelled from the spec: `isUnsignedType` is not in the sources; a value type over one
of the unsigned descriptors u1..u8. -/
def isUnsignedType : TypeRef → Bool
  | .TR_VALUE d =>
    match d.typeId with
    | .T_U1 | .T_U2 | .T_U4 | .T_U8 => true
    | _ => false
  | _ => false

/-- Modelled from the spec: `typeAlignment` is not in the sources; "the natural alignment;
for aggregates it is the maximum of member alignments (minimum 1)", which the definition
of an aggregate records in `align`. -/
def typeAlignment : TypeRef → Int
  | .TR_VALUE d =>
    match d.typeDefinition with
    | some definition => definition.align
    | none => d.size
  | .TR_POINTED _ => POINTER_TYPE_SIZE
  | .TR_ARRAY elementType _ => typeAlignment elementType
  | .TR_VLA elementType => typeAlignment elementType
  | .TR_FUNCTION _ => POINTER_TYPE_SIZE
  | .TR_BITFIELD storageType _ _ => typeAlignment storageType

/-- Modelled from the spec: `makeBitFieldType` is declared in sema.h and its body is not
in the sources; the type `Bitfield(storage_type, bit_offset, width)`. -/
def makeBitFieldType (storage : TypeRef) (offset width : Int) : TypeRef :=
  .TR_BITFIELD storage offset width

/-- Modelled from the spec: `makeErrorRef` of sema.c builds a value type over
`errorTypeDescriptor`, which is `{ T_ERROR, "<error>", -1, NULL }`. -/
def makeErrorRef : TypeRef :=
  .TR_VALUE { typeId := .T_ERROR, size := -1, typeDefinition := none }

/-- A `StructualMember`: name (absent for an unnamed declarator), type, byte offset and
the flexible flag. The `parent` link and the coordinates are left out. -/
structure StructualMember where
  name : Option String
  type : TypeRef
  offset : Int
  isFlexible : Bool
  deriving DecidableEq

/-- Modelled from the spec: `createStructualMember` is not in the sources; a member with
the given name, type and offset. -/
def createStructualMember (name : Option String) (type : TypeRef) (offset : Int) :
    StructualMember :=
  { name := name, type := type, offset := offset, isFlexible := false }

/-- The function `alignMemberOffset`: parameter and result are `int32_t`. -/
def alignMemberOffset (memberType : TypeRef) (offset : Int) : Int :=
  wrap32 (ALIGN_SIZE (wrap32 offset) (typeAlignment memberType))

/-- The `if` cascade of `adjustBitFieldStorage`: the signed and the unsigned storage type
id and the alignment for a chain width, `none` for a width above 64. -/
def bitFieldStorageClass (chainWidth : Int) : Option (TypeId × TypeId × Int) :=
  if chainWidth ≤ 8 then some (.T_S1, .T_U1, 1)
  else if chainWidth ≤ 16 then some (.T_S2, .T_U2, 2)
  else if chainWidth ≤ 32 then some (.T_S4, .T_U4, 4)
  else if chainWidth ≤ 64 then some (.T_S8, .T_U8, 8)
  else none

/-- The loop body of `adjustBitFieldStorage` on one member of the chain. -/
def adjustChainMember (sType uType : TypeRef) (offset : Int) (m : StructualMember) :
    StructualMember :=
  { m with
    type :=
      match m.type with
      | .TR_BITFIELD storageType bitOffset width =>
        .TR_BITFIELD (if isUnsignedType storageType then uType else sType) bitOffset width
      | t => t
    offset := offset }

/-- The function `adjustBitFieldStorage`. The chain is given by the index of its first
member in the member list (`none` for a `NULL` chain); it runs to the end of the list.
The result is the member list, the new `*offset` and the returned alignment. -/
def adjustBitFieldStorage (members : List StructualMember) (chain : Option Nat)
    (chainWidth : Int) (offset : Int) : List StructualMember × Int × Int :=
  match bitFieldStorageClass chainWidth with
  | none => (members, offset, 0)
  | some (sid, uid, align) =>
    let sType := makePrimitiveType sid
    let uType := makePrimitiveType uid
    let offset := u32 (ALIGN_SIZE offset align)
    match chain with
    | none => (members, offset, align)
    | some k =>
      (members.take k ++ (members.drop k).map (adjustChainMember sType uType offset),
        offset, align)

/-- The diagnostics reported by the embedded code of parser.c. -/
inductive Diagnostic
  | DIAG_BIT_FIELD_TYPE_NON_INT | DIAG_ANON_BIT_FIELD_TYPE_NON_INT
  | DIAG_BIT_FIELD_NEGATIVE_WIDTH | DIAG_ANON_BIT_FIELD_NEGATIVE_WIDTH
  | DIAG_EXCEED_BIT_FIELD_TYPE_WIDTH | DIAG_EXCEED_ANON_BIT_FIELD_TYPE_WIDTH
  | DIAG_ZERO_NAMED_BIT_FIELD | DIAG_FIELD_NON_CONSTANT_SIZE
  | DIAG_SIZEOF_INCOMPLETE_TYPE
  | DIAG_W_DUPLICATE_DECL_SPEC | DIAG_E_DUPLICATE_DECL_SPEC | DIAG_CANNOT_COMBINE_DECL_SPEC
  | DIAG_ILL_TYPE_SIGN | DIAG_INVALID_TYPE | DIAG_UNKNOWN_TYPE_NAME
  | DIAG_MISSING_TYPE_SPECIFIER | DIAG_USE_WITH_DIFFERENT_TAG | DIAG_NON_COMPUTE_DECL_SIZE
  | DIAG_ANON_STRUCT_IS_DEFINITION
  | DIAG_ILLEGAL_STORAGE_ON_FILE_SCOPE | DIAG_STORAGE_NOT_ALLOWED | DIAG_INVALID_STORAGE_ON_PARAM
  | DIAG_NON_VAR_IN_FOR | DIAG_NON_LOCAL_IN_FOR | DIAG_RESTRICT_NON_POINTER
  | DIAG_LABEL_REDEFINITION | DIAG_UNDECLARED_LABEL
  | DIAG_VLA_FILE_SCOPE | DIAG_VLA_STATIC_DURATION | DIAG_INLINE_NON_FUNC
  | DIAG_EXTERN_VAR_INIT | DIAG_ARRAY_EXPLICIT_SIZE_OR_INIT | DIAG_UNEXPECTED_TOKEN
  | DIAG_EXPECTED_CONST_EXPR | DIAG_EXPECTED_INTEGER_CONST_EXPR | DIAG_ENUM_LIST_ID_EXPECT
  | DIAG_SWITCH_LABEL_NOT_IN_SWITCH | DIAG_ID_ALREADY_SPECIFIED
  deriving DecidableEq

/-- The function `checkIfBitfieldCorrect`: the diagnostic it reports, `none` when it
returns `TRUE`. The width parameter is `int32_t`. -/
def checkIfBitfieldCorrect (type : TypeRef) (name : Option String) (w : Int) :
    Option Diagnostic :=
  if !isIntegerType type then
    some (if name.isSome then .DIAG_BIT_FIELD_TYPE_NON_INT
          else .DIAG_ANON_BIT_FIELD_TYPE_NON_INT)
  else if wrap32 w < 0 then
    some (if name.isSome then .DIAG_BIT_FIELD_NEGATIVE_WIDTH
          else .DIAG_ANON_BIT_FIELD_NEGATIVE_WIDTH)
  else
    let typeSize := match type with
      | .TR_VALUE d => d.size
      | _ => 0
    let typeWidth := wrap32 (typeSize * BYTE_BIT_SIZE)
    if wrap32 w > typeWidth then
      some (if name.isSome then .DIAG_EXCEED_BIT_FIELD_TYPE_WIDTH
            else .DIAG_EXCEED_ANON_BIT_FIELD_TYPE_WIDTH)
    else none

/-- The mutable locals of `parseStructDeclarationList`: the member list from `head.next`
to `current`, and the layout counters. `bitfieldChain` is the index of the first member of
the open chain. -/
structure LayoutState where
  members : List StructualMember
  offset : Int
  bitOffset : Int
  bitfieldChain : Option Nat
  bfChainWidth : Int
  anonFieldIdx : Nat
  diagnostics : List Diagnostic
  deriving DecidableEq

def LayoutState.init : LayoutState :=
  { members := [], offset := 0, bitOffset := 0, bitfieldChain := none, bfChainWidth := 0,
    anonFieldIdx := 0, diagnostics := [] }

/-- One struct declarator as the parser has it after `parseDeclarator`, `parseAsIntConst`
and `makeTypeRef`: the identifier, the declared type, and the bit-field width when a
`: constant` was parsed as an integer constant (`hasWidth`). -/
structure StructDeclarator where
  name : Option String
  type : TypeRef
  width : Option Int
  deriving DecidableEq

/-- One struct declaration: what `parseDeclarationSpecifiers` produced (the definition of
a struct, union or enum specifier and the basic type), whether the next token is `;`, and
the declarators that the inner loop goes through. -/
structure StructDeclaration where
  definition : Option TypeDefiniton
  basicType : TypeRef
  semicolonNext : Bool
  declarators : List StructDeclarator
  deriving DecidableEq

/-- The constant `maxWidth`: `sizeof(uint64_t) * BYTE_BIT_SIZE`. -/
def maxWidth : Int := 64

/-- The part of the inner loop body run for a declarator whose bit-field check passed, up
to the zero-width exit: the state, the bit-field type, and whether `goto end` is taken. -/
def layoutBitField (factor : Int) (st : LayoutState) (d : StructDeclarator) (width : Int) :
    LayoutState × TypeRef × Bool :=
  let st :=
    if st.bitfieldChain.isSome ∧ width > 0 ∧ u32 (maxWidth - st.bitOffset) ≤ width then
      let (members, offset, storageSize) :=
        adjustBitFieldStorage st.members st.bitfieldChain st.bfChainWidth st.offset
      { st with members := members, bitOffset := 0, bfChainWidth := 0, bitfieldChain := none,
                offset := u32 (offset + storageSize * factor) }
    else st
  let type := makeBitFieldType d.type st.bitOffset (u32 width)
  let st := { st with
    bitOffset := u32 (st.bitOffset + width * factor)
    bfChainWidth :=
      if factor ≠ 0 then u32 (st.bfChainWidth + width) else u32 (max st.bfChainWidth width) }
  if width = 0 then
    let diagnostics :=
      if d.name.isSome then st.diagnostics ++ [.DIAG_ZERO_NAMED_BIT_FIELD] else st.diagnostics
    let (members, offset, storageSize) :=
      adjustBitFieldStorage st.members st.bitfieldChain st.bfChainWidth st.offset
    ({ st with members := members, bitfieldChain := none, bitOffset := 0, bfChainWidth := 0,
               offset := u32 (offset + storageSize * factor), diagnostics := diagnostics },
      type, true)
  else (st, type, false)

/-- The test `type->kind == TR_VLA`. -/
def isVLAType : TypeRef → Bool
  | .TR_VLA _ => true
  | _ => false

/-- The end of the inner loop body: size, alignment, the new member and the counters. -/
def layoutMember (factor : Int) (st : LayoutState) (d : StructDeclarator) (type : TypeRef) :
    LayoutState :=
  let hasWidth := d.width.isSome
  let typeSize := computeTypeSizeInt type
  let offset := if hasWidth then st.offset else u32 (alignMemberOffset type st.offset)
  let isVLA := isVLAType type
  let diagnostics :=
    if isVLA then st.diagnostics ++ [.DIAG_FIELD_NON_CONSTANT_SIZE] else st.diagnostics
  let type := if isVLA then makeErrorRef else type
  let current := st.members.length
  let st := { st with members := st.members ++ [createStructualMember d.name type offset],
                      offset := offset, diagnostics := diagnostics }
  let st :=
    if hasWidth ∧ st.bitfieldChain.isNone then { st with bitfieldChain := some current }
    else st
  if hasWidth then st
  else { st with bitOffset := 0, bitfieldChain := none, bfChainWidth := 0,
                 offset := u32 (st.offset + typeSize * factor) }

/-- The test `!name && definition && definition->isDefined`: a tagged definition with no
declarator, which adds no member. -/
def declaresNothing (definition : Option TypeDefiniton) (d : StructDeclarator) : Bool :=
  d.name.isNone && (match definition with
    | some definition => definition.isDefined
    | none => false)

/-- The body of the inner `for (;;)` loop of `parseStructDeclarationList` for one
declarator. -/
def layoutDeclarator (factor : Int) (definition : Option TypeDefiniton) (st : LayoutState)
    (d : StructDeclarator) : LayoutState :=
  if declaresNothing definition d then st
  else
    match d.width with
    | some width =>
      match checkIfBitfieldCorrect d.type d.name width with
      | none =>
        let (st, type, atEnd) := layoutBitField factor st d width
        if atEnd then st else layoutMember factor st d type
      | some diagnostic =>
        layoutMember factor { st with diagnostics := st.diagnostics ++ [diagnostic] } d d.type
    | none =>
      let st :=
        if st.bitfieldChain.isSome then
          let (members, offset, storageSize) :=
            adjustBitFieldStorage st.members st.bitfieldChain st.bfChainWidth st.offset
          { st with members := members, offset := u32 (offset + storageSize * factor) }
        else st
      layoutMember factor st d d.type

/-- The test `strstr(definitionName, "<anon") == definitionName`. -/
def isAnonName (definitionName : String) : Bool :=
  definitionName.toList.take 5 == ['<', 'a', 'n', 'o', 'n']

/-- The test that sends a declaration down the anonymous-aggregate path: the specifier
defined a struct or union whose name starts with `<anon`, and the next token is `;`. -/
def StructDeclaration.isAnonAggregate (decl : StructDeclaration) : Bool :=
  match decl.definition with
  | some definition =>
    (definition.kind == .TDK_STRUCT || definition.kind == .TDK_UNION) &&
      isAnonName definition.name && decl.semicolonNext
  | none => false

/-- The body of the outer `do ... while` loop of `parseStructDeclarationList` for one
declaration. -/
def layoutDeclaration (factor : Int) (st : LayoutState) (decl : StructDeclaration) :
    LayoutState :=
  if decl.isAnonAggregate then
    let anonFieldIdx := st.anonFieldIdx + 1
    let fieldName := "$" ++ toString anonFieldIdx
    { st with
      anonFieldIdx := anonFieldIdx
      members := st.members ++ [createStructualMember (some fieldName) decl.basicType st.offset]
      offset := u32 (st.offset + computeTypeSizeInt decl.basicType * factor) }
  else decl.declarators.foldl (layoutDeclarator factor decl.definition) st

/-- The function `checkFlexibleMember` on a member that is present: the flag, and the
member's type with the size of an incomplete array set to 0. `none` stands for reading
through a `NULL` type definition. Types are values here, so the write into the type object
shows on this member only; `checkFlexibleMemberRef` has it on the object itself. -/
def checkFlexibleMember (member : StructualMember) : Option (Bool × TypeRef) :=
  match member.type with
  | .TR_ARRAY elementType size =>
    if size = UNKNOWN_SIZE then some (true, .TR_ARRAY elementType 0)
    else some (false, member.type)
  | type =>
    if isCompositeType type then
      match type with
      | .TR_VALUE d => d.typeDefinition.map fun definition => (definition.isFlexible, type)
      | _ => none
    else some (false, type)

/-- The function `parseStructDeclarationList` on the declarations of a struct
(`factor = 1`) or union (`factor = 0`) body: the member list `head.next` and the flag
`*flexible`. The result is `none` when `current` is still `&head` at the end, where
`checkFlexibleMember` reads the type of no member, or when it reads through a `NULL` type
definition. -/
def parseStructDeclarationList (factor : Int) (decls : List StructDeclaration) :
    Option (List StructualMember × Bool) :=
  let st := decls.foldl (layoutDeclaration factor) LayoutState.init
  let members :=
    if st.bitfieldChain.isSome then
      (adjustBitFieldStorage st.members st.bitfieldChain st.bfChainWidth st.offset).1
    else st.members
  match members.getLast? with
  | none => none
  | some current =>
    match checkFlexibleMember current with
    | none => none
    | some (flexible, type) =>
      some (members.dropLast ++ [{ current with type := type, isFlexible := flexible }],
        flexible)

/-- The function `computeStructAlignment`. -/
def computeStructAlignment (members : List StructualMember) : Int :=
  members.foldl (fun biggestSize m =>
    match m.type with
    | .TR_VALUE d =>
      if isStructualType m.type then
        max biggestSize ((d.typeDefinition.map fun definition => definition.align).getD 0)
      else max biggestSize (computeTypeSizeInt m.type)
    | .TR_ARRAY elementType _ => max biggestSize (computeTypeSizeInt elementType)
    | _ => max biggestSize (computeTypeSizeInt m.type)) 1

/-! ## Specification-side definitions -/

/-- The exact, unbounded integer operation written `+`, `-` or `*`. -/
def arithOp : BinaryOp → Option (Int → Int → Int)
  | .EB_ADD => some (fun a b => a + b)
  | .EB_SUB => some (fun a b => a - b)
  | .EB_MUL => some (fun a b => a * b)
  | _ => none

/-- The exact, unbounded integer value of an expression built from 64-bit integer
constants with `+`, `-` and `*`, none of whose nodes has the error type; `none` for every
other expression. No wrapping takes place here. -/
def arithValue : AstExpression → Option Int
  | .E_CONST type c =>
    if isErrorType type = false ∧ c.op = .CK_INT_CONST ∧ -2 ^ 63 ≤ c.i ∧ c.i < 2 ^ 63
    then some c.i else none
  | .binaryExpr op type left right =>
    if isErrorType type then none else
    match arithOp op with
    | none => none
    | some f =>
      match arithValue left with
      | none => none
      | some a =>
        match arithValue right with
        | none => none
        | some b => some (f a b)
  | _ => none

/-! ### Sample expressions -/

/-- The type `int`. -/
def intType : TypeRef := makePrimitiveType .T_S4

/-- The type `double`. -/
def doubleType : TypeRef := makePrimitiveType .T_F8

/-- An integer literal of type `int`. -/
def intLit (n : Int) : AstExpression := .E_CONST intType ⟨.CK_INT_CONST, n⟩

/-- The expression `1 + 2 * 3`. -/
def onePlusTwoTimesThree : AstExpression :=
  .binaryExpr .EB_ADD intType (intLit 1) (.binaryExpr .EB_MUL intType (intLit 2) (intLit 3))

/-- The expression `1.0 / 0`; `4607182418800017408` is the bit pattern `0x3FF0000000000000`
of the double `1.0`. -/
def oneDividedByIntZero : AstExpression :=
  .binaryExpr .EB_DIV doubleType (.E_CONST doubleType ⟨.CK_FLOAT_CONST, 4607182418800017408⟩)
    (intLit 0)

/-- The expression `4294967296 ? 1 : 2`, whose condition is `2 ^ 32`. -/
def ternaryOnTwoPow32 : AstExpression :=
  .ternaryExpr intType (.E_CONST (makePrimitiveType .T_S8) ⟨.CK_INT_CONST, 4294967296⟩)
    (intLit 1) (intLit 2)

/-- The expression `&x` for a variable `x` of type `int`: `EU_REF` over the name
reference. -/
def refOfName : AstExpression :=
  .unaryExpr .EU_REF (.TR_POINTED intType)
    (.E_NAMEREF intType { kind := .ValueSymbol, name := "x", type := some intType })

/-! ### The cast of the spec -/

/-- The integer cast targets: signedness and width in bits. -/
def intCastTarget : TypeId → Option (Bool × Nat)
  | .T_S1 => some (true, 8) | .T_S2 => some (true, 16)
  | .T_S4 => some (true, 32) | .T_S8 => some (true, 64)
  | .T_U1 => some (false, 8) | .T_U2 => some (false, 16)
  | .T_U4 => some (false, 32) | .T_U8 => some (false, 64)
  | _ => none

/-- The spec's cast on bit patterns: keep the low `w` bits of `c`, fill the bits from `w`
up to 64 with the sign bit (signed) or with zeros (unsigned), and read the 64 bits as a
signed value. -/
def truncateThenExtend (signed : Bool) (w : Nat) (c : Int) : Int :=
  let low := c % 2 ^ w
  wrap64 (if signed ∧ 2 ^ (w - 1) ≤ low then low + (2 ^ 64 - 2 ^ w) else low)

/-! ### Struct layout of the spec -/

/-- The declarators of a struct body in declaration order. -/
def allDeclarators : List StructDeclaration → List StructDeclarator
  | [] => []
  | decl :: decls => decl.declarators ++ allDeclarators decls

/-- A type of known size: not a VLA and not an array of `UNKNOWN_SIZE`, of non-negative
size and positive alignment, and, for a struct or union type, with its definition
present (a complete type). -/
def hasKnownSize (type : TypeRef) : Bool :=
  (match type with
    | .TR_VLA _ => false
    | .TR_ARRAY _ size => size != UNKNOWN_SIZE
    | .TR_VALUE d => !isCompositeType type || d.typeDefinition.isSome
    | _ => true) &&
  decide (0 ≤ computeTypeSize type) && decide (0 < typeAlignment type)

/-- A named non-bit-field member of known size. -/
def StructDeclarator.isPlain (d : StructDeclarator) : Bool :=
  d.name.isSome && d.width.isNone && hasKnownSize d.type

/-- The spec's layout of named non-bit-field members from position `pos` on: each member
goes to `round_up(pos, align(type))`, and the next position is that offset plus the size
of the member. No machine arithmetic takes place here. -/
def plainLayout (pos : Int) : List StructDeclarator → List StructualMember
  | [] => []
  | d :: ds =>
    let offset := ALIGN_SIZE pos (typeAlignment d.type)
    createStructualMember d.name d.type offset ::
      plainLayout (offset + computeTypeSize d.type) ds

/-- The position after the last member of `plainLayout`. -/
def plainEnd (pos : Int) : List StructDeclarator → Int
  | [] => pos
  | d :: ds => plainEnd (ALIGN_SIZE pos (typeAlignment d.type) + computeTypeSize d.type) ds

/-- A struct declaration with one declarator `type name;` or `type name : width;`. -/
def fieldDecl (type : TypeRef) (name : String) (width : Option Int) : StructDeclaration :=
  { definition := none, basicType := type, semicolonNext := false,
    declarators := [{ name := some name, type := type, width := width }] }

/-- The body of `struct S { char a; int b; char c; }`. -/
def structS : List StructDeclaration :=
  [fieldDecl (makePrimitiveType .T_S1) "a" none, fieldDecl (makePrimitiveType .T_S4) "b" none,
   fieldDecl (makePrimitiveType .T_S1) "c" none]

/-- The body of `struct B { unsigned x:3; unsigned y:5; unsigned z:8; }`. -/
def structB : List StructDeclaration :=
  [fieldDecl (makePrimitiveType .T_U4) "x" (some 3),
   fieldDecl (makePrimitiveType .T_U4) "y" (some 5),
   fieldDecl (makePrimitiveType .T_U4) "z" (some 8)]

/-- The body of `struct { long a:32; long b:32; }`. -/
def structTwoHalves : List StructDeclaration :=
  [fieldDecl (makePrimitiveType .T_S8) "a" (some 32),
   fieldDecl (makePrimitiveType .T_S8) "b" (some 32)]

/-- The spec's placement rule between a member `p` and the next member `m`: `m` is at
`round_up(p.offset + size(p), align(m))`, the least multiple of its alignment that is not
below the end of `p`. -/
def PlacedAfter (p m : StructualMember) : Prop :=
  m.offset = ALIGN_SIZE (p.offset + computeTypeSize p.type) (typeAlignment m.type) ∧
  p.offset + computeTypeSize p.type ≤ m.offset ∧
  m.offset < p.offset + computeTypeSize p.type + typeAlignment m.type ∧
  m.offset % typeAlignment m.type = 0

/-- A bit-field declarator of positive width that `checkIfBitfieldCorrect` accepts and
that is not a tagged definition without declarator. -/
def StructDeclarator.isBitField (definition : Option TypeDefiniton) (d : StructDeclarator) :
    Bool :=
  !declaresNothing definition d &&
  (match d.width with
    | some w => decide (0 < w) && (checkIfBitfieldCorrect d.type d.name w).isNone
    | none => false)

/-- The sum of the widths of a run of bit-field declarators. -/
def totalWidth : List StructDeclarator → Int
  | [] => 0
  | d :: ds => d.width.getD 0 + totalWidth ds

/-- The spec's layout of a run of bit-fields that share one storage slot at byte offset 0:
member `i` is at the bit offset that is the sum of the widths before it, and its storage
type is `uType` when its declared type is unsigned and `sType` otherwise. -/
def bitFieldRun (sType uType : TypeRef) (bitPos : Int) :
    List StructDeclarator → List StructualMember
  | [] => []
  | d :: ds =>
    { name := d.name
      type := .TR_BITFIELD (if isUnsignedType d.type then uType else sType) bitPos
        (d.width.getD 0)
      offset := 0
      isFlexible := false } :: bitFieldRun sType uType (bitPos + d.width.getD 0) ds

/-- The members of a bit-field chain before `adjustBitFieldStorage` patches them: each
has the declared type as storage and the byte offset current at its creation. -/
def bitFieldChainRaw (offset bitPos : Int) : List StructDeclarator → List StructualMember
  | [] => []
  | d :: ds =>
    createStructualMember d.name (makeBitFieldType d.type bitPos (d.width.getD 0)) offset ::
      bitFieldChainRaw offset (bitPos + d.width.getD 0) ds

/-! ## parser.c: `sizeof` and `_Alignof` -/

/-- The members of `struct { int a[2][3]; }`. -/
def structNestedArray : List StructualMember :=
  [createStructualMember (some "a") (.TR_ARRAY (.TR_ARRAY (makePrimitiveType .T_S4) 3) 2) 0]

/-- The member list of `parseStructDeclarationList` when the loop has ended and the last
open chain has been patched, before `checkFlexibleMember` looks at the last member. -/
def layoutMembers (factor : Int) (decls : List StructDeclaration) : List StructualMember :=
  let st := decls.foldl (layoutDeclaration factor) LayoutState.init
  if st.bitfieldChain.isSome then
    (adjustBitFieldStorage st.members st.bitfieldChain st.bfChainWidth st.offset).1
  else st.members

/-- The body of `union U { char c; int i; struct { int x; int y; }; }`: two named members
and an anonymous struct of 8 bytes. -/
def unionWithAnon : List StructDeclaration :=
  [fieldDecl (makePrimitiveType .T_S1) "c" none, fieldDecl (makePrimitiveType .T_S4) "i" none,
   { definition := some { kind := .TDK_STRUCT, name := "<anon$0>", align := 4,
                          isDefined := true, isFlexible := false }
     basicType := .TR_VALUE
       { typeId := .T_STRUCT, size := 8
         typeDefinition := some { kind := .TDK_STRUCT, name := "<anon$0>", align := 4,
                                  isDefined := true, isFlexible := false } }
     semicolonNext := true
     declarators := [] }]

/-- The statements that close a bit-field chain in `parseStructDeclarationList`:
`storageSize = adjustBitFieldStorage(ctx, bitfieldChain, bfChainWidth, &offset);
offset += storageSize * factor;`. -/
def closeChain (factor : Int) (st : LayoutState) : LayoutState :=
  { st with
    members :=
      (adjustBitFieldStorage st.members st.bitfieldChain st.bfChainWidth st.offset).1
    offset :=
      u32 ((adjustBitFieldStorage st.members st.bitfieldChain st.bfChainWidth st.offset).2.1 +
        (adjustBitFieldStorage st.members st.bitfieldChain st.bfChainWidth st.offset).2.2 *
          factor) }

/-- The statements `bitOffset = 0; bfChainWidth = 0; bitfieldChain = NULL;`. -/
def resetChain (st : LayoutState) : LayoutState :=
  { st with bitOffset := 0, bfChainWidth := 0, bitfieldChain := none }

/-- The offset at which `layoutMember` creates its member: the running offset for a
declarator with a width, the aligned running offset otherwise. -/
def memberOffset (st : LayoutState) (d : StructDeclarator) (type : TypeRef) : Int :=
  if d.width.isSome then st.offset else u32 (alignMemberOffset type st.offset)

/-! ## parser.c and sema.c: member types as shared objects -/

/-- A `StructualMember` with its `type` field as the pointer it is: the address of a
`TypeRef` object of the type arena, given as an index into the list of objects. -/
structure StructualMemberRef where
  name : Option String
  type : Nat
  offset : Int
  isFlexible : Bool
  deriving DecidableEq

/-- The kinds of `DeclaratorPart` that `makeTypeRef` goes through. -/
inductive DeclaratorPart
  | DPK_POINTER
  | DPK_ARRAY (arraySize : Int)
  | DPK_FUNCTION
  deriving DecidableEq

/-- An allocation in the type arena: the new object gets the next address. -/
def areanAllocate (arena : List TypeRef) (object : TypeRef) : List TypeRef × Nat :=
  (arena ++ [object], arena.length)

/-- The function `makeTypeRef` of sema.c on addresses: it starts from the pointer
`specifiers->basicType` and allocates one new object per declarator part, from the last
part to the first. For a declarator without parts the result is the pointer
`specifiers->basicType` itself. The result is `none` when a pointer leads outside the
arena. -/
def makeTypeRef (arena : List TypeRef) (basicType : Nat) :
    List DeclaratorPart → Option (List TypeRef × Nat)
  | [] => some (arena, basicType)
  | part :: parts =>
    match makeTypeRef arena basicType parts with
    | none => none
    | some (arena, type) =>
      match arena.get? type with
      | none => none
      | some object =>
        match part with
        | .DPK_POINTER => some (areanAllocate arena (.TR_POINTED object))
        | .DPK_ARRAY arraySize => some (areanAllocate arena (.TR_ARRAY object arraySize))
        | .DPK_FUNCTION => some (areanAllocate arena (.TR_FUNCTION object))

/-- The function `checkFlexibleMember` on a member that is present, with the type arena:
the flag and the arena after the call, in which the size of an incomplete array has been
set to 0 in the object that the member's `type` points to. `none` stands for reading
through a `NULL` type definition or outside the arena. -/
def checkFlexibleMemberRef (arena : List TypeRef) (member : StructualMemberRef) :
    Option (Bool × List TypeRef) :=
  match arena.get? member.type with
  | none => none
  | some (.TR_ARRAY elementType size) =>
    if size = UNKNOWN_SIZE then some (true, arena.set member.type (.TR_ARRAY elementType 0))
    else some (false, arena)
  | some type =>
    if isCompositeType type then
      match type with
      | .TR_VALUE d => d.typeDefinition.map fun definition => (definition.isFlexible, arena)
      | _ => none
    else some (false, arena)

/-- The type that a member has in a given state of the arena. -/
def StructualMemberRef.typeIn (arena : List TypeRef) (member : StructualMemberRef) :
    Option TypeRef :=
  arena.get? member.type

/-- The arena after `typedef int A[];`: object 0 is the `typeref` of the typedef symbol
`A`, an array of `int` of `UNKNOWN_SIZE`. -/
def arenaTypedefA : List TypeRef := [.TR_ARRAY intType UNKNOWN_SIZE]

/-- The declarations `A x; A y;` of a struct body, where `A` is the typedef above: the
`TYPE_NAME` case of `parseDeclarationSpecifiers` sets `specifiers->basicType` to the
`typeref` of `A` for both. -/
def structSharedTypedefDecls : List StructDeclaration :=
  [fieldDecl (.TR_ARRAY intType UNKNOWN_SIZE) "x" none,
   fieldDecl (.TR_ARRAY intType UNKNOWN_SIZE) "y" none]

/-- The members of `struct { A x; A y; }` with their type pointers: the offsets are those
of the layout loop, and each `type` is what `makeTypeRef` returns for a declarator without
parts over the basic type at address 0. -/
def structSharedTypedef : List StructualMemberRef :=
  (layoutMembers 1 structSharedTypedefDecls).map fun m =>
    { name := m.name
      type := ((makeTypeRef arenaTypedefA 0 []).map Prod.snd).getD 0
      offset := m.offset
      isFlexible := m.isFlexible }

/-- A zero-width bit-field declarator that `checkIfBitfieldCorrect` accepts and that is not
a tagged definition without declarator. -/
def StructDeclarator.isZeroWidth (definition : Option TypeDefiniton) (d : StructDeclarator) :
    Bool :=
  !declaresNothing definition d && d.width == some 0 &&
    (checkIfBitfieldCorrect d.type d.name 0).isNone

/-- The sample `struct { unsigned a : 3; unsigned : 0; unsigned b : 5; }`. -/
def structZeroWidth : List StructDeclaration :=
  [fieldDecl (makePrimitiveType .T_U4) "a" (some 3),
   { definition := none, basicType := makePrimitiveType .T_U4, semicolonNext := false,
     declarators := [{ name := none, type := makePrimitiveType .T_U4, width := some 0 }] },
   fieldDecl (makePrimitiveType .T_U4) "b" (some 5)]

/-! ## sema.c: scopes and symbols -/

/-- Modelled from the spec: the hash map of `scope->symbols` is not in the sources
(`createHashMap`, `getFromHashMap`, `putToHashMap`); a finite map from names to `Symbol`
pointers, kept as an association list with the newest binding first. -/
def getFromHashMap : List (String × Nat) → String → Option Nat
  | [], _ => none
  | (k, v) :: map, key => if k = key then some v else getFromHashMap map key

/-- Modelled from the spec: `putToHashMap` binds the key to the value; an earlier binding
of the same key is no longer returned. -/
def putToHashMap (map : List (String × Nat)) (key : String) (value : Nat) :
    List (String × Nat) :=
  (key, value) :: map

/-- A `Scope` (sema.h): the pointer to the parent scope, `none` for `NULL`, and the symbol
table. Pointers to scopes and to symbols are addresses: indices into the lists of objects
of the context. -/
structure Scope where
  parent : Option Nat
  symbols : List (String × Nat)
  deriving DecidableEq

/-- The part of `ParserContext` that sema.c works on: the `Scope` and `Symbol` objects
allocated so far, `currentScope`, and the messages given to `parseError`. -/
structure ParserContext where
  scopes : List Scope
  symbols : List Symbol
  currentScope : Option Nat
  errors : List String
  deriving DecidableEq

/-- The function `typesEquals` of sema.c. -/
def typesEquals (_t1 _t2 : TypeRef) : Bool := true

/-- The function `newScope`: the new scope object and its address. -/
def newScope (ctx : ParserContext) (parent : Option Nat) : ParserContext × Nat :=
  ({ ctx with scopes := ctx.scopes ++ [{ parent := parent, symbols := [] }] },
    ctx.scopes.length)

/-- The function `findSymbolInScope`; the outer `none` stands for a scope pointer that is
`NULL` or leads to no scope object. -/
def findSymbolInScope (ctx : ParserContext) (scope : Option Nat) (name : String) :
    Option (Option Nat) :=
  match scope with
  | none => none
  | some s => (ctx.scopes.get? s).map fun scope => getFromHashMap scope.symbols name

/-- The loop of `findSymbol`, from scope pointer `s` on. The first argument bounds the
number of iterations: the loop visits the scopes of one parent chain, which `newScope`
builds with every parent allocated before its child, so that a chain has no more scopes
than there are scope objects. -/
def findSymbolFrom (scopes : List Scope) (name : String) : Nat → Option Nat → Option Nat
  | 0, _ => none
  | _ + 1, none => none
  | fuel + 1, some s =>
    match scopes.get? s with
    | none => none
    | some scope =>
      match getFromHashMap scope.symbols name with
      | some sb => some sb
      | none => findSymbolFrom scopes name fuel scope.parent

/-- The function `findSymbol`: the pointer to the symbol, `none` for `NULL`. -/
def findSymbol (ctx : ParserContext) (name : String) : Option Nat :=
  findSymbolFrom ctx.scopes name ctx.scopes.length ctx.currentScope

/-- The function `isTypeName`; it does not read its `scope` parameter. -/
def isTypeName (ctx : ParserContext) (name : String) (_scope : Option Nat) : Bool :=
  match findSymbol ctx name with
  | none => false
  | some s =>
    match ctx.symbols.get? s with
    | none => false
    | some symbol => symbol.kind == .TypedefSymbol

/-- The function `declareSymbol`: the context with the new symbol object put into the table
of the current scope, and the symbol's address. `none` stands for a `currentScope` that is
`NULL`. -/
def declareSymbol (ctx : ParserContext) (kind : SymbolKind) (name : String) :
    Option (ParserContext × Nat) :=
  match ctx.currentScope with
  | none => none
  | some c =>
    match ctx.scopes.get? c with
    | none => none
    | some scope =>
      let s := ctx.symbols.length
      some ({ ctx with
              symbols := ctx.symbols ++ [{ kind := kind, name := name, type := none }]
              scopes := ctx.scopes.set c
                { scope with symbols := putToHashMap scope.symbols name s } }, s)

/-- The function `declareGenericSymbol`, with the two processors as functions on the
context, the symbol pointer and the value. -/
def declareGenericSymbol (ctx : ParserContext) (kind : SymbolKind) (name : String)
    (value : TypeRef)
    (existed new : ParserContext → Nat → TypeRef → Option ParserContext) :
    Option (ParserContext × Nat) :=
  match findSymbolInScope ctx ctx.currentScope name with
  | none => none
  | some (some s) =>
    match ctx.symbols.get? s with
    | none => none
    | some symbol =>
      if symbol.kind = kind then (existed ctx s value).map fun ctx => (ctx, s)
      else
        some ({ ctx with errors := ctx.errors ++
                  ["redefinition of '%s' as different kind of symbol"] }, s)
  | some none =>
    match declareSymbol ctx kind name with
    | none => none
    | some (ctx, s) => (new ctx s value).map fun ctx => (ctx, s)

/-- The function `existedTypeDefProcessor`. -/
def existedTypeDefProcessor (ctx : ParserContext) (s : Nat) (value : TypeRef) :
    Option ParserContext :=
  match ctx.symbols.get? s with
  | none => none
  | some symbol =>
    match symbol.type with
    | none => none
    | some oldType =>
      if typesEquals oldType value then some ctx
      else some { ctx with errors := ctx.errors ++
        ["typedef redefinition with different types ('%s' vs '%s')"] }

/-- The function `newTypeDefProcessor`: `s->typeref = value`. -/
def newTypeDefProcessor (ctx : ParserContext) (s : Nat) (value : TypeRef) :
    Option ParserContext :=
  match ctx.symbols.get? s with
  | none => none
  | some symbol => some { ctx with symbols := ctx.symbols.set s { symbol with type := some value } }

/-- The function `declareTypeDef`. -/
def declareTypeDef (ctx : ParserContext) (name : String) (type : TypeRef) :
    Option (ParserContext × Nat) :=
  declareGenericSymbol ctx .TypedefSymbol name type existedTypeDefProcessor newTypeDefProcessor

/-- The function `existedValueProcessor`; the value declarations are given by their
`type`. -/
def existedValueProcessor (ctx : ParserContext) (s : Nat) (value : TypeRef) :
    Option ParserContext :=
  match ctx.symbols.get? s with
  | none => none
  | some symbol =>
    match symbol.type with
    | none => none
    | some oldType =>
      if typesEquals oldType value then some ctx
      else some { ctx with errors := ctx.errors ++
        ["typedef redefinition with different types ('%s' vs '%s')"] }

/-- The function `newValueProcessor`: `s->variableDesc = value`. -/
def newValueProcessor (ctx : ParserContext) (s : Nat) (value : TypeRef) :
    Option ParserContext :=
  match ctx.symbols.get? s with
  | none => none
  | some symbol => some { ctx with symbols := ctx.symbols.set s { symbol with type := some value } }

/-- The function `declareValueSymbol`; the declaration is given by its `type`. -/
def declareValueSymbol (ctx : ParserContext) (name : String) (declaration : TypeRef) :
    Option (ParserContext × Nat) :=
  declareGenericSymbol ctx .ValueSymbol name declaration existedValueProcessor
    newValueProcessor

/-- The parent of a scope object, if any, has a smaller address than `i`. -/
def Scope.parentBelow (scope : Scope) (i : Nat) : Bool :=
  match scope.parent with
  | none => true
  | some p => decide (p < i)

/-- Every symbol pointer in the table of a scope is below `n`. -/
def Scope.symbolsBelow (scope : Scope) (n : Nat) : Bool :=
  scope.symbols.all fun binding => decide (binding.2 < n)

/-- The scope objects from address `i` on have their parents at smaller addresses and
their symbol pointers below `n`. -/
def scopesFrom (n : Nat) : List Scope → Nat → Bool
  | [], _ => true
  | scope :: scopes, i =>
    scope.parentBelow i && scope.symbolsBelow n && scopesFrom n scopes (i + 1)

/-- The contexts that `newScope` and `declareSymbol` build: every scope has its parent
allocated before it, every symbol pointer of a table leads to a symbol object, and
`currentScope` is `NULL` or leads to a scope object. -/
def ParserContext.wellFormed (ctx : ParserContext) : Bool :=
  scopesFrom ctx.symbols.length ctx.scopes 0 &&
    (match ctx.currentScope with
     | none => true
     | some c => decide (c < ctx.scopes.length))

/-- The scope `t` is on the parent chain that starts at the scope pointer `s`. -/
inductive OnChain (scopes : List Scope) : Option Nat → Nat → Prop
  | here (s : Nat) (scope : Scope) : scopes.get? s = some scope → OnChain scopes (some s) s
  | up (s : Nat) (scope : Scope) (t : Nat) : scopes.get? s = some scope →
      OnChain scopes scope.parent t → OnChain scopes (some s) t

/-- The scope `t` is on the parent chain that starts at the scope pointer `s`, and no
scope before it on that chain binds `name`. -/
inductive Reaches (scopes : List Scope) (name : String) : Option Nat → Nat → Prop
  | here (s : Nat) (scope : Scope) : scopes.get? s = some scope →
      Reaches scopes name (some s) s
  | up (s : Nat) (scope : Scope) (t : Nat) : scopes.get? s = some scope →
      getFromHashMap scope.symbols name = none → Reaches scopes name scope.parent t →
      Reaches scopes name (some s) t

/-- The context with `currentScope` set to the given scope. -/
def ParserContext.inScope (ctx : ParserContext) (scope : Option Nat) : ParserContext :=
  { ctx with currentScope := scope }

/-- The context with no object allocated yet. -/
def ParserContext.empty : ParserContext :=
  { scopes := [], symbols := [], currentScope := none, errors := [] }

/-- A file scope with `typedef int T;` and a block scope inside it, which is current:
built by `newScope` for the file scope, `declareTypeDef` and `newScope` for the block. -/
def ctxTypedefOuter : ParserContext :=
  let (ctx, root) := newScope ParserContext.empty none
  match declareTypeDef (ctx.inScope (some root)) "T" intType with
  | none => ctx
  | some (ctx, _) =>
    let (ctx, inner) := newScope ctx (some root)
    ctx.inScope (some inner)

/-! ## parser.c: declaration specifiers -/

/-- The token codes that the parser tells apart by name; every other code, such as the
code of a single character, is `other`. -/
inductive TokenCode
  | INLINE | REGISTER | STATIC | EXTERN | TYPEDEF | AUTO
  | RESTRICT | CONST | VOLATILE
  | SIGNED | UNSIGNED | SHORT | LONG
  | VOID | _BOOL | CHAR | INT | FLOAT | DOUBLE
  | STRUCT | UNION | ENUM
  | TYPE_NAME | IDENTIFIER
  | ATTRIBUTE | END_OF_FILE | I_CONSTANT | L_CONSTANT
  | LEFT_OP | RIGHT_OP | LE_OP | GE_OP | EQ_OP | NE_OP | AND_OP | OR_OP
  | MUL_ASSIGN | DIV_ASSIGN | MOD_ASSIGN | ADD_ASSIGN | SUB_ASSIGN
  | LEFT_ASSIGN | RIGHT_ASSIGN | AND_ASSIGN | XOR_ASSIGN | OR_ASSIGN
  | other (code : Nat)
  deriving DecidableEq

/-- A `Token`: its `code`, which the parser may rewrite, and the `id` of an identifier. -/
structure Token where
  code : TokenCode
  id : Option String
  deriving DecidableEq

inductive SCS
  | SCS_NONE | SCS_REGISTER | SCS_STATIC | SCS_EXTERN | SCS_TYPEDEF | SCS_AUTO | SCS_ERROR
  deriving DecidableEq

inductive TSW
  | TSW_NONE | TSW_LONG | TSW_LONGLONG | TSW_SHORT | TSW_ERROR
  deriving DecidableEq

inductive TSS
  | TSS_NONE | TSS_SIGNED | TSS_UNSIGNED | TSS_ERROR
  deriving DecidableEq

inductive TST
  | TST_NONE | TST_VOID | TST_BOOL | TST_CHAR | TST_INT | TST_FLOAT | TST_DOUBLE | TST_ERROR
  deriving DecidableEq

inductive TQT
  | TQT_NONE | TQT_CONST | TQT_VOLATILE | TQT_RESTRICT | TQT_ERROR
  deriving DecidableEq

/-- The value of a `TSW` enumerator. -/
def TSW.toNat : TSW → Nat
  | .TSW_NONE => 0 | .TSW_LONG => 1 | .TSW_LONGLONG => 2 | .TSW_SHORT => 3 | .TSW_ERROR => 4

/-- The value of a `TST` enumerator. -/
def TST.toNat : TST → Nat
  | .TST_NONE => 0 | .TST_VOID => 1 | .TST_BOOL => 2 | .TST_CHAR => 3 | .TST_INT => 4
  | .TST_FLOAT => 5 | .TST_DOUBLE => 6 | .TST_ERROR => 7

inductive DeclaratorScope
  | DS_FILE | DS_STRUCT | DS_CAST | DS_SIZEOF | DS_VA_ARG | DS_PARAMETERS | DS_FOR
  | DS_STATEMENT | DS_LITERAL
  deriving DecidableEq

/-- The bits of `SpecifierFlags` that `parseDeclarationSpecifiers` and
`verifyDeclarationSpecifiers` read and write. -/
structure SpecifierFlags where
  isInline : Bool
  isConst : Bool
  isVolatile : Bool
  isRestrict : Bool
  isExternal : Bool
  isStatic : Bool
  isRegister : Bool
  isTypedef : Bool
  isAuto : Bool
  deriving DecidableEq

/-- Modelled from the spec: the union member `storage` of `SpecifierFlags` is not in the
sources; the bits read as one word, which is non-zero when a bit is set. -/
def SpecifierFlags.storage (flags : SpecifierFlags) : Bool :=
  flags.isInline || flags.isConst || flags.isVolatile || flags.isRestrict ||
    flags.isExternal || flags.isStatic || flags.isRegister || flags.isTypedef || flags.isAuto

/-- The fields of `DeclarationSpecifiers` that the specifier parser writes; `basicType` is
`none` while it is `NULL`. -/
structure DeclarationSpecifiers where
  flags : SpecifierFlags
  basicType : Option TypeRef
  definition : Option TypeDefiniton
  deriving DecidableEq

/-- The specifiers `{ 0 }` that the callers of `parseDeclarationSpecifiers` pass in. -/
def DeclarationSpecifiers.zero : DeclarationSpecifiers :=
  { flags := { isInline := false, isConst := false, isVolatile := false, isRestrict := false,
               isExternal := false, isStatic := false, isRegister := false,
               isTypedef := false, isAuto := false }
    basicType := none
    definition := none }

/-- An entry of the table `builtInTypeDescriptors`. -/
def builtInTypeDescriptor (id : TypeId) : TypeDesc :=
  { typeId := id, size := (builtInTypeSize id).getD 0, typeDefinition := none }

/-- The descriptor `errorTypeDescriptor` of sema.c. -/
def errorTypeDescriptor : TypeDesc :=
  { typeId := .T_ERROR, size := -1, typeDefinition := none }

/-- The function `makeBasicType`: a value type over the descriptor. -/
def makeBasicType (descriptor : TypeDesc) : TypeRef := .TR_VALUE descriptor

/-- The function `computePrimitiveTypeDescriptor`: the descriptor and the diagnostics it
reports; `none` stands for the final `unreachable(...)`. The first test compares `tsw`
with `TST_ERROR`, as the source does. -/
def computePrimitiveTypeDescriptor (tsw : TSW) (tss : TSS) (tst : TST) :
    Option (TypeDesc × List Diagnostic) :=
  if tsw.toNat = TST.TST_ERROR.toNat ∨ tss = .TSS_ERROR ∨ tst = .TST_ERROR then
    some (errorTypeDescriptor, [])
  else if tsw ≠ .TSW_NONE then
    if tsw = .TSW_LONG ∧ tst = .TST_DOUBLE then
      if tss = .TSS_NONE then some (builtInTypeDescriptor .T_F10, [])
      else some (errorTypeDescriptor, [.DIAG_ILL_TYPE_SIGN])
    else if (tst = .TST_NONE ∨ tst = .TST_INT) ∧ tsw = .TSW_SHORT then
      some (builtInTypeDescriptor (if tss = .TSS_UNSIGNED then .T_U2 else .T_S2), [])
    else if (tst = .TST_NONE ∨ tst = .TST_INT) ∧ tsw = .TSW_LONG then
      some (builtInTypeDescriptor (if tss = .TSS_UNSIGNED then .T_U8 else .T_S8), [])
    else if (tst = .TST_NONE ∨ tst = .TST_INT) ∧ tsw = .TSW_LONGLONG then
      some (builtInTypeDescriptor (if tss = .TSS_UNSIGNED then .T_U8 else .T_S8), [])
    else some (errorTypeDescriptor, [.DIAG_INVALID_TYPE])
  else if tss ≠ .TSS_NONE then
    if tst = .TST_CHAR then
      some (builtInTypeDescriptor (if tss = .TSS_UNSIGNED then .T_U1 else .T_S1), [])
    else if tst = .TST_NONE ∨ tst = .TST_INT then
      some (builtInTypeDescriptor (if tss = .TSS_UNSIGNED then .T_U4 else .T_S4), [])
    else some (errorTypeDescriptor, [.DIAG_ILL_TYPE_SIGN])
  else
    match tst with
    | .TST_VOID => some (builtInTypeDescriptor .T_VOID, [])
    | .TST_BOOL => some (builtInTypeDescriptor .T_BOOL, [])
    | .TST_CHAR => some (builtInTypeDescriptor .T_S1, [])
    | .TST_INT => some (builtInTypeDescriptor .T_S4, [])
    | .TST_FLOAT => some (builtInTypeDescriptor .T_F4, [])
    | .TST_DOUBLE => some (builtInTypeDescriptor .T_F8, [])
    | _ => none

/-- The function `verifyDeclarationSpecifiers`: the diagnostic it reports, if any. -/
def verifyDeclarationSpecifiers (specifiers : DeclarationSpecifiers)
    (scope : DeclaratorScope) : List Diagnostic :=
  let flags := { specifiers.flags with isConst := false, isVolatile := false }
  let restrict : List Diagnostic :=
    if flags.isRestrict then [.DIAG_RESTRICT_NON_POINTER] else []
  match scope with
  | .DS_FILE =>
    if flags.isRegister || flags.isAuto then [.DIAG_ILLEGAL_STORAGE_ON_FILE_SCOPE]
    else restrict
  | .DS_STRUCT | .DS_CAST | .DS_SIZEOF | .DS_VA_ARG =>
    if flags.storage then [.DIAG_STORAGE_NOT_ALLOWED] else restrict
  | .DS_PARAMETERS =>
    if ({ flags with isRegister := false } : SpecifierFlags).storage then
      [.DIAG_INVALID_STORAGE_ON_PARAM]
    else restrict
  | .DS_FOR =>
    if flags.isTypedef then [.DIAG_NON_VAR_IN_FOR]
    else if flags.isExternal || flags.isStatic then [.DIAG_NON_LOCAL_IN_FOR]
    else restrict
  | _ => restrict

/-- The locals of `parseDeclarationSpecifiers` together with `*specifiers` and the
diagnostics reported so far. -/
structure SpecifierState where
  scs : SCS
  tsw : TSW
  tss : TSS
  tst : TST
  seenTypeSpecifier : Bool
  specifiers : DeclarationSpecifiers
  diagnostics : List Diagnostic
  deriving DecidableEq

/-- The locals at the start of `parseDeclarationSpecifiers`. -/
def SpecifierState.init (specifiers : DeclarationSpecifiers) : SpecifierState :=
  { scs := .SCS_NONE, tsw := .TSW_NONE, tss := .TSS_NONE, tst := .TST_NONE,
    seenTypeSpecifier := false, specifiers := specifiers, diagnostics := [] }

/-- What the `struct`, `union` and `enum` case does before `goto almost_done`, from the
keyword token on: the definition that `parseStructOrUnionDeclaration` or
`parseEnumDeclaration` returns, the basic type made from the tag's descriptor, the
diagnostics, and the tokens from the one on which the declaration parser stopped. -/
structure TagSpecifier where
  definition : TypeDefiniton
  basicType : TypeRef
  diagnostics : List Diagnostic
  tokens : List Token
  deriving DecidableEq

/-- The state in which `parseDeclarationSpecifiers` returns: `*specifiers`, the diagnostics
and the token stream from `ctx->token` on (empty when `nextToken` gave `NULL`). -/
structure SpecifiersResult where
  specifiers : DeclarationSpecifiers
  diagnostics : List Diagnostic
  tokens : List Token
  deriving DecidableEq

/-- The label `scs_label`. -/
def scsLabel (st : SpecifierState) (tmp : SCS) : SpecifierState :=
  if st.scs ≠ .SCS_ERROR then
    if st.scs = .SCS_NONE then { st with scs := tmp }
    else
      { st with
        diagnostics := st.diagnostics ++
          [if st.scs = tmp then .DIAG_E_DUPLICATE_DECL_SPEC else .DIAG_CANNOT_COMBINE_DECL_SPEC]
        scs := .SCS_ERROR }
  else st

/-- The label `tq_label`. -/
def tqLabel (st : SpecifierState) (tmp : TQT) : SpecifierState :=
  let flags := st.specifiers.flags
  let diagnostics :=
    if flags.isConst && tmp == .TQT_CONST || flags.isVolatile && tmp == .TQT_VOLATILE ||
        flags.isRestrict && tmp == .TQT_RESTRICT then
      st.diagnostics ++ [.DIAG_W_DUPLICATE_DECL_SPEC]
    else st.diagnostics
  { st with
    diagnostics := diagnostics
    specifiers := { st.specifiers with
      flags := { flags with
        isConst := flags.isConst || tmp == .TQT_CONST
        isVolatile := flags.isVolatile || tmp == .TQT_VOLATILE
        isRestrict := flags.isRestrict || tmp == .TQT_RESTRICT } } }

/-- The label `tss_label`. -/
def tssLabel (st : SpecifierState) (tmp : TSS) : SpecifierState :=
  let st := { st with seenTypeSpecifier := true }
  if st.tss ≠ .TSS_ERROR then
    if st.tss = .TSS_NONE then { st with tss := tmp }
    else
      { st with
        diagnostics := st.diagnostics ++ [.DIAG_CANNOT_COMBINE_DECL_SPEC]
        tss := .TSS_ERROR }
  else st

/-- The label `tsw_label`. -/
def tswLabel (st : SpecifierState) (tmp : TSW) : SpecifierState :=
  let st := { st with seenTypeSpecifier := true }
  if st.tsw ≠ .TSW_ERROR then
    if st.tsw = .TSW_NONE then { st with tsw := tmp }
    else if st.tsw = tmp then
      if st.tsw = .TSW_SHORT then
        { st with diagnostics := st.diagnostics ++ [.DIAG_W_DUPLICATE_DECL_SPEC] }
      else { st with tsw := .TSW_LONGLONG }
    else
      { st with
        tsw := .TSW_ERROR
        diagnostics := st.diagnostics ++ [.DIAG_CANNOT_COMBINE_DECL_SPEC] }
  else st

/-- The label `tst_label`. -/
def tstLabel (st : SpecifierState) (tmp : TST) : SpecifierState :=
  let st := { st with seenTypeSpecifier := true }
  if st.tst ≠ .TST_ERROR then
    if st.tst = .TST_NONE then { st with tst := tmp }
    else
      { st with
        tst := .TST_ERROR
        diagnostics := st.diagnostics ++ [.DIAG_CANNOT_COMBINE_DECL_SPEC] }
  else st

/-- The label `almost_done`: the storage flags, `verifyDeclarationSpecifiers`, and the
return with the tokens from `ctx->token` on. -/
def almostDone (scope : DeclaratorScope) (st : SpecifierState) (tokens : List Token) :
    SpecifiersResult :=
  let specifiers := { st.specifiers with
    flags := { st.specifiers.flags with
      isExternal := st.scs == .SCS_EXTERN
      isStatic := st.scs == .SCS_STATIC
      isRegister := st.scs == .SCS_REGISTER
      isTypedef := st.scs == .SCS_TYPEDEF
      isAuto := st.scs == .SCS_AUTO } }
  { specifiers := specifiers
    diagnostics := st.diagnostics ++ verifyDeclarationSpecifiers specifiers scope
    tokens := tokens }

/-- The `default` case of the switch, with the tokens from `ctx->token` on; `none` stands
for the `unreachable(...)` of `computePrimitiveTypeDescriptor`. -/
def defaultCase (scope : DeclaratorScope) (st : SpecifierState) (tokens : List Token) :
    Option SpecifiersResult :=
  let missing := st.specifiers.basicType.isNone &&
    (st.tss == .TSS_NONE && st.tsw == .TSW_NONE && st.tst == .TST_NONE)
  let reported := missing &&
    (scope != .DS_CAST && scope != .DS_VA_ARG && scope != .DS_STRUCT && scope != .DS_SIZEOF)
  let isError := missing && !reported
  let st :=
    if reported then
      { st with diagnostics := st.diagnostics ++ [.DIAG_MISSING_TYPE_SPECIFIER], tst := .TST_INT }
    else st
  match st.specifiers.basicType with
  | some _ => some (almostDone scope st tokens)
  | none =>
    if isError then
      some (almostDone scope
        { st with specifiers := { st.specifiers with basicType := some makeErrorRef } } tokens)
    else
      match computePrimitiveTypeDescriptor st.tsw st.tss st.tst with
      | none => none
      | some (descriptor, diagnostics) =>
        some (almostDone scope
          { st with
            specifiers := { st.specifiers with basicType := some (makeBasicType descriptor) }
            diagnostics := st.diagnostics ++ diagnostics } tokens)

/-- The function `parseDeclarationSpecifiers` on the tokens from `ctx->token` on. The
tag case is given by `tagSpecifier`; the symbol table is read through `findSymbol`. The
result is `none` when there is no current token, a `NULL` name or a pointer to no symbol
is read, or `unreachable(...)` is met. When the
token stream ends inside the loop, the function returns past the loop. -/
def parseDeclarationSpecifiers (tagSpecifier : List Token → TagSpecifier)
    (ctx : ParserContext) (scope : DeclaratorScope) :
    SpecifierState → List Token → Option SpecifiersResult
  | _, [] => none
  | st, token :: rest =>
    let next (st : SpecifierState) : Option SpecifiersResult :=
      match rest with
      | [] => some { specifiers := st.specifiers, diagnostics := st.diagnostics, tokens := [] }
      | _ :: _ => parseDeclarationSpecifiers tagSpecifier ctx scope st rest
    match token.code with
    | .INLINE =>
      let st :=
        if st.specifiers.flags.isInline then
          { st with diagnostics := st.diagnostics ++ [.DIAG_W_DUPLICATE_DECL_SPEC] }
        else st
      next { st with specifiers := { st.specifiers with
        flags := { st.specifiers.flags with isInline := true } } }
    | .REGISTER => next (scsLabel st .SCS_REGISTER)
    | .STATIC => next (scsLabel st .SCS_STATIC)
    | .EXTERN => next (scsLabel st .SCS_EXTERN)
    | .TYPEDEF => next (scsLabel st .SCS_TYPEDEF)
    | .AUTO => next (scsLabel st .SCS_AUTO)
    | .RESTRICT => next (tqLabel st .TQT_RESTRICT)
    | .CONST => next (tqLabel st .TQT_CONST)
    | .VOLATILE => next (tqLabel st .TQT_VOLATILE)
    | .SIGNED => next (tssLabel st .TSS_SIGNED)
    | .UNSIGNED => next (tssLabel st .TSS_UNSIGNED)
    | .SHORT => next (tswLabel st .TSW_SHORT)
    | .LONG => next (tswLabel st .TSW_LONG)
    | .VOID => next (tstLabel st .TST_VOID)
    | ._BOOL => next (tstLabel st .TST_BOOL)
    | .CHAR => next (tstLabel st .TST_CHAR)
    | .INT => next (tstLabel st .TST_INT)
    | .FLOAT => next (tstLabel st .TST_FLOAT)
    | .DOUBLE => next (tstLabel st .TST_DOUBLE)
    | .STRUCT | .UNION | .ENUM =>
      let tag := tagSpecifier (token :: rest)
      some (almostDone scope
        { st with
          seenTypeSpecifier := true
          specifiers := { st.specifiers with
            definition := some tag.definition, basicType := some tag.basicType }
          diagnostics := st.diagnostics ++ tag.diagnostics } tag.tokens)
    | .TYPE_NAME =>
      if !st.seenTypeSpecifier then
        match token.id with
        | none => none
        | some name =>
          match findSymbol ctx name with
          | none => next { st with diagnostics := st.diagnostics ++ [.DIAG_UNKNOWN_TYPE_NAME] }
          | some s =>
            match ctx.symbols.get? s with
            | none => none
            | some symbol =>
              if symbol.kind ≠ .TypedefSymbol then
                next { st with diagnostics := st.diagnostics ++ [.DIAG_UNKNOWN_TYPE_NAME] }
              else
                next { st with
                  specifiers := { st.specifiers with basicType := symbol.type }
                  seenTypeSpecifier := true }
      else defaultCase scope st ({ token with code := .IDENTIFIER } :: rest)
    | _ => defaultCase scope st (token :: rest)

/-- The tokens `int T ;` with `T` lexed as a type name. -/
def tokensIntT : List Token :=
  [{ code := .INT, id := none }, { code := .TYPE_NAME, id := some "T" },
   { code := .other 59, id := none }]

/-- The tokens `T x ;` with `T` lexed as a type name. -/
def tokensTx : List Token :=
  [{ code := .TYPE_NAME, id := some "T" }, { code := .IDENTIFIER, id := some "x" },
   { code := .other 59, id := none }]

/-- The tokens `struct S T ;` with `T` lexed as a type name. -/
def tokensStructST : List Token :=
  [{ code := .STRUCT, id := none }, { code := .IDENTIFIER, id := some "S" },
   { code := .TYPE_NAME, id := some "T" }, { code := .other 59, id := none }]

/-- A tag case for a reference `struct S`: `parseStructOrUnionDeclaration` goes over the
keyword and the name and stops on the token after them, the definition is not defined; the
basic type stands for the one made from the tag's descriptor. -/
def tagReference (tokens : List Token) : TagSpecifier :=
  { definition := { kind := .TDK_STRUCT, name := "S", align := 1, isDefined := false,
                    isFlexible := false }
    basicType := .TR_VALUE { typeId := .T_STRUCT, size := -1, typeDefinition := none }
    diagnostics := []
    tokens := tokens.drop 2 }

/-- The bit offset of a member whose type is a bit-field type. -/
def StructualMember.bitOffset? (m : StructualMember) : Option Int :=
  match m.type with
  | .TR_BITFIELD _ bitOffset _ => some bitOffset
  | _ => none

/-- The order of the spec on two bit-field members: the pair `(offset, bit_offset)` of the
first is strictly smaller than that of the second. -/
def PairBefore (m1 m2 : StructualMember) : Prop :=
  ∀ b1 b2, m1.bitOffset? = some b1 → m2.bitOffset? = some b2 →
    m1.offset < m2.offset ∨ (m1.offset = m2.offset ∧ b1 < b2)

/-- The test `type->kind == TR_BITFIELD`. -/
def isBitFieldType : TypeRef → Bool
  | .TR_BITFIELD _ _ _ => true
  | _ => false

/-- A declarator whose layout the claim on offsets is about: the declared type is not
itself a bit-field type (`makeTypeRef` makes none); for a member without a width the size
is not negative and the alignment is positive; a width is in the range of `int32_t` and an
integer type has between 0 and 8 bytes. -/
def StructDeclarator.hasKnownLayout (d : StructDeclarator) : Bool :=
  !isBitFieldType d.type &&
  match d.width with
  | none => decide (0 ≤ computeTypeSizeInt d.type) && decide (0 < typeAlignment d.type)
  | some w =>
    decide (-2 ^ 31 ≤ w) && decide (w < 2 ^ 31) &&
      (!isIntegerType d.type ||
        decide (0 ≤ computeTypeSize d.type) && decide (computeTypeSize d.type ≤ 8))

/-- A declaration all of whose members have a known layout. -/
def StructDeclaration.hasKnownLayout (decl : StructDeclaration) : Bool :=
  if decl.isAnonAggregate then
    !isBitFieldType decl.basicType && decide (0 ≤ computeTypeSizeInt decl.basicType)
  else decl.declarators.all fun d => d.hasKnownLayout

/-- A bound on what one declarator adds to the running offset: the storage of a chain that
it closes with its padding, and for a member without a width its padding and size. -/
def StructDeclarator.layoutCost (d : StructDeclarator) : Int :=
  match d.width with
  | none => 16 + typeAlignment d.type + computeTypeSizeInt d.type
  | some _ => 16

/-- A bound on what one declaration adds to the running offset. -/
def StructDeclaration.layoutCost (decl : StructDeclaration) : Int :=
  if decl.isAnonAggregate then computeTypeSizeInt decl.basicType
  else (decl.declarators.map fun d => d.layoutCost).sum

/-- A bound on the running offset at the end of a struct body. -/
def layoutBound (decls : List StructDeclaration) : Int :=
  16 + (decls.map fun decl => decl.layoutCost).sum

/-- A declarator that adds a member: not a tagged definition without declarator and not a
zero-width bit-field that is accepted. -/
def StructDeclarator.addsMember (definition : Option TypeDefiniton) (d : StructDeclarator) :
    Bool :=
  !declaresNothing definition d && !d.isZeroWidth definition

/-- The names of the members in declaration order: one per declarator that adds a member,
and the generated name for a declaration of an anonymous aggregate. -/
def expectedNames : Nat → List StructDeclaration → List (Option String)
  | _, [] => []
  | anonFieldIdx, decl :: decls =>
    if decl.isAnonAggregate then
      some ("$" ++ toString (anonFieldIdx + 1)) :: expectedNames (anonFieldIdx + 1) decls
    else
      ((decl.declarators.filter fun d => d.addsMember decl.definition).map fun d => d.name) ++
        expectedNames anonFieldIdx decls

/-- What the order claims read of a member: name, offset and bit offset. -/
def StructualMember.key (m : StructualMember) : Option String × Int × Option Int :=
  (m.name, m.offset, m.bitOffset?)

/-- The sample `struct { char c; int a : 3; int b : 5; struct { int x; }; long l : 60;
long m : 10; short s; }`. -/
def structMixed : List StructDeclaration :=
  [fieldDecl (makePrimitiveType .T_S1) "c" none,
   fieldDecl (makePrimitiveType .T_S4) "a" (some 3),
   fieldDecl (makePrimitiveType .T_S4) "b" (some 5),
   { definition := some { kind := .TDK_STRUCT, name := "<anon$0>", align := 4,
                          isDefined := true, isFlexible := false }
     basicType := .TR_VALUE
       { typeId := .T_STRUCT, size := 4
         typeDefinition := some { kind := .TDK_STRUCT, name := "<anon$0>", align := 4,
                                  isDefined := true, isFlexible := false } }
     semicolonNext := true
     declarators := [] },
   fieldDecl (makePrimitiveType .T_S8) "l" (some 60),
   fieldDecl (makePrimitiveType .T_S8) "m" (some 10),
   fieldDecl (makePrimitiveType .T_S2) "s" none]

/-- The members are at offsets up to the running offset, which is between 0 and `B`, in
non-decreasing order of offsets, and with the pairs of the bit-field members in increasing
order. -/
structure ListInv (B : Int) (members : List StructualMember) (offset : Int) : Prop where
  offset0 : 0 ≤ offset
  offsetB : offset ≤ B
  below : ∀ m ∈ members, m.offset ≤ offset
  sorted : members.Pairwise (fun m1 m2 => m1.offset ≤ m2.offset)
  lex : members.Pairwise PairBefore

/-- The invariant of the layout loop of a struct: the member list is `closed ++ opened`,
where `opened` holds the members from the head of the open chain on; the bit-field members
of `closed` are below the running offset, those of `opened` have increasing bit offsets
below `bitOffset`, and the two bit counters agree and are at most 64. -/
structure LayoutInv (B : Int) (st : LayoutState) (closed opened : List StructualMember) :
    Prop where
  members : st.members = closed ++ opened
  list : ListInv B st.members st.offset
  closedStrict : ∀ m ∈ closed, ∀ b, m.bitOffset? = some b → m.offset < st.offset
  chainNone : opened = [] → st.bitfieldChain = none
  chainSome : opened ≠ [] → st.bitfieldChain = some closed.length
  openBits : opened.Pairwise (fun m1 m2 =>
    ∀ b1 b2, m1.bitOffset? = some b1 → m2.bitOffset? = some b2 → b1 < b2)
  openBelow : ∀ m ∈ opened, ∀ b, m.bitOffset? = some b → b < st.bitOffset
  bit0 : 0 ≤ st.bitOffset
  bit64 : st.bitOffset ≤ 64
  width : st.bfChainWidth = st.bitOffset
  bitNone : opened = [] → st.bitOffset = 0

/-- The layout state inside `union { unsigned a : 3; unsigned : 0; unsigned b : 5; }` after
the declarator `a : 3`: the chain is open with `a` as its head. -/
def unionAfterA : LayoutState :=
  layoutDeclarator 0 none LayoutState.init
    { name := some "a", type := makePrimitiveType .T_U4, width := some 3 }

/-- A file scope that is current, with no symbol yet. -/
def ctxFileScope : ParserContext :=
  (newScope ParserContext.empty none).1.inScope (some (newScope ParserContext.empty none).2)

/-- The type `char *`. -/
def charPointerType : TypeRef := .TR_POINTED (makePrimitiveType .T_S1)

/-- The file scope after `typedef int T;`. -/
def ctxTypedefT : ParserContext :=
  match declareTypeDef ctxFileScope "T" intType with
  | none => ctxFileScope
  | some (ctx, _) => ctx

/-- The file scope after the declaration `int x;`. -/
def ctxValueX : ParserContext :=
  match declareValueSymbol ctxFileScope "x" intType with
  | none => ctxFileScope
  | some (ctx, _) => ctx

/-- The table of the spec over width, sign and base type: the type id of a combination
that names a type, `none` for every other combination. -/
def primitiveTable : TSW → TSS → TST → Option TypeId
  | .TSW_NONE, .TSS_NONE, .TST_CHAR => some .T_S1
  | .TSW_NONE, .TSS_SIGNED, .TST_CHAR => some .T_S1
  | .TSW_NONE, .TSS_UNSIGNED, .TST_CHAR => some .T_U1
  | .TSW_NONE, .TSS_NONE, .TST_INT => some .T_S4
  | .TSW_NONE, .TSS_SIGNED, .TST_INT => some .T_S4
  | .TSW_NONE, .TSS_SIGNED, .TST_NONE => some .T_S4
  | .TSW_NONE, .TSS_UNSIGNED, .TST_INT => some .T_U4
  | .TSW_NONE, .TSS_UNSIGNED, .TST_NONE => some .T_U4
  | .TSW_NONE, .TSS_NONE, .TST_VOID => some .T_VOID
  | .TSW_NONE, .TSS_NONE, .TST_BOOL => some .T_BOOL
  | .TSW_NONE, .TSS_NONE, .TST_FLOAT => some .T_F4
  | .TSW_NONE, .TSS_NONE, .TST_DOUBLE => some .T_F8
  | .TSW_SHORT, .TSS_UNSIGNED, .TST_NONE => some .T_U2
  | .TSW_SHORT, .TSS_UNSIGNED, .TST_INT => some .T_U2
  | .TSW_SHORT, _, .TST_NONE => some .T_S2
  | .TSW_SHORT, _, .TST_INT => some .T_S2
  | .TSW_LONG, .TSS_UNSIGNED, .TST_NONE => some .T_U8
  | .TSW_LONG, .TSS_UNSIGNED, .TST_INT => some .T_U8
  | .TSW_LONG, _, .TST_NONE => some .T_S8
  | .TSW_LONG, _, .TST_INT => some .T_S8
  | .TSW_LONGLONG, .TSS_UNSIGNED, .TST_NONE => some .T_U8
  | .TSW_LONGLONG, .TSS_UNSIGNED, .TST_INT => some .T_U8
  | .TSW_LONGLONG, _, .TST_NONE => some .T_S8
  | .TSW_LONGLONG, _, .TST_INT => some .T_S8
  | .TSW_LONG, .TSS_NONE, .TST_DOUBLE => some .T_F10
  | _, _, _ => none

/-- A token that is a keyword or a punctuator: it has no `id`. -/
def keyword (code : TokenCode) : Token := { code := code, id := none }

/-- A token that is an identifier. -/
def identifier (name : String) : Token := { code := .IDENTIFIER, id := some name }

/-- The diagnostics that `parseDeclarationSpecifiers` reports for the specifiers given by
their token codes, followed by the declarator `x ;`, in a block. -/
def specifierDiagnostics (codes : List TokenCode) : Option (List Diagnostic) :=
  (parseDeclarationSpecifiers tagReference ParserContext.empty .DS_STATEMENT
    (SpecifierState.init DeclarationSpecifiers.zero)
    (codes.map keyword ++ [identifier "x", keyword (.other 59)])).map fun r => r.diagnostics

/-! ## parser.c: the symbol of a tag specifier -/

inductive StructSpecifierKind
  | SSK_NONE | SSK_DECLARATION | SSK_REFERENCE | SSK_DEFINITION | SSK_ERROR
  deriving DecidableEq

/-- The function `guessStructualMode` on the tokens from the keyword on; it looks at the
next two tokens and leaves `ctx->token` on the keyword. `none` stands for reading a token
that is not there. -/
def guessStructualMode : List Token → Option StructSpecifierKind
  | _ :: nToken :: tokens =>
    if nToken.code = .other 123 then some .SSK_DEFINITION
    else if nToken.code = .IDENTIFIER ∨ nToken.code = .TYPE_NAME then
      match tokens with
      | [] => none
      | nnToken :: _ =>
        if nnToken.code = .other 59 then some .SSK_DECLARATION
        else if nnToken.code = .other 123 then some .SSK_DEFINITION
        else some .SSK_REFERENCE
    else some .SSK_ERROR
  | _ => none

/-- The type descriptor of a tag symbol (`s->typeDescriptor`): the descriptor of the value
type that the symbol leads to, `none` for `NULL`. -/
def Symbol.typeDescriptor (s : Symbol) : Option TypeDesc :=
  match s.type with
  | some (.TR_VALUE descriptor) => some descriptor
  | _ => none

/-- The `typeId` and `symbolId` that the `STRUCT`, `UNION` and `ENUM` cases set. -/
def tagIds : TypeDefinitionKind → TypeId × SymbolKind
  | .TDK_STRUCT => (.T_STRUCT, .StructSymbol)
  | .TDK_UNION => (.T_UNION, .UnionSymbol)
  | .TDK_ENUM => (.T_ENUM, .EnumSymbol)

/-- What the tag case of `parseDeclarationSpecifiers` leaves behind it: the context, the
counter of anonymous symbols, the basic type of the specifiers and the diagnostics. -/
structure TagSymbolResult where
  ctx : ParserContext
  anonSymbolsCounter : Nat
  basicType : TypeRef
  diagnostics : List Diagnostic
  deriving DecidableEq

/-- The tag case of `parseDeclarationSpecifiers` from `const char* name = definition->name`
to the assignment of `specifiers->basicType`. The functions `declareTypeSymbol` (its result
is a symbol pointer or `NULL`) and `computeTypeDefinitionSize` are not in the sources and
are parameters, as is the descriptor that `createTypeDescriptor` makes. -/
def tagBasicType
    (declareTypeSymbol : ParserContext → SymbolKind → TypeId → String → TypeDefiniton →
      ParserContext × Option Nat)
    (computeTypeDefinitionSize : TypeDefiniton → Int)
    (ctx : ParserContext) (anonSymbolsCounter : Nat) (ssk : StructSpecifierKind)
    (kind : TypeDefinitionKind) (name : Option String) (definition : TypeDefiniton) :
    Option TagSymbolResult :=
  let typeId := (tagIds kind).1
  let symbolId := (tagIds kind).2
  let finish (ctx : ParserContext) (anonSymbolsCounter : Nat)
      (typeDescriptor : Option TypeDesc) (diagnostics : List Diagnostic) : TagSymbolResult :=
    { ctx := ctx
      anonSymbolsCounter := anonSymbolsCounter
      basicType :=
        match typeDescriptor with
        | some descriptor => makeBasicType descriptor
        | none => makeErrorRef
      diagnostics := diagnostics }
  match name with
  | some name =>
    let symbolName := "$" ++ name
    let found : Option (Option (Nat × Symbol)) :=
      if ssk = .SSK_REFERENCE then
        match findSymbol ctx symbolName with
        | none => some none
        | some s => (ctx.symbols.get? s).map fun symbol => some (s, symbol)
      else some none
    match found with
    | none => none
    | some (some (_, symbol)) =>
      some (finish ctx anonSymbolsCounter symbol.typeDescriptor
        (if symbol.kind ≠ symbolId then [.DIAG_USE_WITH_DIFFERENT_TAG] else []))
    | some none =>
      match declareTypeSymbol ctx symbolId typeId symbolName definition with
      | (ctx, none) => some (finish ctx anonSymbolsCounter none [])
      | (ctx, some s) =>
        (ctx.symbols.get? s).map fun symbol =>
          finish ctx anonSymbolsCounter symbol.typeDescriptor []
  | none =>
    if ssk = .SSK_DEFINITION then
      let name := "<anon$" ++ toString anonSymbolsCounter ++ ">"
      let definition := { definition with name := name }
      let typeSize := wrap32 (computeTypeDefinitionSize definition)
      some (finish ctx (anonSymbolsCounter + 1)
        (some { typeId := typeId, size := typeSize, typeDefinition := some definition })
        (if typeSize < 0 then [.DIAG_NON_COMPUTE_DECL_SIZE] else []))
    else some (finish ctx anonSymbolsCounter none [.DIAG_ANON_STRUCT_IS_DEFINITION])

/-- The descriptor of `struct S { int x; }`. -/
def structSDescriptor : TypeDesc :=
  { typeId := .T_STRUCT, size := 4
    typeDefinition := some { kind := .TDK_STRUCT, name := "S", align := 4, isDefined := true,
                             isFlexible := false } }

/-- A file scope with the tag of `struct S { int x; };` bound to `$S`, and a block scope
inside it, which is current. -/
def ctxStructS : ParserContext :=
  { scopes := [{ parent := none, symbols := [("$S", 0)] }, { parent := some 0, symbols := [] }]
    symbols := [{ kind := .StructSymbol, name := "$S", type := some (.TR_VALUE structSDescriptor) }]
    currentScope := some 1
    errors := [] }

/-- The tokens `union S u ;`. -/
def tokensUnionSu : List Token :=
  [keyword .UNION, identifier "S", identifier "u", keyword (.other 59)]

/-- The definition that `parseStructOrUnionDeclaration` returns for a reference `S`. -/
def referenceS (kind : TypeDefinitionKind) : TypeDefiniton :=
  { kind := kind, name := "S", align := 1, isDefined := false, isFlexible := false }

/-! ## parser.c: labels of a function -/

inductive LabelUseKind
  | LU_GOTO_USE | LU_REF_USE
  deriving DecidableEq

/-- A `UsedLabel`: the kind of the use, the address of its `gotoStatement` or `labelRef`,
and the label. -/
structure UsedLabel where
  kind : LabelUseKind
  node : Nat
  label : String
  deriving DecidableEq

/-- A diagnostic about a label, with the node whose coordinates it carries and the label
it names. -/
structure LabelReport where
  diagnostic : Diagnostic
  node : Nat
  label : String
  deriving DecidableEq

/-- The field `ctx->labels` with the diagnostics reported so far. A `DefinedLabel` is
kept as the name of its label statement. Both lists have the newest entry first. -/
structure LabelsState where
  definedLabels : List String
  usedLabels : List UsedLabel
  diagnostics : List LabelReport
  deriving DecidableEq

/-- The label state with which the parser starts and which `verifyLabels` leaves. -/
def LabelsState.empty : LabelsState :=
  { definedLabels := [], usedLabels := [], diagnostics := [] }

/-- The first loop of `useLabelExpr`: whether a defined label has this name. -/
def isLabelDefined (label : String) : List String → Bool
  | [] => false
  | l :: next => if l = label then true else isLabelDefined label next

/-- The function `useLabelExpr`; `none` stands for a failed `assert`. -/
def useLabelExpr (st : LabelsState) (expr stmt : Option Nat) (label : String) :
    Option LabelsState :=
  if isLabelDefined label st.definedLabels then some st
  else
    match expr, stmt with
    | some labelRef, none =>
      some { st with
        usedLabels := { kind := .LU_REF_USE, node := labelRef, label := label } :: st.usedLabels }
    | none, some gotoStatement =>
      some { st with
        usedLabels :=
          { kind := .LU_GOTO_USE, node := gotoStatement, label := label } :: st.usedLabels }
    | _, _ => none

/-- The first loop of `defineLabel`: the flag `redefinition`. -/
def isRedefinition (label : String) (redefinition : Bool) : List String → Bool
  | [] => redefinition
  | defined :: next => isRedefinition label (if defined = label then true else redefinition) next

/-- The second loop of `defineLabel`: the uses of the label are unlinked. -/
def unlinkUses (label : String) : List UsedLabel → List UsedLabel
  | [] => []
  | used :: next =>
    if used.label = label then unlinkUses label next else used :: unlinkUses label next

/-- The function `defineLabel`. -/
def defineLabel (st : LabelsState) (label : String) (lblStmt : Nat) : LabelsState :=
  let redefinition := isRedefinition label false st.definedLabels
  { definedLabels := label :: st.definedLabels
    usedLabels := unlinkUses label st.usedLabels
    diagnostics :=
      if redefinition then
        st.diagnostics ++ [{ diagnostic := .DIAG_LABEL_REDEFINITION, node := lblStmt, label := label }]
      else st.diagnostics }

/-- The function `verifyLabels`. The label of a use is read from its statement or
expression, where the parser stored the label it passed to `useLabelExpr`. -/
def verifyLabels (st : LabelsState) : LabelsState :=
  { definedLabels := []
    usedLabels := []
    diagnostics := st.diagnostics ++
      st.usedLabels.map fun used =>
        { diagnostic := .DIAG_UNDECLARED_LABEL, node := used.node, label := used.label } }

/-- What the body of a function does to the labels, in the order of the source text:
`goto label;` (the case `GOTO` of `parseStatement`), `&&label` (the case `AND_OP` of
`parseUnaryExpression`) and `label:` (the label statement). -/
inductive LabelEvent
  | gotoStatement (stmt : Nat) (label : String)
  | labelRef (expr : Nat) (label : String)
  | labelStatement (lblStmt : Nat) (label : String)
  deriving DecidableEq

/-- The call that the parser makes at one event. -/
def labelStep (st : LabelsState) : LabelEvent → Option LabelsState
  | .gotoStatement stmt label => useLabelExpr st none (some stmt) label
  | .labelRef expr label => useLabelExpr st (some expr) none label
  | .labelStatement lblStmt label => some (defineLabel st label lblStmt)

/-- The calls of a function body one after the other. -/
def labelSteps (st : LabelsState) : List LabelEvent → Option LabelsState
  | [] => some st
  | event :: events =>
    match labelStep st event with
    | none => none
    | some st => labelSteps st events

/-- The labels of `parseFunctionDeclaration`: the body is parsed, then `verifyLabels` runs. -/
def functionLabels (st : LabelsState) (body : List LabelEvent) : Option LabelsState :=
  (labelSteps st body).map verifyLabels

/-- The body `goto a; a: goto a; p = &&b; goto c; c: goto b;` with its nodes numbered. -/
def bodyWithLabels : List LabelEvent :=
  [.gotoStatement 1 "a", .labelStatement 2 "a", .gotoStatement 3 "a", .labelRef 4 "b",
   .gotoStatement 5 "c", .labelStatement 6 "c", .gotoStatement 7 "b"]

/-! ## parser.c: the declaration of a variable -/

/-- The functions that `parseDeclaration` calls and that are parameters here, each with the
diagnostics it reports: `verifyValueType` and `finalizeInitializer` (declared in sema.h,
not in the sources), `parseInitializer` (which runs the expression parser on the tokens
after the `=`, under the flag `inStaticScope`) and `computeVLASize`. An initializer is
known by a number. -/
structure DeclarationOps where
  verifyValueType : TypeRef → Bool × List Diagnostic
  parseInitializer : Bool → List Token → Nat × List Token × List Diagnostic
  finalizeInitializer : TypeRef → Nat → Bool → Option Nat × List Diagnostic
  computeVLASize : TypeRef → Nat

/-- An `AstValueDeclaration` of kind `VD_VARIABLE`. -/
structure AstValueDeclaration where
  type : TypeRef
  name : String
  flags : SpecifierFlags
  isLocal : Bool
  initializer : Option Nat
  deriving DecidableEq

/-- The parts of the parser context that `parseDeclaration` reads and writes: the scopes
and symbols, the tokens from `ctx->token` on, and the diagnostics. -/
structure DeclarationState where
  ctx : ParserContext
  tokens : List Token
  diagnostics : List Diagnostic
  deriving DecidableEq

/-- What `parseDeclaration` leaves: the state, the value declaration, its symbol, and
whether `*extra` was written. -/
structure DeclarationResult where
  state : DeclarationState
  valueDeclaration : AstValueDeclaration
  symbol : Nat
  extraWritten : Bool
  deriving DecidableEq

/-- The test `type->kind == TR_VLA`. -/
def TypeRef.isVLA : TypeRef → Bool
  | .TR_VLA _ => true
  | _ => false

/-- The test `type->kind == TR_ARRAY && type->arrayTypeDesc.size == UNKNOWN_SIZE`. -/
def TypeRef.isUnsizedArray : TypeRef → Bool
  | .TR_ARRAY _ size => decide (size = UNKNOWN_SIZE)
  | _ => false

/-- The statement `if (nextTokenIf(ctx, '=')) ... else if ...` of `parseDeclaration`, on the
current token and the tokens after it: the initializer, the tokens left and the
diagnostics. -/
def parseDeclarationInitializer (ops : DeclarationOps) (specifiers : DeclarationSpecifiers)
    (type : TypeRef) (isTopLevel : Bool) (token : Token) (rest : List Token) :
    Option Nat × List Token × List Diagnostic :=
  if token.code = .other 61 then
    let externDiagnostics :=
      if specifiers.flags.isExternal then [Diagnostic.DIAG_EXTERN_VAR_INIT] else []
    let (parsedInit, tokens, parseDiagnostics) := ops.parseInitializer isTopLevel rest
    let (initializer, finalizeDiagnostics) :=
      ops.finalizeInitializer type parsedInit isTopLevel
    (initializer, tokens, externDiagnostics ++ parseDiagnostics ++ finalizeDiagnostics)
  else if type.isUnsizedArray && !specifiers.flags.isExternal then
    (none, token :: rest, [.DIAG_ARRAY_EXPLICIT_SIZE_OR_INIT])
  else (none, token :: rest, [])

/-- The function `parseDeclaration`. The parameter `extra` tells whether the pointer of
that name is not `NULL`; `none` stands for a failed `assert(extra)` and for reading what
is not there (no current token, or `declareValueSymbol` without a current scope). Of the
last block, which makes the size variables of a VLA and reports nothing, the assert and
the new initializer are kept; the list of locals is not kept. -/
def parseDeclaration (ops : DeclarationOps) (st : DeclarationState)
    (specifiers : DeclarationSpecifiers) (identificator : String) (type : TypeRef)
    (extra : Bool) (isTopLevel : Bool) (scope : DeclaratorScope) : Option DeclarationResult :=
  let (isTypeOk, verifyDiagnostics) := ops.verifyValueType type
  let type := if !isTypeOk then makeErrorRef else type
  let name := identificator
  let isTopLevel := isTopLevel || specifiers.flags.isStatic
  let vla := isTopLevel && type.isVLA
  let vlaDiagnostics : List Diagnostic :=
    if vla then [if scope = .DS_FILE then .DIAG_VLA_FILE_SCOPE else .DIAG_VLA_STATIC_DURATION]
    else []
  let type := if vla then makeErrorRef else type
  match declareValueSymbol st.ctx name type with
  | none => none
  | some (ctx, symbol) =>
    let inlineDiagnostics : List Diagnostic :=
      if specifiers.flags.isInline then [.DIAG_INLINE_NON_FUNC] else []
    match st.tokens with
    | [] => none
    | token :: rest =>
      let (initializer, tokens, initDiagnostics) :=
        parseDeclarationInitializer ops specifiers type isTopLevel token rest
      let state : DeclarationState :=
        { ctx := ctx
          tokens := tokens
          diagnostics := st.diagnostics ++ verifyDiagnostics ++ vlaDiagnostics ++
            inlineDiagnostics ++ initDiagnostics }
      let valueDeclaration : AstValueDeclaration :=
        { type := type, name := name, flags := specifiers.flags, isLocal := !isTopLevel
          initializer := initializer }
      if type.isVLA then
        if extra then
          some { state := state
                 valueDeclaration :=
                   { valueDeclaration with initializer := some (ops.computeVLASize type) }
                 symbol := symbol
                 extraWritten := true }
        else none
      else
        some { state := state, valueDeclaration := valueDeclaration, symbol := symbol,
               extraWritten := false }

/-- Sample parameters: every type is accepted and nothing is reported. -/
def quietDeclarationOps : DeclarationOps :=
  { verifyValueType := fun _ => (true, [])
    parseInitializer := fun _ tokens => (0, tokens, [])
    finalizeInitializer := fun _ parsedInit _ => (some parsedInit, [])
    computeVLASize := fun _ => 1 }

/-- The type of `int a[n]`. -/
def vlaOfInt : TypeRef := .TR_VLA (makePrimitiveType .T_S4)

/-- The state after the declarator of `int a[n];`, in the scope `ctx.currentScope`. -/
def afterDeclarator (ctx : ParserContext) : DeclarationState :=
  { ctx := ctx, tokens := [keyword (.other 59)], diagnostics := [] }

/-- The specifiers `static int`. -/
def staticInt : DeclarationSpecifiers :=
  { DeclarationSpecifiers.zero with
    flags := { DeclarationSpecifiers.zero.flags with isStatic := true }
    basicType := some (makePrimitiveType .T_S4) }

/-- The specifiers `int`. -/
def plainInt : DeclarationSpecifiers :=
  { DeclarationSpecifiers.zero with basicType := some (makePrimitiveType .T_S4) }

/-! ## parser.c: the token stream and attributes -/

/-- The token `END_OF_FILE`. -/
def eofToken : Token := { code := .END_OF_FILE, id := none }

/-- Modelled from the spec: the lexer and `nextToken` are not in the sources. The token
stream is the list of the tokens from `ctx->token` on; past its end the lexer gives
`END_OF_FILE` again on every request. This is the token `ctx->token`. -/
def currentToken (tokens : List Token) : Token := tokens.headD eofToken

/-- Modelled from the spec: `nextToken` moves to the next token of the stream. -/
def nextToken (tokens : List Token) : List Token := tokens.tail

/-- The tokens from `ctx->token` on and the diagnostics reported so far. -/
structure TokenState where
  tokens : List Token
  diagnostics : List Diagnostic
  deriving DecidableEq

/-- The function `nextTokenIf`. -/
def nextTokenIf (st : TokenState) (nextIf : TokenCode) : TokenState × Bool :=
  if (currentToken st.tokens).code = nextIf then
    ({ st with tokens := nextToken st.tokens }, true)
  else (st, false)

/-- The function `consume`; `reportUnexpectedToken` reports `DIAG_UNEXPECTED_TOKEN`. -/
def consume (st : TokenState) (expected : TokenCode) : TokenState × Bool :=
  let token := (currentToken st.tokens).code
  if token ≠ .END_OF_FILE ∧ token ≠ expected then
    ({ st with diagnostics := st.diagnostics ++ [.DIAG_UNEXPECTED_TOKEN] }, false)
  else ({ st with tokens := nextToken st.tokens }, true)

/-- The function `isTypeQualifierToken`. -/
def isTypeQualifierToken (token : TokenCode) : Bool :=
  token = .CONST || token = .VOLATILE || token = .RESTRICT

/-- The function `isStorageClassToken`. -/
def isStorageClassToken (token : TokenCode) : Bool :=
  token = .TYPEDEF || token = .EXTERN || token = .STATIC || token = .REGISTER || token = .AUTO

/-- The function `isTypeSpecifierToken`. -/
def isTypeSpecifierToken (token : TokenCode) : Bool :=
  token = .VOID || token = ._BOOL || token = .CHAR || token = .SHORT || token = .INT ||
  token = .LONG || token = .FLOAT || token = .DOUBLE || token = .SIGNED ||
  token = .UNSIGNED || token = .STRUCT || token = .UNION || token = .ENUM ||
  token = .TYPE_NAME

/-- The function `isAttributeName`. -/
def isAttributeName (token : Token) : Bool :=
  if token.code = .IDENTIFIER then true
  else if isTypeSpecifierToken token.code then true
  else if isTypeQualifierToken token.code then true
  else if isStorageClassToken token.code then true
  else false

/-- The function `skipAttributeArgs`, from the token `t` on: it stops on `END_OF_FILE`, on
`;`, and on `)` while `depth` is zero. -/
def skipAttributeArgs (depth : Nat) : List Token → List Token
  | [] => []
  | t :: rest =>
    if t.code = .END_OF_FILE ∨ t.code = .other 59 then t :: rest
    else
      let depth := if t.code = .other 40 then depth + 1 else depth
      if t.code = .other 41 ∧ depth = 0 then t :: rest
      else skipAttributeArgs depth rest

/-- The loop `while (nextTokenIf(ctx, ','));`. -/
def skipCommas : List Token → List Token
  | [] => []
  | t :: rest => if t.code = .other 44 then skipCommas rest else t :: rest

/-- An entry of an `AstAttributeList`: the name and the argument. -/
structure AstAttributeList where
  attribName : Option String
  idArg : Option String
  deriving DecidableEq

/-- The state of the inner loop of `parseAttributes`: the token state and the list that
`idcur` builds, in order. -/
structure AttributeListState where
  state : TokenState
  ids : List AstAttributeList
  deriving DecidableEq

/-- The condition of the inner loop of `parseAttributes`. -/
def attributeListCondition (st : AttributeListState) : Bool :=
  decide ((currentToken st.state.tokens).code ≠ .other 41)

/-- The body of the inner loop of `parseAttributes`, once. -/
def attributeListBody (st : AttributeListState) : AttributeListState :=
  let tokens := skipCommas st.state.tokens
  if isAttributeName (currentToken tokens) then
    let attribName := (currentToken tokens).id
    let tokens := nextToken tokens
    let (state, idArg) :=
      if (currentToken tokens).code = .other 40 then
        let tokens := nextToken tokens
        let idArg := (currentToken tokens).id
        let tmp := tokens
        let tokens :=
          if idArg = none then skipAttributeArgs 0 tmp
          else if (currentToken (nextToken tokens)).code ≠ .other 41 then skipAttributeArgs 0 tmp
          else nextToken tokens
        ((consume { st.state with tokens := tokens } (.other 41)).1, idArg)
      else ({ st.state with tokens := tokens }, none)
    { state := state, ids := st.ids ++ [{ attribName := attribName, idArg := idArg }] }
  else { st with state := { st.state with tokens := tokens } }

/-- The inner loop of `parseAttributes`, for at most `fuel` tests of its condition; `none`
when the fuel runs out. -/
def attributeListLoop : Nat → AttributeListState → Option AttributeListState
  | 0, _ => none
  | fuel + 1, st =>
    if attributeListCondition st then attributeListLoop fuel (attributeListBody st)
    else some st

/-- The function `parseAttributes`: the attributes, each the list of its entries, and the
token state. The fuel bounds the tests of the two loop conditions; `none` when it runs
out. -/
def parseAttributes : Nat → TokenState → Option (List (List AstAttributeList) × TokenState)
  | 0, _ => none
  | fuel + 1, st =>
    match nextTokenIf st .ATTRIBUTE with
    | (st, false) => some ([], st)
    | (st, true) =>
      let st := (consume st (.other 40)).1
      let st := (consume st (.other 40)).1
      match attributeListLoop fuel { state := st, ids := [] } with
      | none => none
      | some inner =>
        let st := (consume inner.state (.other 41)).1
        let st := (consume st (.other 41)).1
        match parseAttributes fuel st with
        | none => none
        | some (attributes, st) => some (inner.ids :: attributes, st)

/-- The tokens `__attribute__ ( ( 4 ) ) ;`. -/
def tokensAttributeConstant : List Token :=
  [keyword .ATTRIBUTE, keyword (.other 40), keyword (.other 40), keyword .I_CONSTANT,
   keyword (.other 41), keyword (.other 41), keyword (.other 59)]

/-- The tokens `__attribute__ ( ( packed ) ) ;`. -/
def tokensAttributePacked : List Token :=
  [keyword .ATTRIBUTE, keyword (.other 40), keyword (.other 40), identifier "packed",
   keyword (.other 41), keyword (.other 41), keyword (.other 59)]

/-! ## parser.c: the cascade of expression parsers -/

/-- The functions below and beside the cascade that are parameters here: the parser of a
cast expression, which is the operand of the tightest binary level, and the functions of
the semantic analysis that are declared in sema.h and are not in the sources. The
diagnostics that they report are not kept, and so the call of
`checkExpressionIsAssignable`, which only reports, is left out. -/
structure ExpressionOps where
  parseCastExpression : TokenState → Option (AstExpression × TokenState)
  computeBinaryType : AstExpression → AstExpression → BinaryOp → TypeRef
  transformBinaryExpression : AstExpression → AstExpression
  computeTernaryType : TypeRef → TypeRef → TypeRef → TypeRef
  transformTernaryExpression : AstExpression → AstExpression
  computeAssignmentTypes : BinaryOp → AstExpression → AstExpression → TypeRef
  transformAssignExpression : AstExpression → AstExpression

/-- The operator of `parseMultiplicativeExpression` for a token, `none` when its loop
ends. -/
def multiplicativeTokenToOp : TokenCode → Option BinaryOp
  | .other 42 => some .EB_MUL
  | .other 47 => some .EB_DIV
  | .other 37 => some .EB_MOD
  | _ => none

/-- The operator of `parseAdditiveExpression` for a token. -/
def additiveTokenToOp : TokenCode → Option BinaryOp
  | .other 43 => some .EB_ADD
  | .other 45 => some .EB_SUB
  | _ => none

/-- The operator of `parseShiftExpression` for a token. -/
def shiftTokenToOp : TokenCode → Option BinaryOp
  | .LEFT_OP => some .EB_LHS
  | .RIGHT_OP => some .EB_RHS
  | _ => none

/-- The functions `isRelationalOperator` and `relationalTokenToOp`. -/
def relationalTokenToOp : TokenCode → Option BinaryOp
  | .other 62 => some .EB_GT
  | .other 60 => some .EB_LT
  | .LE_OP => some .EB_LE
  | .GE_OP => some .EB_GE
  | _ => none

/-- The functions `isEqualityOperator` and `equalityTokenToOp`. -/
def equalityTokenToOp : TokenCode → Option BinaryOp
  | .EQ_OP => some .EB_EQ
  | .NE_OP => some .EB_NE
  | _ => none

/-- The operator of a level with the single operator token `code`. -/
def singleTokenToOp (code : TokenCode) (op : BinaryOp) (token : TokenCode) : Option BinaryOp :=
  if token = code then some op else none

/-- The functions `isAssignmentOperator` and `assignOpTokenToEB`. -/
def assignOpTokenToEB : TokenCode → Option BinaryOp
  | .other 61 => some .EB_ASSIGN
  | .MUL_ASSIGN => some .EB_ASG_MUL
  | .DIV_ASSIGN => some .EB_ASG_DIV
  | .MOD_ASSIGN => some .EB_ASG_MOD
  | .ADD_ASSIGN => some .EB_ASG_ADD
  | .SUB_ASSIGN => some .EB_ASG_SUB
  | .LEFT_ASSIGN => some .EB_ASG_SHL
  | .RIGHT_ASSIGN => some .EB_ASG_SHR
  | .AND_ASSIGN => some .EB_ASG_AND
  | .XOR_ASSIGN => some .EB_ASG_XOR
  | .OR_ASSIGN => some .EB_ASG_OR
  | _ => none

/-- The node that the loop of a binary level makes:
`transformBinaryExpression(createBinaryExpression(op, computeBinaryType(..), result, tmp))`. -/
def makeBinary (ops : ExpressionOps) (op : BinaryOp) (result tmp : AstExpression) :
    AstExpression :=
  ops.transformBinaryExpression (.binaryExpr op (ops.computeBinaryType result tmp op) result tmp)

/-- The node that the loop of `parseShiftExpression` makes; it is not transformed. -/
def makeShift (ops : ExpressionOps) (op : BinaryOp) (result tmp : AstExpression) :
    AstExpression :=
  .binaryExpr op (ops.computeBinaryType result tmp op) result tmp

/-- The node that the loop of `parseExpression` makes. -/
def makeComma (op : BinaryOp) (expression right : AstExpression) : AstExpression :=
  .binaryExpr op right.type expression right

/-- The node that `parseConditionalExpression` makes. -/
def makeTernary (ops : ExpressionOps) (left ifTrue ifFalse : AstExpression) : AstExpression :=
  ops.transformTernaryExpression
    (.ternaryExpr (ops.computeTernaryType left.type ifTrue.type ifFalse.type) left ifTrue ifFalse)

/-- The node that `parseAssignmentExpression` makes. -/
def makeAssign (ops : ExpressionOps) (op : BinaryOp) (left right : AstExpression) :
    AstExpression :=
  ops.transformAssignExpression (.binaryExpr op (ops.computeAssignmentTypes op left right) left right)

/-- The `while` loop that the binary levels and `parseExpression` share: while the current
token is an operator of the level, it is passed, the operand of the level is parsed, and
the node of the two becomes the result. The fuel bounds the tests of the condition; `none`
when it runs out or the operand parser gives nothing. -/
def binaryLoop (tokenToOp : TokenCode → Option BinaryOp)
    (make : BinaryOp → AstExpression → AstExpression → AstExpression)
    (operand : TokenState → Option (AstExpression × TokenState)) :
    Nat → AstExpression → TokenState → Option (AstExpression × TokenState)
  | 0, _, _ => none
  | fuel + 1, result, st =>
    match tokenToOp (currentToken st.tokens).code with
    | none => some (result, st)
    | some op =>
      match operand { st with tokens := nextToken st.tokens } with
      | none => none
      | some (tmp, st) => binaryLoop tokenToOp make operand fuel (make op result tmp) st

/-- A binary level: its first operand, then its loop. -/
def binaryLevel (tokenToOp : TokenCode → Option BinaryOp)
    (make : BinaryOp → AstExpression → AstExpression → AstExpression)
    (operand : TokenState → Option (AstExpression × TokenState))
    (fuel : Nat) (st : TokenState) : Option (AstExpression × TokenState) :=
  match operand st with
  | none => none
  | some (result, st) => binaryLoop tokenToOp make operand fuel result st

def parseMultiplicativeExpression (ops : ExpressionOps) (fuel : Nat) (st : TokenState) :
    Option (AstExpression × TokenState) :=
  binaryLevel multiplicativeTokenToOp (makeBinary ops) ops.parseCastExpression fuel st

def parseAdditiveExpression (ops : ExpressionOps) (fuel : Nat) (st : TokenState) :
    Option (AstExpression × TokenState) :=
  binaryLevel additiveTokenToOp (makeBinary ops) (parseMultiplicativeExpression ops fuel) fuel st

def parseShiftExpression (ops : ExpressionOps) (fuel : Nat) (st : TokenState) :
    Option (AstExpression × TokenState) :=
  binaryLevel shiftTokenToOp (makeShift ops) (parseAdditiveExpression ops fuel) fuel st

def parseRelationalExpression (ops : ExpressionOps) (fuel : Nat) (st : TokenState) :
    Option (AstExpression × TokenState) :=
  binaryLevel relationalTokenToOp (makeBinary ops) (parseShiftExpression ops fuel) fuel st

def parseEqualityExpression (ops : ExpressionOps) (fuel : Nat) (st : TokenState) :
    Option (AstExpression × TokenState) :=
  binaryLevel equalityTokenToOp (makeBinary ops) (parseRelationalExpression ops fuel) fuel st

def parseAndExpression (ops : ExpressionOps) (fuel : Nat) (st : TokenState) :
    Option (AstExpression × TokenState) :=
  binaryLevel (singleTokenToOp (.other 38) .EB_AND) (makeBinary ops)
    (parseEqualityExpression ops fuel) fuel st

def parseExcOrExpression (ops : ExpressionOps) (fuel : Nat) (st : TokenState) :
    Option (AstExpression × TokenState) :=
  binaryLevel (singleTokenToOp (.other 94) .EB_XOR) (makeBinary ops)
    (parseAndExpression ops fuel) fuel st

def parseIncOrExpression (ops : ExpressionOps) (fuel : Nat) (st : TokenState) :
    Option (AstExpression × TokenState) :=
  binaryLevel (singleTokenToOp (.other 124) .EB_OR) (makeBinary ops)
    (parseExcOrExpression ops fuel) fuel st

def parseLogicalAndExpression (ops : ExpressionOps) (fuel : Nat) (st : TokenState) :
    Option (AstExpression × TokenState) :=
  binaryLevel (singleTokenToOp .AND_OP .EB_ANDAND) (makeBinary ops)
    (parseIncOrExpression ops fuel) fuel st

def parseLogicalOrExpression (ops : ExpressionOps) (fuel : Nat) (st : TokenState) :
    Option (AstExpression × TokenState) :=
  binaryLevel (singleTokenToOp .OR_OP .EB_OROR) (makeBinary ops)
    (parseLogicalAndExpression ops fuel) fuel st

mutual

/-- The function `parseConditionalExpression`; the fuel bounds the depth of the calls and
the loops below. -/
def parseConditionalExpression (ops : ExpressionOps) :
    Nat → TokenState → Option (AstExpression × TokenState)
  | 0, _ => none
  | fuel + 1, st =>
    match parseLogicalOrExpression ops fuel st with
    | none => none
    | some (left, st) =>
      if (currentToken st.tokens).code = .other 63 then
        match parseExpression ops fuel { st with tokens := nextToken st.tokens } with
        | none => none
        | some (ifTrue, st) =>
          match parseConditionalExpression ops fuel (consume st (.other 58)).1 with
          | none => none
          | some (ifFalse, st) => some (makeTernary ops left ifTrue ifFalse, st)
      else some (left, st)

/-- The function `parseAssignmentExpression`. -/
def parseAssignmentExpression (ops : ExpressionOps) :
    Nat → TokenState → Option (AstExpression × TokenState)
  | 0, _ => none
  | fuel + 1, st =>
    match parseConditionalExpression ops fuel st with
    | none => none
    | some (left, st) =>
      match assignOpTokenToEB (currentToken st.tokens).code with
      | some op =>
        match parseAssignmentExpression ops fuel { st with tokens := nextToken st.tokens } with
        | none => none
        | some (right, st) => some (makeAssign ops op left right, st)
      | none => some (left, st)

/-- The function `parseExpression`. -/
def parseExpression (ops : ExpressionOps) :
    Nat → TokenState → Option (AstExpression × TokenState)
  | 0, _ => none
  | fuel + 1, st =>
    binaryLevel (singleTokenToOp (.other 44) .EB_COMMA) makeComma
      (fun st => parseAssignmentExpression ops fuel st) fuel st

end

/-- A name of type `int`. -/
def intName (name : String) : AstExpression :=
  .E_NAMEREF intType { kind := .ValueSymbol, name := name, type := some intType }

/-- Sample parameters: an identifier is a name of type `int`, every node has the type
`int`, and no node is transformed. -/
def plainExpressionOps : ExpressionOps :=
  { parseCastExpression := fun st =>
      match st.tokens with
      | token :: rest =>
        match token.code, token.id with
        | .IDENTIFIER, some name => some (intName name, { st with tokens := rest })
        | _, _ => none
      | [] => none
    computeBinaryType := fun _ _ _ => intType
    transformBinaryExpression := fun e => e
    computeTernaryType := fun _ _ _ => intType
    transformTernaryExpression := fun e => e
    computeAssignmentTypes := fun _ _ _ => intType
    transformAssignExpression := fun e => e }

/-! ## parser.c: the look-ahead of a tag specifier, on the token stream -/

/-- The function `guessStructualMode` on the token stream: the kind, and the state it
leaves, with `ctx->token` set back to `kwToken`. -/
def TokenState.guessStructualMode (st : TokenState) : StructSpecifierKind × TokenState :=
  let kwToken := st.tokens
  let tokens := nextToken st.tokens
  let nToken := currentToken tokens
  let ssk : StructSpecifierKind :=
    if nToken.code = .other 123 then .SSK_DEFINITION
    else if nToken.code = .IDENTIFIER ∨ nToken.code = .TYPE_NAME then
      let nnTokenCode := (currentToken (nextToken tokens)).code
      if nnTokenCode = .other 59 then .SSK_DECLARATION
      else if nnTokenCode = .other 123 then .SSK_DEFINITION
      else .SSK_REFERENCE
    else .SSK_ERROR
  (ssk, { st with tokens := kwToken })

/-! ## parser.c: integer constant expressions -/

/-- The part of `parseAsIntConst` after `eval`, on the constant that `eval` returned
(`none` for `NULL`): the value stored in `*result` when the function returns `TRUE`
(`none` when it returns `FALSE` and stores nothing), and the diagnostics. The value is
`(int)constExpr->i`, stored in an `int64_t`. -/
def storeIntConst (constExpr : Option AstConst) : Option Int × List Diagnostic :=
  match constExpr with
  | none => (none, [.DIAG_EXPECTED_CONST_EXPR])
  | some constExpr =>
    if constExpr.op ≠ .CK_INT_CONST then (none, [.DIAG_EXPECTED_INTEGER_CONST_EXPR])
    else (some (wrap32 constExpr.i), [])

/-- The function `parseAsIntConst`: the state and the value stored in `*result`, `none`
when nothing is stored. The outer `none` is for the fuel of `parseConditionalExpression`
and for the `unreachable(...)` of `eval`. -/
def parseAsIntConst (fo : FloatOps) (ops : ExpressionOps) (fuel : Nat) (st : TokenState) :
    Option (TokenState × Option Int) :=
  match parseConditionalExpression ops fuel st with
  | none => none
  | some (expression, st) =>
    match eval fo expression with
    | .unreachable => none
    | .none =>
      some ({ st with diagnostics := st.diagnostics ++ (storeIntConst none).2 }, none)
    | .some constExpr =>
      some ({ st with diagnostics := st.diagnostics ++ (storeIntConst (some constExpr)).2 },
        (storeIntConst (some constExpr)).1)

/-- The type `long`. -/
def longType : TypeRef := makePrimitiveType .T_S8

/-- Sample parameters as `plainExpressionOps`, reading the token of a `long` constant as
the constant `v`. -/
def constantExpressionOps (v : Int) : ExpressionOps :=
  { plainExpressionOps with
    parseCastExpression := fun st =>
      match st.tokens with
      | token :: rest =>
        if token.code = .L_CONSTANT then
          some (.E_CONST longType ⟨.CK_INT_CONST, v⟩, { st with tokens := rest })
        else plainExpressionOps.parseCastExpression st
      | [] => none }

/-- The body of `struct S { struct N { int b; }; };`: one declaration, whose specifier
defines `struct N` and whose only declarator is empty. -/
def structNestedOnly : List StructDeclaration :=
  [{ definition := some { kind := .TDK_STRUCT, name := "N", align := 4, isDefined := true,
                          isFlexible := false }
     basicType := .TR_VALUE
       { typeId := .T_STRUCT, size := 4
         typeDefinition := some { kind := .TDK_STRUCT, name := "N", align := 4,
                                  isDefined := true, isFlexible := false } }
     semicolonNext := true
     declarators :=
       [{ name := none
          type := .TR_VALUE
            { typeId := .T_STRUCT, size := 4
              typeDefinition := some { kind := .TDK_STRUCT, name := "N", align := 4,
                                       isDefined := true, isFlexible := false } }
          width := none }] }]

/-- The type of the anonymous `struct { int b; }`. -/
def anonStructIntType : TypeRef :=
  .TR_VALUE
    { typeId := .T_STRUCT, size := 4
      typeDefinition := some { kind := .TDK_STRUCT, name := "<anon$0>", align := 4,
                               isDefined := true, isFlexible := false } }

/-- The body of `struct { char a; struct { int b; }; }`. -/
def structCharAnon : List StructDeclaration :=
  [fieldDecl (makePrimitiveType .T_S1) "a" none,
   { definition := some { kind := .TDK_STRUCT, name := "<anon$0>", align := 4,
                          isDefined := true, isFlexible := false }
     basicType := anonStructIntType
     semicolonNext := true
     declarators := [] }]

/-! ## evaluate.c: what `eval` writes -/

/-- What a call of `eval` leaves behind it. The result of `eval` is a pointer: either to
a constant that was allocated for it, or to a constant node inside the expression, and
`evalCast` and the `->` case write through it. Here are the expression after the call,
the constant that the result points to, and the expression after a later write of a
constant through the result (the expression itself when the result is no part of it). -/
structure EvalEffect where
  expression : AstExpression
  result : EvalResult
  write : AstConst → AstExpression

/-- A result that is no part of the expression: `NULL`, or a constant from
`createAstConst`. -/
def EvalEffect.fresh (expression : AstExpression) (result : EvalResult) : EvalEffect :=
  { expression := expression, result := result, write := fun _ => expression }

/-- The function `eval` with its writes: the cases are those of `eval` above; the case
`E_CONST` returns the address of the node's constant, `evalCast` stores the converted
value in the constant it is handed and returns it, and the case `EF_ARROW` adds the member
offset to the constant that the receiver evaluated to. -/
def evalEffect (fo : FloatOps) : AstExpression → EvalEffect
  | .E_CONST type constExpr =>
    if isErrorType type then EvalEffect.fresh (.E_CONST type constExpr) .none
    else
      { expression := .E_CONST type constExpr
        result := .some constExpr
        write := fun c => .E_CONST type c }
  | .binaryExpr op type left right =>
    if isErrorType type then EvalEffect.fresh (.binaryExpr op type left right) .none else
    match op with
    | .EB_COMMA =>
      let r := evalEffect fo right
      { expression := .binaryExpr op type left r.expression
        result := r.result
        write := fun c => .binaryExpr op type left (r.write c) }
    | _ =>
      match binaryEvaluators fo op with
      | Option.none => EvalEffect.fresh (.binaryExpr op type left right) .none
      | Option.some (chk_eval, bin_i_eval, bin_f_eval) =>
        let l := evalEffect fo left
        match l.result with
        | .some lc =>
          let r := evalEffect fo right
          match r.result with
          | .some rc =>
            EvalEffect.fresh (.binaryExpr op type l.expression r.expression)
              (EvalResult.ofOption (evaluateBinaryConst fo lc rc chk_eval bin_i_eval bin_f_eval))
          | res => EvalEffect.fresh (.binaryExpr op type l.expression r.expression) res
        | res => EvalEffect.fresh (.binaryExpr op type l.expression right) res
  | .ternaryExpr type condition ifTrue ifFalse =>
    if isErrorType type then EvalEffect.fresh (.ternaryExpr type condition ifTrue ifFalse) .none
    else
      let cond := evalEffect fo condition
      match cond.result with
      | .some c =>
        if condValue fo c ≠ 0 then
          let b := evalEffect fo ifTrue
          { expression := .ternaryExpr type cond.expression b.expression ifFalse
            result := b.result
            write := fun x => .ternaryExpr type cond.expression (b.write x) ifFalse }
        else
          let b := evalEffect fo ifFalse
          { expression := .ternaryExpr type cond.expression ifTrue b.expression
            result := b.result
            write := fun x => .ternaryExpr type cond.expression ifTrue (b.write x) }
      | res => EvalEffect.fresh (.ternaryExpr type cond.expression ifTrue ifFalse) res
  | .E_PAREN type parened =>
    if isErrorType type then EvalEffect.fresh (.E_PAREN type parened) .none
    else
      let p := evalEffect fo parened
      { expression := .E_PAREN type p.expression
        result := p.result
        write := fun c => .E_PAREN type (p.write c) }
  | .castExpr type toType argument =>
    if isErrorType type then EvalEffect.fresh (.castExpr type toType argument) .none
    else
      let a := evalEffect fo argument
      match a.result with
      | .some arg =>
        match evalCast fo toType arg with
        | .some c =>
          { expression := .castExpr type toType (a.write c)
            result := .some c
            write := fun x => .castExpr type toType (a.write x) }
        | res => EvalEffect.fresh (.castExpr type toType a.expression) res
      | res => EvalEffect.fresh (.castExpr type toType a.expression) res
  | .unaryExpr op type argument =>
    if isErrorType type then EvalEffect.fresh (.unaryExpr op type argument) .none else
    match op with
    | .EU_REF =>
      let a := evalEffect fo argument
      { expression := .unaryExpr op type a.expression
        result := a.result
        write := fun c => .unaryExpr op type (a.write c) }
    | .EU_DEREF => EvalEffect.fresh (.unaryExpr op type argument) .none
    | _ =>
      match unaryEvaluators fo op with
      | Option.none => EvalEffect.fresh (.unaryExpr op type argument) .none
      | Option.some (un_i_eval, un_f_eval) =>
        let a := evalEffect fo argument
        match a.result with
        | .some expr =>
          if op = .EU_POST_INC ∨ op = .EU_POST_DEC ∨ op = .EU_PLUS then
            { expression := .unaryExpr op type a.expression
              result := .some expr
              write := fun c => .unaryExpr op type (a.write c) }
          else
            EvalEffect.fresh (.unaryExpr op type a.expression)
              (EvalResult.ofOption (evaluateUnaryConst expr un_i_eval un_f_eval))
        | res => EvalEffect.fresh (.unaryExpr op type a.expression) res
  | .fieldExpr op type recevier memberOffset =>
    if isErrorType type then EvalEffect.fresh (.fieldExpr op type recevier memberOffset) .none
    else
      match op with
      | .EF_DOT => EvalEffect.fresh (.fieldExpr op type recevier memberOffset) .none
      | .EF_ARROW =>
        let r := evalEffect fo recevier
        match r.result with
        | .some c =>
          { expression :=
              .fieldExpr op type (r.write { c with i := wrap64 (c.i + memberOffset) }) memberOffset
            result := .some { c with i := wrap64 (c.i + memberOffset) }
            write := fun x => .fieldExpr op type (r.write x) memberOffset }
        | res => EvalEffect.fresh (.fieldExpr op type r.expression memberOffset) res
  | .E_CALL type callee => EvalEffect.fresh (.E_CALL type callee) .none
  | .E_NAMEREF type s => EvalEffect.fresh (.E_NAMEREF type s) .none
  | .E_LABEL_REF type label => EvalEffect.fresh (.E_LABEL_REF type label) .none
  | .other op type => EvalEffect.fresh (.other op type) .none

/-- The expression `p->b` for the constant pointer `p = 0` and a member `b` at offset 4. -/
def arrowOnConstant : AstExpression :=
  .fieldExpr .EF_ARROW intType (.E_CONST (.TR_POINTED intType) ⟨.CK_INT_CONST, 0⟩) 4

/-- The expression `(signed char)300`. -/
def castOfConstant : AstExpression :=
  .castExpr (makePrimitiveType .T_S1) (makePrimitiveType .T_S1) (intLit 300)

/-! ## parser.c: enumerators -/

/-- One turn of the loop of `parseEnumeratorList` as the parser has it: the name when the
current token is an identifier, and, when `=` follows, the constant that `eval` returned
for the initializer inside `parseAsIntConst` (`none` for `NULL`). -/
structure Enumerator where
  name : Option String
  initializer : Option (Option AstConst)
  deriving DecidableEq

/-- Modelled from the spec: `EnumConstant` and `createEnumConstant` are not in the
sources; an enumerator with its name and the value it is created with. -/
structure EnumConstant where
  name : String
  value : Int
  deriving DecidableEq

/-- The value `v` of one turn of the loop of `parseEnumeratorList` and the counter `idx`
after it. The counter is an `int32_t`, `v` an `int64_t`; a call of `parseAsIntConst`
that returns `FALSE` leaves `v` as it was set from `idx`. -/
def enumeratorValue (idx : Int) (e : Enumerator) : Int × Int :=
  match e.initializer with
  | some constExpr =>
    let v := ((storeIntConst constExpr).1).getD idx
    (v, wrap32 (v + 1))
  | none => (idx, wrap32 (idx + 1))

/-- The turns of the loop of `parseEnumeratorList` from the counter `idx` on: the name and
the value `v` of each. -/
def enumeratorTurns (idx : Int) : List Enumerator → List (Option String × Int)
  | [] => []
  | e :: es => (e.name, (enumeratorValue idx e).1) :: enumeratorTurns (enumeratorValue idx e).2 es

/-- The function `parseEnumeratorList`: the list `head.next` of the enumerators that have
a name. The diagnostics and the symbols that it declares are not kept. -/
def parseEnumeratorList (es : List Enumerator) : List EnumConstant :=
  (enumeratorTurns 0 es).filterMap fun turn => turn.1.map fun name => ⟨name, turn.2⟩

/-- The value that a turn gives its enumerator when the counter is `idx`: the initializer
when it is an integer constant, the counter otherwise. -/
def valueFrom (idx : Int) (e : Enumerator) : Int :=
  match e.initializer with
  | some (some c) => if c.op = .CK_INT_CONST then c.i else idx
  | _ => idx

/-- An enumerator whose initializer, when it is an integer constant, is in the range of
`int`. -/
def Enumerator.hasIntInitializer (e : Enumerator) : Bool :=
  match e.initializer with
  | some (some c) =>
    decide (c.op ≠ .CK_INT_CONST) || (decide (-2 ^ 31 ≤ c.i) && decide (c.i < 2 ^ 31))
  | _ => true

/-- An enumerator `name` without initializer. -/
def enumerator (name : String) : Enumerator := { name := some name, initializer := none }

/-- An enumerator `name = v` with an integer constant. -/
def enumeratorInit (name : String) (v : Int) : Enumerator :=
  { name := some name, initializer := some (some ⟨.CK_INT_CONST, v⟩) }

/-! ## parser.c: statements, their flags and their scopes -/

/-- The constructs of a function body by the code that parses them: the cases of
`parseStatementImpl` that hold a statement, the compound statement, and the function
declarator part of a declaration with the parameter declarations inside its parentheses.
`sequence` is two block items, or two declarations, in a row; `simple` is every statement,
declaration or declarator without a construct inside it. Expressions are left out. -/
inductive Construct
  | caseLabel (body : Construct)
  | defaultLabel (body : Construct)
  | block (items : Construct)
  | ifThen (thenB : Construct)
  | ifThenElse (thenB elseB : Construct)
  | switchOn (body : Construct)
  | whileLoop (body : Construct)
  | doLoop (body : Construct)
  | forLoop (initial body : Construct)
  | labeled (body : Construct)
  | sequence (first second : Construct)
  | parameters (list : Construct)
  | simple
  deriving DecidableEq

/-- Modelled from the spec: the declaration of `ctx->stateFlags` is not in the sources.
The four fields that the statement parser reads and writes; `caseCount` is copied into an
`unsigned` and is taken to be one. -/
structure StateFlags where
  inSwitch : Bool
  inLoop : Bool
  caseCount : Int
  hasDefault : Bool
  deriving DecidableEq

/-- The parts of the parser context that the statement parser changes around a construct:
the scopes, the flags, the diagnostics, and the switch statements made so far, each with
the `caseCount` and `hasDefault` it was created with. -/
structure StatementState where
  ctx : ParserContext
  stateFlags : StateFlags
  switches : List (Int × Bool)
  diagnostics : List Diagnostic
  deriving DecidableEq

/-- The assignment `ctx->currentScope = scope->parent` for the scope at address `scope`;
`none` when there is no such scope object. -/
def StatementState.leaveScope (st : StatementState) (scope : Option Nat) :
    Option StatementState :=
  match scope with
  | none => none
  | some s =>
    match st.ctx.scopes.get? s with
    | none => none
    | some scope => some { st with ctx := st.ctx.inScope scope.parent }

/-- The function `parseCompoundStatement` around `parseCompoundStatementImpl`: a new scope
under the current one becomes current, and after the block the parent of the current
scope does. -/
def parseCompoundStatement (parseCompoundStatementImpl : StatementState → Option StatementState)
    (st : StatementState) : Option StatementState :=
  let (ctx, scope) := newScope st.ctx st.ctx.currentScope
  match parseCompoundStatementImpl { st with ctx := ctx.inScope (some scope) } with
  | none => none
  | some st => st.leaveScope st.ctx.currentScope

/-- The function `parseFunctionDeclaratorPart` around `parseParameterList`: the parameter
scope is made under the current scope and becomes current; at the end the parent of the
parameter scope does. -/
def parseFunctionDeclaratorPart (parseParameterList : StatementState → Option StatementState)
    (st : StatementState) : Option StatementState :=
  let (ctx, paramScope) := newScope st.ctx st.ctx.currentScope
  match parseParameterList { st with ctx := ctx.inScope (some paramScope) } with
  | none => none
  | some st => st.leaveScope (some paramScope)

/-- The function `parseStatementImpl` on a construct, with `parseCompoundStatementImpl` and
`parseParameterList` for the block items and the parameters. `none` stands for reading the
parent of no scope. -/
def parseStatementImpl : Construct → StatementState → Option StatementState
  | .caseLabel body, st =>
    let st :=
      if !st.stateFlags.inSwitch then
        { st with diagnostics := st.diagnostics ++ [.DIAG_SWITCH_LABEL_NOT_IN_SWITCH] }
      else
        { st with stateFlags := { st.stateFlags with
            caseCount := u32 (st.stateFlags.caseCount + 1) } }
    parseStatementImpl body st
  | .defaultLabel body, st =>
    let st :=
      if !st.stateFlags.inSwitch then
        { st with diagnostics := st.diagnostics ++ [.DIAG_SWITCH_LABEL_NOT_IN_SWITCH] }
      else { st with stateFlags := { st.stateFlags with hasDefault := true } }
    parseStatementImpl body st
  | .block items, st => parseCompoundStatement (fun st => parseStatementImpl items st) st
  | .ifThen thenB, st => parseStatementImpl thenB st
  | .ifThenElse thenB elseB, st =>
    match parseStatementImpl thenB st with
    | none => none
    | some st => parseStatementImpl elseB st
  | .switchOn body, st =>
    let oldCaseCount := st.stateFlags.caseCount
    let oldFlag := st.stateFlags.inSwitch
    let oldHasDefault := st.stateFlags.hasDefault
    match parseStatementImpl body
      { st with stateFlags := { st.stateFlags with
          caseCount := 0, inSwitch := true, hasDefault := false } } with
    | none => none
    | some st =>
      let caseCount := st.stateFlags.caseCount
      let hasDefault := st.stateFlags.hasDefault
      some { st with
        stateFlags := { st.stateFlags with
          inSwitch := oldFlag, caseCount := oldCaseCount, hasDefault := oldHasDefault }
        switches := st.switches ++ [(caseCount, hasDefault)] }
  | .whileLoop body, st =>
    let oldFlag := st.stateFlags.inLoop
    match parseStatementImpl body { st with stateFlags := { st.stateFlags with inLoop := true } } with
    | none => none
    | some st => some { st with stateFlags := { st.stateFlags with inLoop := oldFlag } }
  | .doLoop body, st =>
    let oldFlag := st.stateFlags.inLoop
    match parseStatementImpl body { st with stateFlags := { st.stateFlags with inLoop := true } } with
    | none => none
    | some st => some { st with stateFlags := { st.stateFlags with inLoop := oldFlag } }
  | .forLoop initial body, st =>
    let (ctx, scope) := newScope st.ctx st.ctx.currentScope
    match parseStatementImpl initial { st with ctx := ctx.inScope (some scope) } with
    | none => none
    | some st =>
      let oldFlag := st.stateFlags.inLoop
      match parseStatementImpl body
        { st with stateFlags := { st.stateFlags with inLoop := true } } with
      | none => none
      | some st =>
        ({ st with stateFlags := { st.stateFlags with inLoop := oldFlag } }).leaveScope
          st.ctx.currentScope
  | .labeled body, st => parseStatementImpl body st
  | .sequence first second, st =>
    match parseStatementImpl first st with
    | none => none
    | some st => parseStatementImpl second st
  | .parameters list, st => parseFunctionDeclaratorPart (fun st => parseStatementImpl list st) st
  | .simple, st => some st

/-- The number of `case` labels of a construct that are not inside a `switch` statement
within it. -/
def caseLabels : Construct → Nat
  | .caseLabel body => caseLabels body + 1
  | .defaultLabel body => caseLabels body
  | .block items => caseLabels items
  | .ifThen thenB => caseLabels thenB
  | .ifThenElse thenB elseB => caseLabels thenB + caseLabels elseB
  | .switchOn _ => 0
  | .whileLoop body => caseLabels body
  | .doLoop body => caseLabels body
  | .forLoop initial body => caseLabels initial + caseLabels body
  | .labeled body => caseLabels body
  | .sequence first second => caseLabels first + caseLabels second
  | .parameters list => caseLabels list
  | .simple => 0

/-- Whether a construct has a `default` label that is not inside a `switch` statement
within it. -/
def hasDefaultLabel : Construct → Bool
  | .caseLabel body => hasDefaultLabel body
  | .defaultLabel _ => true
  | .block items => hasDefaultLabel items
  | .ifThen thenB => hasDefaultLabel thenB
  | .ifThenElse thenB elseB => hasDefaultLabel thenB || hasDefaultLabel elseB
  | .switchOn _ => false
  | .whileLoop body => hasDefaultLabel body
  | .doLoop body => hasDefaultLabel body
  | .forLoop initial body => hasDefaultLabel initial || hasDefaultLabel body
  | .labeled body => hasDefaultLabel body
  | .sequence first second => hasDefaultLabel first || hasDefaultLabel second
  | .parameters list => hasDefaultLabel list
  | .simple => false

/-- The state at the start of a function body in the scope `ctx.currentScope`. -/
def bodyState (ctx : ParserContext) : StatementState :=
  { ctx := ctx
    stateFlags := { inSwitch := false, inLoop := false, caseCount := 0, hasDefault := false }
    switches := []
    diagnostics := [] }

/-- The state inside the body of a `switch` statement before any label of it. -/
def insideSwitch (ctx : ParserContext) : StatementState :=
  { ctx := ctx
    stateFlags := { inSwitch := true, inLoop := false, caseCount := 0, hasDefault := false }
    switches := []
    diagnostics := [] }

/-- The statement `while (n) { case 1: ; }`. -/
def whileWithCase : Construct := .whileLoop (.block (.caseLabel .simple))

/-- The statement `switch (n) { case 0: do { case 1: ; } while (n); switch (m) { case 2: ;
default: ; } }`. -/
def switchWithLoop : Construct :=
  .switchOn (.block (.sequence (.caseLabel (.doLoop (.block (.caseLabel .simple))))
    (.switchOn (.block (.sequence (.caseLabel .simple) (.defaultLabel .simple))))))

/-- The statement `{ for (;;) { } int f(int g(int)); }`. -/
def blockWithFor : Construct :=
  .block (.sequence (.forLoop .simple (.block .simple))
    (.parameters (.parameters .simple)))

/-- The count of `case` labels is in the range of an `unsigned`. -/
def StatementState.valid (st : StatementState) : Prop :=
  0 ≤ st.stateFlags.caseCount ∧ st.stateFlags.caseCount < 2 ^ 32

/-- What parsing a construct with `n` case labels of its own, and a `default` label of its
own when `d`, does to the state: the two flags `inSwitch` and `inLoop` and the current
scope are as before; inside a `switch` the labels are counted and the default is noted;
the scopes that were there keep their parents. -/
structure Step (n : Nat) (d : Bool) (st next : StatementState) : Prop where
  inSwitch : next.stateFlags.inSwitch = st.stateFlags.inSwitch
  inLoop : next.stateFlags.inLoop = st.stateFlags.inLoop
  caseCount : next.stateFlags.caseCount =
    if st.stateFlags.inSwitch then u32 (st.stateFlags.caseCount + n)
    else st.stateFlags.caseCount
  hasDefault : next.stateFlags.hasDefault =
    (st.stateFlags.hasDefault || (st.stateFlags.inSwitch && d))
  valid : next.valid
  scope : next.ctx.currentScope = st.ctx.currentScope
  length : st.ctx.scopes.length ≤ next.ctx.scopes.length
  parents : ∀ i, i < st.ctx.scopes.length →
    (next.ctx.scopes.get? i).map Scope.parent = (st.ctx.scopes.get? i).map Scope.parent

/-! ## parser.c: a struct body on the token stream -/

/-- The function `skipUntil`. -/
def skipUntil (code : TokenCode) : List Token → List Token
  | [] => []
  | t :: rest =>
    if t.code ≠ .END_OF_FILE ∧ t.code ≠ code then skipUntil code rest else rest

/-- The function `consumeOrSkip`. -/
def consumeOrSkip (st : TokenState) (expected : TokenCode) : TokenState :=
  match consume st expected with
  | (st, true) => st
  | (st, false) => { st with tokens := skipUntil expected st.tokens }

/-- The function `isDeclarationSpecifierToken`. -/
def isDeclarationSpecifierToken (token : TokenCode) : Bool :=
  isTypeQualifierToken token || isStorageClassToken token || isTypeSpecifierToken token

/-- The function `parseTypeQualifierList` on the tokens: the qualifiers are passed. -/
def parseTypeQualifierList : List Token → List Token
  | [] => []
  | t :: rest => if isTypeQualifierToken t.code then parseTypeQualifierList rest else t :: rest

/-- The parsers of the parts of a declarator that are parameters here: they parse
expressions and parameter lists. `none` when they do not return. -/
structure DeclaratorOps where
  parseArrayDeclaratorPart : TokenState → Option TokenState
  parseFunctionDeclaratorPart : TokenState → Option TokenState

/-- The loop `while (ctx->token)` at the end of `parseDirectDeclarator`. -/
def declaratorParts (dops : DeclaratorOps) : Nat → TokenState → Option TokenState
  | 0, _ => none
  | fuel + 1, st =>
    if (currentToken st.tokens).code = .other 91 then
      match dops.parseArrayDeclaratorPart st with
      | none => none
      | some st => declaratorParts dops fuel st
    else if (currentToken st.tokens).code = .other 40 then
      match dops.parseFunctionDeclaratorPart st with
      | none => none
      | some st => declaratorParts dops fuel st
    else some st

mutual

/-- The function `parseDirectDeclarator` on the tokens; the fuel bounds the depth of the
calls and the turns of the loop. -/
def parseDirectDeclarator (dops : DeclaratorOps) : Nat → TokenState → Option TokenState
  | 0, _ => none
  | fuel + 1, st =>
    let t := currentToken st.tokens
    if t.code = .IDENTIFIER ∨ t.code = .TYPE_NAME then
      declaratorParts dops fuel { st with tokens := nextToken st.tokens }
    else if t.code = .other 91 then
      match dops.parseArrayDeclaratorPart st with
      | none => none
      | some st => declaratorParts dops fuel st
    else if t.code = .other 40 then
      if isDeclarationSpecifierToken t.code then
        match dops.parseFunctionDeclaratorPart st with
        | none => none
        | some st => declaratorParts dops fuel st
      else
        match consume st (.other 40) with
        | (st, true) =>
          match parseDeclarator dops fuel st with
          | none => none
          | some st => declaratorParts dops fuel (consumeOrSkip st (.other 41))
        | (st, false) => declaratorParts dops fuel st
    else some st

/-- The function `parseDeclarator` on the tokens. -/
def parseDeclarator (dops : DeclaratorOps) : Nat → TokenState → Option TokenState
  | 0, _ => none
  | fuel + 1, st =>
    match nextTokenIf st (.other 42) with
    | (st, true) =>
      parseDeclarator dops fuel { st with tokens := parseTypeQualifierList st.tokens }
    | (st, false) => parseDirectDeclarator dops fuel st

end

/-- The token list handed to `parseDeclarationSpecifiers`, whose embedding reads a list
that holds its last token: the stream with the `END_OF_FILE` that follows it. -/
def withEndOfFile (tokens : List Token) : List Token := tokens ++ [eofToken]

/-- The parameters of the token run of a struct body: the tag case of the specifiers, the
symbols, and the parsers of constant expressions and of the parts of a declarator. -/
structure StructBodyOps where
  tagSpecifier : List Token → TagSpecifier
  ctx : ParserContext
  fo : FloatOps
  ops : ExpressionOps
  dops : DeclaratorOps

/-- The inner loop `for (;;)` of `parseStructDeclarationList` on the tokens: a declarator
unless the current token is `:`, a width after a `:`, and again after a `,`. -/
def structDeclarators (env : StructBodyOps) : Nat → TokenState → Option TokenState
  | 0, _ => none
  | fuel + 1, st =>
    let declared :=
      if (currentToken st.tokens).code ≠ .other 58 then parseDeclarator env.dops fuel st
      else some st
    match declared with
    | none => none
    | some st =>
      let width :=
        if (currentToken st.tokens).code = .other 58 then
          (parseAsIntConst env.fo env.ops fuel { st with tokens := nextToken st.tokens }).map
            fun r => r.1
        else some st
      match width with
      | none => none
      | some st =>
        match nextTokenIf st (.other 44) with
        | (st, true) => structDeclarators env fuel st
        | (st, false) => some st

/-- The body of the loop `do ... while` of `parseStructDeclarationList` on the tokens: the
specifiers, then either the `;` of an anonymous struct or union, or the declarators and
`consume(ctx, ';')`. The layout of the members, which reads no token, is above. -/
def structDeclaration (env : StructBodyOps) (fuel : Nat) (st : TokenState) :
    Option TokenState :=
  match parseDeclarationSpecifiers env.tagSpecifier env.ctx .DS_STRUCT
      (SpecifierState.init DeclarationSpecifiers.zero) (withEndOfFile st.tokens) with
  | none => none
  | some specifiers =>
    let st : TokenState :=
      { tokens := specifiers.tokens.dropLast
        diagnostics := st.diagnostics ++ specifiers.diagnostics }
    let isAnon :=
      match specifiers.specifiers.definition with
      | some definition =>
        (definition.kind == .TDK_STRUCT || definition.kind == .TDK_UNION) &&
          isAnonName definition.name
      | none => false
    if isAnon = true ∧ (nextTokenIf st (.other 59)).2 = true then some (nextTokenIf st (.other 59)).1
    else
      match structDeclarators env fuel st with
      | none => none
      | some st => some (consume st (.other 59)).1

/-- The loop `do ... while (ctx->token->code != '}')` of `parseStructDeclarationList` on
the tokens, for at most `fuel` turns: the state in which the loop ends, `none` when the
fuel runs out. -/
def structDeclarationLoop (env : StructBodyOps) : Nat → TokenState → Option TokenState
  | 0, _ => none
  | fuel + 1, st =>
    match structDeclaration env fuel st with
    | none => none
    | some st =>
      if (currentToken st.tokens).code ≠ .other 125 then structDeclarationLoop env fuel st
      else some st

/-- The tokens `int a ;` of the body of `struct S { int a;` with the end of the file
after them. -/
def tokensOpenStructBody : List Token :=
  [keyword .INT, identifier "a", keyword (.other 59)]

/-- The tokens `int a ; } ;` of the body of `struct S { int a; };`. -/
def tokensClosedStructBody : List Token :=
  [keyword .INT, identifier "a", keyword (.other 59), keyword (.other 125), keyword (.other 59)]

/-- Sample parameters of a struct body: no part of a declarator returns. -/
def plainStructBodyOps (fo : FloatOps) : StructBodyOps :=
  { tagSpecifier := tagReference
    ctx := ParserContext.empty
    fo := fo
    ops := plainExpressionOps
    dops := { parseArrayDeclaratorPart := fun _ => none
              parseFunctionDeclaratorPart := fun _ => none } }

/-- A declarator as the declarator parser and `parseAsIntConst` hand it to the layout loop:
the declared type is not itself a bit-field type (`makeTypeRef` makes none), a width is in
the range of `int`, and the integer type of a member with a width has between 0 and 8
bytes, as every built-in integer descriptor has. Nothing is asked of the size or the
alignment of a member without a width. -/
def StructDeclarator.hasIntWidth (d : StructDeclarator) : Bool :=
  !isBitFieldType d.type &&
  match d.width with
  | none => true
  | some w =>
    decide (-2 ^ 31 ≤ w) && decide (w < 2 ^ 31) &&
      (!isIntegerType d.type ||
        decide (0 ≤ computeTypeSize d.type) && decide (computeTypeSize d.type ≤ 8))

/-- A declaration whose declarators are as the parser hands them over; the type of an
anonymous struct or union is not a bit-field type. -/
def StructDeclaration.hasIntWidth (decl : StructDeclaration) : Bool :=
  if decl.isAnonAggregate then !isBitFieldType decl.basicType
  else decl.declarators.all fun d => d.hasIntWidth

/-- A member whose type is a bit-field type fits its storage: the bit offset and the
width are not negative, the bits end inside the storage type, and the storage type has at
most 64 bits. -/
def StructualMember.fitsStorage (m : StructualMember) : Prop :=
  ∀ storageType bitOffset width, m.type = .TR_BITFIELD storageType bitOffset width →
    0 ≤ bitOffset ∧ 0 ≤ width ∧
    bitOffset + width ≤ 8 * computeTypeSize storageType ∧
    8 * computeTypeSize storageType ≤ 64

/-- The invariant of the layout loop, of a struct (`factor = 1`) and of a union
(`factor = 0`), on the bit-fields: the member list is `closed ++ opened`, where `opened`
holds the members from the head of the open chain on; the bit-field members of `closed`
fit their storage, those of `opened` end within the width of the chain, which is at most
64, and the bit offset is that width in a struct and 0 in a union. -/
structure BitInv (factor : Int) (st : LayoutState) (closed opened : List StructualMember) :
    Prop where
  members : st.members = closed ++ opened
  chainNone : opened = [] → st.bitfieldChain = none
  chainSome : opened ≠ [] → st.bitfieldChain = some closed.length
  closedFits : ∀ m ∈ closed, m.fitsStorage
  openFits : ∀ m ∈ opened, ∀ storageType bitOffset width,
    m.type = .TR_BITFIELD storageType bitOffset width →
      0 ≤ bitOffset ∧ 0 ≤ width ∧ bitOffset + width ≤ st.bfChainWidth
  width0 : 0 ≤ st.bfChainWidth
  width64 : st.bfChainWidth ≤ 64
  bit : st.bitOffset = st.bfChainWidth * factor

/-- The body of `struct { x; long a : 40; char b : 20; long c : 24; unsigned long d : 64;
char e; }` with `long` of 8 bytes: `x` has the error type, of size -1, the width of `b` is
refused, `c` closes the chain of `a`, and `d` that of `c`. -/
def structBitFields : List StructDeclaration :=
  [fieldDecl makeErrorRef "x" none,
   fieldDecl (makePrimitiveType .T_S8) "a" (some 40),
   fieldDecl (makePrimitiveType .T_S1) "b" (some 20),
   fieldDecl (makePrimitiveType .T_S8) "c" (some 24),
   fieldDecl (makePrimitiveType .T_U8) "d" (some 64),
   fieldDecl (makePrimitiveType .T_S1) "e" none]

/-! # Theorems -/

/-! ## The constant evaluator -/

/-! ### Facts about wrapping -/

theorem wrap64_modEq (x : Int) : wrap64 x ≡ x [ZMOD 2 ^ 64] := by
  unfold wrap64
  have h : (x + 2 ^ 63) % 2 ^ 64 ≡ x + 2 ^ 63 [ZMOD 2 ^ 64] := Int.mod_modEq _ _
  have h2 := h.sub_right (2 ^ 63)
  simpa using h2

theorem wrap64_congr {x y : Int} (h : x ≡ y [ZMOD 2 ^ 64]) : wrap64 x = wrap64 y := by
  unfold wrap64
  have h2 : x + 2 ^ 63 ≡ y + 2 ^ 63 [ZMOD 2 ^ 64] := h.add_right _
  rw [h2.eq]

theorem wrap64_range (x : Int) : -2 ^ 63 ≤ wrap64 x ∧ wrap64 x < 2 ^ 63 := by
  unfold wrap64
  constructor <;> omega

theorem wrap64_of_range {x : Int} (h1 : -2 ^ 63 ≤ x) (h2 : x < 2 ^ 63) : wrap64 x = x := by
  unfold wrap64
  omega

theorem eval_int_binary (fo : FloatOps) (op : BinaryOp) (type : TypeRef)
    (left right : AstExpression) (a b : Int) (chk : Int → Int → Bool) (ei : Int → Int → Int)
    (ef : Option (Int → Int → Int))
    (hop : op ≠ .EB_COMMA) (hev : binaryEvaluators fo op = some (chk, ei, ef))
    (ht : isErrorType type = false)
    (hl : eval fo left = .some ⟨.CK_INT_CONST, a⟩)
    (hr : eval fo right = .some ⟨.CK_INT_CONST, b⟩) :
    eval fo (.binaryExpr op type left right) =
      if chk a b then .some ⟨.CK_INT_CONST, ei a b⟩ else .none := by
  have hres : EvalResult.ofOption (evaluateBinaryConst fo ⟨.CK_INT_CONST, a⟩
      ⟨.CK_INT_CONST, b⟩ chk ei ef) =
      if chk a b then .some ⟨.CK_INT_CONST, ei a b⟩ else .none := by
    by_cases hc : chk a b = true <;>
      simp [evaluateBinaryConst, derefIntConst, createAstConst, EvalResult.ofOption, hc]
  cases op <;> first
    | exact absurd rfl hop
    | (simp only [eval, ht, hev, hl, hr]; simpa using hres)

/-- C1: an expression built from 64-bit integer constants with `+`, `-`, `*` folds to the
integer constant whose value is the exact value of the expression wrapped to 64-bit
two's complement: the result is congruent to the exact value modulo `2 ^ 64` and lies in
the signed 64-bit range. -/
theorem eval_arith_wraps (fo : FloatOps) (e : AstExpression) (v : Int)
    (h : arithValue e = some v) :
    eval fo e = .some ⟨.CK_INT_CONST, wrap64 v⟩ ∧
      wrap64 v ≡ v [ZMOD 2 ^ 64] ∧ -2 ^ 63 ≤ wrap64 v ∧ wrap64 v < 2 ^ 63 := by
  refine ⟨?_, wrap64_modEq v, wrap64_range v⟩
  induction e generalizing v with
  | E_CONST type c =>
    obtain ⟨op, i⟩ := c
    simp only [arithValue] at h
    split at h
    · rename_i hc
      obtain ⟨ht, hop, h1, h2⟩ := hc
      simp only [Option.some.injEq] at h
      subst h
      have hop' : op = .CK_INT_CONST := hop
      have h1' : -2 ^ 63 ≤ i := h1
      have h2' : i < 2 ^ 63 := h2
      subst hop'
      simp [eval, ht, wrap64_of_range h1' h2']
    · cases h
  | binaryExpr op type left right ihl ihr =>
    simp only [arithValue] at h
    split at h
    · cases h
    · rename_i ht
      simp only [Bool.not_eq_true] at ht
      cases ha : arithValue left with
      | none => simp [ha] at h; split at h <;> cases h
      | some a =>
        cases hb : arithValue right with
        | none => simp [ha, hb] at h; split at h <;> cases h
        | some b =>
          have hl := ihl a ha
          have hr := ihr b hb
          cases op <;> simp [arithOp, ha, hb] at h <;> subst h
          · rw [eval_int_binary fo .EB_ADD type left right _ _ no_checks ee_i_b_plus (some fo.plus)
              (by decide) rfl ht hl hr]
            simp only [no_checks, if_true, ee_i_b_plus]
            congr 2
            exact wrap64_congr ((wrap64_modEq a).add (wrap64_modEq b))
          · rw [eval_int_binary fo .EB_SUB type left right _ _ no_checks ee_i_b_minus (some fo.sub)
              (by decide) rfl ht hl hr]
            simp only [no_checks, if_true, ee_i_b_minus]
            congr 2
            exact wrap64_congr ((wrap64_modEq a).sub (wrap64_modEq b))
          · rw [eval_int_binary fo .EB_MUL type left right _ _ no_checks ee_i_b_mul (some fo.mul)
              (by decide) rfl ht hl hr]
            simp only [no_checks, if_true, ee_i_b_mul]
            congr 2
            exact wrap64_congr ((wrap64_modEq a).mul (wrap64_modEq b))
  | _ => simp [arithValue] at h

/-- C1 witness: `1 + 2 * 3` has exact value 7 and folds to the integer constant 7. -/
theorem eval_arith_wraps_witness :
    arithValue onePlusTwoTimesThree = some 7 ∧
      ∀ fo : FloatOps, eval fo onePlusTwoTimesThree = .some ⟨.CK_INT_CONST, 7⟩ :=
  ⟨by decide, fun fo => (eval_arith_wraps fo onePlusTwoTimesThree 7 (by decide)).1⟩

/-- C2 (counterexample): `1.0 / 0` has a left operand that evaluates and a right operand
that evaluates to the integer constant zero, yet for no floating-point semantics does
`eval` return `NULL`: it returns the floating constant `1.0 / (double)0`. -/
theorem eval_float_div_int_zero_not_null :
    ¬ ∃ fo : FloatOps, eval fo oneDividedByIntZero = .none := by
  rintro ⟨fo, h⟩
  simp [oneDividedByIntZero, intLit, intType, doubleType, makePrimitiveType, eval,
    isErrorType, binaryEvaluators, evaluateBinaryConst, EvalResult.ofOption] at h

/-- C2 (amended): when the left operand evaluates to `cl` and the right operand to the
integer constant zero, `l % r` evaluates to `NULL`, and `l / r` evaluates to `NULL` unless
`cl` is a floating constant, in which case it is the floating constant `cl / (double)0`. -/
theorem eval_div_mod_by_int_zero (fo : FloatOps) (op : BinaryOp) (type : TypeRef)
    (l r : AstExpression) (cl : AstConst)
    (hop : op = .EB_DIV ∨ op = .EB_MOD) (ht : isErrorType type = false)
    (hl : eval fo l = .some cl) (hr : eval fo r = .some ⟨.CK_INT_CONST, 0⟩) :
    eval fo (.binaryExpr op type l r) =
      if op = .EB_DIV ∧ cl.op = .CK_FLOAT_CONST
      then .some ⟨.CK_FLOAT_CONST, fo.div cl.i (fo.ofInt 0)⟩ else .none := by
  obtain ⟨k, i⟩ := cl
  rcases hop with rfl | rfl <;> cases k <;>
    simp [eval, ht, hl, hr, binaryEvaluators, evaluateBinaryConst, derefIntConst,
      EvalResult.ofOption, createAstConst, div_check]

/-- C2 witness: `7 / 0` and `7 % 0` evaluate to `NULL`. -/
theorem eval_div_mod_by_int_zero_witness :
    (∀ fo : FloatOps, eval fo (.binaryExpr .EB_DIV intType (intLit 7) (intLit 0)) = .none) ∧
    (∀ fo : FloatOps, eval fo (.binaryExpr .EB_MOD intType (intLit 7) (intLit 0)) = .none) :=
  ⟨fun fo => by
      simpa using eval_div_mod_by_int_zero fo .EB_DIV intType (intLit 7) (intLit 0)
        ⟨.CK_INT_CONST, 7⟩ (Or.inl rfl) (by decide) (by rfl) (by rfl),
   fun fo => by
      simpa using eval_div_mod_by_int_zero fo .EB_MOD intType (intLit 7) (intLit 0)
        ⟨.CK_INT_CONST, 7⟩ (Or.inr rfl) (by decide) (by rfl) (by rfl)⟩

/-- C3: `eval` is idempotent. If `eval` returns the constant `c` for an expression of
non-error type, then `eval` of the constant expression holding `c` (an `E_CONST` node of
any non-error type) returns `c` again, with the same kind and the same value. -/
theorem eval_idempotent (fo : FloatOps) (e : AstExpression) (c : AstConst) (type : TypeRef)
    (_he : isErrorType e.type = false) (_h : eval fo e = .some c)
    (ht : isErrorType type = false) :
    eval fo (.E_CONST type c) = .some c := by
  simp [eval, ht]

/-- C3 witness: `1 + 2 * 3` folds to 7, and the constant 7 folds to itself. -/
theorem eval_idempotent_witness :
    ∃ c : AstConst, (∀ fo : FloatOps, eval fo onePlusTwoTimesThree = .some c) ∧
      (∀ fo : FloatOps, eval fo (.E_CONST intType c) = .some c) :=
  ⟨⟨.CK_INT_CONST, 7⟩, fun _ => rfl, fun fo =>
    eval_idempotent fo onePlusTwoTimesThree ⟨.CK_INT_CONST, 7⟩ intType (by decide) rfl
      (by decide)⟩

/-- C4 (failing input): in `4294967296 ? 1 : 2` the condition is the non-zero constant
`2 ^ 32`, but `eval` tests `(int)cond->i`, which is 0, and returns the constant 2 of the
false branch. -/
theorem eval_ternary_truncates_condition (fo : FloatOps) :
    eval fo ternaryOnTwoPow32 = .some ⟨.CK_INT_CONST, 2⟩ := by
  rfl

theorem signExtend_eq_truncateThenExtend (w : Nat) (c : Int)
    (hw : w = 8 ∨ w = 16 ∨ w = 32 ∨ w = 64) :
    signExtend w c = truncateThenExtend true w c := by
  rcases hw with rfl | rfl | rfl | rfl <;>
    simp only [signExtend, truncateThenExtend, wrap64] <;> norm_num <;> split <;> omega

theorem zeroExtend_eq_truncateThenExtend (w : Nat) (c : Int)
    (hw : w = 8 ∨ w = 16 ∨ w = 32) :
    zeroExtend w c = truncateThenExtend false w c := by
  rcases hw with rfl | rfl | rfl <;>
    simp only [zeroExtend, truncateThenExtend, wrap64] <;> norm_num <;> try omega

theorem wrap64_eq_truncateThenExtend (c : Int) : wrap64 c = truncateThenExtend false 64 c := by
  simp only [truncateThenExtend, wrap64]
  norm_num

/-- C6: for an integer constant `c`, a cast to one of the integer types s1, s2, s4, s8, u1,
u2, u4, u8 folds to the integer constant obtained by keeping the low bits of `c` that fit
the target and sign-extending (signed target) or zero-extending (unsigned target) to 64
bits; a cast to a pointer type folds to `c` unchanged; a cast to a struct, union, enum or
void type evaluates to `NULL`. -/
theorem eval_cast_int_const (fo : FloatOps) (type tc : TypeRef) (c : Int)
    (ht : isErrorType type = false) (htc : isErrorType tc = false) :
    (∀ (desc : TypeDesc) (signed : Bool) (w : Nat),
      intCastTarget desc.typeId = some (signed, w) →
      eval fo (.castExpr type (.TR_VALUE desc) (.E_CONST tc ⟨.CK_INT_CONST, c⟩)) =
        .some ⟨.CK_INT_CONST, truncateThenExtend signed w c⟩) ∧
    (∀ pointed : TypeRef,
      eval fo (.castExpr type (.TR_POINTED pointed) (.E_CONST tc ⟨.CK_INT_CONST, c⟩)) =
        .some ⟨.CK_INT_CONST, c⟩) ∧
    (∀ desc : TypeDesc,
      desc.typeId = .T_STRUCT ∨ desc.typeId = .T_UNION ∨ desc.typeId = .T_ENUM ∨
        desc.typeId = .T_VOID →
      eval fo (.castExpr type (.TR_VALUE desc) (.E_CONST tc ⟨.CK_INT_CONST, c⟩)) = .none) := by
  refine ⟨?_, ?_, ?_⟩
  · intro desc signed w hd
    obtain ⟨tid, sz, td⟩ := desc
    cases tid <;> simp [intCastTarget] at hd <;> obtain ⟨rfl, rfl⟩ := hd <;>
      simp [eval, ht, htc, evalCast, castToInt, signExtend_eq_truncateThenExtend,
        zeroExtend_eq_truncateThenExtend, wrap64_eq_truncateThenExtend]
  · intro pointed
    simp [eval, ht, htc, evalCast]
  · intro desc hd
    obtain ⟨tid, sz, td⟩ := desc
    rcases hd with hd | hd | hd | hd <;>
      (have hd' : tid = _ := hd
       subst hd'
       simp [eval, ht, htc, evalCast])

/-- C6 witness: `(signed char)300` folds to 44, `(unsigned char)-1` to 255,
`(signed char)200` to -56, a pointer cast of 300 to 300 and `(void)300` to `NULL`. -/
theorem eval_cast_int_const_witness :
    (∀ fo : FloatOps,
      eval fo (.castExpr intType (makePrimitiveType .T_S1) (intLit 300)) =
        .some ⟨.CK_INT_CONST, 44⟩) ∧
    (∀ fo : FloatOps,
      eval fo (.castExpr intType (makePrimitiveType .T_U1) (intLit (-1))) =
        .some ⟨.CK_INT_CONST, 255⟩) ∧
    (∀ fo : FloatOps,
      eval fo (.castExpr intType (makePrimitiveType .T_S1) (intLit 200)) =
        .some ⟨.CK_INT_CONST, -56⟩) ∧
    (∀ fo : FloatOps,
      eval fo (.castExpr intType (.TR_POINTED intType) (intLit 300)) =
        .some ⟨.CK_INT_CONST, 300⟩) ∧
    (∀ fo : FloatOps,
      eval fo (.castExpr intType (makePrimitiveType .T_VOID) (intLit 300)) = .none) :=
  ⟨fun fo => (eval_cast_int_const fo intType intType 300 (by decide) (by decide)).1
      _ true 8 rfl,
   fun fo => (eval_cast_int_const fo intType intType (-1) (by decide) (by decide)).1
      _ false 8 rfl,
   fun fo => (eval_cast_int_const fo intType intType 200 (by decide) (by decide)).1
      _ true 8 rfl,
   fun fo => (eval_cast_int_const fo intType intType 300 (by decide) (by decide)).2.1 _,
   fun fo => (eval_cast_int_const fo intType intType 300 (by decide) (by decide)).2.2
      _ (Or.inr (Or.inr (Or.inr rfl)))⟩

/-- C7 (counterexample): for `&x`, `EU_REF` over the name reference of the value symbol
`x`, with non-error types, `eval` returns no constant, whatever the floating-point
semantics. -/
theorem eval_ref_of_name_no_const :
    ¬ ∃ (fo : FloatOps) (c : AstConst), eval fo refOfName = .some c := by
  rintro ⟨fo, c, h⟩
  have hn : eval fo refOfName = .none := rfl
  rw [hn] at h
  cases h

/-- C7 (amended): `eval` of `&e` is `eval` of `e`, and `eval` of a name reference is
`NULL`; hence `eval` of `&name` is `NULL`. -/
theorem eval_ref_of_name (fo : FloatOps) (type tn : TypeRef) (s : Symbol) :
    (∀ argument : AstExpression, isErrorType type = false →
      eval fo (.unaryExpr .EU_REF type argument) = eval fo argument) ∧
    eval fo (.E_NAMEREF tn s) = .none ∧
    eval fo (.unaryExpr .EU_REF type (.E_NAMEREF tn s)) = .none := by
  refine ⟨?_, ?_, ?_⟩
  · intro argument ht
    simp [eval, ht]
  · simp [eval]
  · cases ht : isErrorType type <;> simp [eval, ht]

/-! ## Struct member layout -/

/-! ### Facts about the layout arithmetic -/

theorem ALIGN_SIZE_bounds (x a : Int) (ha : 0 < a) :
    x ≤ ALIGN_SIZE x a ∧ ALIGN_SIZE x a < x + a ∧ ALIGN_SIZE x a % a = 0 := by
  unfold ALIGN_SIZE
  have h1 := Int.emod_add_ediv (x + a - 1) a
  have h2 := Int.emod_nonneg (x + a - 1) (ne_of_gt ha)
  have h3 := Int.emod_lt_of_pos (x + a - 1) ha
  have h4 : (x + a - 1) / a * a = a * ((x + a - 1) / a) := Int.mul_comm _ _
  refine ⟨by omega, by omega, ?_⟩
  exact Int.mul_emod_left _ _

theorem wrap32_of_range {x : Int} (h1 : -2 ^ 31 ≤ x) (h2 : x < 2 ^ 31) : wrap32 x = x := by
  unfold wrap32
  omega

theorem u32_of_range {x : Int} (h1 : 0 ≤ x) (h2 : x < 2 ^ 32) : u32 x = x := by
  unfold u32
  omega

theorem hasKnownSize_spec {t : TypeRef} (h : hasKnownSize t = true) :
    0 ≤ computeTypeSize t ∧ 0 < typeAlignment t := by
  simp only [hasKnownSize, Bool.and_eq_true, decide_eq_true_eq] at h
  exact ⟨h.1.2, h.2⟩

theorem plainEnd_ge (ds : List StructDeclarator) (pos : Int)
    (hp : ∀ d ∈ ds, d.isPlain = true) : pos ≤ plainEnd pos ds := by
  induction ds generalizing pos with
  | nil => simp [plainEnd]
  | cons d ds ih =>
    have hd : d.isPlain = true := hp d (List.mem_cons_self _ _)
    simp only [StructDeclarator.isPlain, Bool.and_eq_true] at hd
    obtain ⟨hs, ha⟩ := hasKnownSize_spec hd.2
    have hb := ALIGN_SIZE_bounds pos _ ha
    have := ih (ALIGN_SIZE pos (typeAlignment d.type) + computeTypeSize d.type)
      (fun d' hd' => hp d' (List.mem_cons_of_mem _ hd'))
    simp only [plainEnd]
    omega

theorem layoutDeclarator_plain (definition : Option TypeDefiniton) (st : LayoutState)
    (d : StructDeclarator) (hc : st.bitfieldChain = none) (hb : st.bitOffset = 0)
    (hw : st.bfChainWidth = 0) (h0 : 0 ≤ st.offset) (hd : d.isPlain = true)
    (hfit : ALIGN_SIZE st.offset (typeAlignment d.type) + computeTypeSize d.type < 2 ^ 31) :
    layoutDeclarator 1 definition st d =
      { st with
        members := st.members ++
          [createStructualMember d.name d.type (ALIGN_SIZE st.offset (typeAlignment d.type))]
        offset := ALIGN_SIZE st.offset (typeAlignment d.type) + computeTypeSize d.type } := by
  obtain ⟨name, type, width⟩ := d
  simp only [StructDeclarator.isPlain, Bool.and_eq_true, Option.isNone_iff_eq_none] at hd
  obtain ⟨⟨hname, hwidth⟩, hk⟩ := hd
  obtain ⟨hs, ha⟩ := hasKnownSize_spec hk
  have hbnd := ALIGN_SIZE_bounds st.offset (typeAlignment type) ha
  simp only at hfit hwidth hname hs ha hbnd
  subst hwidth
  have hvla : isVLAType type = false := by
    cases type <;> first
      | rfl
      | (simp [hasKnownSize] at hk)
  have hoff : u32 (alignMemberOffset type st.offset) =
      ALIGN_SIZE st.offset (typeAlignment type) := by
    have e1 : wrap32 st.offset = st.offset := wrap32_of_range (by omega) (by omega)
    unfold alignMemberOffset
    rw [e1, wrap32_of_range (by omega) (by omega), u32_of_range (by omega) (by omega)]
  have hsz : computeTypeSizeInt type = computeTypeSize type := by
    unfold computeTypeSizeInt
    rw [wrap32_of_range (by omega) (by omega)]
  have hend : u32 (ALIGN_SIZE st.offset (typeAlignment type) + computeTypeSize type) =
      ALIGN_SIZE st.offset (typeAlignment type) + computeTypeSize type :=
    u32_of_range (by omega) (by omega)
  have hdn : declaresNothing definition ⟨name, type, none⟩ = false := by
    simp [declaresNothing, Option.isSome_iff_ne_none.mp hname]
  obtain ⟨members, offset, bitOffset, chain, chainWidth, anonIdx, diags⟩ := st
  simp only at hc hb hw h0 hoff hend hfit hbnd
  subst hc hb hw
  simp [layoutDeclarator, hdn, layoutMember, hvla, hoff, hsz, hend]

theorem plainLayout_append (xs ys : List StructDeclarator) (pos : Int) :
    plainLayout pos (xs ++ ys) = plainLayout pos xs ++ plainLayout (plainEnd pos xs) ys := by
  induction xs generalizing pos with
  | nil => simp [plainLayout, plainEnd]
  | cons d xs ih => simp [plainLayout, plainEnd, ih]

theorem plainEnd_append (xs ys : List StructDeclarator) (pos : Int) :
    plainEnd pos (xs ++ ys) = plainEnd (plainEnd pos xs) ys := by
  induction xs generalizing pos with
  | nil => simp [plainEnd]
  | cons d xs ih => simp [plainEnd, ih]

theorem foldl_layoutDeclarator_plain (definition : Option TypeDefiniton)
    (ds : List StructDeclarator) (st : LayoutState)
    (hc : st.bitfieldChain = none) (hb : st.bitOffset = 0) (hw : st.bfChainWidth = 0)
    (h0 : 0 ≤ st.offset) (hp : ∀ d ∈ ds, d.isPlain = true)
    (hfit : plainEnd st.offset ds < 2 ^ 31) :
    ds.foldl (layoutDeclarator 1 definition) st =
      { st with members := st.members ++ plainLayout st.offset ds
                offset := plainEnd st.offset ds } := by
  induction ds generalizing st with
  | nil => simp [plainLayout, plainEnd]
  | cons d ds ih =>
    have hd : d.isPlain = true := hp d (List.mem_cons_self _ _)
    have hds : ∀ d' ∈ ds, d'.isPlain = true := fun d' h => hp d' (List.mem_cons_of_mem _ h)
    have hk : hasKnownSize d.type = true := by
      simp only [StructDeclarator.isPlain, Bool.and_eq_true] at hd
      exact hd.2
    obtain ⟨hs, ha⟩ := hasKnownSize_spec hk
    have hbnd := ALIGN_SIZE_bounds st.offset (typeAlignment d.type) ha
    have hge := plainEnd_ge ds
      (ALIGN_SIZE st.offset (typeAlignment d.type) + computeTypeSize d.type) hds
    simp only [plainEnd] at hfit
    rw [List.foldl_cons, layoutDeclarator_plain definition st d hc hb hw h0 hd (by omega)]
    have key := ih
      { st with
        members := st.members ++
          [createStructualMember d.name d.type (ALIGN_SIZE st.offset (typeAlignment d.type))]
        offset := ALIGN_SIZE st.offset (typeAlignment d.type) + computeTypeSize d.type }
      hc hb hw (by simp only; omega) hds hfit
    rw [key]
    simp [plainLayout, plainEnd]

theorem foldl_layoutDeclaration_plain (decls : List StructDeclaration) (st : LayoutState)
    (hc : st.bitfieldChain = none) (hb : st.bitOffset = 0) (hw : st.bfChainWidth = 0)
    (h0 : 0 ≤ st.offset)
    (hp : ∀ decl ∈ decls, decl.isAnonAggregate = false ∧
      ∀ d ∈ decl.declarators, d.isPlain = true)
    (hfit : plainEnd st.offset (allDeclarators decls) < 2 ^ 31) :
    decls.foldl (layoutDeclaration 1) st =
      { st with members := st.members ++ plainLayout st.offset (allDeclarators decls)
                offset := plainEnd st.offset (allDeclarators decls) } := by
  induction decls generalizing st with
  | nil => simp [allDeclarators, plainLayout, plainEnd]
  | cons decl decls ih =>
    obtain ⟨hanon, hpd⟩ := hp decl (List.mem_cons_self _ _)
    have hrest : ∀ decl' ∈ decls, decl'.isAnonAggregate = false ∧
        ∀ d ∈ decl'.declarators, d.isPlain = true :=
      fun decl' h => hp decl' (List.mem_cons_of_mem _ h)
    have hall : ∀ d ∈ allDeclarators decls, d.isPlain = true := by
      clear ih hfit
      induction decls with
      | nil => simp [allDeclarators]
      | cons x xs ihx =>
        intro d hd
        simp only [allDeclarators, List.mem_append] at hd
        rcases hd with hd | hd
        · exact (hrest x (List.mem_cons_self _ _)).2 d hd
        · exact ihx (fun y hy => hp y (by
            rcases List.mem_cons.mp hy with rfl | hy
            · exact List.mem_cons_self _ _
            · exact List.mem_cons_of_mem _ (List.mem_cons_of_mem _ hy)))
            (fun y hy => hrest y (List.mem_cons_of_mem _ hy)) d hd
    simp only [allDeclarators, plainEnd_append] at hfit
    have hge := plainEnd_ge (allDeclarators decls) (plainEnd st.offset decl.declarators) hall
    have hge2 := plainEnd_ge decl.declarators st.offset hpd
    rw [List.foldl_cons, layoutDeclaration, if_neg (by simp [hanon]),
      foldl_layoutDeclarator_plain decl.definition decl.declarators st hc hb hw h0 hpd
        (by omega)]
    have key := ih
      { st with members := st.members ++ plainLayout st.offset decl.declarators
                offset := plainEnd st.offset decl.declarators }
      hc hb hw (by simp only; omega) hrest hfit
    rw [key]
    simp [allDeclarators, plainLayout_append, plainEnd_append]

theorem plainLayout_names (ds : List StructDeclarator) (pos : Int) :
    (plainLayout pos ds).map (fun m => m.name) = ds.map (fun d => d.name) ∧
    (plainLayout pos ds).map (fun m => m.type) = ds.map (fun d => d.type) := by
  induction ds generalizing pos with
  | nil => simp [plainLayout]
  | cons d ds ih => simp [plainLayout, createStructualMember, (ih _).1, (ih _).2]

theorem plainLayout_head (ds : List StructDeclarator) (hp : ∀ d ∈ ds, d.isPlain = true)
    (m : StructualMember) (hm : (plainLayout 0 ds).head? = some m) : m.offset = 0 := by
  cases ds with
  | nil => simp [plainLayout] at hm
  | cons d ds =>
    have hd : d.isPlain = true := hp d (List.mem_cons_self _ _)
    simp only [StructDeclarator.isPlain, Bool.and_eq_true] at hd
    obtain ⟨_, ha⟩ := hasKnownSize_spec hd.2
    obtain ⟨h1, h2, h3⟩ := ALIGN_SIZE_bounds 0 (typeAlignment d.type) ha
    simp only [plainLayout, List.head?_cons, Option.some.injEq] at hm
    subst hm
    simp only [createStructualMember]
    rw [Int.emod_eq_of_lt h1 (by omega)] at h3
    exact h3

theorem plainLayout_chain (ds : List StructDeclarator) (pos : Int)
    (hp : ∀ d ∈ ds, d.isPlain = true) : (plainLayout pos ds).Chain' PlacedAfter := by
  induction ds generalizing pos with
  | nil => simp [plainLayout]
  | cons d ds ih =>
    cases ds with
    | nil => simp [plainLayout]
    | cons d2 ds =>
      have hd2 : d2.isPlain = true :=
        hp d2 (List.mem_cons_of_mem _ (List.mem_cons_self _ _))
      simp only [StructDeclarator.isPlain, Bool.and_eq_true] at hd2
      obtain ⟨_, ha⟩ := hasKnownSize_spec hd2.2
      have hb := ALIGN_SIZE_bounds
        (ALIGN_SIZE pos (typeAlignment d.type) + computeTypeSize d.type)
        (typeAlignment d2.type) ha
      have := ih (ALIGN_SIZE pos (typeAlignment d.type) + computeTypeSize d.type)
        (fun d' h => hp d' (List.mem_cons_of_mem _ h))
      simp only [plainLayout] at this ⊢
      refine List.Chain'.cons ?_ this
      exact ⟨rfl, hb.1, hb.2.1, hb.2.2⟩

theorem plainLayout_knownSize (ds : List StructDeclarator) (pos : Int)
    (hp : ∀ d ∈ ds, d.isPlain = true) :
    ∀ m ∈ plainLayout pos ds, hasKnownSize m.type = true := by
  induction ds generalizing pos with
  | nil => simp [plainLayout]
  | cons d ds ih =>
    intro m hm
    simp only [plainLayout, List.mem_cons] at hm
    rcases hm with rfl | hm
    · have hd : d.isPlain = true := hp d (List.mem_cons_self _ _)
      simp only [StructDeclarator.isPlain, Bool.and_eq_true] at hd
      exact hd.2
    · exact ih _ (fun d' h => hp d' (List.mem_cons_of_mem _ h)) m hm

theorem checkFlexibleMember_knownSize (m : StructualMember)
    (h : hasKnownSize m.type = true) :
    ∃ flexible, checkFlexibleMember m = some (flexible, m.type) := by
  obtain ⟨name, type, offset, fl⟩ := m
  simp only [hasKnownSize, Bool.and_eq_true, decide_eq_true_eq] at h
  obtain ⟨⟨h1, _⟩, _⟩ := h
  cases type with
  | TR_VALUE d =>
    simp only [Bool.or_eq_true, Bool.not_eq_true'] at h1
    by_cases hc : isCompositeType (.TR_VALUE d) = true
    · have hsome : d.typeDefinition.isSome = true := by
        rcases h1 with h1 | h1
        · rw [hc] at h1; cases h1
        · exact h1
      obtain ⟨definition, hdef⟩ := Option.isSome_iff_exists.mp hsome
      exact ⟨definition.isFlexible, by simp [checkFlexibleMember, hc, hdef]⟩
    · exact ⟨false, by simp [checkFlexibleMember, hc]⟩
  | TR_ARRAY e size =>
    have hne : size ≠ UNKNOWN_SIZE := by simpa using h1
    exact ⟨false, by simp [checkFlexibleMember, hne]⟩
  | TR_VLA e => simp at h1
  | TR_POINTED p => exact ⟨false, by simp [checkFlexibleMember, isCompositeType, isStructualType, isUnionType]⟩
  | TR_FUNCTION r => exact ⟨false, by simp [checkFlexibleMember, isCompositeType, isStructualType, isUnionType]⟩
  | TR_BITFIELD s o w => exact ⟨false, by simp [checkFlexibleMember, isCompositeType, isStructualType, isUnionType]⟩

theorem chain'_placedAfter_of_map_eq {l l' : List StructualMember}
    (h : l.map (fun m => (m.type, m.offset)) = l'.map (fun m => (m.type, m.offset)))
    (hc : l.Chain' PlacedAfter) : l'.Chain' PlacedAfter := by
  have key : ∀ k : List StructualMember, k.Chain' PlacedAfter ↔
      (k.map (fun m => (m.type, m.offset))).Chain' (fun x y : TypeRef × Int =>
        y.2 = ALIGN_SIZE (x.2 + computeTypeSize x.1) (typeAlignment y.1) ∧
        x.2 + computeTypeSize x.1 ≤ y.2 ∧
        y.2 < x.2 + computeTypeSize x.1 + typeAlignment y.1 ∧
        y.2 % typeAlignment y.1 = 0) := by
    intro k
    rw [List.chain'_map]
    rfl
  rw [key] at hc ⊢
  rw [← h]
  exact hc

/-- C8: in a struct whose members are all named non-bit-field members of known size (and
whose layout stays below `2 ^ 31` bytes), `parseStructDeclarationList` returns one member
per declarator, in order, with the declared names and types; the first member is at
offset 0 and every later member is at `round_up(previous offset + previous size,
alignment of its own type)`. For `struct S { char a; int b; char c; }` the offsets are
0, 4, 8 and `computeStructAlignment` gives 4. -/
theorem parseStructDeclarationList_plain (decls : List StructDeclaration)
    (hne : allDeclarators decls ≠ [])
    (hp : ∀ decl ∈ decls, decl.isAnonAggregate = false ∧
      ∀ d ∈ decl.declarators, d.isPlain = true)
    (hfit : plainEnd 0 (allDeclarators decls) < 2 ^ 31) :
    (∃ members flexible,
      parseStructDeclarationList 1 decls = some (members, flexible) ∧
      members.map (fun m => m.name) = (allDeclarators decls).map (fun d => d.name) ∧
      members.map (fun m => m.type) = (allDeclarators decls).map (fun d => d.type) ∧
      (∀ m, members.head? = some m → m.offset = 0) ∧
      members.Chain' PlacedAfter) ∧
    (parseStructDeclarationList 1 structS).map
      (fun r => (r.1.map (fun m => m.offset), computeStructAlignment r.1)) =
      some ([0, 4, 8], 4) := by
  refine ⟨?_, by decide⟩
  have hall : ∀ d ∈ allDeclarators decls, d.isPlain = true := by
    clear hfit hne
    induction decls with
    | nil => simp [allDeclarators]
    | cons x xs ih =>
      intro d hd
      simp only [allDeclarators, List.mem_append] at hd
      rcases hd with hd | hd
      · exact (hp x (List.mem_cons_self _ _)).2 d hd
      · exact ih (fun y hy => hp y (List.mem_cons_of_mem _ hy)) d hd
  have hfold := foldl_layoutDeclaration_plain decls LayoutState.init rfl rfl rfl
    (le_refl _) hp hfit
  set L := plainLayout 0 (allDeclarators decls) with hL
  have hLne : L ≠ [] := by
    intro h
    have := congrArg List.length (plainLayout_names (allDeclarators decls) 0).1
    rw [← hL, h] at this
    simp at this
    exact hne (List.length_eq_zero.mp this.symm)
  obtain ⟨cur, hcur⟩ : ∃ cur, L.getLast? = some cur := by
    cases hl : L.getLast? with
    | none => exact absurd (List.getLast?_eq_none_iff.mp hl) hLne
    | some cur => exact ⟨cur, rfl⟩
  have hsplit : L.dropLast ++ [cur] = L := List.dropLast_append_getLast? cur hcur
  have hmem : cur ∈ L := by
    rw [← hsplit]
    simp
  obtain ⟨flexible, hflex⟩ := checkFlexibleMember_knownSize cur
    (plainLayout_knownSize _ 0 hall cur hmem)
  have hres : parseStructDeclarationList 1 decls =
      some (L.dropLast ++ [{ cur with type := cur.type, isFlexible := flexible }],
        flexible) := by
    simp only [parseStructDeclarationList, hfold]
    simp [LayoutState.init, ← hL, hcur, hflex]
  refine ⟨_, flexible, hres, ?_, ?_, ?_, ?_⟩
  · have := (plainLayout_names (allDeclarators decls) 0).1
    rw [← hL, ← hsplit] at this
    simpa using this
  · have := (plainLayout_names (allDeclarators decls) 0).2
    rw [← hL, ← hsplit] at this
    simpa using this
  · intro m hm
    have h0 := plainLayout_head (allDeclarators decls) hall
    rw [← hL, ← hsplit] at h0
    cases hd : L.dropLast with
    | nil =>
      rw [hd] at hm h0
      simp only [List.nil_append, List.head?_cons, Option.some.injEq] at hm h0
      subst hm
      exact h0 cur rfl
    | cons x xs =>
      rw [hd] at hm h0
      simp only [List.cons_append, List.head?_cons, Option.some.injEq] at hm h0
      exact h0 m hm
  · have hch := plainLayout_chain (allDeclarators decls) 0 hall
    rw [← hL, ← hsplit] at hch
    exact chain'_placedAfter_of_map_eq (by simp) hch

/-- C8 witness: the body of `struct S { char a; int b; char c; }` meets the hypotheses, and
its members are placed by the rule. -/
theorem parseStructDeclarationList_plain_witness :
    plainEnd 0 (allDeclarators structS) = 9 ∧
    ∃ members flexible,
      parseStructDeclarationList 1 structS = some (members, flexible) ∧
      members.map (fun m => m.name) = [some "a", some "b", some "c"] ∧
      (∀ m, members.head? = some m → m.offset = 0) ∧
      members.Chain' PlacedAfter :=
  ⟨by decide,
   (parseStructDeclarationList_plain structS (by decide) (by decide) (by decide)).1.elim
    fun members h => h.elim fun flexible h => ⟨members, flexible, h.1, h.2.1, h.2.2.2⟩⟩

theorem totalWidth_nonneg (definition : Option TypeDefiniton) (ds : List StructDeclarator)
    (hv : ∀ d ∈ ds, d.isBitField definition = true) : 0 ≤ totalWidth ds := by
  induction ds with
  | nil => simp [totalWidth]
  | cons d ds ih =>
    have hd := hv d (List.mem_cons_self _ _)
    have := ih (fun d' h => hv d' (List.mem_cons_of_mem _ h))
    simp only [StructDeclarator.isBitField, Bool.and_eq_true] at hd
    obtain ⟨_, hd⟩ := hd
    cases hw : d.width with
    | none => simp [hw] at hd
    | some w =>
      simp only [hw, Bool.and_eq_true, decide_eq_true_eq] at hd
      simp only [totalWidth, hw, Option.getD_some]
      omega

theorem layoutDeclarator_bitField (definition : Option TypeDefiniton) (st : LayoutState)
    (d : StructDeclarator) (w : Int) (hw : d.width = some w)
    (hv : d.isBitField definition = true)
    (hb0 : 0 ≤ st.bitOffset) (hb : st.bitOffset + w ≤ 63)
    (hc0 : 0 ≤ st.bfChainWidth) (hc : st.bfChainWidth + w ≤ 63) :
    layoutDeclarator 1 definition st d =
      { st with
        members := st.members ++
          [createStructualMember d.name (makeBitFieldType d.type st.bitOffset w) st.offset]
        bitOffset := st.bitOffset + w
        bfChainWidth := st.bfChainWidth + w
        bitfieldChain := some (st.bitfieldChain.getD st.members.length) } := by
  obtain ⟨name, type, width⟩ := d
  simp only at hw
  subst hw
  simp only [StructDeclarator.isBitField, Bool.and_eq_true, Bool.not_eq_true',
    decide_eq_true_eq, Option.isNone_iff_eq_none] at hv
  obtain ⟨hdn, hpos, hchk⟩ := hv
  have e1 : u32 (maxWidth - st.bitOffset) = 64 - st.bitOffset := by
    unfold maxWidth
    exact u32_of_range (by omega) (by omega)
  have e2 : u32 w = w := u32_of_range (by omega) (by omega)
  have e3 : u32 (st.bitOffset + w) = st.bitOffset + w := u32_of_range (by omega) (by omega)
  have e4 : u32 (st.bfChainWidth + w) = st.bfChainWidth + w :=
    u32_of_range (by omega) (by omega)
  have hnc : ¬ (64 - st.bitOffset ≤ w) := by omega
  have hw0 : w ≠ 0 := by omega
  obtain ⟨members, offset, bitOffset, chain, chainWidth, anonIdx, diags⟩ := st
  simp only at e1 e3 e4 hnc hb0 hb hc0 hc
  cases chain <;>
    simp [layoutDeclarator, hdn, hchk, layoutBitField, e1, e2, e3, e4, hnc, hw0, hpos,
      layoutMember, isVLAType, makeBitFieldType]

theorem bitField_width (definition : Option TypeDefiniton) (d : StructDeclarator)
    (hv : d.isBitField definition = true) : ∃ w, d.width = some w ∧ 0 < w := by
  simp only [StructDeclarator.isBitField, Bool.and_eq_true] at hv
  obtain ⟨_, hv⟩ := hv
  cases hw : d.width with
  | none => simp [hw] at hv
  | some w =>
    simp only [hw, Bool.and_eq_true, decide_eq_true_eq] at hv
    exact ⟨w, rfl, hv.1⟩

theorem foldl_layoutDeclarator_bitField (definition : Option TypeDefiniton)
    (ds : List StructDeclarator) (st : LayoutState)
    (hv : ∀ d ∈ ds, d.isBitField definition = true)
    (hb0 : 0 ≤ st.bitOffset) (hc0 : 0 ≤ st.bfChainWidth)
    (hb : st.bitOffset + totalWidth ds ≤ 63) (hc : st.bfChainWidth + totalWidth ds ≤ 63) :
    ds.foldl (layoutDeclarator 1 definition) st =
      { st with
        members := st.members ++ bitFieldChainRaw st.offset st.bitOffset ds
        bitOffset := st.bitOffset + totalWidth ds
        bfChainWidth := st.bfChainWidth + totalWidth ds
        bitfieldChain :=
          if ds = [] then st.bitfieldChain
          else some (st.bitfieldChain.getD st.members.length) } := by
  induction ds generalizing st with
  | nil => simp [bitFieldChainRaw, totalWidth]
  | cons d ds ih =>
    have hd := hv d (List.mem_cons_self _ _)
    have hds : ∀ d' ∈ ds, d'.isBitField definition = true :=
      fun d' h => hv d' (List.mem_cons_of_mem _ h)
    obtain ⟨w, hw, hpos⟩ := bitField_width definition d hd
    have hnn := totalWidth_nonneg definition ds hds
    simp only [totalWidth, hw, Option.getD_some] at hb hc
    rw [List.foldl_cons, layoutDeclarator_bitField definition st d w hw hd hb0 (by omega) hc0
      (by omega)]
    have key := ih
      { st with
        members := st.members ++
          [createStructualMember d.name (makeBitFieldType d.type st.bitOffset w) st.offset]
        bitOffset := st.bitOffset + w
        bfChainWidth := st.bfChainWidth + w
        bitfieldChain := some (st.bitfieldChain.getD st.members.length) }
      hds (by simp only; omega) (by simp only; omega) (by simp only; omega)
      (by simp only; omega)
    rw [key]
    simp only [bitFieldChainRaw, totalWidth, hw, Option.getD_some, List.append_assoc,
      List.singleton_append, Int.add_assoc, Option.getD_some, if_neg (List.cons_ne_nil _ _)]
    split <;> rfl

theorem bitFieldChainRaw_append (xs ys : List StructDeclarator) (offset bitPos : Int) :
    bitFieldChainRaw offset bitPos (xs ++ ys) =
      bitFieldChainRaw offset bitPos xs ++
        bitFieldChainRaw offset (bitPos + totalWidth xs) ys := by
  induction xs generalizing bitPos with
  | nil => simp [bitFieldChainRaw, totalWidth]
  | cons d xs ih => simp [bitFieldChainRaw, totalWidth, ih, Int.add_assoc]

theorem totalWidth_append (xs ys : List StructDeclarator) :
    totalWidth (xs ++ ys) = totalWidth xs + totalWidth ys := by
  induction xs with
  | nil => simp [totalWidth]
  | cons d xs ih => simp [totalWidth, ih, Int.add_assoc]

theorem foldl_layoutDeclaration_bitField (decls : List StructDeclaration) (st : LayoutState)
    (hv : ∀ decl ∈ decls, decl.isAnonAggregate = false ∧
      ∀ d ∈ decl.declarators, d.isBitField decl.definition = true)
    (hb0 : 0 ≤ st.bitOffset) (hc0 : 0 ≤ st.bfChainWidth)
    (hb : st.bitOffset + totalWidth (allDeclarators decls) ≤ 63)
    (hc : st.bfChainWidth + totalWidth (allDeclarators decls) ≤ 63) :
    decls.foldl (layoutDeclaration 1) st =
      { st with
        members := st.members ++ bitFieldChainRaw st.offset st.bitOffset (allDeclarators decls)
        bitOffset := st.bitOffset + totalWidth (allDeclarators decls)
        bfChainWidth := st.bfChainWidth + totalWidth (allDeclarators decls)
        bitfieldChain :=
          if allDeclarators decls = [] then st.bitfieldChain
          else some (st.bitfieldChain.getD st.members.length) } := by
  induction decls generalizing st with
  | nil => simp [allDeclarators, bitFieldChainRaw, totalWidth]
  | cons decl decls ih =>
    obtain ⟨hanon, hvd⟩ := hv decl (List.mem_cons_self _ _)
    have hrest : ∀ decl' ∈ decls, decl'.isAnonAggregate = false ∧
        ∀ d ∈ decl'.declarators, d.isBitField decl'.definition = true :=
      fun decl' h => hv decl' (List.mem_cons_of_mem _ h)
    have hnn1 := totalWidth_nonneg decl.definition decl.declarators hvd
    have hnn2 : 0 ≤ totalWidth (allDeclarators decls) := by
      clear ih hb hc
      induction decls with
      | nil => simp [allDeclarators, totalWidth]
      | cons x xs ihx =>
        have h1 := totalWidth_nonneg x.definition x.declarators
          (hrest x (List.mem_cons_self _ _)).2
        have h2 := ihx
          (fun y hy => hv y (by
            rcases List.mem_cons.mp hy with rfl | hy
            · exact List.mem_cons_self _ _
            · exact List.mem_cons_of_mem _ (List.mem_cons_of_mem _ hy)))
          (fun y hy => hrest y (List.mem_cons_of_mem _ hy))
        simp only [allDeclarators, totalWidth_append]
        omega
    simp only [allDeclarators, totalWidth_append] at hb hc
    rw [List.foldl_cons, layoutDeclaration, if_neg (by simp [hanon]),
      foldl_layoutDeclarator_bitField decl.definition decl.declarators st hvd hb0 hc0
        (by omega) (by omega)]
    have key := ih
      { st with
        members := st.members ++ bitFieldChainRaw st.offset st.bitOffset decl.declarators
        bitOffset := st.bitOffset + totalWidth decl.declarators
        bfChainWidth := st.bfChainWidth + totalWidth decl.declarators
        bitfieldChain :=
          if decl.declarators = [] then st.bitfieldChain
          else some (st.bitfieldChain.getD st.members.length) }
      hrest (by simp only; omega) (by simp only; omega) (by simp only; omega)
      (by simp only; omega)
    rw [key]
    simp only [allDeclarators, bitFieldChainRaw_append, totalWidth_append, List.append_assoc,
      Int.add_assoc, List.append_eq_nil]
    by_cases h1 : decl.declarators = [] <;> by_cases h2 : allDeclarators decls = [] <;>
      simp [h1, h2, bitFieldChainRaw]

theorem map_adjustChainMember_raw (sType uType : TypeRef) (ds : List StructDeclarator)
    (offset bitPos : Int) :
    (bitFieldChainRaw offset bitPos ds).map (adjustChainMember sType uType 0) =
      bitFieldRun sType uType bitPos ds := by
  induction ds generalizing bitPos with
  | nil => simp [bitFieldChainRaw, bitFieldRun]
  | cons d ds ih =>
    simp [bitFieldChainRaw, bitFieldRun, ih, adjustChainMember, createStructualMember,
      makeBitFieldType]

theorem bitFieldRun_mem (sType uType : TypeRef) (ds : List StructDeclarator) (bitPos : Int) :
    ∀ m ∈ bitFieldRun sType uType bitPos ds,
      (∃ storage bp w, m.type = .TR_BITFIELD storage bp w) ∧ m.isFlexible = false := by
  induction ds generalizing bitPos with
  | nil => simp [bitFieldRun]
  | cons d ds ih =>
    intro m hm
    simp only [bitFieldRun, List.mem_cons] at hm
    rcases hm with rfl | hm
    · exact ⟨⟨_, _, _, rfl⟩, rfl⟩
    · exact ih _ m hm

theorem parse_of_bitFieldRun (decls : List StructDeclaration) (sid uid : TypeId) (align : Int)
    (hv : ∀ decl ∈ decls, decl.isAnonAggregate = false ∧
      ∀ d ∈ decl.declarators, d.isBitField decl.definition = true)
    (hW : totalWidth (allDeclarators decls) ≤ 63)
    (hclass : bitFieldStorageClass (totalWidth (allDeclarators decls)) = some (sid, uid, align))
    (halign : u32 (ALIGN_SIZE 0 align) = 0)
    (hne : allDeclarators decls ≠ []) :
    parseStructDeclarationList 1 decls =
      some (bitFieldRun (makePrimitiveType sid) (makePrimitiveType uid) 0
        (allDeclarators decls), false) := by
  have hfold := foldl_layoutDeclaration_bitField decls LayoutState.init hv (le_refl _)
    (le_refl _) (by simpa [LayoutState.init] using hW) (by simpa [LayoutState.init] using hW)
  set L := bitFieldRun (makePrimitiveType sid) (makePrimitiveType uid) 0
    (allDeclarators decls) with hL
  have hLne : L ≠ [] := by
    intro h
    cases hd : allDeclarators decls with
    | nil => exact hne hd
    | cons d ds =>
      rw [hL, hd] at h
      simp [bitFieldRun] at h
  obtain ⟨cur, hcur⟩ : ∃ cur, L.getLast? = some cur := by
    cases hl : L.getLast? with
    | none => exact absurd (List.getLast?_eq_none_iff.mp hl) hLne
    | some cur => exact ⟨cur, rfl⟩
  have hsplit : L.dropLast ++ [cur] = L := List.dropLast_append_getLast? cur hcur
  have hmemc : cur ∈ L := by
    rw [← hsplit]
    simp
  obtain ⟨⟨storage, b, w, hty⟩, hfl⟩ := bitFieldRun_mem _ _ _ 0 cur hmemc
  have hflex : checkFlexibleMember cur = some (false, cur.type) := by
    simp [checkFlexibleMember, hty, isCompositeType, isStructualType, isUnionType]
  have hcur' : ({ cur with type := cur.type, isFlexible := false } : StructualMember) = cur := by
    obtain ⟨n, t, o, f⟩ := cur
    simp only at hfl
    subst hfl
    rfl
  simp only [parseStructDeclarationList, hfold]
  simp only [LayoutState.init, if_neg hne, Option.getD_none, List.length_nil,
    Option.isSome_some, if_true, adjustBitFieldStorage, Int.zero_add, hclass, halign,
    List.take_zero, List.nil_append, List.drop_zero, map_adjustChainMember_raw, ← hL, hcur,
    hflex, hcur', hsplit]

/-- C9: for a struct whose body is a run of bit-fields of positive widths with total
width at most 63, `parseStructDeclarationList` returns one member per declarator, in
order: member `i` has the bit offset `w1 + ... + w(i-1)` and its own width, every member
has byte offset 0, and the storage type of every member has the byte size `s` that is the
smallest of 1, 2, 4, 8 with `8 * s` at least the total width, unsigned exactly when the
declared type is unsigned. For `struct B { unsigned x:3; unsigned y:5; unsigned z:8; }` the
bit offsets are 0, 3, 8, the byte offsets 0 and the storage type is u2. -/
theorem parseStructDeclarationList_bitFieldRun (decls : List StructDeclaration)
    (hne : allDeclarators decls ≠ [])
    (hv : ∀ decl ∈ decls, decl.isAnonAggregate = false ∧
      ∀ d ∈ decl.declarators, d.isBitField decl.definition = true)
    (hW : totalWidth (allDeclarators decls) ≤ 63) :
    (∃ (sid uid : TypeId) (s : Int),
      parseStructDeclarationList 1 decls =
        some (bitFieldRun (makePrimitiveType sid) (makePrimitiveType uid) 0
          (allDeclarators decls), false) ∧
      computeTypeSize (makePrimitiveType sid) = s ∧
      computeTypeSize (makePrimitiveType uid) = s ∧
      isUnsignedType (makePrimitiveType sid) = false ∧
      isUnsignedType (makePrimitiveType uid) = true ∧
      (s = 1 ∨ s = 2 ∨ s = 4 ∨ s = 8) ∧
      totalWidth (allDeclarators decls) ≤ 8 * s ∧
      ∀ s' : Int, s' = 1 ∨ s' = 2 ∨ s' = 4 ∨ s' = 8 →
        totalWidth (allDeclarators decls) ≤ 8 * s' → s ≤ s') ∧
    parseStructDeclarationList 1 structB =
      some ([{ name := some "x", type := .TR_BITFIELD (makePrimitiveType .T_U2) 0 3,
               offset := 0, isFlexible := false },
             { name := some "y", type := .TR_BITFIELD (makePrimitiveType .T_U2) 3 5,
               offset := 0, isFlexible := false },
             { name := some "z", type := .TR_BITFIELD (makePrimitiveType .T_U2) 8 8,
               offset := 0, isFlexible := false }], false) := by
  refine ⟨?_, by decide⟩
  by_cases h8 : totalWidth (allDeclarators decls) ≤ 8
  · refine ⟨.T_S1, .T_U1, 1, parse_of_bitFieldRun decls _ _ 1 hv hW
      (by simp [bitFieldStorageClass, h8]) (by decide) hne, by decide, by decide, by decide,
      by decide, by simp, by omega, ?_⟩
    rintro s' (rfl | rfl | rfl | rfl) _ <;> omega
  by_cases h16 : totalWidth (allDeclarators decls) ≤ 16
  · refine ⟨.T_S2, .T_U2, 2, parse_of_bitFieldRun decls _ _ 2 hv hW
      (by simp [bitFieldStorageClass, h8, h16]) (by decide) hne, by decide, by decide,
      by decide, by decide, by simp, by omega, ?_⟩
    rintro s' (rfl | rfl | rfl | rfl) _ <;> omega
  by_cases h32 : totalWidth (allDeclarators decls) ≤ 32
  · refine ⟨.T_S4, .T_U4, 4, parse_of_bitFieldRun decls _ _ 4 hv hW
      (by simp [bitFieldStorageClass, h8, h16, h32]) (by decide) hne, by decide, by decide,
      by decide, by decide, by simp, by omega, ?_⟩
    rintro s' (rfl | rfl | rfl | rfl) _ <;> omega
  · have h64 : totalWidth (allDeclarators decls) ≤ 64 := by omega
    refine ⟨.T_S8, .T_U8, 8, parse_of_bitFieldRun decls _ _ 8 hv hW
      (by simp [bitFieldStorageClass, h8, h16, h32, h64]) (by decide) hne, by decide,
      by decide, by decide, by decide, by simp, by omega, ?_⟩
    rintro s' (rfl | rfl | rfl | rfl) _ <;> omega

/-- C9 witness: the body of `struct B` meets the hypotheses; its members are the run with
storage types s2 / u2 of 2 bytes. -/
theorem parseStructDeclarationList_bitFieldRun_witness :
    totalWidth (allDeclarators structB) = 16 ∧
    ∃ (sid uid : TypeId) (s : Int),
      parseStructDeclarationList 1 structB =
        some (bitFieldRun (makePrimitiveType sid) (makePrimitiveType uid) 0
          (allDeclarators structB), false) ∧
      (s = 1 ∨ s = 2 ∨ s = 4 ∨ s = 8) ∧ totalWidth (allDeclarators structB) ≤ 8 * s :=
  ⟨by decide,
   (parseStructDeclarationList_bitFieldRun structB (by decide) (by decide) (by decide)).1.elim
    fun sid h => h.elim fun uid h => h.elim fun s h =>
      ⟨sid, uid, s, h.1, h.2.2.2.2.2.1, h.2.2.2.2.2.2.1⟩⟩

/-- C10 (failing input): in `struct { long a:32; long b:32; }` the widths sum to exactly
64, yet `b` does not join the chain of `a`: `a` is alone in a 4-byte slot at offset 0 and
`b` starts a new chain at bit offset 0 in a second 4-byte slot at offset 4. -/
theorem parseStructDeclarationList_two_halves :
    parseStructDeclarationList 1 structTwoHalves =
      some ([{ name := some "a", type := .TR_BITFIELD (makePrimitiveType .T_S4) 0 32,
               offset := 0, isFlexible := false },
             { name := some "b", type := .TR_BITFIELD (makePrimitiveType .T_S4) 0 32,
               offset := 4, isFlexible := false }], false) := by
  decide

/-! ## Sizes, `sizeof` and struct alignment -/

/-- C14 (failing input): for `struct { int a[2][3]; }` `computeStructAlignment` gives 12,
the size of the element type `int[3]`, while the alignment of the member's type, that of
its innermost element type `int`, is 4. -/
theorem computeStructAlignment_nested_array :
    computeStructAlignment structNestedArray = 12 ∧
    structNestedArray.map (fun m => typeAlignment m.type) = [4] := by
  decide

/-! ## Unions -/

theorem parseStructDeclarationList_eq (factor : Int) (decls : List StructDeclaration) :
    parseStructDeclarationList factor decls =
      match (layoutMembers factor decls).getLast? with
      | none => none
      | some current =>
        match checkFlexibleMember current with
        | none => none
        | some (flexible, type) =>
          some ((layoutMembers factor decls).dropLast ++
            [{ current with type := type, isFlexible := flexible }], flexible) := rfl

theorem layout_fold_invariant (factor : Int) (P : LayoutState → Prop)
    (decls : List StructDeclaration) (st : LayoutState) (h0 : P st)
    (hanon : ∀ st decl, decl ∈ decls → decl.isAnonAggregate = true → P st →
      P { st with
          anonFieldIdx := st.anonFieldIdx + 1
          members := st.members ++
            [createStructualMember (some ("$" ++ toString (st.anonFieldIdx + 1)))
              decl.basicType st.offset]
          offset := u32 (st.offset + computeTypeSizeInt decl.basicType * factor) })
    (hdecl : ∀ st decl d, decl ∈ decls → d ∈ decl.declarators → P st →
      P (layoutDeclarator factor decl.definition st d)) :
    P (decls.foldl (layoutDeclaration factor) st) := by
  induction decls generalizing st with
  | nil => exact h0
  | cons decl decls ih =>
    rw [List.foldl_cons]
    apply ih
    · by_cases ha : decl.isAnonAggregate = true
      · simp only [layoutDeclaration, ha, if_true]
        exact hanon st decl (List.mem_cons_self _ _) ha h0
      · simp only [layoutDeclaration, ha]
        have : ∀ (ds : List StructDeclarator) (st : LayoutState),
            (∀ d ∈ ds, d ∈ decl.declarators) → P st →
            P (ds.foldl (layoutDeclarator factor decl.definition) st) := by
          intro ds
          induction ds with
          | nil => intro st _ h; exact h
          | cons d ds ihd =>
            intro st hsub h
            rw [List.foldl_cons]
            exact ihd _ (fun d' hd' => hsub d' (List.mem_cons_of_mem _ hd'))
              (hdecl st decl d (List.mem_cons_self _ _) (hsub d (List.mem_cons_self _ _)) h)
        exact this decl.declarators st (fun d hd => hd) h0
    · intro st decl' hmem
      exact hanon st decl' (List.mem_cons_of_mem _ hmem)
    · intro st decl' d hmem
      exact hdecl st decl' d (List.mem_cons_of_mem _ hmem)

theorem bitFieldStorageClass_align (w : Int) (sid uid : TypeId) (align : Int)
    (h : bitFieldStorageClass w = some (sid, uid, align)) :
    align = 1 ∨ align = 2 ∨ align = 4 ∨ align = 8 := by
  unfold bitFieldStorageClass at h
  split_ifs at h <;> simp only [Option.some.injEq, Prod.mk.injEq] at h <;> omega

theorem adjustBitFieldStorage_zero (members : List StructualMember) (chain : Option Nat)
    (w : Int) (hm : ∀ m ∈ members, m.offset = 0) :
    (adjustBitFieldStorage members chain w 0).2.1 = 0 ∧
    ∀ m ∈ (adjustBitFieldStorage members chain w 0).1, m.offset = 0 := by
  unfold adjustBitFieldStorage
  cases hc : bitFieldStorageClass w with
  | none => exact ⟨rfl, hm⟩
  | some cls =>
    obtain ⟨sid, uid, align⟩ := cls
    have ha := bitFieldStorageClass_align w sid uid align hc
    have h0 : u32 (ALIGN_SIZE 0 align) = 0 := by
      rcases ha with rfl | rfl | rfl | rfl <;> decide
    cases chain with
    | none => exact ⟨h0, hm⟩
    | some k =>
      refine ⟨h0, ?_⟩
      intro m hmem
      simp only [List.mem_append, List.mem_map] at hmem
      rcases hmem with hmem | ⟨m', _, rfl⟩
      · exact hm m (List.mem_of_mem_take hmem)
      · simp only [adjustChainMember, h0]

/-! ### The shape of one layout step -/

theorem layoutMember_members (factor : Int) (st : LayoutState) (d : StructDeclarator)
    (type : TypeRef) :
    (layoutMember factor st d type).members =
      st.members ++ [createStructualMember d.name
        (if isVLAType type then makeErrorRef else type) (memberOffset st d type)] := by
  unfold layoutMember memberOffset
  cases d.width <;> cases st.bitfieldChain <;> simp

theorem layoutMember_offset (factor : Int) (st : LayoutState) (d : StructDeclarator)
    (type : TypeRef) :
    (layoutMember factor st d type).offset =
      if d.width.isSome then st.offset
      else u32 (memberOffset st d type + computeTypeSizeInt type * factor) := by
  unfold layoutMember memberOffset
  cases d.width <;> cases st.bitfieldChain <;> simp

theorem layoutMember_chain (factor : Int) (st : LayoutState) (d : StructDeclarator)
    (type : TypeRef) :
    (layoutMember factor st d type).bitfieldChain =
      if d.width.isSome then some (st.bitfieldChain.getD st.members.length) else none := by
  unfold layoutMember
  cases d.width <;> cases st.bitfieldChain <;> simp

theorem layoutMember_bitOffset (factor : Int) (st : LayoutState) (d : StructDeclarator)
    (type : TypeRef) :
    (layoutMember factor st d type).bitOffset = (if d.width.isSome then st.bitOffset else 0) ∧
    (layoutMember factor st d type).bfChainWidth =
      (if d.width.isSome then st.bfChainWidth else 0) := by
  unfold layoutMember
  cases d.width <;> cases st.bitfieldChain <;> simp

theorem layoutBitField_eq (factor : Int) (st : LayoutState) (d : StructDeclarator)
    (width : Int) :
    layoutBitField factor st d width =
      (let st1 :=
        if st.bitfieldChain.isSome ∧ width > 0 ∧ u32 (maxWidth - st.bitOffset) ≤ width
        then resetChain (closeChain factor st) else st
       let st2 : LayoutState :=
        { st1 with
          bitOffset := u32 (st1.bitOffset + width * factor)
          bfChainWidth :=
            if factor ≠ 0 then u32 (st1.bfChainWidth + width)
            else u32 (max st1.bfChainWidth width) }
       if width = 0 then
         ({ resetChain (closeChain factor st2) with
            diagnostics :=
              if d.name.isSome then st2.diagnostics ++ [.DIAG_ZERO_NAMED_BIT_FIELD]
              else st2.diagnostics },
           makeBitFieldType d.type st1.bitOffset (u32 width), true)
       else (st2, makeBitFieldType d.type st1.bitOffset (u32 width), false)) := by
  unfold layoutBitField closeChain resetChain
  by_cases hc : st.bitfieldChain.isSome ∧ width > 0 ∧ u32 (maxWidth - st.bitOffset) ≤ width
  · by_cases hw : width = 0
    · omega
    · simp only [hc, and_self, if_true, hw, if_false]
  · by_cases hw : width = 0
    · simp only [hc, if_false, hw, if_true]
    · simp only [hc, if_false, hw]

theorem layoutDeclarator_eq (factor : Int) (definition : Option TypeDefiniton)
    (st : LayoutState) (d : StructDeclarator) :
    layoutDeclarator factor definition st d =
      if declaresNothing definition d then st
      else
        match d.width with
        | some width =>
          match checkIfBitfieldCorrect d.type d.name width with
          | none =>
            if (layoutBitField factor st d width).2.2 then (layoutBitField factor st d width).1
            else layoutMember factor (layoutBitField factor st d width).1 d
              (layoutBitField factor st d width).2.1
          | some diagnostic =>
            layoutMember factor { st with diagnostics := st.diagnostics ++ [diagnostic] } d
              d.type
        | none =>
          layoutMember factor (if st.bitfieldChain.isSome then closeChain factor st else st) d
            d.type := by
  unfold layoutDeclarator closeChain
  split
  · rfl
  · cases d.width with
    | none => by_cases hc : st.bitfieldChain.isSome <;> simp [hc]
    | some w => rfl

theorem layoutMembers_eq (factor : Int) (decls : List StructDeclaration) :
    layoutMembers factor decls =
      (if (decls.foldl (layoutDeclaration factor) LayoutState.init).bitfieldChain.isSome
       then closeChain factor (decls.foldl (layoutDeclaration factor) LayoutState.init)
       else decls.foldl (layoutDeclaration factor) LayoutState.init).members := by
  unfold layoutMembers closeChain
  by_cases h : (decls.foldl (layoutDeclaration factor) LayoutState.init).bitfieldChain.isSome
      = true <;> simp [h]

/-! ### Invariants of the member list and the running offset -/

theorem closeChain_invariant (factor : Int) (P : List StructualMember → Int → Prop)
    (hclose : ∀ members chain w offset, P members offset →
      P (adjustBitFieldStorage members chain w offset).1
        (u32 ((adjustBitFieldStorage members chain w offset).2.1 +
          (adjustBitFieldStorage members chain w offset).2.2 * factor)))
    (st : LayoutState) (h : P st.members st.offset) :
    P (closeChain factor st).members (closeChain factor st).offset :=
  hclose _ _ _ _ h

theorem layoutBitField_invariant (factor : Int) (P : List StructualMember → Int → Prop)
    (hclose : ∀ members chain w offset, P members offset →
      P (adjustBitFieldStorage members chain w offset).1
        (u32 ((adjustBitFieldStorage members chain w offset).2.1 +
          (adjustBitFieldStorage members chain w offset).2.2 * factor)))
    (st : LayoutState) (d : StructDeclarator) (width : Int) (h : P st.members st.offset) :
    P (layoutBitField factor st d width).1.members (layoutBitField factor st d width).1.offset := by
  rw [layoutBitField_eq]
  simp only
  have h1 : P (if st.bitfieldChain.isSome ∧ width > 0 ∧ u32 (maxWidth - st.bitOffset) ≤ width
        then resetChain (closeChain factor st) else st).members
      (if st.bitfieldChain.isSome ∧ width > 0 ∧ u32 (maxWidth - st.bitOffset) ≤ width
        then resetChain (closeChain factor st) else st).offset := by
    split
    · exact closeChain_invariant factor P hclose st h
    · exact h
  split
  · exact hclose _ _ _ _ h1
  · exact h1

theorem layoutDeclarator_invariant (factor : Int) (P : List StructualMember → Int → Prop)
    (definition : Option TypeDefiniton) (st : LayoutState) (d : StructDeclarator)
    (hclose : ∀ members chain w offset, P members offset →
      P (adjustBitFieldStorage members chain w offset).1
        (u32 ((adjustBitFieldStorage members chain w offset).2.1 +
          (adjustBitFieldStorage members chain w offset).2.2 * factor)))
    (hwidth : ∀ members offset type, P members offset →
      P (members ++ [createStructualMember d.name type offset]) offset)
    (hplain : d.width = none → ∀ members offset, P members offset →
      P (members ++ [createStructualMember d.name
          (if isVLAType d.type then makeErrorRef else d.type)
          (u32 (alignMemberOffset d.type offset))])
        (u32 (u32 (alignMemberOffset d.type offset) + computeTypeSizeInt d.type * factor)))
    (h : P st.members st.offset) :
    P (layoutDeclarator factor definition st d).members
      (layoutDeclarator factor definition st d).offset := by
  have hmem : ∀ (st' : LayoutState) (type : TypeRef), (d.width = none → type = d.type) →
      P st'.members st'.offset →
      P (layoutMember factor st' d type).members (layoutMember factor st' d type).offset := by
    intro st' type htype h'
    rw [layoutMember_members, layoutMember_offset]
    cases hw : d.width with
    | none =>
      have := hplain hw st'.members st'.offset h'
      simpa [memberOffset, hw, htype hw] using this
    | some w =>
      have := hwidth st'.members st'.offset (if isVLAType type then makeErrorRef else type) h'
      simpa [memberOffset, hw] using this
  rw [layoutDeclarator_eq]
  split
  · exact h
  · cases hw : d.width with
    | none =>
      simp only
      apply hmem _ _ (fun _ => rfl)
      split
      · exact closeChain_invariant factor P hclose st h
      · exact h
    | some w =>
      simp only
      cases hchk : checkIfBitfieldCorrect d.type d.name w with
      | none =>
        simp only
        have hb := layoutBitField_invariant factor P hclose st d w h
        split
        · exact hb
        · exact hmem _ _ (fun h' => by rw [hw] at h'; cases h') hb
      | some diagnostic =>
        simp only
        exact hmem _ _ (fun _ => rfl) h

theorem layoutMembers_invariant (factor : Int) (P : List StructualMember → Int → Prop)
    (decls : List StructDeclaration)
    (h0 : P [] 0)
    (hclose : ∀ members chain w offset, P members offset →
      P (adjustBitFieldStorage members chain w offset).1
        (u32 ((adjustBitFieldStorage members chain w offset).2.1 +
          (adjustBitFieldStorage members chain w offset).2.2 * factor)))
    (hanon : ∀ decl ∈ decls, decl.isAnonAggregate = true → ∀ members offset name,
      P members offset →
      P (members ++ [createStructualMember name decl.basicType offset])
        (u32 (offset + computeTypeSizeInt decl.basicType * factor)))
    (hwidth : ∀ decl ∈ decls, ∀ d ∈ decl.declarators, ∀ members offset type,
      P members offset → P (members ++ [createStructualMember d.name type offset]) offset)
    (hplain : ∀ decl ∈ decls, ∀ d ∈ decl.declarators, d.width = none →
      ∀ members offset, P members offset →
      P (members ++ [createStructualMember d.name
          (if isVLAType d.type then makeErrorRef else d.type)
          (u32 (alignMemberOffset d.type offset))])
        (u32 (u32 (alignMemberOffset d.type offset) + computeTypeSizeInt d.type * factor))) :
    (P (decls.foldl (layoutDeclaration factor) LayoutState.init).members
      (decls.foldl (layoutDeclaration factor) LayoutState.init).offset) ∧
    ∃ offset, P (layoutMembers factor decls) offset := by
  have hfold : P (decls.foldl (layoutDeclaration factor) LayoutState.init).members
      (decls.foldl (layoutDeclaration factor) LayoutState.init).offset := by
    apply layout_fold_invariant factor (fun st => P st.members st.offset) decls
      LayoutState.init h0
    · intro st decl hd ha h
      exact hanon decl hd ha st.members st.offset _ h
    · intro st decl d hd hdd h
      exact layoutDeclarator_invariant factor P decl.definition st d hclose
        (hwidth decl hd d hdd) (hplain decl hd d hdd) h
  refine ⟨hfold, ?_⟩
  rw [layoutMembers_eq]
  split
  · exact ⟨_, closeChain_invariant factor P hclose _ hfold⟩
  · exact ⟨_, hfold⟩

theorem alignMemberOffset_zero (type : TypeRef) (ha : 0 < typeAlignment type) :
    u32 (alignMemberOffset type 0) = 0 := by
  have h : ALIGN_SIZE 0 (typeAlignment type) = 0 := by
    unfold ALIGN_SIZE
    have : (0 + typeAlignment type - 1) / typeAlignment type = 0 :=
      Int.ediv_eq_zero_of_lt (by omega) (by omega)
    rw [this]; simp
  have hw : wrap32 0 = 0 := by decide
  simp [alignMemberOffset, hw, h, u32]

theorem checkFlexibleMember_offsets (decls : List StructDeclaration) (factor : Int)
    (members : List StructualMember) (flexible : Bool)
    (h : parseStructDeclarationList factor decls = some (members, flexible)) :
    members.map (fun m => (m.name, m.offset)) =
      (layoutMembers factor decls).map (fun m => (m.name, m.offset)) := by
  rw [parseStructDeclarationList_eq] at h
  cases hl : (layoutMembers factor decls).getLast? with
  | none => rw [hl] at h; cases h
  | some current =>
    rw [hl] at h
    cases hc : checkFlexibleMember current with
    | none => simp [hc] at h
    | some r =>
      obtain ⟨f, t⟩ := r
      simp only [hc, Option.some.injEq, Prod.mk.injEq] at h
      obtain ⟨hm, _⟩ := h
      have hsplit : layoutMembers factor decls =
          (layoutMembers factor decls).dropLast ++ [current] := by
        have hne : layoutMembers factor decls ≠ [] := by
          intro hnil; rw [hnil] at hl; cases hl
        rw [List.getLast?_eq_getLast _ hne] at hl
        cases hl
        exact (List.dropLast_append_getLast hne).symm
      rw [← hm]
      conv_rhs => rw [hsplit]
      simp

/-- C11: in a union (offset factor 0) whose plain members have types of positive alignment,
every member that the layout loop produces has offset 0: plain members, the member of an
anonymous nested aggregate, and bit-field members as well, also after a chain was given
its storage; the list that `parseStructDeclarationList` returns has the same names and
offsets. -/
theorem parseStructDeclarationList_union_offsets (decls : List StructDeclaration)
    (halign : ∀ decl ∈ decls, ∀ d ∈ decl.declarators, d.width = none →
      0 < typeAlignment d.type) :
    (∀ m ∈ layoutMembers 0 decls, m.offset = 0) ∧
    ∀ members flexible, parseStructDeclarationList 0 decls = some (members, flexible) →
      members.length = (layoutMembers 0 decls).length ∧ ∀ m ∈ members, m.offset = 0 := by
  have hinv := (layoutMembers_invariant 0
    (fun members offset => offset = 0 ∧ ∀ m ∈ members, m.offset = 0) decls
    ⟨rfl, fun m hm => by cases hm⟩
    (by
      rintro members chain w offset ⟨rfl, hm⟩
      have := adjustBitFieldStorage_zero members chain w hm
      refine ⟨?_, this.2⟩
      rw [this.1]; simp [u32])
    (by
      rintro decl _ _ members offset name ⟨rfl, hm⟩
      refine ⟨by simp [u32], ?_⟩
      intro m hmem
      rcases List.mem_append.1 hmem with h | h
      · exact hm m h
      · rw [List.mem_singleton.1 h]; rfl)
    (by
      rintro decl _ d _ members offset type ⟨rfl, hm⟩
      refine ⟨rfl, ?_⟩
      intro m hmem
      rcases List.mem_append.1 hmem with h | h
      · exact hm m h
      · rw [List.mem_singleton.1 h]; rfl)
    (by
      rintro decl hd d hdd hw members offset ⟨rfl, hm⟩
      have h0 := alignMemberOffset_zero d.type (halign decl hd d hdd hw)
      rw [h0]
      refine ⟨by simp [u32], ?_⟩
      intro m hmem
      rcases List.mem_append.1 hmem with h | h
      · exact hm m h
      · rw [List.mem_singleton.1 h]; rfl)).2
  obtain ⟨_, _, hall⟩ := hinv
  refine ⟨hall, ?_⟩
  intro members flexible hp
  have hmap := checkFlexibleMember_offsets decls 0 members flexible hp
  constructor
  · have := congrArg List.length hmap
    simpa using this
  · intro m hm
    have h1 : (m.name, m.offset) ∈ members.map (fun m => (m.name, m.offset)) :=
      List.mem_map.2 ⟨m, hm, rfl⟩
    rw [hmap] at h1
    obtain ⟨m', hm', heq⟩ := List.mem_map.1 h1
    have := hall m' hm'
    simp only [Prod.mk.injEq] at heq
    omega

/-- C11 witness: the body of `union { char c; int i; struct { ... }; }` meets the
hypothesis; its members `c`, `i` and `$1` are all at offset 0. -/
theorem parseStructDeclarationList_union_offsets_witness :
    (parseStructDeclarationList 0 unionWithAnon).isSome = true ∧
    (layoutMembers 0 unionWithAnon).map (fun m => m.name) = [some "c", some "i", some "$1"] ∧
    ∀ m ∈ layoutMembers 0 unionWithAnon, m.offset = 0 :=
  ⟨by decide, by decide,
    (parseStructDeclarationList_union_offsets unionWithAnon (by decide)).1⟩

/-! ## The flexible member check -/

theorem checkFlexibleMember_flag (member : StructualMember) (flexible : Bool) (type : TypeRef)
    (h : checkFlexibleMember member = some (flexible, type)) :
    (flexible = true ↔
      (∃ elementType, member.type = .TR_ARRAY elementType UNKNOWN_SIZE) ∨
      (isCompositeType member.type = true ∧ ∃ d definition, member.type = .TR_VALUE d ∧
        d.typeDefinition = some definition ∧ definition.isFlexible = true)) ∧
    ((∃ elementType, member.type = .TR_ARRAY elementType UNKNOWN_SIZE ∧
        type = .TR_ARRAY elementType 0) ∨
      ((¬ ∃ elementType, member.type = .TR_ARRAY elementType UNKNOWN_SIZE) ∧
        type = member.type)) := by
  unfold checkFlexibleMember at h
  cases hm : member.type with
  | TR_ARRAY elementType size =>
    rw [hm] at h
    simp only at h
    by_cases hs : size = UNKNOWN_SIZE
    · subst hs
      simp only [if_true, Option.some.injEq, Prod.mk.injEq] at h
      obtain ⟨rfl, rfl⟩ := h
      exact ⟨by simp, Or.inl ⟨elementType, rfl, rfl⟩⟩
    · simp only [hs, if_false, Option.some.injEq, Prod.mk.injEq] at h
      obtain ⟨rfl, rfl⟩ := h
      refine ⟨?_, Or.inr ⟨?_, rfl⟩⟩
      · simp [isCompositeType, isStructualType, isUnionType, hs]
      · simp [hs]
  | TR_VALUE d =>
    rw [hm] at h
    simp only at h
    by_cases hc : isCompositeType (.TR_VALUE d) = true
    · simp only [hc, if_true, Option.map_eq_some'] at h
      obtain ⟨definition, hd, hr⟩ := h
      simp only [Prod.mk.injEq] at hr
      obtain ⟨rfl, rfl⟩ := hr
      refine ⟨?_, Or.inr ⟨by simp, rfl⟩⟩
      constructor
      · intro hf
        exact Or.inr ⟨hc, d, definition, rfl, hd, hf⟩
      · rintro (⟨e, he⟩ | ⟨_, d', definition', hd', hdef, hf⟩)
        · cases he
        · cases hd'
          rw [hd] at hdef
          cases hdef
          exact hf
    · simp only [hc, Option.some.injEq, Prod.mk.injEq] at h
      obtain ⟨rfl, rfl⟩ := h
      refine ⟨?_, Or.inr ⟨by simp, rfl⟩⟩
      simp [hc]
  | TR_POINTED p =>
    rw [hm] at h
    simp [isCompositeType, isStructualType, isUnionType] at h
    obtain ⟨rfl, rfl⟩ := h
    simp [isCompositeType, isStructualType, isUnionType]
  | TR_VLA p =>
    rw [hm] at h
    simp [isCompositeType, isStructualType, isUnionType] at h
    obtain ⟨rfl, rfl⟩ := h
    simp [isCompositeType, isStructualType, isUnionType]
  | TR_FUNCTION p =>
    rw [hm] at h
    simp [isCompositeType, isStructualType, isUnionType] at h
    obtain ⟨rfl, rfl⟩ := h
    simp [isCompositeType, isStructualType, isUnionType]
  | TR_BITFIELD s o w =>
    rw [hm] at h
    simp [isCompositeType, isStructualType, isUnionType] at h
    obtain ⟨rfl, rfl⟩ := h
    simp [isCompositeType, isStructualType, isUnionType]

/-- C15 (failing input): for `typedef int A[]; struct { A x; A y; }` both members point to
the one type
object of the typedef. The member `x` is an incomplete array and is not the last member;
the call of `checkFlexibleMember` on the last member `y` sets the flag and writes size 0
into the shared object, so that the size of `x` is rewritten as well. -/
theorem checkFlexibleMember_rewrites_shared_type :
    structSharedTypedef.map (fun m => (m.name, m.type)) = [(some "x", 0), (some "y", 0)] ∧
    (structSharedTypedef.head?.bind fun x => x.typeIn arenaTypedefA) =
      some (.TR_ARRAY intType UNKNOWN_SIZE) ∧
    (structSharedTypedef.getLast?.bind fun y => checkFlexibleMemberRef arenaTypedefA y) =
      some (true, [.TR_ARRAY intType 0]) ∧
    (structSharedTypedef.head?.bind fun x => x.typeIn [.TR_ARRAY intType 0]) =
      some (.TR_ARRAY intType 0) := by
  decide

/-! ## Zero-width bit-fields -/

theorem bitFieldStorageClass_le (w : Int) (cls : TypeId × TypeId × Int)
    (h : bitFieldStorageClass w = some cls) : w ≤ 64 := by
  unfold bitFieldStorageClass at h
  split_ifs at h <;> omega

theorem layoutDeclarator_zeroWidth (factor : Int) (definition : Option TypeDefiniton)
    (st : LayoutState) (d : StructDeclarator) (k : Nat) (sid uid : TypeId) (align : Int)
    (hz : d.isZeroWidth definition = true)
    (hk : st.bitfieldChain = some k)
    (hw0 : 0 ≤ st.bfChainWidth)
    (hcls : bitFieldStorageClass st.bfChainWidth = some (sid, uid, align)) :
    layoutDeclarator factor definition st d =
      { st with
        members := st.members.take k ++ (st.members.drop k).map
          (adjustChainMember (makePrimitiveType sid) (makePrimitiveType uid)
            (u32 (ALIGN_SIZE st.offset align)))
        offset := u32 (u32 (ALIGN_SIZE st.offset align) + align * factor)
        bitOffset := 0
        bfChainWidth := 0
        bitfieldChain := none
        diagnostics :=
          if d.name.isSome then st.diagnostics ++ [.DIAG_ZERO_NAMED_BIT_FIELD]
          else st.diagnostics } := by
  obtain ⟨name, type, width⟩ := d
  simp only [StructDeclarator.isZeroWidth, Bool.and_eq_true, Bool.not_eq_true',
    beq_iff_eq, Option.isNone_iff_eq_none] at hz
  obtain ⟨⟨hdn, hw⟩, hchk⟩ := hz
  subst hw
  have hle := bitFieldStorageClass_le _ _ hcls
  have e1 : u32 (st.bfChainWidth + 0) = st.bfChainWidth := by
    rw [add_zero]; exact u32_of_range hw0 (by omega)
  have e2 : u32 (max st.bfChainWidth 0) = st.bfChainWidth := by
    rw [max_eq_left hw0]; exact u32_of_range hw0 (by omega)
  have e3 : (if factor ≠ 0 then u32 (st.bfChainWidth + 0) else u32 (max st.bfChainWidth 0)) =
      st.bfChainWidth := by
    split
    · exact e1
    · exact e2
  rw [layoutDeclarator_eq]
  simp only [hdn, hchk, layoutBitField_eq, gt_iff_lt, lt_self_iff_false, false_and, and_false,
    if_false, if_true, e3, closeChain, resetChain, adjustBitFieldStorage, hcls, hk]
  simp

/-- C13 (counterexample): in `union { unsigned a : 3; unsigned : 0; unsigned b : 5; }` the
zero-width bit-field closes the open chain, whose member `a` gets a one-byte storage at
offset 0, and the running offset is 0 afterwards as before: it does not advance past the
storage. The member `b` is at offset 0 as well. -/
theorem layoutDeclarator_zeroWidth_union_keeps_offset :
    unionAfterA.bitfieldChain = some 0 ∧ unionAfterA.offset = 0 ∧
    (layoutDeclarator 0 none unionAfterA
      { name := none, type := makePrimitiveType .T_U4, width := some 0 }).members =
      [{ name := some "a", type := .TR_BITFIELD (makePrimitiveType .T_U1) 0 3, offset := 0,
         isFlexible := false }] ∧
    (layoutDeclarator 0 none unionAfterA
      { name := none, type := makePrimitiveType .T_U4, width := some 0 }).bitfieldChain = none ∧
    (layoutDeclarator 0 none unionAfterA
      { name := none, type := makePrimitiveType .T_U4, width := some 0 }).offset = 0 ∧
    (layoutMembers 0 structZeroWidth).map (fun m => m.key) =
      [(some "a", 0, some 0), (some "b", 0, some 0)] := by
  decide

/-- C13 (amended): a zero-width bit-field that `checkIfBitfieldCorrect` accepts, met while
a chain is open from member `k` on with a chain width that has a storage class, adds no
member and closes the chain: the members from `k` on get the storage type of the class
(unsigned for an unsigned declared type) and the aligned byte offset, the running offset
becomes that offset plus the storage size times the offset factor (in a struct the end of
the storage, in a union the aligned offset itself), the chain is `NULL` and both bit
counters are 0; a bit-field of positive width that follows is appended at bit offset 0 and
is the head of a new chain. -/
theorem parseStructDeclarationList_zeroWidth (factor : Int)
    (definition : Option TypeDefiniton) (st : LayoutState) (d : StructDeclarator) (k : Nat)
    (sid uid : TypeId) (align : Int)
    (hz : d.isZeroWidth definition = true)
    (hk : st.bitfieldChain = some k)
    (hw0 : 0 ≤ st.bfChainWidth)
    (hcls : bitFieldStorageClass st.bfChainWidth = some (sid, uid, align)) :
    (layoutDeclarator factor definition st d).members =
      st.members.take k ++ (st.members.drop k).map
        (adjustChainMember (makePrimitiveType sid) (makePrimitiveType uid)
          (u32 (ALIGN_SIZE st.offset align))) ∧
    (layoutDeclarator factor definition st d).members.length = st.members.length ∧
    (layoutDeclarator factor definition st d).bitfieldChain = none ∧
    (layoutDeclarator factor definition st d).bitOffset = 0 ∧
    (layoutDeclarator factor definition st d).bfChainWidth = 0 ∧
    (layoutDeclarator factor definition st d).offset =
      u32 (u32 (ALIGN_SIZE st.offset align) + align * factor) ∧
    (factor = 1 → 0 ≤ st.offset → st.offset + 16 < 2 ^ 32 →
      (layoutDeclarator factor definition st d).offset = ALIGN_SIZE st.offset align + align ∧
      st.offset < (layoutDeclarator factor definition st d).offset) ∧
    ∀ (definition2 : Option TypeDefiniton) (d2 : StructDeclarator) (w2 : Int),
      d2.width = some w2 → d2.isBitField definition2 = true →
      (layoutDeclarator factor definition2 (layoutDeclarator factor definition st d) d2).members =
        (layoutDeclarator factor definition st d).members ++
          [createStructualMember d2.name (makeBitFieldType d2.type 0 (u32 w2))
            (layoutDeclarator factor definition st d).offset] ∧
      (layoutDeclarator factor definition2 (layoutDeclarator factor definition st d)
          d2).bitfieldChain = some (layoutDeclarator factor definition st d).members.length := by
  have hstep := layoutDeclarator_zeroWidth factor definition st d k sid uid align hz hk hw0 hcls
  have halign := bitFieldStorageClass_align _ _ _ _ hcls
  refine ⟨by rw [hstep], ?_, by rw [hstep], by rw [hstep], by rw [hstep], by rw [hstep], ?_, ?_⟩
  · rw [hstep]
    simp only [List.length_append, List.length_map, List.length_take, List.length_drop]
    omega
  · intro hf h0 hlt
    subst hf
    have hb := ALIGN_SIZE_bounds st.offset align (by omega)
    have e1 : u32 (ALIGN_SIZE st.offset align) = ALIGN_SIZE st.offset align :=
      u32_of_range (by omega) (by norm_num at hlt ⊢; omega)
    have e2 : u32 (ALIGN_SIZE st.offset align + align * 1) = ALIGN_SIZE st.offset align + align := by
      rw [mul_one]
      exact u32_of_range (by omega) (by norm_num at hlt ⊢; omega)
    rw [hstep]
    simp only [e1, e2]
    constructor
    · trivial
    · omega
  · intro definition2 d2 w2 hw2 hv
    have hc : (layoutDeclarator factor definition st d).bitfieldChain = none := by rw [hstep]
    have hb : (layoutDeclarator factor definition st d).bitOffset = 0 := by rw [hstep]
    generalize layoutDeclarator factor definition st d = st1 at hc hb ⊢
    simp only [StructDeclarator.isBitField, Bool.and_eq_true, Bool.not_eq_true', hw2,
      decide_eq_true_eq, Option.isNone_iff_eq_none] at hv
    obtain ⟨hdn, hpos, hchk⟩ := hv
    have hne : w2 ≠ 0 := by omega
    rw [layoutDeclarator_eq]
    simp only [hdn, hw2, hchk, layoutBitField_eq, hc, Option.isSome_none, false_and, if_false,
      hne, hb, Bool.false_eq_true]
    rw [layoutMember_members, layoutMember_chain]
    simp [memberOffset, hw2, hc, makeBitFieldType, isVLAType]

/-- C13 witness: in `struct { unsigned a : 3; unsigned : 0; unsigned b : 5; }` the
zero-width field adds no member, `a` is stored in one byte at offset 0, the running offset
becomes 1, and `b` starts a new chain at bit offset 0 in the byte at offset 1. -/
theorem parseStructDeclarationList_zeroWidth_witness :
    layoutMembers 1 structZeroWidth =
      [{ name := some "a", type := .TR_BITFIELD (makePrimitiveType .T_U1) 0 3, offset := 0,
         isFlexible := false },
       { name := some "b", type := .TR_BITFIELD (makePrimitiveType .T_U1) 0 5, offset := 1,
         isFlexible := false }] ∧
    (layoutDeclarator 1 none
      (layoutDeclarator 1 none LayoutState.init
        { name := some "a", type := makePrimitiveType .T_U4, width := some 3 })
      { name := none, type := makePrimitiveType .T_U4, width := some 0 }).offset = 1 :=
  ⟨by decide,
    ((parseStructDeclarationList_zeroWidth 1 none
      (layoutDeclarator 1 none LayoutState.init
        { name := some "a", type := makePrimitiveType .T_U4, width := some 3 })
      { name := none, type := makePrimitiveType .T_U4, width := some 0 } 0 .T_S1 .T_U1 1
      (by decide) (by decide) (by decide) (by decide)).2.2.2.2.2.1).trans (by decide)⟩

/-! ## Scopes and symbols -/

theorem ctxTypedefOuter_eq :
    ctxTypedefOuter =
      { scopes := [{ parent := none, symbols := [("T", 0)] }, { parent := some 0, symbols := [] }]
        symbols := [{ kind := .TypedefSymbol, name := "T", type := some intType }]
        currentScope := some 1
        errors := [] } := by
  decide

theorem scopesFrom_get (n : Nat) (scopes : List Scope) (i j : Nat) (scope : Scope)
    (h : scopesFrom n scopes i = true) (hj : scopes.get? j = some scope) :
    scope.parentBelow (i + j) = true ∧ scope.symbolsBelow n = true := by
  induction scopes generalizing i j with
  | nil => simp at hj
  | cons x xs ih =>
    simp only [scopesFrom, Bool.and_eq_true] at h
    cases j with
    | zero =>
      simp only [List.get?_cons_zero, Option.some.injEq] at hj
      subst hj
      exact ⟨h.1.1, h.1.2⟩
    | succ j =>
      simp only [List.get?_cons_succ] at hj
      have := ih (i + 1) j h.2 hj
      rw [show i + (j + 1) = i + 1 + j by omega]
      exact this

theorem parent_lt (n : Nat) (scopes : List Scope) (s p : Nat) (scope : Scope)
    (h : scopesFrom n scopes 0 = true) (hs : scopes.get? s = some scope)
    (hp : scope.parent = some p) : p < s := by
  have := (scopesFrom_get n scopes 0 s scope h hs).1
  simpa [Scope.parentBelow, hp] using this

theorem getFromHashMap_lt (map : List (String × Nat)) (name : String) (sb n : Nat)
    (h : (map.all fun binding => decide (binding.2 < n)) = true)
    (hg : getFromHashMap map name = some sb) : sb < n := by
  induction map with
  | nil => simp [getFromHashMap] at hg
  | cons b map ih =>
    obtain ⟨k, v⟩ := b
    simp only [List.all_cons, Bool.and_eq_true, decide_eq_true_eq] at h
    simp only [getFromHashMap] at hg
    split at hg
    · cases hg; exact h.1
    · exact ih h.2 hg

theorem findSymbolFrom_none (scopes : List Scope) (name : String) (fuel : Nat) :
    findSymbolFrom scopes name fuel none = none := by
  cases fuel <;> rfl

theorem findSymbolFrom_reaches (n : Nat) (scopes : List Scope) (name : String)
    (h : scopesFrom n scopes 0 = true) (fuel s : Nat) (hs : s < fuel) (sb : Nat) :
    findSymbolFrom scopes name fuel (some s) = some sb ↔
      ∃ t scope, Reaches scopes name (some s) t ∧ scopes.get? t = some scope ∧
        getFromHashMap scope.symbols name = some sb := by
  induction fuel generalizing s with
  | zero => omega
  | succ fuel ih =>
    simp only [findSymbolFrom]
    cases hg : scopes.get? s with
    | none =>
      simp only
      constructor
      · intro hc; cases hc
      · rintro ⟨t, scope, hr, _, _⟩
        cases hr with
        | here _ scope' hs' => rw [hg] at hs'; cases hs'
        | up _ scope' _ hs' _ _ => rw [hg] at hs'; cases hs'
    | some scope =>
      simp only
      cases hb : getFromHashMap scope.symbols name with
      | some sb' =>
        simp only [Option.some.injEq]
        constructor
        · rintro rfl
          exact ⟨s, scope, Reaches.here s scope hg, hg, hb⟩
        · rintro ⟨t, scope', hr, hg', hb'⟩
          cases hr with
          | here _ scope'' hs' =>
            rw [hg] at hg'; cases hg'
            rw [hb] at hb'; cases hb'; rfl
          | up _ scope'' _ hs' hn _ =>
            rw [hg] at hs'; cases hs'
            rw [hb] at hn; cases hn
      | none =>
        simp only
        cases hp : scope.parent with
        | none =>
          rw [findSymbolFrom_none]
          constructor
          · intro hc; cases hc
          · rintro ⟨t, scope', hr, hg', hb'⟩
            cases hr with
            | here _ scope'' hs' =>
              rw [hg] at hg'; cases hg'
              rw [hb] at hb'; cases hb'
            | up _ scope'' _ hs' hn hr' =>
              rw [hg] at hs'; cases hs'
              rw [hp] at hr'; cases hr'
        | some p =>
          have hlt := parent_lt n scopes s p scope h hg hp
          rw [ih p (by omega)]
          constructor
          · rintro ⟨t, scope', hr, hg', hb'⟩
            exact ⟨t, scope', Reaches.up s scope t hg hb (by rw [hp]; exact hr), hg', hb'⟩
          · rintro ⟨t, scope', hr, hg', hb'⟩
            cases hr with
            | here _ scope'' hs' =>
              rw [hg] at hg'; cases hg'
              rw [hb] at hb'; cases hb'
            | up _ scope'' _ hs' hn hr' =>
              rw [hg] at hs'; cases hs'
              rw [hp] at hr'
              exact ⟨t, scope', hr', hg', hb'⟩

theorem findSymbolFrom_eq_none (n : Nat) (scopes : List Scope) (name : String)
    (h : scopesFrom n scopes 0 = true) (fuel s : Nat) (hs : s < fuel)
    (hlen : s < scopes.length) :
    findSymbolFrom scopes name fuel (some s) = none ↔
      ∀ t scope, OnChain scopes (some s) t → scopes.get? t = some scope →
        getFromHashMap scope.symbols name = none := by
  induction fuel generalizing s with
  | zero => omega
  | succ fuel ih =>
    simp only [findSymbolFrom]
    obtain ⟨scope, hg⟩ : ∃ scope, scopes.get? s = some scope := by
      rw [List.get?_eq_getElem?, List.getElem?_eq_getElem hlen]; exact ⟨_, rfl⟩
    rw [hg]
    simp only
    cases hb : getFromHashMap scope.symbols name with
    | some sb' =>
      simp only
      constructor
      · intro hc; cases hc
      · intro hall
        have := hall s scope (OnChain.here s scope hg) hg
        rw [hb] at this; cases this
    | none =>
      simp only
      cases hp : scope.parent with
      | none =>
        rw [findSymbolFrom_none]
        simp only [true_iff]
        intro t scope' hc hg'
        cases hc with
        | here _ scope'' hs' => rw [hg] at hg'; cases hg'; exact hb
        | up _ scope'' _ hs' hc' =>
          rw [hg] at hs'; cases hs'
          rw [hp] at hc'; cases hc'
      | some p =>
        have hlt := parent_lt n scopes s p scope h hg hp
        rw [ih p (by omega) (by omega)]
        constructor
        · intro hall t scope' hc hg'
          cases hc with
          | here _ scope'' hs' => rw [hg] at hg'; cases hg'; exact hb
          | up _ scope'' _ hs' hc' =>
            rw [hg] at hs'; cases hs'
            rw [hp] at hc'
            exact hall t scope' hc' hg'
        · intro hall t scope' hc hg'
          exact hall t scope' (OnChain.up s scope t hg (by rw [hp]; exact hc)) hg'

theorem findSymbolFrom_lt (n : Nat) (scopes : List Scope) (name : String)
    (h : scopesFrom n scopes 0 = true) (fuel : Nat) (start : Option Nat) (sb : Nat)
    (hf : findSymbolFrom scopes name fuel start = some sb) : sb < n := by
  induction fuel generalizing start with
  | zero => cases hf
  | succ fuel ih =>
    cases start with
    | none => cases hf
    | some s =>
      simp only [findSymbolFrom] at hf
      cases hg : scopes.get? s with
      | none => rw [hg] at hf; cases hf
      | some scope =>
        rw [hg] at hf
        simp only at hf
        cases hb : getFromHashMap scope.symbols name with
        | some sb' =>
          rw [hb] at hf
          cases hf
          exact getFromHashMap_lt _ _ _ _ (scopesFrom_get n scopes 0 s scope h hg).2 hb
        | none =>
          rw [hb] at hf
          exact ih _ hf

theorem findSymbolFrom_set_below (n : Nat) (scopes : List Scope) (name : String)
    (h : scopesFrom n scopes 0 = true) (c : Nat) (x : Scope) (fuel p : Nat) (hp : p < c) :
    findSymbolFrom (scopes.set c x) name fuel (some p) =
      findSymbolFrom scopes name fuel (some p) := by
  induction fuel generalizing p with
  | zero => rfl
  | succ fuel ih =>
    simp only [findSymbolFrom]
    have hne : c ≠ p := by omega
    rw [List.get?_eq_getElem?, List.get?_eq_getElem?, List.getElem?_set_ne hne]
    cases hg : scopes[p]? with
    | none => rfl
    | some scope =>
      simp only
      cases hb : getFromHashMap scope.symbols name with
      | some sb => rfl
      | none =>
        simp only
        cases hpar : scope.parent with
        | none => rw [findSymbolFrom_none, findSymbolFrom_none]
        | some q =>
          have hlt := parent_lt n scopes p q scope h (by rw [List.get?_eq_getElem?]; exact hg) hpar
          exact ih q (by omega)

theorem findSymbolFrom_set_reaches (n : Nat) (scopes : List Scope) (name : String)
    (h : scopesFrom n scopes 0 = true) (c : Nat) (scope : Scope) (sym : Nat)
    (hc : scopes.get? c = some scope) (d : Nat) (hr : Reaches scopes name (some d) c)
    (fuel : Nat) (hd : d < fuel) :
    findSymbolFrom
      (scopes.set c { scope with symbols := putToHashMap scope.symbols name sym })
      name fuel (some d) = some sym := by
  have hclen : c < scopes.length := by
    rw [List.get?_eq_getElem?] at hc
    exact (List.getElem?_eq_some_iff.1 hc).1
  have key : ∀ start t, Reaches scopes name start t → t = c → ∀ d fuel, start = some d →
      d < fuel →
      findSymbolFrom
        (scopes.set c { scope with symbols := putToHashMap scope.symbols name sym })
        name fuel (some d) = some sym := by
    intro start t hr
    induction hr with
    | here s scope' hs =>
      intro ht d fuel hstart hd
      cases hstart
      subst ht
      cases fuel with
      | zero => omega
      | succ fuel =>
        simp only [findSymbolFrom]
        rw [List.get?_eq_getElem?, List.getElem?_set_self hclen]
        simp [putToHashMap, getFromHashMap]
    | up s scope' t hs hn hr' ih =>
      intro ht d fuel hstart hd
      cases hstart
      subst ht
      cases fuel with
      | zero => omega
      | succ fuel =>
        by_cases hsc : t = s
        · subst hsc
          simp only [findSymbolFrom]
          rw [List.get?_eq_getElem?, List.getElem?_set_self hclen]
          simp [putToHashMap, getFromHashMap]
        · simp only [findSymbolFrom]
          rw [List.get?_eq_getElem?, List.getElem?_set_ne hsc, ← List.get?_eq_getElem?, hs]
          simp only [hn]
          cases hpar : scope'.parent with
          | none => rw [hpar] at hr'; cases hr'
          | some q =>
            have hlt := parent_lt n scopes s q scope' h hs hpar
            exact ih rfl q fuel hpar (by omega)
  exact key (some d) c hr rfl d fuel rfl hd

theorem scopesFrom_iff (n : Nat) (scopes : List Scope) (i : Nat) :
    scopesFrom n scopes i = true ↔
      ∀ j scope, scopes.get? j = some scope →
        scope.parentBelow (i + j) = true ∧ scope.symbolsBelow n = true := by
  constructor
  · intro h j scope hj
    exact scopesFrom_get n scopes i j scope h hj
  · induction scopes generalizing i with
    | nil => intro _; rfl
    | cons x xs ih =>
      intro h
      simp only [scopesFrom, Bool.and_eq_true]
      refine ⟨h 0 x rfl, ih (i + 1) ?_⟩
      intro j scope hj
      have := h (j + 1) scope (by simpa using hj)
      rw [show i + 1 + j = i + (j + 1) by omega]
      exact this

theorem symbolsBelow_mono (scope : Scope) (n m : Nat) (hnm : n ≤ m)
    (h : scope.symbolsBelow n = true) : scope.symbolsBelow m = true := by
  simp only [Scope.symbolsBelow, List.all_eq_true, decide_eq_true_eq] at h ⊢
  intro b hb
  have := h b hb
  omega

theorem findSymbolFrom_fuel (n : Nat) (scopes : List Scope) (name : String)
    (h : scopesFrom n scopes 0 = true) (fuel fuel2 s : Nat) (hs : s < fuel) (hs2 : s < fuel2) :
    findSymbolFrom scopes name fuel (some s) = findSymbolFrom scopes name fuel2 (some s) := by
  apply Option.ext
  intro sb
  simp only [Option.mem_def]
  rw [findSymbolFrom_reaches n scopes name h fuel s hs,
    findSymbolFrom_reaches n scopes name h fuel2 s hs2]

theorem declareSymbol_wellFormed (ctx : ParserContext) (kind : SymbolKind) (name : String)
    (ctx2 : ParserContext) (s : Nat) (hwf : ctx.wellFormed = true)
    (hd : declareSymbol ctx kind name = some (ctx2, s)) : ctx2.wellFormed = true := by
  unfold declareSymbol at hd
  cases hc : ctx.currentScope with
  | none => rw [hc] at hd; cases hd
  | some c =>
    rw [hc] at hd
    simp only at hd
    cases hg : ctx.scopes.get? c with
    | none => rw [hg] at hd; cases hd
    | some scope =>
      rw [hg] at hd
      simp only [Option.some.injEq, Prod.mk.injEq] at hd
      obtain ⟨rfl, rfl⟩ := hd
      simp only [ParserContext.wellFormed, Bool.and_eq_true, hc, decide_eq_true_eq] at hwf ⊢
      obtain ⟨hsc, hlen⟩ := hwf
      refine ⟨?_, by simpa using hlen⟩
      rw [scopesFrom_iff] at hsc ⊢
      intro j scope2 hj
      rw [List.get?_eq_getElem?] at hj
      by_cases hcj : c = j
      · subst hcj
        rw [List.getElem?_set_self hlen] at hj
        cases hj
        have := hsc c scope hg
        refine ⟨this.1, ?_⟩
        have h2 := symbolsBelow_mono scope _ (ctx.symbols.length + 1) (by omega) this.2
        simp only [Scope.symbolsBelow, putToHashMap, List.all_cons, Bool.and_eq_true,
          decide_eq_true_eq, List.length_append, List.length_singleton] at h2 ⊢
        exact ⟨by omega, h2⟩
      · rw [List.getElem?_set_ne hcj] at hj
        have := hsc j scope2 (by rw [List.get?_eq_getElem?]; exact hj)
        refine ⟨this.1, ?_⟩
        have h2 := symbolsBelow_mono scope2 _ (ctx.symbols.length + 1) (by omega) this.2
        simpa using h2

theorem findSymbol_inScope_parent (ctx : ParserContext) (name : String) (c : Nat)
    (scope x : Scope) (symbols : List Symbol) (errors : List String)
    (hwf : scopesFrom ctx.symbols.length ctx.scopes 0 = true)
    (hg : ctx.scopes.get? c = some scope) :
    findSymbol
      (ParserContext.inScope
        { scopes := ctx.scopes.set c x, symbols := symbols, currentScope := ctx.currentScope,
          errors := errors } scope.parent) name =
      findSymbol (ctx.inScope scope.parent) name := by
  simp only [findSymbol, ParserContext.inScope, List.length_set]
  cases hp : scope.parent with
  | none => rw [findSymbolFrom_none, findSymbolFrom_none]
  | some p =>
    have hlt := parent_lt _ ctx.scopes c p scope hwf hg hp
    exact findSymbolFrom_set_below _ ctx.scopes name hwf c x _ p hlt

/-- C18: in a context built by `newScope` and `declareSymbol`, `findSymbol` returns the
symbol that `name` is bound to in the first scope, on the parent chain from the current
scope, that binds `name`, and returns `NULL` exactly when no scope on that chain binds
`name`; more iterations than there are scope objects are never needed. After
`declareSymbol` in the current scope `c`, the new symbol is found from `c` and from every
scope whose parent chain reaches `c` through scopes that do not bind `name`; from the
parent of `c` every lookup gives what it gave before, and never the new symbol. -/
theorem findSymbol_declareSymbol (ctx : ParserContext) (name : String)
    (hwf : ctx.wellFormed = true) :
    (∀ sb, findSymbol ctx name = some sb ↔
      ∃ t scope, Reaches ctx.scopes name ctx.currentScope t ∧
        ctx.scopes.get? t = some scope ∧ getFromHashMap scope.symbols name = some sb) ∧
    (findSymbol ctx name = none ↔
      ∀ t scope, OnChain ctx.scopes ctx.currentScope t → ctx.scopes.get? t = some scope →
        getFromHashMap scope.symbols name = none) ∧
    (∀ fuel, ctx.scopes.length ≤ fuel →
      findSymbolFrom ctx.scopes name fuel ctx.currentScope = findSymbol ctx name) ∧
    ∀ kind c scope, ctx.currentScope = some c → ctx.scopes.get? c = some scope →
      ∃ ctx2, declareSymbol ctx kind name = some (ctx2, ctx.symbols.length) ∧
        ctx2.wellFormed = true ∧
        ctx2.currentScope = some c ∧
        ctx2.symbols.get? ctx.symbols.length =
          some { kind := kind, name := name, type := none } ∧
        findSymbol ctx2 name = some ctx.symbols.length ∧
        (∀ d, Reaches ctx.scopes name (some d) c →
          findSymbol (ctx2.inScope (some d)) name = some ctx.symbols.length) ∧
        (∀ other, findSymbol (ctx2.inScope scope.parent) other =
          findSymbol (ctx.inScope scope.parent) other) ∧
        findSymbol (ctx2.inScope scope.parent) name ≠ some ctx.symbols.length := by
  have hwf0 := hwf
  simp only [ParserContext.wellFormed, Bool.and_eq_true] at hwf
  obtain ⟨hsc, hcur⟩ := hwf
  refine ⟨?_, ?_, ?_, ?_⟩
  · intro sb
    cases hc : ctx.currentScope with
    | none =>
      simp only [findSymbol, hc, findSymbolFrom_none]
      constructor
      · intro h; cases h
      · rintro ⟨t, scope, hr, _, _⟩; cases hr
    | some c =>
      simp only [hc, decide_eq_true_eq] at hcur
      simp only [findSymbol, hc]
      exact findSymbolFrom_reaches _ ctx.scopes name hsc _ c hcur sb
  · cases hc : ctx.currentScope with
    | none =>
      simp only [findSymbol, hc, findSymbolFrom_none, true_iff]
      intro t scope hch; cases hch
    | some c =>
      simp only [hc, decide_eq_true_eq] at hcur
      simp only [findSymbol, hc]
      exact findSymbolFrom_eq_none _ ctx.scopes name hsc _ c hcur hcur
  · intro fuel hfuel
    cases hc : ctx.currentScope with
    | none => simp only [findSymbol, hc, findSymbolFrom_none]
    | some c =>
      simp only [hc, decide_eq_true_eq] at hcur
      simp only [findSymbol, hc]
      exact findSymbolFrom_fuel _ ctx.scopes name hsc _ _ c (by omega) hcur
  · intro kind c scope hc hg
    have hclen : c < ctx.scopes.length := by
      simpa [hc] using hcur
    have hdecl : declareSymbol ctx kind name =
        some ({ ctx with
                symbols := ctx.symbols ++ [{ kind := kind, name := name, type := none }]
                scopes := ctx.scopes.set c
                  { scope with symbols := putToHashMap scope.symbols name ctx.symbols.length } },
              ctx.symbols.length) := by
      simp only [declareSymbol, hc, hg]
    refine ⟨_, hdecl, declareSymbol_wellFormed ctx kind name _ _ hwf0 hdecl, hc, ?_, ?_, ?_,
      ?_, ?_⟩
    · simp
    · simp only [findSymbol, hc, List.length_set]
      exact findSymbolFrom_set_reaches _ ctx.scopes name hsc c scope _ hg c
        (Reaches.here c scope hg) _ hclen
    · intro d hr
      have hdlen : d < ctx.scopes.length := by
        cases hr with
        | here _ scope' hs => exact hclen
        | up _ scope' _ hs _ _ =>
          rw [List.get?_eq_getElem?] at hs
          exact (List.getElem?_eq_some_iff.1 hs).1
      simp only [findSymbol, ParserContext.inScope, List.length_set]
      exact findSymbolFrom_set_reaches _ ctx.scopes name hsc c scope _ hg d hr _ hdlen
    · intro other
      exact findSymbol_inScope_parent ctx other c scope _ _ _ hsc hg
    · rw [findSymbol_inScope_parent ctx name c scope _ _ _ hsc hg]
      intro hf
      have := findSymbolFrom_lt _ ctx.scopes name hsc _ _ _ hf
      omega

/-- C18 witness: in a block scope inside a file scope that binds `T`, `T` is found and `x`
is not; after `declareSymbol` of `x` in the block, `x` is found from the block and not
from the file scope. -/
theorem findSymbol_declareSymbol_witness :
    ctxTypedefOuter.wellFormed = true ∧
    findSymbol ctxTypedefOuter "T" = some 0 ∧
    findSymbol ctxTypedefOuter "x" = none ∧
    ((declareSymbol ctxTypedefOuter .ValueSymbol "x").bind fun r => findSymbol r.1 "x") =
      some 1 ∧
    ((declareSymbol ctxTypedefOuter .ValueSymbol "x").bind fun r =>
      findSymbol (r.1.inScope (some 0)) "x") = none ∧
    ∀ fuel, ctxTypedefOuter.scopes.length ≤ fuel →
      findSymbolFrom ctxTypedefOuter.scopes "T" fuel ctxTypedefOuter.currentScope =
        findSymbol ctxTypedefOuter "T" :=
  ⟨by decide, by decide, by decide, by decide, by decide,
    (findSymbol_declareSymbol ctxTypedefOuter "T" (by decide)).2.2.1⟩

theorem onChain_le (n : Nat) (scopes : List Scope) (h : scopesFrom n scopes 0 = true)
    (start : Option Nat) (t : Nat) (hc : OnChain scopes start t) :
    ∀ s, start = some s → t ≤ s := by
  induction hc with
  | here s scope hs => intro s' hs'; cases hs'; exact Nat.le_refl _
  | up s scope t hs hc' ih =>
    intro s' hs'
    cases hs'
    cases hp : scope.parent with
    | none => rw [hp] at hc'; cases hc'
    | some p =>
      have hlt := parent_lt n scopes s p scope h hs hp
      have := ih p hp
      omega

/-- C19: in a context built by `newScope` and `declareSymbol`, let `name` be bound to a
typedef symbol in a scope `outer` on the parent chain above the current scope `inner`, and
not be bound in `inner` itself. Then `declareValueSymbol` returns a new symbol and reports
no error; afterwards `findSymbol` in `inner` returns that symbol, which is a value symbol
with the declared type, so that `isTypeName` is false there, and with `outer` as the
current scope `isTypeName` is true as before. -/
theorem declareValueSymbol_shadows_typedef (ctx : ParserContext) (name : String)
    (declaration : TypeRef) (inner outer t : Nat) (scope outerScope : Scope) (typedef : Symbol)
    (hwf : ctx.wellFormed = true)
    (hcur : ctx.currentScope = some inner)
    (hg : ctx.scopes.get? inner = some scope)
    (hfree : getFromHashMap scope.symbols name = none)
    (hchain : OnChain ctx.scopes scope.parent outer)
    (hog : ctx.scopes.get? outer = some outerScope)
    (hbound : getFromHashMap outerScope.symbols name = some t)
    (hsym : ctx.symbols.get? t = some typedef)
    (hkind : typedef.kind = .TypedefSymbol) :
    isTypeName (ctx.inScope (some outer)) name (some outer) = true ∧
    ∃ ctx2, declareValueSymbol ctx name declaration = some (ctx2, ctx.symbols.length) ∧
      ctx2.errors = ctx.errors ∧
      ctx2.currentScope = some inner ∧
      findSymbol ctx2 name = some ctx.symbols.length ∧
      ctx2.symbols.get? ctx.symbols.length =
        some { kind := .ValueSymbol, name := name, type := some declaration } ∧
      isTypeName ctx2 name ctx2.currentScope = false ∧
      isTypeName (ctx2.inScope (some outer)) name (some outer) = true := by
  have hwf0 := hwf
  simp only [ParserContext.wellFormed, Bool.and_eq_true] at hwf
  obtain ⟨hsc, hcurlen⟩ := hwf
  have hilen : inner < ctx.scopes.length := by simpa [hcur] using hcurlen
  have holt : outer < inner := by
    cases hp : scope.parent with
    | none => rw [hp] at hchain; cases hchain
    | some p =>
      have hlt := parent_lt _ ctx.scopes inner p scope hsc hg hp
      have := onChain_le _ ctx.scopes hsc _ _ hchain p hp
      omega
  have holen : outer < ctx.scopes.length := by omega
  have htlt : t < ctx.symbols.length :=
    getFromHashMap_lt _ _ _ _ (scopesFrom_get _ ctx.scopes 0 outer outerScope hsc hog).2 hbound
  have hfo : ∀ fuel, outer < fuel →
      findSymbolFrom ctx.scopes name fuel (some outer) = some t := by
    intro fuel hf
    cases fuel with
    | zero => omega
    | succ fuel => simp only [findSymbolFrom, hog, hbound]
  have hdecl : declareValueSymbol ctx name declaration =
      some ({ ctx with
              symbols := (ctx.symbols ++
                  [Symbol.mk .ValueSymbol name none]).set
                ctx.symbols.length
                (Symbol.mk .ValueSymbol name (some declaration))
              scopes := ctx.scopes.set inner
                { scope with symbols := putToHashMap scope.symbols name ctx.symbols.length } },
            ctx.symbols.length) := by
    have hg2 : ctx.scopes[inner]? = some scope := by
      rw [← List.get?_eq_getElem?]; exact hg
    simp [declareValueSymbol, declareGenericSymbol, findSymbolInScope, hcur, hg2, hfree,
      declareSymbol, newValueProcessor]
  refine ⟨?_, _, hdecl, rfl, hcur, ?_, ?_, ?_, ?_⟩
  · simp only [isTypeName, findSymbol, ParserContext.inScope, hfo _ holen, hsym, hkind]
    rfl
  · simp only [findSymbol, hcur, List.length_set]
    exact findSymbolFrom_set_reaches _ ctx.scopes name hsc inner scope _ hg inner
      (Reaches.here inner scope hg) _ hilen
  · simp
  · have hf : findSymbolFrom
        (ctx.scopes.set inner
          { scope with symbols := putToHashMap scope.symbols name ctx.symbols.length })
        name ctx.scopes.length (some inner) = some ctx.symbols.length :=
      findSymbolFrom_set_reaches _ ctx.scopes name hsc inner scope _ hg inner
        (Reaches.here inner scope hg) _ hilen
    simp only [isTypeName, findSymbol, hcur, List.length_set, hf]
    simp
  · have hf : findSymbolFrom
        (ctx.scopes.set inner
          { scope with symbols := putToHashMap scope.symbols name ctx.symbols.length })
        name ctx.scopes.length (some outer) = some t := by
      rw [findSymbolFrom_set_below _ ctx.scopes name hsc inner _ _ outer holt]
      exact hfo _ holen
    have hget : ((ctx.symbols ++ [Symbol.mk .ValueSymbol name none]).set
        ctx.symbols.length
        (Symbol.mk .ValueSymbol name (some declaration))).get? t =
        some typedef := by
      rw [List.get?_eq_getElem?, List.getElem?_set_ne (by omega),
        List.getElem?_append_left htlt, ← List.get?_eq_getElem?, hsym]
    simp only [isTypeName, findSymbol, ParserContext.inScope, List.length_set, hf, hget, hkind]
    rfl

/-- C19 witness: with `typedef int T;` at file scope, declaring the value `T` in a block
reports nothing; `T` is then no type name in the block and still one at file scope. -/
theorem declareValueSymbol_shadows_typedef_witness :
    isTypeName ctxTypedefOuter "T" ctxTypedefOuter.currentScope = true ∧
    ∃ ctx2, declareValueSymbol ctxTypedefOuter "T" intType = some (ctx2, 1) ∧
      ctx2.errors = [] ∧
      findSymbol ctx2 "T" = some 1 ∧
      isTypeName ctx2 "T" ctx2.currentScope = false ∧
      isTypeName (ctx2.inScope (some 0)) "T" (some 0) = true :=
  ⟨by decide,
    (declareValueSymbol_shadows_typedef ctxTypedefOuter "T" intType 1 0 0
      (Scope.mk (some 0) []) (Scope.mk none [("T", 0)])
      (Symbol.mk .TypedefSymbol "T" (some intType))
      (by decide) (by decide) (by decide) (by decide)
      (OnChain.here 0 (Scope.mk none [("T", 0)]) (by decide))
      (by decide) (by decide) (by decide) (by decide)).2.imp
      fun _ h => ⟨h.1, h.2.1, h.2.2.2.1, h.2.2.2.2.2.1, h.2.2.2.2.2.2⟩⟩

/-! ## Declaration specifiers -/

theorem computePrimitiveTypeDescriptor_isSome (tsw : TSW) (tss : TSS) (tst : TST)
    (h : tsw ≠ .TSW_NONE ∨ tss ≠ .TSS_NONE ∨ tst ≠ .TST_NONE) :
    (computePrimitiveTypeDescriptor tsw tss tst).isSome = true := by
  cases tsw <;> cases tss <;> cases tst <;> first | rfl | simp at h

theorem defaultCase_spec (scope : DeclaratorScope) (st : SpecifierState) (tokens : List Token) :
    ∃ r, defaultCase scope st tokens = some r ∧ r.tokens = tokens ∧
      (∀ type, st.specifiers.basicType = some type → r.specifiers.basicType = some type) ∧
      (st.specifiers.basicType = none →
        (st.tsw ≠ .TSW_NONE ∨ st.tss ≠ .TSS_NONE ∨ st.tst ≠ .TST_NONE) →
        ∃ descriptor diagnostics,
          computePrimitiveTypeDescriptor st.tsw st.tss st.tst = some (descriptor, diagnostics) ∧
          r.specifiers.basicType = some (makeBasicType descriptor)) := by
  cases hb : st.specifiers.basicType with
  | some type =>
    have hval : defaultCase scope st tokens = some (almostDone scope st tokens) := by
      simp only [defaultCase, hb, Option.isNone_some, Bool.false_and, Bool.false_eq_true,
        if_false]
    refine ⟨_, hval, rfl, ?_, ?_⟩
    · intro type2 h
      cases h
      simp only [almostDone, hb]
    · intro h; cases h
  | none =>
    by_cases hnone : st.tsw ≠ .TSW_NONE ∨ st.tss ≠ .TSS_NONE ∨ st.tst ≠ .TST_NONE
    · have hsome := computePrimitiveTypeDescriptor_isSome _ _ _ hnone
      obtain ⟨⟨descriptor, diagnostics⟩, hcomp⟩ := Option.isSome_iff_exists.1 hsome
      have hmiss : (st.tss == TSS.TSS_NONE && st.tsw == TSW.TSW_NONE &&
          st.tst == TST.TST_NONE) = false := by
        rcases hnone with h | h | h <;> simp [h]
      have hval : defaultCase scope st tokens = some (almostDone scope
          { st with
            specifiers := { st.specifiers with basicType := some (makeBasicType descriptor) }
            diagnostics := st.diagnostics ++ diagnostics } tokens) := by
        simp only [defaultCase, hb, Option.isNone_none, Bool.true_and, hmiss,
          Bool.false_and, Bool.false_eq_true, if_false, hcomp]
      refine ⟨_, hval, rfl, ?_, ?_⟩
      · intro type h; cases h
      · intro _ _
        exact ⟨descriptor, diagnostics, hcomp, rfl⟩
    · have h1 : st.tsw = .TSW_NONE := by
        by_contra h; exact hnone (Or.inl h)
      have h2 : st.tss = .TSS_NONE := by
        by_contra h; exact hnone (Or.inr (Or.inl h))
      have h3 : st.tst = .TST_NONE := by
        by_contra h; exact hnone (Or.inr (Or.inr h))
      have hex : ∃ r, defaultCase scope st tokens = some r ∧ r.tokens = tokens := by
        by_cases hrep : (scope != .DS_CAST && scope != .DS_VA_ARG && scope != .DS_STRUCT &&
            scope != .DS_SIZEOF) = true
        · refine ⟨almostDone scope
            { st with
              specifiers := { st.specifiers with
                basicType := some (makeBasicType (builtInTypeDescriptor .T_S4)) }
              diagnostics := st.diagnostics ++ [.DIAG_MISSING_TYPE_SPECIFIER] ++ []
              tst := .TST_INT } tokens, ?_, rfl⟩
          simp only [defaultCase, hb, Option.isNone_none, Bool.true_and, h1, h2, h3,
            beq_self_eq_true, hrep, Bool.not_true, Bool.and_false, Bool.false_eq_true,
            if_true, if_false, Bool.and_self]
          rfl
        · refine ⟨almostDone scope
            { st with specifiers := { st.specifiers with basicType := some makeErrorRef } }
            tokens, ?_, rfl⟩
          simp only [Bool.not_eq_true] at hrep
          simp only [defaultCase, hb, Option.isNone_none, Bool.true_and, h1, h2, h3,
            beq_self_eq_true, hrep, Bool.not_false, Bool.and_true, Bool.and_self,
            Bool.false_eq_true, if_true, if_false, Bool.and_false]
      obtain ⟨r, hr, ht⟩ := hex
      refine ⟨r, hr, ht, ?_, ?_⟩
      · intro type h; cases h
      · intro _ h
        exact absurd h hnone

/-- C20 (counterexample): after a tag specifier `parseDeclarationSpecifiers` returns at
once, so that for `struct S T ;` the token `T` is current on return with its code still
`TYPE_NAME`: the code of a type name that follows a tag specifier is not rewritten to
`IDENTIFIER`. -/
theorem parseDeclarationSpecifiers_tag_keeps_type_name :
    (∀ (tagSpecifier : List Token → TagSpecifier) (ctx : ParserContext),
      (tagSpecifier tokensStructST).tokens = tokensStructST.drop 2 →
      (parseDeclarationSpecifiers tagSpecifier ctx .DS_FILE
        (SpecifierState.init DeclarationSpecifiers.zero) tokensStructST).map
          (fun r => r.tokens) =
        some [{ code := .TYPE_NAME, id := some "T" }, { code := .other 59, id := none }]) ∧
    (tagReference tokensStructST).tokens = tokensStructST.drop 2 := by
  refine ⟨?_, rfl⟩
  intro tagSpecifier ctx h
  have h2 : (parseDeclarationSpecifiers tagSpecifier ctx .DS_FILE
      (SpecifierState.init DeclarationSpecifiers.zero) tokensStructST).map
        (fun r => r.tokens) = some (tagSpecifier tokensStructST).tokens := rfl
  rw [h2, h]
  rfl

/-- C20 (amended): in `parseDeclarationSpecifiers`, for a current token with code
`TYPE_NAME`:
once `seenTypeSpecifier` is set (by a base type, sign or width specifier or an earlier
typedef name) the function returns with that token current and its code rewritten to
`IDENTIFIER`, a basic type that is already set is kept, and otherwise the basic type is
made from the width, sign and base type gathered so far; while `seenTypeSpecifier` is not
set and `findSymbol` gives a typedef symbol, the token is consumed and the basic type
becomes the `typeref` of the typedef. A `struct`, `union` or `enum` keyword makes the
function return right after the tag specifier, with the tokens as the declaration parser
left them. -/
theorem parseDeclarationSpecifiers_type_name (tagSpecifier : List Token → TagSpecifier)
    (ctx : ParserContext) (scope : DeclaratorScope) (st : SpecifierState) (token : Token)
    (rest : List Token) (hcode : token.code = .TYPE_NAME) :
    (st.seenTypeSpecifier = true →
      ∃ r, parseDeclarationSpecifiers tagSpecifier ctx scope st (token :: rest) = some r ∧
        r.tokens = { token with code := .IDENTIFIER } :: rest ∧
        (∀ type, st.specifiers.basicType = some type →
          r.specifiers.basicType = some type) ∧
        (st.specifiers.basicType = none →
          (st.tsw ≠ .TSW_NONE ∨ st.tss ≠ .TSS_NONE ∨ st.tst ≠ .TST_NONE) →
          ∃ descriptor diagnostics,
            computePrimitiveTypeDescriptor st.tsw st.tss st.tst =
              some (descriptor, diagnostics) ∧
            r.specifiers.basicType = some (makeBasicType descriptor))) ∧
    (st.seenTypeSpecifier = false →
      ∀ name s symbol, token.id = some name → findSymbol ctx name = some s →
        ctx.symbols.get? s = some symbol → symbol.kind = .TypedefSymbol →
        (rest = [] →
          parseDeclarationSpecifiers tagSpecifier ctx scope st (token :: rest) =
            some { specifiers := { st.specifiers with basicType := symbol.type }
                   diagnostics := st.diagnostics
                   tokens := [] }) ∧
        (rest ≠ [] →
          parseDeclarationSpecifiers tagSpecifier ctx scope st (token :: rest) =
            parseDeclarationSpecifiers tagSpecifier ctx scope
              { st with
                specifiers := { st.specifiers with basicType := symbol.type }
                seenTypeSpecifier := true } rest)) ∧
    (∀ (keyword : Token) (tokens : List Token),
      keyword.code = .STRUCT ∨ keyword.code = .UNION ∨ keyword.code = .ENUM →
      ∃ r, parseDeclarationSpecifiers tagSpecifier ctx scope st (keyword :: tokens) = some r ∧
        r.tokens = (tagSpecifier (keyword :: tokens)).tokens ∧
        r.specifiers.basicType = some (tagSpecifier (keyword :: tokens)).basicType) := by
  refine ⟨?_, ?_, ?_⟩
  · intro hseen
    have hd := defaultCase_spec scope st ({ token with code := .IDENTIFIER } :: rest)
    obtain ⟨r, hr, h1, h2, h3⟩ := hd
    refine ⟨r, ?_, h1, h2, h3⟩
    rw [← hr]
    simp only [parseDeclarationSpecifiers, hcode, hseen, Bool.not_true, Bool.false_eq_true,
      if_false]
  · intro hseen name s symbol hid hfind hget hkind
    constructor
    · intro hrest
      subst hrest
      simp only [parseDeclarationSpecifiers, hcode, hseen, Bool.not_false, if_true, hid, hfind,
        hget, hkind, ne_eq, not_true_eq_false, if_false]
    · intro hrest
      obtain ⟨next, rest2, rfl⟩ := List.exists_cons_of_ne_nil hrest
      simp only [parseDeclarationSpecifiers, hcode, hseen, Bool.not_false, if_true, hid, hfind,
        hget, hkind, ne_eq, not_true_eq_false, if_false]
  · intro keyword tokens hk
    have hval : parseDeclarationSpecifiers tagSpecifier ctx scope st (keyword :: tokens) =
        some (almostDone scope
          { st with
            seenTypeSpecifier := true
            specifiers := { st.specifiers with
              definition := some (tagSpecifier (keyword :: tokens)).definition
              basicType := some (tagSpecifier (keyword :: tokens)).basicType }
            diagnostics := st.diagnostics ++ (tagSpecifier (keyword :: tokens)).diagnostics }
          (tagSpecifier (keyword :: tokens)).tokens) := by
      rcases hk with hk | hk | hk <;> simp only [parseDeclarationSpecifiers, hk]
    exact ⟨_, hval, rfl, rfl⟩

/-- C20 witness: for `int T ;` the function returns the type `int` with `T` current as an
`IDENTIFIER`; for `T x ;` it consumes `T`, returns the type of the typedef and stops on
`x`. -/
theorem parseDeclarationSpecifiers_type_name_witness :
    (parseDeclarationSpecifiers tagReference ctxTypedefOuter .DS_STATEMENT
      (SpecifierState.init DeclarationSpecifiers.zero) tokensIntT).map
        (fun r => (r.specifiers.basicType, r.tokens, r.diagnostics)) =
      some (some intType,
        [{ code := .IDENTIFIER, id := some "T" }, { code := .other 59, id := none }], []) ∧
    (parseDeclarationSpecifiers tagReference ctxTypedefOuter .DS_STATEMENT
      (SpecifierState.init DeclarationSpecifiers.zero) tokensTx).map
        (fun r => (r.specifiers.basicType, r.tokens, r.diagnostics)) =
      some (some intType,
        [{ code := .IDENTIFIER, id := some "x" }, { code := .other 59, id := none }], []) ∧
    ∃ r, parseDeclarationSpecifiers tagReference ctxTypedefOuter .DS_STATEMENT
        (tstLabel (SpecifierState.init DeclarationSpecifiers.zero) .TST_INT)
        ({ code := .TYPE_NAME, id := some "T" } :: [{ code := .other 59, id := none }]) =
          some r ∧
      r.tokens = [{ code := .IDENTIFIER, id := some "T" }, { code := .other 59, id := none }] :=
  ⟨by decide, by decide,
    ((parseDeclarationSpecifiers_type_name tagReference ctxTypedefOuter .DS_STATEMENT
      (tstLabel (SpecifierState.init DeclarationSpecifiers.zero) .TST_INT)
      { code := .TYPE_NAME, id := some "T" } [{ code := .other 59, id := none }] rfl).1
      (by decide)).imp fun _ h => ⟨h.1, h.2.1⟩⟩

/-! ## Order of the members of a struct -/

/-! ### Names -/

theorem adjustChainMember_key (sType uType : TypeRef) (offset : Int) (m : StructualMember) :
    (adjustChainMember sType uType offset m).name = m.name ∧
    (adjustChainMember sType uType offset m).offset = offset ∧
    (adjustChainMember sType uType offset m).bitOffset? = m.bitOffset? := by
  obtain ⟨name, type, off, flex⟩ := m
  cases type <;> simp [adjustChainMember, StructualMember.bitOffset?]

theorem adjustBitFieldStorage_names (members : List StructualMember) (chain : Option Nat)
    (w offset : Int) :
    (adjustBitFieldStorage members chain w offset).1.map (fun m => m.name) =
      members.map (fun m => m.name) := by
  unfold adjustBitFieldStorage
  cases bitFieldStorageClass w with
  | none => rfl
  | some cls =>
    obtain ⟨sid, uid, align⟩ := cls
    cases chain with
    | none => rfl
    | some k =>
      simp only [List.map_append, List.map_map]
      have : ((fun m : StructualMember => m.name) ∘
          adjustChainMember (makePrimitiveType sid) (makePrimitiveType uid)
            (u32 (ALIGN_SIZE offset align))) = fun m => m.name := by
        funext m
        exact (adjustChainMember_key _ _ _ m).1
      rw [this, ← List.map_append, List.take_append_drop]

theorem layoutDeclarator_anonFieldIdx (factor : Int) (definition : Option TypeDefiniton)
    (st : LayoutState) (d : StructDeclarator) :
    (layoutDeclarator factor definition st d).anonFieldIdx = st.anonFieldIdx := by
  have hm : ∀ (st : LayoutState) (type : TypeRef),
      (layoutMember factor st d type).anonFieldIdx = st.anonFieldIdx := by
    intro st type
    unfold layoutMember
    cases d.width <;> cases st.bitfieldChain <;> simp
  have hb : ∀ w, (layoutBitField factor st d w).1.anonFieldIdx = st.anonFieldIdx := by
    intro w
    rw [layoutBitField_eq]
    simp only [closeChain, resetChain]
    split <;> split <;> rfl
  rw [layoutDeclarator_eq]
  split
  · rfl
  · cases hw : d.width with
    | none =>
      simp only
      rw [hm]
      split <;> rfl
    | some w =>
      simp only
      cases checkIfBitfieldCorrect d.type d.name w with
      | none =>
        simp only
        split
        · exact hb w
        · rw [hm]; exact hb w
      | some diagnostic =>
        simp only
        rw [hm]

theorem layoutDeclarator_names (factor : Int) (definition : Option TypeDefiniton)
    (st : LayoutState) (d : StructDeclarator) :
    (layoutDeclarator factor definition st d).members.map (fun m => m.name) =
      st.members.map (fun m => m.name) ++
        (if d.addsMember definition then [d.name] else []) := by
  have hb : ∀ w, (layoutBitField factor st d w).1.members.map (fun m => m.name) =
      st.members.map (fun m => m.name) ∧ (layoutBitField factor st d w).2.2 = decide (w = 0) := by
    intro w
    rw [layoutBitField_eq]
    simp only [closeChain, resetChain]
    by_cases hw : w = 0
    · simp only [hw, if_true, decide_True, and_true]
      rw [adjustBitFieldStorage_names]
      split
      · exact adjustBitFieldStorage_names _ _ _ _
      · rfl
    · simp only [hw, if_false, decide_False, and_true]
      split
      · exact adjustBitFieldStorage_names _ _ _ _
      · rfl
  rw [layoutDeclarator_eq]
  by_cases hdn : declaresNothing definition d = true
  · simp [hdn, StructDeclarator.addsMember]
  · simp only [hdn, Bool.false_eq_true, if_false]
    simp only [Bool.not_eq_true] at hdn
    cases hw : d.width with
    | none =>
      simp only
      rw [layoutMember_members]
      have hadd : d.addsMember definition = true := by
        simp [StructDeclarator.addsMember, StructDeclarator.isZeroWidth, hdn, hw]
      simp only [hadd, if_true, List.map_append, List.map_cons, List.map_nil,
        createStructualMember]
      congr 1
      split
      · exact adjustBitFieldStorage_names _ _ _ _
      · rfl
    | some w =>
      simp only
      cases hchk : checkIfBitfieldCorrect d.type d.name w with
      | none =>
        simp only
        obtain ⟨hn, hflag⟩ := hb w
        by_cases hw0 : w = 0
        · subst hw0
          have hadd : d.addsMember definition = false := by
            simp [StructDeclarator.addsMember, StructDeclarator.isZeroWidth, hdn, hw, hchk]
          simp only [hflag, decide_True, if_true, hn, hadd, Bool.false_eq_true, if_false,
            List.append_nil]
        · have hadd : d.addsMember definition = true := by
            simp [StructDeclarator.addsMember, StructDeclarator.isZeroWidth, hdn, hw, hw0]
          simp only [hflag, hw0, decide_False, Bool.false_eq_true, if_false, hadd, if_true]
          rw [layoutMember_members]
          simp only [List.map_append, List.map_cons, List.map_nil, createStructualMember, hn]
      | some diagnostic =>
        simp only
        have hadd : d.addsMember definition = true := by
          by_cases hw0 : w = 0
          · subst hw0
            simp [StructDeclarator.addsMember, StructDeclarator.isZeroWidth, hdn, hw, hchk]
          · simp [StructDeclarator.addsMember, StructDeclarator.isZeroWidth, hdn, hw, hw0]
        rw [layoutMember_members]
        simp only [hadd, if_true, List.map_append, List.map_cons, List.map_nil,
          createStructualMember]

theorem foldl_layoutDeclarator_names (factor : Int) (definition : Option TypeDefiniton)
    (ds : List StructDeclarator) (st : LayoutState) :
    (ds.foldl (layoutDeclarator factor definition) st).members.map (fun m => m.name) =
      st.members.map (fun m => m.name) ++
        ((ds.filter fun d => d.addsMember definition).map fun d => d.name) ∧
    (ds.foldl (layoutDeclarator factor definition) st).anonFieldIdx = st.anonFieldIdx := by
  induction ds generalizing st with
  | nil => simp
  | cons d ds ih =>
    rw [List.foldl_cons]
    obtain ⟨h1, h2⟩ := ih (layoutDeclarator factor definition st d)
    rw [h1, h2, layoutDeclarator_names, layoutDeclarator_anonFieldIdx]
    refine ⟨?_, rfl⟩
    by_cases ha : d.addsMember definition = true
    · simp [ha, List.filter_cons]
    · simp [ha, List.filter_cons]

theorem foldl_layoutDeclaration_names (factor : Int) (decls : List StructDeclaration)
    (st : LayoutState) :
    (decls.foldl (layoutDeclaration factor) st).members.map (fun m => m.name) =
      st.members.map (fun m => m.name) ++ expectedNames st.anonFieldIdx decls := by
  induction decls generalizing st with
  | nil => simp [expectedNames]
  | cons decl decls ih =>
    rw [List.foldl_cons, ih]
    by_cases ha : decl.isAnonAggregate = true
    · simp [layoutDeclaration, ha, expectedNames, createStructualMember]
    · simp only [layoutDeclaration, ha, Bool.false_eq_true, if_false, expectedNames]
      obtain ⟨h1, h2⟩ := foldl_layoutDeclarator_names factor decl.definition decl.declarators st
      rw [h1, h2, List.append_assoc]

theorem layoutMembers_names (factor : Int) (decls : List StructDeclaration) :
    (layoutMembers factor decls).map (fun m => m.name) = expectedNames 0 decls := by
  rw [layoutMembers_eq]
  have h := foldl_layoutDeclaration_names factor decls LayoutState.init
  split
  · simp only [closeChain]
    rw [adjustBitFieldStorage_names, h]
    rfl
  · rw [h]; rfl

/-! ### The invariant of the layout loop -/

theorem LayoutInv.mono {B B2 : Int} {st : LayoutState} {closed opened : List StructualMember}
    (h : LayoutInv B st closed opened) (hB : B ≤ B2) : LayoutInv B2 st closed opened :=
  { h with list := { h.list with offsetB := le_trans h.list.offsetB hB } }

theorem LayoutInv.init : LayoutInv 0 LayoutState.init [] [] :=
  { members := rfl
    list :=
      { offset0 := le_refl _
        offsetB := le_refl _
        below := fun m hm => by cases hm
        sorted := List.Pairwise.nil
        lex := List.Pairwise.nil }
    closedStrict := fun m hm => by cases hm
    chainNone := fun _ => rfl
    chainSome := fun h => absurd rfl h
    openBits := List.Pairwise.nil
    openBelow := fun m hm => by cases hm
    bit0 := le_refl _
    bit64 := by decide
    width := rfl
    bitNone := fun _ => rfl }

theorem bitFieldStorageClass_some (w : Int) (hw : w ≤ 64) :
    ∃ sid uid align, bitFieldStorageClass w = some (sid, uid, align) ∧ 1 ≤ align ∧ align ≤ 8 := by
  unfold bitFieldStorageClass
  split_ifs
  · exact ⟨_, _, _, rfl, by decide, by decide⟩
  · exact ⟨_, _, _, rfl, by decide, by decide⟩
  · exact ⟨_, _, _, rfl, by decide, by decide⟩
  · exact ⟨_, _, _, rfl, by decide, by decide⟩

theorem adjustBitFieldStorage_inv {B : Int} {st : LayoutState}
    {closed opened : List StructualMember} (h : LayoutInv B st closed opened)
    (hB : B + 16 < 2 ^ 31) :
    ∃ sType uType o align,
      adjustBitFieldStorage st.members st.bitfieldChain st.bfChainWidth st.offset =
        (closed ++ opened.map (adjustChainMember sType uType o), o, align) ∧
      st.offset ≤ o ∧ o < st.offset + align ∧ 1 ≤ align ∧ align ≤ 8 := by
  obtain ⟨sid, uid, align, hcls, ha1, ha8⟩ :=
    bitFieldStorageClass_some st.bfChainWidth (by rw [h.width]; exact h.bit64)
  have hb := ALIGN_SIZE_bounds st.offset align (by omega)
  have h0 := h.list.offset0
  have hBo := h.list.offsetB
  have hu : u32 (ALIGN_SIZE st.offset align) = ALIGN_SIZE st.offset align :=
    u32_of_range (by omega) (by norm_num at hB ⊢; omega)
  refine ⟨makePrimitiveType sid, makePrimitiveType uid, ALIGN_SIZE st.offset align, align,
    ?_, hb.1, hb.2.1, ha1, ha8⟩
  unfold adjustBitFieldStorage
  rw [hcls]
  simp only [hu]
  by_cases ho : opened = []
  · subst ho
    rw [h.chainNone rfl, h.members]
    simp
  · rw [h.chainSome ho, h.members]
    simp

theorem closeChain_inv {B : Int} {st : LayoutState} {closed opened : List StructualMember}
    (h : LayoutInv B st closed opened) (hB : B + 16 < 2 ^ 31) :
    ListInv (B + 16) (closeChain 1 st).members (closeChain 1 st).offset ∧
    (∀ m ∈ (closeChain 1 st).members, m.offset < (closeChain 1 st).offset) ∧
    (closeChain 1 st).members.map (fun m => m.bitOffset?) =
      st.members.map (fun m => m.bitOffset?) := by
  obtain ⟨sType, uType, o, align, hadj, ho1, ho2, ha1, ha8⟩ := adjustBitFieldStorage_inv h hB
  have h0 := h.list.offset0
  have hBo := h.list.offsetB
  have hu : u32 (o + align * 1) = o + align :=
    by rw [mul_one]; exact u32_of_range (by omega) (by norm_num at hB ⊢; omega)
  have hmem : (closeChain 1 st).members =
      closed ++ opened.map (adjustChainMember sType uType o) := by
    simp only [closeChain, hadj]
  have hoff : (closeChain 1 st).offset = o + align := by
    simp only [closeChain, hadj, hu]
  have hbelow := h.list.below
  rw [h.members] at hbelow
  have hsorted := h.list.sorted
  rw [h.members, List.pairwise_append] at hsorted
  have hlex := h.list.lex
  rw [h.members, List.pairwise_append] at hlex
  rw [hmem, hoff]
  refine ⟨⟨by omega, by omega, ?_, ?_, ?_⟩, ?_, ?_⟩
  · intro m hm
    rcases List.mem_append.1 hm with hc | hc
    · have := hbelow m (List.mem_append_left _ hc); omega
    · obtain ⟨m', _, rfl⟩ := List.mem_map.1 hc
      rw [(adjustChainMember_key _ _ _ m').2.1]; omega
  · rw [List.pairwise_append]
    refine ⟨hsorted.1, ?_, ?_⟩
    · rw [List.pairwise_map]
      exact List.Pairwise.imp (fun _ => by
        rw [(adjustChainMember_key _ _ _ _).2.1, (adjustChainMember_key _ _ _ _).2.1])
        hsorted.2.1
    · intro a ha b hb
      obtain ⟨b', _, rfl⟩ := List.mem_map.1 hb
      rw [(adjustChainMember_key _ _ _ b').2.1]
      have := hbelow a (List.mem_append_left _ ha); omega
  · rw [List.pairwise_append]
    refine ⟨hlex.1, ?_, ?_⟩
    · rw [List.pairwise_map]
      refine List.Pairwise.imp ?_ h.openBits
      intro a b hab b1 b2 h1 h2
      rw [(adjustChainMember_key _ _ _ a).2.2] at h1
      rw [(adjustChainMember_key _ _ _ b).2.2] at h2
      right
      rw [(adjustChainMember_key _ _ _ a).2.1, (adjustChainMember_key _ _ _ b).2.1]
      exact ⟨rfl, hab b1 b2 h1 h2⟩
    · intro a ha b hb b1 b2 h1 h2
      obtain ⟨b', _, rfl⟩ := List.mem_map.1 hb
      left
      rw [(adjustChainMember_key _ _ _ b').2.1]
      have := h.closedStrict a ha b1 h1
      omega
  · intro m hm
    rcases List.mem_append.1 hm with hc | hc
    · have := hbelow m (List.mem_append_left _ hc); omega
    · obtain ⟨m', _, rfl⟩ := List.mem_map.1 hc
      rw [(adjustChainMember_key _ _ _ m').2.1]; omega
  · rw [h.members]
    simp only [List.map_append, List.map_map]
    congr 1
    apply List.map_congr_left
    intro m _
    exact (adjustChainMember_key _ _ _ m).2.2

theorem LayoutInv.ofClosed {B : Int} {s : LayoutState}
    (hl : ListInv B s.members s.offset)
    (hs : ∀ m ∈ s.members, ∀ b, m.bitOffset? = some b → m.offset < s.offset)
    (hc : s.bitfieldChain = none) (hb : s.bitOffset = 0) (hw : s.bfChainWidth = 0) :
    LayoutInv B s s.members [] :=
  { members := (List.append_nil _).symm
    list := hl
    closedStrict := hs
    chainNone := fun _ => hc
    chainSome := fun h => absurd rfl h
    openBits := List.Pairwise.nil
    openBelow := fun m hm => by cases hm
    bit0 := by rw [hb]
    bit64 := by rw [hb]; decide
    width := by rw [hw, hb]
    bitNone := fun _ => hb }

theorem ListInv.append {B B2 : Int} {members : List StructualMember} {offset offset2 : Int}
    (h : ListInv B members offset) (m : StructualMember)
    (h1 : offset ≤ m.offset) (h2 : m.offset ≤ offset2) (hB : offset2 ≤ B2)
    (hlex : ∀ a ∈ members, PairBefore a m) :
    ListInv B2 (members ++ [m]) offset2 :=
  { offset0 := by have := h.offset0; omega
    offsetB := hB
    below := by
      intro a ha
      rcases List.mem_append.1 ha with ha | ha
      · have := h.below a ha; omega
      · rw [List.mem_singleton.1 ha]; exact h2
    sorted := by
      rw [List.pairwise_append]
      refine ⟨h.sorted, List.pairwise_singleton _ _, ?_⟩
      intro a ha b hb
      rw [List.mem_singleton.1 hb]
      have := h.below a ha; omega
    lex := by
      rw [List.pairwise_append]
      refine ⟨h.lex, List.pairwise_singleton _ _, ?_⟩
      intro a ha b hb
      rw [List.mem_singleton.1 hb]
      exact hlex a ha }

theorem LayoutInv.appendClosed {B C : Int} {s t : LayoutState} (m : StructualMember)
    (hl : ListInv B s.members s.offset)
    (hs : ∀ a ∈ s.members, ∀ b, a.bitOffset? = some b → a.offset < s.offset)
    (hm : t.members = s.members ++ [m])
    (h1 : s.offset ≤ m.offset) (h2 : m.offset ≤ t.offset) (hB : t.offset ≤ C)
    (hnb : m.bitOffset? = none)
    (hc : t.bitfieldChain = none) (hb : t.bitOffset = 0) (hw : t.bfChainWidth = 0) :
    LayoutInv C t t.members [] := by
  apply LayoutInv.ofClosed _ _ hc hb hw
  · rw [hm]
    apply ListInv.append hl m h1 h2 hB
    intro a _ b1 b2 _ hb2
    rw [hnb] at hb2; cases hb2
  · intro a ha b hab
    rw [hm] at ha
    rcases List.mem_append.1 ha with ha | ha
    · have := hs a ha b hab; omega
    · rw [List.mem_singleton.1 ha, hnb] at hab; cases hab

theorem LayoutInv.appendOpened {B C : Int} {st st2 : LayoutState}
    {closed opened : List StructualMember} (h : LayoutInv B st closed opened)
    (m : StructualMember)
    (hm : st2.members = st.members ++ [m])
    (hmo : m.offset = st.offset) (hoff : st.offset ≤ st2.offset) (hB : st2.offset ≤ C)
    (hchain : st2.bitfieldChain = some (st.bitfieldChain.getD st.members.length))
    (hbit : st.bitOffset ≤ st2.bitOffset) (hbit64 : st2.bitOffset ≤ 64)
    (hwidth : st2.bfChainWidth = st2.bitOffset)
    (hnew : ∀ b, m.bitOffset? = some b → st.bitOffset ≤ b ∧ b < st2.bitOffset) :
    LayoutInv C st2 closed (opened ++ [m]) := by
  have hbelow := h.list.below
  refine
    { members := by rw [hm, h.members, List.append_assoc]
      list := ?_
      closedStrict := ?_
      chainNone := fun hn => by simp at hn
      chainSome := ?_
      openBits := ?_
      openBelow := ?_
      bit0 := by have := h.bit0; omega
      bit64 := hbit64
      width := hwidth
      bitNone := fun hn => by simp at hn }
  · rw [hm]
    apply ListInv.append h.list m (by omega) (by omega) hB
    intro a ha b1 b2 hb1 hb2
    rw [h.members] at ha
    rcases List.mem_append.1 ha with hc | hc
    · left
      have := h.closedStrict a hc b1 hb1
      omega
    · have h1 := h.openBelow a hc b1 hb1
      have h2 := (hnew b2 hb2).1
      have h3 := hbelow a (by rw [h.members]; exact List.mem_append_right _ hc)
      by_cases heq : a.offset = m.offset
      · right; exact ⟨heq, by omega⟩
      · left; omega
  · intro a ha b hab
    have := h.closedStrict a ha b hab
    omega
  · intro _
    rw [hchain]
    by_cases ho : opened = []
    · rw [h.chainNone ho, h.members, ho]
      simp
    · rw [h.chainSome ho]
      rfl
  · rw [List.pairwise_append]
    refine ⟨h.openBits, List.pairwise_singleton _ _, ?_⟩
    intro a ha b hb b1 b2 hb1 hb2
    rw [List.mem_singleton.1 hb] at hb2
    have h1 := h.openBelow a ha b1 hb1
    have h2 := (hnew b2 hb2).1
    omega
  · intro a ha b hab
    rcases List.mem_append.1 ha with hc | hc
    · have := h.openBelow a hc b hab; omega
    · rw [List.mem_singleton.1 hc] at hab
      exact (hnew b hab).2

theorem LayoutInv.of_eq {B : Int} {st st2 : LayoutState}
    {closed opened : List StructualMember} (h : LayoutInv B st closed opened)
    (hm : st2.members = st.members) (ho : st2.offset = st.offset)
    (hc : st2.bitfieldChain = st.bitfieldChain) (hb : st2.bitOffset = st.bitOffset)
    (hw : st2.bfChainWidth = st.bfChainWidth) : LayoutInv B st2 closed opened :=
  { members := by rw [hm]; exact h.members
    list := by rw [hm, ho]; exact h.list
    closedStrict := by rw [ho]; exact h.closedStrict
    chainNone := by rw [hc]; exact h.chainNone
    chainSome := by rw [hc]; exact h.chainSome
    openBits := h.openBits
    openBelow := by rw [hb]; exact h.openBelow
    bit0 := by rw [hb]; exact h.bit0
    bit64 := by rw [hb]; exact h.bit64
    width := by rw [hw, hb]; exact h.width
    bitNone := by rw [hb]; exact h.bitNone }

theorem LayoutInv.opened_nil {B : Int} {st : LayoutState}
    {closed opened : List StructualMember} (h : LayoutInv B st closed opened)
    (hc : st.bitfieldChain = none) : opened = [] := by
  by_contra ho
  have := h.chainSome ho
  rw [hc] at this; cases this

theorem LayoutInv.closedPart {B : Int} {st : LayoutState}
    {closed opened : List StructualMember} (h : LayoutInv B st closed opened)
    (hc : st.bitfieldChain = none) :
    ∀ m ∈ st.members, ∀ b, m.bitOffset? = some b → m.offset < st.offset := by
  have ho := h.opened_nil hc
  intro m hm
  rw [h.members, ho, List.append_nil] at hm
  exact h.closedStrict m hm

theorem bitOffset?_createStructualMember (name : Option String) (type : TypeRef) (offset : Int)
    (h : isBitFieldType type = false) :
    (createStructualMember name (if isVLAType type then makeErrorRef else type)
      offset).bitOffset? = none := by
  cases type <;> simp [isBitFieldType] at h <;>
    simp [createStructualMember, StructualMember.bitOffset?, isVLAType, makeErrorRef]

theorem bitField_width_range (d : StructDeclarator) (w : Int) (hw : d.width = some w)
    (hk : d.hasKnownLayout = true) (hchk : checkIfBitfieldCorrect d.type d.name w = none) :
    0 ≤ w ∧ w ≤ 64 := by
  simp only [StructDeclarator.hasKnownLayout, hw, Bool.and_eq_true, decide_eq_true_eq,
    Bool.or_eq_true, Bool.not_eq_true'] at hk
  obtain ⟨_, ⟨hw1, hw2⟩, hint⟩ := hk
  have hwrap : wrap32 w = w := wrap32_of_range hw1 hw2
  unfold checkIfBitfieldCorrect at hchk
  by_cases hi : isIntegerType d.type = true
  · simp only [hi, Bool.not_true, Bool.false_eq_true, if_false, hwrap] at hchk
    rcases hint with hint | hint
    · rw [hi] at hint; cases hint
    · cases ht : d.type with
      | TR_VALUE desc =>
        rw [ht] at hchk hint
        simp only [computeTypeSize] at hint
        simp only [BYTE_BIT_SIZE] at hchk
        have h8 : wrap32 (desc.size * 8) = desc.size * 8 :=
          wrap32_of_range (by omega) (by norm_num; omega)
        split_ifs at hchk with h1 h2
        rw [h8] at h2
        exact ⟨by omega, by omega⟩
      | _ => rw [ht] at hi; simp [isIntegerType] at hi
  · simp [hi] at hchk

theorem layoutDeclarator_inv {B : Int} {st : LayoutState}
    {closed opened : List StructualMember} (h : LayoutInv B st closed opened)
    (definition : Option TypeDefiniton) (d : StructDeclarator)
    (hk : d.hasKnownLayout = true) (hB : B + d.layoutCost < 2 ^ 31) :
    ∃ closed2 opened2,
      LayoutInv (B + d.layoutCost) (layoutDeclarator 1 definition st d) closed2 opened2 := by
  have hk0 := hk
  simp only [StructDeclarator.hasKnownLayout, Bool.and_eq_true, Bool.not_eq_true'] at hk
  obtain ⟨hnbf, hk2⟩ := hk
  have h0 := h.list.offset0
  have hBo := h.list.offsetB
  rw [layoutDeclarator_eq]
  by_cases hdn : declaresNothing definition d = true
  · simp only [hdn, if_true]
    refine ⟨closed, opened, h.mono ?_⟩
    unfold StructDeclarator.layoutCost at hB ⊢
    cases hw : d.width with
    | none =>
      simp only [hw, Bool.and_eq_true, decide_eq_true_eq] at hk2
      simp only; omega
    | some w => simp only; omega
  · simp only [hdn, Bool.false_eq_true, if_false]
    cases hw : d.width with
    | none =>
      simp only [hw, Bool.and_eq_true, decide_eq_true_eq] at hk2
      obtain ⟨hsize, halign⟩ := hk2
      simp only [StructDeclarator.layoutCost, hw] at hB ⊢
      -- the state after an open chain was closed
      obtain ⟨hl1, hs1⟩ : ListInv (B + 16)
            (if st.bitfieldChain.isSome then closeChain 1 st else st).members
            (if st.bitfieldChain.isSome then closeChain 1 st else st).offset ∧
          ∀ m ∈ (if st.bitfieldChain.isSome then closeChain 1 st else st).members,
            ∀ b, m.bitOffset? = some b →
              m.offset < (if st.bitfieldChain.isSome then closeChain 1 st else st).offset := by
        by_cases hc : st.bitfieldChain.isSome = true
        · simp only [hc, if_true]
          have := closeChain_inv h (by omega)
          exact ⟨this.1, fun m hm b _ => this.2.1 m hm⟩
        · simp only [hc, Bool.false_eq_true, if_false]
          have hcn : st.bitfieldChain = none := by
            cases hch : st.bitfieldChain with
            | none => rfl
            | some k => rw [hch] at hc; simp at hc
          exact ⟨{ h.list with offsetB := by omega }, h.closedPart hcn⟩
      generalize (if st.bitfieldChain.isSome then closeChain 1 st else st) = st1 at hl1 hs1
      have hb := ALIGN_SIZE_bounds st1.offset (typeAlignment d.type) halign
      have h10 := hl1.offset0
      have h1B := hl1.offsetB
      have hmo : memberOffset st1 d d.type = ALIGN_SIZE st1.offset (typeAlignment d.type) := by
        simp only [memberOffset, hw, Option.isSome_none, Bool.false_eq_true, if_false,
          alignMemberOffset]
        have hin : wrap32 st1.offset = st1.offset := wrap32_of_range (by omega) (by omega)
        rw [hin, wrap32_of_range (by omega) (by omega)]
        exact u32_of_range (by omega) (by norm_num at hB ⊢; omega)
      have hoff : (layoutMember 1 st1 d d.type).offset =
          ALIGN_SIZE st1.offset (typeAlignment d.type) + computeTypeSizeInt d.type := by
        rw [layoutMember_offset]
        simp only [hw, Option.isSome_none, Bool.false_eq_true, if_false, hmo, mul_one]
        exact u32_of_range (by omega) (by norm_num at hB ⊢; omega)
      refine ⟨_, [], LayoutInv.appendClosed (B := B + 16) (s := st1)
        (createStructualMember d.name (if isVLAType d.type then makeErrorRef else d.type)
          (memberOffset st1 d d.type)) hl1 hs1 (layoutMember_members 1 st1 d d.type)
        ?_ ?_ ?_ (bitOffset?_createStructualMember _ _ _ hnbf) ?_ ?_ ?_⟩
      · simp only [createStructualMember, hmo]; omega
      · simp only [createStructualMember, hmo, hoff]; omega
      · rw [hoff]; omega
      · rw [layoutMember_chain]; simp [hw]
      · rw [(layoutMember_bitOffset 1 st1 d d.type).1]; simp [hw]
      · rw [(layoutMember_bitOffset 1 st1 d d.type).2]; simp [hw]
    | some w =>
      simp only [StructDeclarator.layoutCost, hw] at hB ⊢
      cases hchk : checkIfBitfieldCorrect d.type d.name w with
      | some diagnostic =>
        simp only
        have h1 : LayoutInv B { st with diagnostics := st.diagnostics ++ [diagnostic] }
            closed opened := h.of_eq rfl rfl rfl rfl rfl
        refine ⟨closed, opened ++ [_], LayoutInv.appendOpened h1 _
          (layoutMember_members 1 _ d d.type) ?_ ?_ ?_ ?_ ?_ ?_ ?_ ?_⟩
        · simp [createStructualMember, memberOffset, hw]
        · rw [layoutMember_offset]; simp [hw]
        · rw [layoutMember_offset]; simp [hw]; omega
        · rw [layoutMember_chain]; simp [hw]
        · rw [(layoutMember_bitOffset 1 _ d d.type).1]; simp [hw]
        · rw [(layoutMember_bitOffset 1 _ d d.type).1]; simp [hw]; exact h.bit64
        · rw [(layoutMember_bitOffset 1 _ d d.type).1, (layoutMember_bitOffset 1 _ d d.type).2]
          simp [hw]; exact h.width
        · intro b hb
          rw [bitOffset?_createStructualMember _ _ _ hnbf] at hb; cases hb
      | none =>
        simp only
        obtain ⟨hw0, hw64⟩ := bitField_width_range d w hw hk0 hchk
        rw [layoutBitField_eq]
        by_cases hz : w = 0
        · -- a zero-width bit-field closes the chain
          subst hz
          simp only [gt_iff_lt, lt_self_iff_false, false_and, and_false, if_false, if_true,
            zero_mul, add_zero, ne_eq, one_ne_zero, not_false_eq_true]
          have hb32 : u32 st.bitOffset = st.bitOffset :=
            u32_of_range h.bit0 (by have := h.bit64; norm_num; omega)
          have hw32 : u32 st.bfChainWidth = st.bfChainWidth := by
            rw [h.width]; exact hb32
          have h1 : LayoutInv B
              { st with bitOffset := u32 st.bitOffset, bfChainWidth := u32 st.bfChainWidth }
              closed opened := h.of_eq rfl rfl rfl hb32 hw32
          have hcl := closeChain_inv h1 (by omega)
          refine ⟨_, [], LayoutInv.ofClosed (B := B + 16) ?_ ?_ rfl rfl rfl⟩
          · exact hcl.1
          · exact fun m hm b _ => hcl.2.1 m hm
        · have hpos : 0 < w := by omega
          simp only [hz, if_false]
          -- the state after the chain was closed for lack of room
          obtain ⟨c1, o1, hinv1, hroom⟩ : ∃ c1 o1,
              LayoutInv (B + 16)
                (if st.bitfieldChain.isSome ∧ w > 0 ∧ u32 (maxWidth - st.bitOffset) ≤ w
                  then resetChain (closeChain 1 st) else st) c1 o1 ∧
              (if st.bitfieldChain.isSome ∧ w > 0 ∧ u32 (maxWidth - st.bitOffset) ≤ w
                  then resetChain (closeChain 1 st) else st).bitOffset + w ≤ 64 := by
            by_cases hc : st.bitfieldChain.isSome ∧ w > 0 ∧ u32 (maxWidth - st.bitOffset) ≤ w
            · simp only [hc, and_self, if_true]
              have hcl := closeChain_inv h (by omega)
              refine ⟨_, [], LayoutInv.ofClosed (B := B + 16)
                (s := resetChain (closeChain 1 st)) hcl.1
                (fun m hm b _ => hcl.2.1 m hm) rfl rfl rfl, ?_⟩
              simp only [resetChain]; omega
            · simp only [hc, if_false]
              refine ⟨closed, opened, h.mono (by omega), ?_⟩
              by_cases hcs : st.bitfieldChain.isSome = true
              · have hu : u32 (maxWidth - st.bitOffset) = 64 - st.bitOffset := by
                  unfold maxWidth
                  exact u32_of_range (by have := h.bit64; omega)
                    (by have := h.bit0; norm_num; omega)
                rw [hu] at hc
                simp only [hcs, gt_iff_lt, hpos, true_and, not_le] at hc
                omega
              · have hcn : st.bitfieldChain = none := by
                  cases hch : st.bitfieldChain with
                  | none => rfl
                  | some k => rw [hch] at hcs; simp at hcs
                rw [h.bitNone (h.opened_nil hcn)]
                omega
          generalize (if st.bitfieldChain.isSome ∧ w > 0 ∧ u32 (maxWidth - st.bitOffset) ≤ w
            then resetChain (closeChain 1 st) else st) = st1 at hinv1 hroom
          have hb0 := hinv1.bit0
          have hbu : u32 (st1.bitOffset + w * 1) = st1.bitOffset + w := by
            rw [mul_one]; exact u32_of_range (by omega) (by norm_num; omega)
          have hwu : u32 (st1.bfChainWidth + w) = st1.bitOffset + w := by
            rw [hinv1.width]; exact u32_of_range (by omega) (by norm_num; omega)
          have hwid : u32 w = w := u32_of_range hw0 (by norm_num; omega)
          simp only [hbu, hwu, hwid, ne_eq, one_ne_zero, not_false_eq_true, if_true,
            Bool.false_eq_true, if_false]
          refine ⟨c1, o1 ++ [_], LayoutInv.appendOpened (C := B + 16) hinv1 _
            ((layoutMember_members 1 _ d _).trans rfl) ?_ ?_ ?_ ?_ ?_ ?_ ?_ ?_⟩
          · simp [createStructualMember, memberOffset, hw]
          · rw [layoutMember_offset]; simp [hw]
          · rw [layoutMember_offset]; simp [hw]; exact hinv1.list.offsetB
          · rw [layoutMember_chain]; simp [hw]
          · rw [(layoutMember_bitOffset 1 _ d _).1]; simp [hw]; omega
          · rw [(layoutMember_bitOffset 1 _ d _).1]; simp [hw]; omega
          · rw [(layoutMember_bitOffset 1 _ d _).1, (layoutMember_bitOffset 1 _ d _).2]
          · intro b hb
            simp only [createStructualMember, makeBitFieldType, isVLAType,
              Bool.false_eq_true, if_false, StructualMember.bitOffset?,
              Option.some.injEq] at hb
            subst hb
            rw [(layoutMember_bitOffset 1 _ d _).1]
            simp [hw]; omega

theorem layoutCost_nonneg (d : StructDeclarator) (hk : d.hasKnownLayout = true) :
    0 ≤ d.layoutCost := by
  simp only [StructDeclarator.hasKnownLayout, Bool.and_eq_true] at hk
  unfold StructDeclarator.layoutCost
  cases hw : d.width with
  | none =>
    simp only [hw, Bool.and_eq_true, decide_eq_true_eq] at hk
    simp only; omega
  | some w => simp only; omega

theorem foldl_layoutDeclarator_inv (definition : Option TypeDefiniton)
    (ds : List StructDeclarator) {B : Int} {st : LayoutState}
    {closed opened : List StructualMember} (h : LayoutInv B st closed opened)
    (hk : ∀ d ∈ ds, d.hasKnownLayout = true)
    (hB : B + (ds.map fun d => d.layoutCost).sum < 2 ^ 31) :
    ∃ closed2 opened2,
      LayoutInv (B + (ds.map fun d => d.layoutCost).sum)
        (ds.foldl (layoutDeclarator 1 definition) st) closed2 opened2 := by
  induction ds generalizing B st closed opened with
  | nil => exact ⟨closed, opened, by simpa using h⟩
  | cons d ds ih =>
    simp only [List.map_cons, List.sum_cons] at hB ⊢
    have hrest : 0 ≤ (ds.map fun d => d.layoutCost).sum := by
      apply List.sum_nonneg
      intro x hx
      obtain ⟨d2, hd2, rfl⟩ := List.mem_map.1 hx
      exact layoutCost_nonneg d2 (hk d2 (List.mem_cons_of_mem _ hd2))
    obtain ⟨c1, o1, h1⟩ := layoutDeclarator_inv h definition d
      (hk d (List.mem_cons_self _ _)) (by omega)
    obtain ⟨c2, o2, h2⟩ := ih h1 (fun d2 hd2 => hk d2 (List.mem_cons_of_mem _ hd2))
      (by omega)
    rw [List.foldl_cons]
    exact ⟨c2, o2, by rw [← add_assoc]; exact h2⟩

theorem layoutDeclaration_inv {B : Int} {st : LayoutState}
    {closed opened : List StructualMember} (h : LayoutInv B st closed opened)
    (decl : StructDeclaration) (hk : decl.hasKnownLayout = true)
    (hB : B + decl.layoutCost < 2 ^ 31) :
    ∃ closed2 opened2,
      LayoutInv (B + decl.layoutCost) (layoutDeclaration 1 st decl) closed2 opened2 := by
  have h0 := h.list.offset0
  have hBo := h.list.offsetB
  unfold StructDeclaration.hasKnownLayout at hk
  unfold StructDeclaration.layoutCost at hB ⊢
  unfold layoutDeclaration
  by_cases ha : decl.isAnonAggregate = true
  · simp only [ha, if_true, Bool.and_eq_true, Bool.not_eq_true', decide_eq_true_eq] at hk hB ⊢
    obtain ⟨hnbf, hsize⟩ := hk
    have hu : u32 (st.offset + computeTypeSizeInt decl.basicType * 1) =
        st.offset + computeTypeSizeInt decl.basicType := by
      rw [mul_one]; exact u32_of_range (by omega) (by norm_num at hB ⊢; omega)
    have hnb : (createStructualMember (some ("$" ++ toString (st.anonFieldIdx + 1)))
        decl.basicType st.offset).bitOffset? = none := by
      have := bitOffset?_createStructualMember
        (some ("$" ++ toString (st.anonFieldIdx + 1))) decl.basicType st.offset hnbf
      cases hb : decl.basicType <;> simp [hb, isBitFieldType] at hnbf <;>
        simp [createStructualMember, StructualMember.bitOffset?]
    by_cases ho : opened = []
    · refine ⟨_, [], LayoutInv.appendClosed (B := B) (s := st)
        (createStructualMember (some ("$" ++ toString (st.anonFieldIdx + 1)))
          decl.basicType st.offset) h.list (h.closedPart (h.chainNone ho)) rfl ?_ ?_ ?_ hnb
        (h.chainNone ho) (h.bitNone ho) (by rw [h.width]; exact h.bitNone ho)⟩
      · exact le_refl _
      · simp only [createStructualMember, hu]; omega
      · simp only [hu]; omega
    · refine ⟨closed, opened ++ [_], LayoutInv.appendOpened h
        (createStructualMember (some ("$" ++ toString (st.anonFieldIdx + 1)))
          decl.basicType st.offset) rfl rfl ?_ ?_ ?_ (le_refl _) h.bit64 h.width ?_⟩
      · simp only [hu]; omega
      · simp only [hu]; omega
      · simp only [h.chainSome ho, Option.getD_some]
      · intro b hb
        rw [hnb] at hb; cases hb
  · simp only [ha, Bool.false_eq_true, if_false, List.all_eq_true] at hk hB ⊢
    exact foldl_layoutDeclarator_inv decl.definition decl.declarators h hk hB

theorem declarationCost_nonneg (decl : StructDeclaration) (hk : decl.hasKnownLayout = true) :
    0 ≤ decl.layoutCost := by
  unfold StructDeclaration.hasKnownLayout at hk
  unfold StructDeclaration.layoutCost
  by_cases ha : decl.isAnonAggregate = true
  · simp only [ha, if_true, Bool.and_eq_true, decide_eq_true_eq] at hk ⊢
    exact hk.2
  · simp only [ha, Bool.false_eq_true, if_false, List.all_eq_true] at hk ⊢
    apply List.sum_nonneg
    intro x hx
    obtain ⟨d, hd, rfl⟩ := List.mem_map.1 hx
    exact layoutCost_nonneg d (hk d hd)

theorem foldl_layoutDeclaration_inv (decls : List StructDeclaration) {B : Int}
    {st : LayoutState} {closed opened : List StructualMember}
    (h : LayoutInv B st closed opened)
    (hk : ∀ decl ∈ decls, decl.hasKnownLayout = true)
    (hB : B + (decls.map fun decl => decl.layoutCost).sum < 2 ^ 31) :
    ∃ closed2 opened2,
      LayoutInv (B + (decls.map fun decl => decl.layoutCost).sum)
        (decls.foldl (layoutDeclaration 1) st) closed2 opened2 := by
  induction decls generalizing B st closed opened with
  | nil => exact ⟨closed, opened, by simpa using h⟩
  | cons decl decls ih =>
    simp only [List.map_cons, List.sum_cons] at hB ⊢
    have hrest : 0 ≤ (decls.map fun decl => decl.layoutCost).sum := by
      apply List.sum_nonneg
      intro x hx
      obtain ⟨d2, hd2, rfl⟩ := List.mem_map.1 hx
      exact declarationCost_nonneg d2 (hk d2 (List.mem_cons_of_mem _ hd2))
    obtain ⟨c1, o1, h1⟩ := layoutDeclaration_inv h decl
      (hk decl (List.mem_cons_self _ _)) (by omega)
    obtain ⟨c2, o2, h2⟩ := ih h1 (fun d2 hd2 => hk d2 (List.mem_cons_of_mem _ hd2))
      (by omega)
    rw [List.foldl_cons]
    exact ⟨c2, o2, by rw [← add_assoc]; exact h2⟩

theorem layoutMembers_ordered (decls : List StructDeclaration)
    (hk : ∀ decl ∈ decls, decl.hasKnownLayout = true)
    (hfit : layoutBound decls < 2 ^ 31) :
    (layoutMembers 1 decls).Pairwise (fun m1 m2 => m1.offset ≤ m2.offset) ∧
    (layoutMembers 1 decls).Pairwise PairBefore := by
  unfold layoutBound at hfit
  obtain ⟨closed, opened, h⟩ := foldl_layoutDeclaration_inv decls LayoutInv.init hk
    (by omega)
  rw [layoutMembers_eq]
  split
  · have hcl := closeChain_inv h (by omega)
    exact ⟨hcl.1.sorted, hcl.1.lex⟩
  · exact ⟨h.list.sorted, h.list.lex⟩

theorem parseStructDeclarationList_keys (decls : List StructDeclaration) (factor : Int)
    (members : List StructualMember) (flexible : Bool)
    (h : parseStructDeclarationList factor decls = some (members, flexible)) :
    members.map (fun m => m.key) = (layoutMembers factor decls).map (fun m => m.key) := by
  rw [parseStructDeclarationList_eq] at h
  cases hl : (layoutMembers factor decls).getLast? with
  | none => rw [hl] at h; cases h
  | some current =>
    rw [hl] at h
    cases hc : checkFlexibleMember current with
    | none => simp [hc] at h
    | some r =>
      obtain ⟨f, t⟩ := r
      simp only [hc, Option.some.injEq, Prod.mk.injEq] at h
      obtain ⟨hm, _⟩ := h
      have hsplit : layoutMembers factor decls =
          (layoutMembers factor decls).dropLast ++ [current] := by
        have hne : layoutMembers factor decls ≠ [] := by
          intro hnil; rw [hnil] at hl; cases hl
        rw [List.getLast?_eq_getLast _ hne] at hl
        cases hl
        exact (List.dropLast_append_getLast hne).symm
      have hbit : ({ current with type := t, isFlexible := f } : StructualMember).bitOffset?
          = current.bitOffset? := by
        rcases (checkFlexibleMember_flag current f t hc).2 with ⟨e, he, rfl⟩ | ⟨_, rfl⟩
        · simp [StructualMember.bitOffset?, he]
        · rfl
      rw [← hm]
      conv_rhs => rw [hsplit]
      simp only [List.map_append, List.map_cons, List.map_nil, StructualMember.key, hbit]

theorem pairwise_of_keys {l1 l2 : List StructualMember}
    (h : l1.map (fun m => m.key) = l2.map (fun m => m.key)) :
    (l2.Pairwise (fun m1 m2 => m1.offset ≤ m2.offset) →
      l1.Pairwise (fun m1 m2 => m1.offset ≤ m2.offset)) ∧
    (l2.Pairwise PairBefore → l1.Pairwise PairBefore) ∧
    l1.map (fun m => m.name) = l2.map (fun m => m.name) := by
  have e1 : ∀ l : List StructualMember, l.Pairwise (fun m1 m2 => m1.offset ≤ m2.offset) ↔
      (l.map (fun m => m.key)).Pairwise (fun k1 k2 => k1.2.1 ≤ k2.2.1) := by
    intro l; rw [List.pairwise_map]; rfl
  have e2 : ∀ l : List StructualMember, l.Pairwise PairBefore ↔
      (l.map (fun m => m.key)).Pairwise (fun k1 k2 => ∀ b1 b2, k1.2.2 = some b1 →
        k2.2.2 = some b2 → k1.2.1 < k2.2.1 ∨ (k1.2.1 = k2.2.1 ∧ b1 < b2)) := by
    intro l; rw [List.pairwise_map]; rfl
  refine ⟨?_, ?_, ?_⟩
  · rw [e1 l1, e1 l2, h]; exact id
  · rw [e2 l1, e2 l2, h]; exact id
  · have := congrArg (List.map fun k : Option String × Int × Option Int => k.1) h
    simpa [List.map_map, Function.comp, StructualMember.key] using this

/-- C12: in a struct (offset factor 1) whose members have a known layout (sizes not
negative, alignments positive, widths of bit-fields in range over integer types of at most
8 bytes) and whose layout stays below `2 ^ 31` bytes, the member list has one member per
declarator that adds a member, in declaration order; for any two members the earlier one
has the smaller or the same offset, also after the chains have had their offsets patched;
and for any two bit-field members, of the same chain or not, the pair of offset and bit
offset of the earlier one is strictly smaller. The list that
`parseStructDeclarationList` returns has the same properties. -/
theorem parseStructDeclarationList_ordered (decls : List StructDeclaration)
    (hk : ∀ decl ∈ decls, decl.hasKnownLayout = true)
    (hfit : layoutBound decls < 2 ^ 31) :
    ((layoutMembers 1 decls).map (fun m => m.name) = expectedNames 0 decls ∧
      (layoutMembers 1 decls).Pairwise (fun m1 m2 => m1.offset ≤ m2.offset) ∧
      (layoutMembers 1 decls).Pairwise PairBefore) ∧
    ∀ members flexible, parseStructDeclarationList 1 decls = some (members, flexible) →
      members.map (fun m => m.name) = expectedNames 0 decls ∧
      members.Pairwise (fun m1 m2 => m1.offset ≤ m2.offset) ∧
      members.Pairwise PairBefore := by
  have hord := layoutMembers_ordered decls hk hfit
  have hnames := layoutMembers_names 1 decls
  refine ⟨⟨hnames, hord.1, hord.2⟩, ?_⟩
  intro members flexible hp
  have hkeys := pairwise_of_keys (parseStructDeclarationList_keys decls 1 members flexible hp)
  exact ⟨hkeys.2.2.trans hnames, hkeys.1 hord.1, hkeys.2.1 hord.2⟩

/-- C12 witness: a struct with plain members, two chains and an anonymous struct meets the
hypotheses; its offsets are 0, 5, 5, 5, 8, 16, 18 and the bit offsets inside the first
chain are 0 and 3. -/
theorem parseStructDeclarationList_ordered_witness :
    (parseStructDeclarationList 1 structMixed).map (fun r => r.1.map fun m => m.key) =
      some [(some "c", 0, none), (some "a", 5, some 0), (some "b", 5, some 3),
        (some "$1", 5, none), (some "l", 8, some 0), (some "m", 16, some 0),
        (some "s", 18, none)] ∧
    (layoutMembers 1 structMixed).Pairwise (fun m1 m2 => m1.offset ≤ m2.offset) ∧
    (layoutMembers 1 structMixed).Pairwise PairBefore :=
  ⟨by decide,
    (parseStructDeclarationList_ordered structMixed (by decide) (by decide)).1.2⟩

/-! ## Redeclarations -/

theorem declareGenericSymbol_existing (ctx : ParserContext) (kind : SymbolKind)
    (name : String) (value : TypeRef)
    (existed new : ParserContext → Nat → TypeRef → Option ParserContext)
    (c : Nat) (scope : Scope) (s : Nat) (symbol : Symbol)
    (hc : ctx.currentScope = some c) (hg : ctx.scopes.get? c = some scope)
    (hb : getFromHashMap scope.symbols name = some s)
    (hs : ctx.symbols.get? s = some symbol) :
    declareGenericSymbol ctx kind name value existed new =
      if symbol.kind = kind then (existed ctx s value).map fun ctx => (ctx, s)
      else
        some ({ ctx with errors := ctx.errors ++
                  ["redefinition of '%s' as different kind of symbol"] }, s) := by
  simp only [declareGenericSymbol, findSymbolInScope, hc, hg, Option.map_some', hb, hs]

/-- C21 (failing input): for `typedef int T; typedef char *T;` in one scope the second
`declareTypeDef` reports no error and leaves the context as it is, with `T` still the
typedef of `int`; the same holds for every name bound to a typedef symbol in the current
scope and every new type, because `typesEquals` returns `TRUE` for every pair of types. -/
theorem declareTypeDef_different_type_silent :
    ctxTypedefT.symbols = [{ kind := .TypedefSymbol, name := "T", type := some intType }] ∧
    declareTypeDef ctxTypedefT "T" charPointerType = some (ctxTypedefT, 0) ∧
    ctxTypedefT.errors = [] ∧
    ∀ (ctx : ParserContext) (name : String) (new old : TypeRef) (c : Nat) (scope : Scope)
      (s : Nat) (symbol : Symbol),
      ctx.currentScope = some c → ctx.scopes.get? c = some scope →
      getFromHashMap scope.symbols name = some s → ctx.symbols.get? s = some symbol →
      symbol.kind = .TypedefSymbol → symbol.type = some old →
      declareTypeDef ctx name new = some (ctx, s) := by
  refine ⟨by decide, by decide, by decide, ?_⟩
  intro ctx name new old c scope s symbol hc hg hb hs hk ht
  rw [declareTypeDef, declareGenericSymbol_existing ctx _ name new _ _ c scope s symbol hc hg hb hs]
  simp only [hk, existedTypeDefProcessor, hs, ht, typesEquals, if_true, Option.map_some']

/-- C22 (counterexample): for `int x; int x;` in one scope the second
`declareValueSymbol`, of the same type, reports no error and leaves the context as it
is. -/
theorem declareValueSymbol_equal_type_silent :
    ctxValueX.symbols = [{ kind := .ValueSymbol, name := "x", type := some intType }] ∧
    declareValueSymbol ctxValueX "x" intType = some (ctxValueX, 0) ∧
    ctxValueX.errors = [] := by
  decide

/-- C22 (amended): when the name is bound in the current scope to a symbol,
`declareValueSymbol` returns that symbol; for a value symbol declared with the same type
it reports nothing and changes nothing, and for a symbol of another kind it reports the
redefinition as a different kind of symbol. -/
theorem declareValueSymbol_existing (ctx : ParserContext) (name : String)
    (declaration : TypeRef) (c : Nat) (scope : Scope) (s : Nat) (symbol : Symbol)
    (hc : ctx.currentScope = some c) (hg : ctx.scopes.get? c = some scope)
    (hb : getFromHashMap scope.symbols name = some s)
    (hs : ctx.symbols.get? s = some symbol) :
    (symbol.kind = .ValueSymbol → symbol.type = some declaration →
      declareValueSymbol ctx name declaration = some (ctx, s)) ∧
    (symbol.kind ≠ .ValueSymbol →
      declareValueSymbol ctx name declaration =
        some ({ ctx with errors := ctx.errors ++
                  ["redefinition of '%s' as different kind of symbol"] }, s)) := by
  rw [declareValueSymbol,
    declareGenericSymbol_existing ctx _ name declaration _ _ c scope s symbol hc hg hb hs]
  constructor
  · intro hk hold
    simp only [hk, existedValueProcessor, hs, hold, typesEquals, if_true, Option.map_some']
  · intro hk
    simp [hk]

/-- C22 witness: after `int x;` the declaration `int x;` in the same scope returns the
symbol of `x` and the context it started from; after `typedef int T;` the declaration
`int T;` in the same scope reports the redefinition as a different kind of symbol. -/
theorem declareValueSymbol_existing_witness :
    declareValueSymbol ctxValueX "x" intType = some (ctxValueX, 0) ∧
    declareValueSymbol ctxTypedefT "T" intType =
      some ({ ctxTypedefT with errors := ctxTypedefT.errors ++
                ["redefinition of '%s' as different kind of symbol"] }, 0) :=
  ⟨(declareValueSymbol_existing ctxValueX "x" intType 0
      (Scope.mk none [("x", 0)]) 0 (Symbol.mk .ValueSymbol "x" (some intType))
      (by decide) (by decide) (by decide) (by decide)).1 (by decide) (by decide),
    (declareValueSymbol_existing ctxTypedefT "T" intType 0
      (Scope.mk none [("T", 0)]) 0 (Symbol.mk .TypedefSymbol "T" (some intType))
      (by decide) (by decide) (by decide) (by decide)).2 (by decide)⟩

/-! ## The table of primitive types and the diagnostics of the specifiers -/

/-- C23: for width, sign and base type that are not in the error state and not all
absent, `computePrimitiveTypeDescriptor` returns the descriptor of the table and reports
nothing when the combination names a type, and returns the error descriptor and reports
exactly one diagnostic for every other combination. -/
theorem computePrimitiveTypeDescriptor_table (tsw : TSW) (tss : TSS) (tst : TST)
    (hw : tsw ≠ .TSW_ERROR) (hs : tss ≠ .TSS_ERROR) (ht : tst ≠ .TST_ERROR)
    (hsome : tsw ≠ .TSW_NONE ∨ tss ≠ .TSS_NONE ∨ tst ≠ .TST_NONE) :
    (∀ id, primitiveTable tsw tss tst = some id →
      computePrimitiveTypeDescriptor tsw tss tst = some (builtInTypeDescriptor id, [])) ∧
    (primitiveTable tsw tss tst = none →
      ∃ diagnostic, computePrimitiveTypeDescriptor tsw tss tst =
        some (errorTypeDescriptor, [diagnostic])) := by
  cases tsw <;> cases tss <;> cases tst <;>
    first
    | exact absurd rfl hw
    | exact absurd rfl hs
    | exact absurd rfl ht
    | (exfalso; rcases hsome with h | h | h <;> exact h rfl)
    | (refine ⟨fun id h => ?_, fun h => ?_⟩
       · first
         | (cases h; rfl)
         | cases h
       · first
         | exact ⟨_, rfl⟩
         | cases h)

/-- C23 witness: `long double` gives f10, `unsigned char` gives u1, and `long float`
gives the error descriptor with the one diagnostic for an invalid type. -/
theorem computePrimitiveTypeDescriptor_table_witness :
    computePrimitiveTypeDescriptor .TSW_LONG .TSS_NONE .TST_DOUBLE =
      some (builtInTypeDescriptor .T_F10, []) ∧
    computePrimitiveTypeDescriptor .TSW_NONE .TSS_UNSIGNED .TST_CHAR =
      some (builtInTypeDescriptor .T_U1, []) ∧
    computePrimitiveTypeDescriptor .TSW_LONG .TSS_NONE .TST_FLOAT =
      some (errorTypeDescriptor, [.DIAG_INVALID_TYPE]) :=
  ⟨(computePrimitiveTypeDescriptor_table .TSW_LONG .TSS_NONE .TST_DOUBLE (by decide)
      (by decide) (by decide) (by decide)).1 .T_F10 rfl,
    by decide, by decide⟩

/-- C24 (failing input): `unsigned unsigned x;` repeats the sign specifier and
`parseDeclarationSpecifiers` reports the cannot-combine diagnostic for it, the same one as
for `signed unsigned x;`, and no duplicate-specifier diagnostic; `int int x;` does the same
for the base type. The storage class and the width tell the two cases apart:
`static static` and `short short` report a duplicate, `static extern` and `short long` a
cannot-combine. In `tss_label` the diagnostic is the same whatever the earlier sign is. -/
theorem parseDeclarationSpecifiers_duplicate_sign :
    specifierDiagnostics [.UNSIGNED, .UNSIGNED] = some [.DIAG_CANNOT_COMBINE_DECL_SPEC] ∧
    specifierDiagnostics [.SIGNED, .UNSIGNED] = some [.DIAG_CANNOT_COMBINE_DECL_SPEC] ∧
    specifierDiagnostics [.INT, .INT] = some [.DIAG_CANNOT_COMBINE_DECL_SPEC] ∧
    specifierDiagnostics [.INT, .CHAR] = some [.DIAG_CANNOT_COMBINE_DECL_SPEC] ∧
    specifierDiagnostics [.STATIC, .STATIC, .INT] = some [.DIAG_E_DUPLICATE_DECL_SPEC] ∧
    specifierDiagnostics [.STATIC, .EXTERN, .INT] = some [.DIAG_CANNOT_COMBINE_DECL_SPEC] ∧
    specifierDiagnostics [.SHORT, .SHORT] = some [.DIAG_W_DUPLICATE_DECL_SPEC] ∧
    (∀ (st : SpecifierState) (tmp : TSS), st.tss ≠ .TSS_NONE → st.tss ≠ .TSS_ERROR →
      (tssLabel st tmp).diagnostics = st.diagnostics ++ [.DIAG_CANNOT_COMBINE_DECL_SPEC]) ∧
    (∀ (st : SpecifierState) (tmp : TST), st.tst ≠ .TST_NONE → st.tst ≠ .TST_ERROR →
      (tstLabel st tmp).diagnostics = st.diagnostics ++ [.DIAG_CANNOT_COMBINE_DECL_SPEC]) := by
  refine ⟨by decide, by decide, by decide, by decide, by decide, by decide, by decide, ?_, ?_⟩
  · intro st tmp h1 h2
    simp [tssLabel, h1, h2]
  · intro st tmp h1 h2
    simp [tstLabel, h1, h2]

/-- C25 (failing input): for `short long int x;` the width is in its error state after
the cannot-combine diagnostic, and `computePrimitiveTypeDescriptor` reports one more
diagnostic, for an invalid type, before it returns the error descriptor: its first test
compares the width with `TST_ERROR`, which no width equals. It is so for every sign and
base type that are not in the error state; an error state of the sign or of the base type
is absorbed without a diagnostic. -/
theorem computePrimitiveTypeDescriptor_width_error :
    specifierDiagnostics [.SHORT, .LONG, .INT] =
      some [.DIAG_CANNOT_COMBINE_DECL_SPEC, .DIAG_INVALID_TYPE] ∧
    (∀ (tss : TSS) (tst : TST), tss ≠ .TSS_ERROR → tst ≠ .TST_ERROR →
      computePrimitiveTypeDescriptor .TSW_ERROR tss tst =
        some (errorTypeDescriptor, [.DIAG_INVALID_TYPE])) ∧
    (∀ (tsw : TSW) (tss : TSS) (tst : TST), tss = .TSS_ERROR ∨ tst = .TST_ERROR →
      computePrimitiveTypeDescriptor tsw tss tst = some (errorTypeDescriptor, [])) ∧
    specifierDiagnostics [.SIGNED, .UNSIGNED, .INT] = some [.DIAG_CANNOT_COMBINE_DECL_SPEC] ∧
    specifierDiagnostics [.INT, .CHAR, .SHORT] = some [.DIAG_CANNOT_COMBINE_DECL_SPEC] := by
  refine ⟨by decide, ?_, ?_, by decide, by decide⟩
  · intro tss tst h1 h2
    cases tss <;> cases tst <;> first | rfl | exact absurd rfl h1 | exact absurd rfl h2
  · intro tsw tss tst h
    rcases h with h | h <;> subst h <;> cases tsw <;> (try cases tss) <;> (try cases tst) <;> rfl

/-! ## The symbol of a tag specifier -/

/-- C26: for a tag specifier that is a reference (`guessStructualMode` gives
`SSK_REFERENCE`) to the name `n`, when `findSymbol` finds a symbol for `$n` in the current
scope or a scope around it: the diagnostic for a use with a different tag is reported
exactly when the kind of that symbol is not the kind of the specifier, nothing else is
reported, no symbol is declared, and in both cases the basic type is the value type over
the type descriptor of the symbol that was found. -/
theorem tagBasicType_reference
    (declareTypeSymbol : ParserContext → SymbolKind → TypeId → String → TypeDefiniton →
      ParserContext × Option Nat)
    (computeTypeDefinitionSize : TypeDefiniton → Int)
    (ctx : ParserContext) (anonSymbolsCounter : Nat) (kind : TypeDefinitionKind)
    (name : String) (definition : TypeDefiniton) (s : Nat) (symbol : Symbol)
    (descriptor : TypeDesc)
    (hfind : findSymbol ctx ("$" ++ name) = some s)
    (hsym : ctx.symbols.get? s = some symbol)
    (hdesc : symbol.typeDescriptor = some descriptor) :
    ∃ r, tagBasicType declareTypeSymbol computeTypeDefinitionSize ctx anonSymbolsCounter
        .SSK_REFERENCE kind (some name) definition = some r ∧
      r.ctx = ctx ∧ r.anonSymbolsCounter = anonSymbolsCounter ∧
      r.basicType = makeBasicType descriptor ∧
      (symbol.kind ≠ (tagIds kind).2 → r.diagnostics = [.DIAG_USE_WITH_DIFFERENT_TAG]) ∧
      (symbol.kind = (tagIds kind).2 → r.diagnostics = []) := by
  have hval : tagBasicType declareTypeSymbol computeTypeDefinitionSize ctx anonSymbolsCounter
      .SSK_REFERENCE kind (some name) definition =
      some (TagSymbolResult.mk ctx anonSymbolsCounter (makeBasicType descriptor)
        (if symbol.kind ≠ (tagIds kind).2 then [.DIAG_USE_WITH_DIFFERENT_TAG] else [])) := by
    simp only [tagBasicType, hfind, hsym, if_true, Option.map_some', hdesc]
  refine ⟨_, hval, rfl, rfl, rfl, ?_, ?_⟩
  · intro hk
    simp only [hk, ne_eq, not_false_eq_true, if_true]
  · intro hk
    simp only [hk, ne_eq, not_true_eq_false, if_false]

/-- C26 witness: after `struct S { int x; };` at file scope, `union S u;` in a block is a
reference; it reports the use with a different tag and gets the descriptor of the struct,
and `struct S u;` reports nothing and gets the same descriptor. -/
theorem tagBasicType_reference_witness :
    guessStructualMode tokensUnionSu = some .SSK_REFERENCE ∧
    (∃ r, tagBasicType (fun ctx _ _ _ _ => (ctx, none)) (fun _ => 0) ctxStructS 0
        .SSK_REFERENCE .TDK_UNION (some "S") (referenceS .TDK_UNION) = some r ∧
      r.basicType = makeBasicType structSDescriptor ∧
      r.diagnostics = [.DIAG_USE_WITH_DIFFERENT_TAG]) ∧
    (tagBasicType (fun ctx _ _ _ _ => (ctx, none)) (fun _ => 0) ctxStructS 0
        .SSK_REFERENCE .TDK_STRUCT (some "S") (referenceS .TDK_STRUCT)).map
          (fun r => (r.basicType, r.diagnostics)) =
      some (makeBasicType structSDescriptor, []) :=
  ⟨by decide,
    (tagBasicType_reference (fun ctx _ _ _ _ => (ctx, none)) (fun _ => 0) ctxStructS 0
      .TDK_UNION "S" (referenceS .TDK_UNION) 0
      (Symbol.mk .StructSymbol "$S" (some (.TR_VALUE structSDescriptor))) structSDescriptor
      (by decide) (by decide) (by decide)).imp
      fun _ h => ⟨h.1, h.2.2.2.1, h.2.2.2.2.1 (by decide)⟩,
    by decide⟩

/-! ## Labels of a function -/

/-- The sample body: the uses of `a` and `c` are resolved by their labels, before or after
the use, and the two uses of `b` are reported, the newest first. -/
theorem functionLabels_bodyWithLabels :
    functionLabels LabelsState.empty bodyWithLabels =
      some { definedLabels := [], usedLabels := []
             diagnostics := [⟨.DIAG_UNDECLARED_LABEL, 7, "b"⟩, ⟨.DIAG_UNDECLARED_LABEL, 4, "b"⟩] } := by
  decide

/-! ## Variable-length arrays in a declaration -/

/-- C28: `parseDeclaration` of a variable whose type is a VLA that `verifyValueType`
accepts. When the declaration is top level or static, exactly one VLA diagnostic is
reported, after those of `verifyValueType`: the one for file scope when the scope is
`DS_FILE`, the one for static duration in any other scope; the value is declared with the
error type. When the declaration is neither top level nor static, no VLA diagnostic is
reported and the value keeps the VLA type. The file-scope caller passes top level with
`DS_FILE`, the callers in a block and in a `for` pass not top level. -/
theorem parseDeclaration_vla (ops : DeclarationOps) (st : DeclarationState)
    (specifiers : DeclarationSpecifiers) (name : String) (elementType : TypeRef)
    (isTopLevel : Bool) (scope : DeclaratorScope)
    (verifyDiagnostics : List Diagnostic) (token : Token) (rest : List Token)
    (ctx1 ctx2 : ParserContext) (s1 s2 : Nat)
    (hok : ops.verifyValueType (.TR_VLA elementType) = (true, verifyDiagnostics))
    (htok : st.tokens = token :: rest)
    (herr : declareValueSymbol st.ctx name makeErrorRef = some (ctx1, s1))
    (hvla : declareValueSymbol st.ctx name (.TR_VLA elementType) = some (ctx2, s2)) :
    ((isTopLevel || specifiers.flags.isStatic) = true →
      ∀ extra, ∃ r,
        parseDeclaration ops st specifiers name (.TR_VLA elementType) extra isTopLevel scope =
          some r ∧
        r.valueDeclaration.type = makeErrorRef ∧ r.valueDeclaration.isLocal = false ∧
        r.symbol = s1 ∧
        r.state.diagnostics = st.diagnostics ++ verifyDiagnostics ++
          [if scope = .DS_FILE then .DIAG_VLA_FILE_SCOPE else .DIAG_VLA_STATIC_DURATION] ++
          (if specifiers.flags.isInline then [.DIAG_INLINE_NON_FUNC] else []) ++
          (parseDeclarationInitializer ops specifiers makeErrorRef true token rest).2.2) ∧
    ((isTopLevel || specifiers.flags.isStatic) = false →
      ∃ r,
        parseDeclaration ops st specifiers name (.TR_VLA elementType) true isTopLevel scope =
          some r ∧
        r.valueDeclaration.type = .TR_VLA elementType ∧ r.valueDeclaration.isLocal = true ∧
        r.symbol = s2 ∧
        r.state.diagnostics = st.diagnostics ++ verifyDiagnostics ++
          (if specifiers.flags.isInline then [.DIAG_INLINE_NON_FUNC] else []) ++
          (parseDeclarationInitializer ops specifiers (.TR_VLA elementType) false token
            rest).2.2) := by
  have hyes : (TypeRef.TR_VLA elementType).isVLA = true := rfl
  constructor
  · intro htop extra
    have hne : makeErrorRef.isVLA = false := rfl
    rcases hinit : parseDeclarationInitializer ops specifiers makeErrorRef true token rest with
      ⟨initializer, tokens, initDiagnostics⟩
    have hval : parseDeclaration ops st specifiers name (.TR_VLA elementType) extra isTopLevel
        scope = some (DeclarationResult.mk
          (DeclarationState.mk ctx1 tokens (st.diagnostics ++ verifyDiagnostics ++
            [if scope = .DS_FILE then .DIAG_VLA_FILE_SCOPE else .DIAG_VLA_STATIC_DURATION] ++
            (if specifiers.flags.isInline then [.DIAG_INLINE_NON_FUNC] else []) ++
            initDiagnostics))
          (AstValueDeclaration.mk makeErrorRef name specifiers.flags false initializer)
          s1 false) := by
      simp only [parseDeclaration, hok, htop, Bool.not_true, Bool.false_eq_true, if_false,
        hyes, Bool.and_self, if_true, herr, htok, hne, hinit]
    exact ⟨_, hval, rfl, rfl, rfl, rfl⟩
  · intro htop
    rcases hinit : parseDeclarationInitializer ops specifiers (.TR_VLA elementType) false token
      rest with ⟨initializer, tokens, initDiagnostics⟩
    have hval : parseDeclaration ops st specifiers name (.TR_VLA elementType) true isTopLevel
        scope = some (DeclarationResult.mk
          (DeclarationState.mk ctx2 tokens (st.diagnostics ++ verifyDiagnostics ++ [] ++
            (if specifiers.flags.isInline then [.DIAG_INLINE_NON_FUNC] else []) ++
            initDiagnostics))
          (AstValueDeclaration.mk (.TR_VLA elementType) name specifiers.flags true
            (some (ops.computeVLASize (.TR_VLA elementType))))
          s2 true) := by
      simp only [parseDeclaration, hok, htop, Bool.not_true, Bool.false_eq_true, if_false,
        hyes, Bool.false_and, hvla, htok, if_true, hinit, Bool.not_false]
    refine ⟨_, hval, rfl, rfl, rfl, ?_⟩
    simp only [List.append_nil]

/-- C28 witness: `int a[n];` at file scope reports the file-scope diagnostic, the
declaration `static int a[n];` in a block reports the static-duration diagnostic, both
with the error type, and `int a[n];` in a block reports nothing and keeps its type. -/
theorem parseDeclaration_vla_witness :
    (∃ r, parseDeclaration quietDeclarationOps (afterDeclarator ctxFileScope) plainInt "a"
        vlaOfInt false true .DS_FILE = some r ∧
      r.valueDeclaration.type = makeErrorRef ∧
      r.state.diagnostics = [.DIAG_VLA_FILE_SCOPE]) ∧
    (∃ r, parseDeclaration quietDeclarationOps (afterDeclarator ctxStructS) staticInt "a"
        vlaOfInt true false .DS_STATEMENT = some r ∧
      r.valueDeclaration.type = makeErrorRef ∧
      r.state.diagnostics = [.DIAG_VLA_STATIC_DURATION]) ∧
    (∃ r, parseDeclaration quietDeclarationOps (afterDeclarator ctxStructS) plainInt "a"
        vlaOfInt true false .DS_STATEMENT = some r ∧
      r.valueDeclaration.type = vlaOfInt ∧
      r.state.diagnostics = []) :=
  ⟨((parseDeclaration_vla quietDeclarationOps (afterDeclarator ctxFileScope) plainInt "a"
      (makePrimitiveType .T_S4) true .DS_FILE [] (keyword (.other 59)) [] _ _ _ _
      rfl rfl rfl rfl).1 rfl false).imp
      fun _ h => ⟨h.1, h.2.1, h.2.2.2.2.trans (by decide)⟩,
    ((parseDeclaration_vla quietDeclarationOps (afterDeclarator ctxStructS) staticInt "a"
      (makePrimitiveType .T_S4) false .DS_STATEMENT [] (keyword (.other 59)) [] _ _ _ _
      rfl rfl rfl rfl).1 rfl true).imp
      fun _ h => ⟨h.1, h.2.1, h.2.2.2.2.trans (by decide)⟩,
    ((parseDeclaration_vla quietDeclarationOps (afterDeclarator ctxStructS) plainInt "a"
      (makePrimitiveType .T_S4) false .DS_STATEMENT [] (keyword (.other 59)) [] _ _ _ _
      rfl rfl rfl rfl).2 rfl).imp
      fun _ h => ⟨h.1, h.2.1, h.2.2.2.2.trans (by decide)⟩⟩

/-! ## Attributes -/

theorem attributeListLoop_stuck (st : AttributeListState)
    (hc : attributeListCondition st = true) (hb : attributeListBody st = st) :
    ∀ fuel, attributeListLoop fuel st = none := by
  intro fuel
  induction fuel with
  | zero => rfl
  | succ fuel ih => simp only [attributeListLoop, hc, if_true, hb, ih]

/-- C30: on the tokens `__attribute__((4));` the function `parseAttributes` does not
return. When the inner loop is reached the current token is the constant; the loop
condition holds there and the loop body leaves the state as it is, since the token is
neither `)`, nor `,`, nor an attribute name; so for every amount of fuel the run of
`parseAttributes` is not finished. In general the body changes nothing at any token that
is none of the three. On `__attribute__((packed));` the function returns with the
current token after the `))`. -/
theorem parseAttributes_constant_loops :
    (attributeListCondition
        ⟨⟨tokensAttributeConstant.drop 3, []⟩, []⟩ = true ∧
      attributeListBody ⟨⟨tokensAttributeConstant.drop 3, []⟩, []⟩ =
        ⟨⟨tokensAttributeConstant.drop 3, []⟩, []⟩) ∧
    (∀ fuel, parseAttributes fuel ⟨tokensAttributeConstant, []⟩ = none) ∧
    (∀ (t : Token) (rest : List Token) (diagnostics : List Diagnostic)
        (ids : List AstAttributeList),
      t.code ≠ .other 41 → t.code ≠ .other 44 → isAttributeName t = false →
      ∀ fuel, attributeListLoop fuel ⟨⟨t :: rest, diagnostics⟩, ids⟩ = none) ∧
    parseAttributes 3 ⟨tokensAttributePacked, []⟩ =
      some ([[⟨some "packed", none⟩]], ⟨[keyword (.other 59)], []⟩) := by
  have hstuck : ∀ (t : Token) (rest : List Token) (diagnostics : List Diagnostic)
      (ids : List AstAttributeList),
      t.code ≠ .other 41 → t.code ≠ .other 44 → isAttributeName t = false →
      ∀ fuel, attributeListLoop fuel ⟨⟨t :: rest, diagnostics⟩, ids⟩ = none := by
    intro t rest diagnostics ids h1 h2 h3
    apply attributeListLoop_stuck
    · simp [attributeListCondition, currentToken, h1]
    · simp [attributeListBody, skipCommas, h2, currentToken, h3]
  refine ⟨⟨by decide, by decide⟩, ?_, hstuck, by decide⟩
  intro fuel
  cases fuel with
  | zero => rfl
  | succ fuel =>
    have h := hstuck (keyword .I_CONSTANT) [keyword (.other 41), keyword (.other 41),
      keyword (.other 59)] [] [] (by decide) (by decide) (by decide) fuel
    simp only [parseAttributes, tokensAttributeConstant, nextTokenIf, consume, currentToken,
      nextToken, keyword, List.headD_cons, List.tail_cons, if_true, ne_eq, reduceCtorEq,
      not_false_eq_true, not_true_eq_false, and_false, and_true, if_false] at h ⊢
    simp [h]

/-! ## Precedence and associativity -/

/-- C32: `guessStructualMode` leaves the token state as it found it, with the current
token on the keyword, and its result is: the definition kind exactly when the token after
the keyword is `{`, or is an identifier or type name followed by `{`; the declaration kind
exactly when it is an identifier or type name followed by `;`; the reference kind exactly
when it is an identifier or type name followed by any other token; the error kind exactly
when it is neither `{` nor an identifier nor a type name. -/
theorem guessStructualMode_spec (st : TokenState) :
    (st.guessStructualMode).2 = st ∧
    ((st.guessStructualMode).1 = .SSK_DEFINITION ↔
      (currentToken (nextToken st.tokens)).code = .other 123 ∨
      (((currentToken (nextToken st.tokens)).code = .IDENTIFIER ∨
          (currentToken (nextToken st.tokens)).code = .TYPE_NAME) ∧
        (currentToken (nextToken (nextToken st.tokens))).code = .other 123)) ∧
    ((st.guessStructualMode).1 = .SSK_DECLARATION ↔
      ((currentToken (nextToken st.tokens)).code = .IDENTIFIER ∨
          (currentToken (nextToken st.tokens)).code = .TYPE_NAME) ∧
        (currentToken (nextToken (nextToken st.tokens))).code = .other 59) ∧
    ((st.guessStructualMode).1 = .SSK_REFERENCE ↔
      ((currentToken (nextToken st.tokens)).code = .IDENTIFIER ∨
          (currentToken (nextToken st.tokens)).code = .TYPE_NAME) ∧
        (currentToken (nextToken (nextToken st.tokens))).code ≠ .other 59 ∧
        (currentToken (nextToken (nextToken st.tokens))).code ≠ .other 123) ∧
    ((st.guessStructualMode).1 = .SSK_ERROR ↔
      (currentToken (nextToken st.tokens)).code ≠ .other 123 ∧
      (currentToken (nextToken st.tokens)).code ≠ .IDENTIFIER ∧
      (currentToken (nextToken st.tokens)).code ≠ .TYPE_NAME) ∧
    (st.guessStructualMode).1 ≠ .SSK_NONE := by
  generalize hn : (currentToken (nextToken st.tokens)).code = n
  generalize hnn : (currentToken (nextToken (nextToken st.tokens))).code = nn
  have hdef : st.guessStructualMode =
      ((if n = .other 123 then StructSpecifierKind.SSK_DEFINITION
        else if n = .IDENTIFIER ∨ n = .TYPE_NAME then
          (if nn = .other 59 then StructSpecifierKind.SSK_DECLARATION
           else if nn = .other 123 then .SSK_DEFINITION else .SSK_REFERENCE)
        else .SSK_ERROR), st) := by
    simp only [TokenState.guessStructualMode, hn, hnn]
  rw [hdef]
  by_cases h1 : n = .other 123
  · subst h1
    simp
  · by_cases h2 : n = .IDENTIFIER ∨ n = .TYPE_NAME
    · by_cases h3 : nn = .other 59
      · subst h3
        rcases h2 with h2 | h2 <;> subst h2 <;> simp
      · by_cases h4 : nn = .other 123
        · subst h4
          rcases h2 with h2 | h2 <;> subst h2 <;> simp
        · rcases h2 with h2 | h2 <;> subst h2 <;> simp [h3, h4]
    · have h2a : n ≠ .IDENTIFIER := fun h => h2 (Or.inl h)
      have h2b : n ≠ .TYPE_NAME := fun h => h2 (Or.inr h)
      simp [h1, h2a, h2b]

/-! ## Integer constant expressions -/

/-- C38 failing input: the constant expression `4294967296`. When `eval` gives the integer
constant `v`, `parseAsIntConst` returns `TRUE` and stores `(int)v`, the signed value of
the low 32 bits of `v`; that is `v` only in the range of `int`. For `4294967296` it stores
0, for `2147483648` it stores `-2147483648`. -/
theorem parseAsIntConst_truncates :
    (∀ (fo : FloatOps) (ops : ExpressionOps) (fuel : Nat) (st next : TokenState)
        (expression : AstExpression) (v : Int),
      parseConditionalExpression ops fuel st = some (expression, next) →
      eval fo expression = .some ⟨.CK_INT_CONST, v⟩ →
      parseAsIntConst fo ops fuel st = some (next, some (wrap32 v))) ∧
    (∀ v : Int, wrap32 v = v ↔ -2 ^ 31 ≤ v ∧ v < 2 ^ 31) ∧
    (∀ fo : FloatOps,
      parseAsIntConst fo (constantExpressionOps 4294967296) 2
          ⟨[keyword .L_CONSTANT, keyword (.other 58)], []⟩ =
        some (⟨[keyword (.other 58)], []⟩, some 0)) ∧
    (∀ fo : FloatOps,
      parseAsIntConst fo (constantExpressionOps 2147483648) 2
          ⟨[keyword .L_CONSTANT, keyword (.other 58)], []⟩ =
        some (⟨[keyword (.other 58)], []⟩, some (-2147483648))) ∧
    (∀ fo : FloatOps,
      parseAsIntConst fo (constantExpressionOps 7) 2
          ⟨[keyword .L_CONSTANT, keyword (.other 58)], []⟩ =
        some (⟨[keyword (.other 58)], []⟩, some 7)) := by
  refine ⟨?_, ?_, ?_, ?_, ?_⟩
  · intro fo ops fuel st next expression v hp he
    simp [parseAsIntConst, hp, he, storeIntConst]
  · intro v
    unfold wrap32
    constructor
    · intro h
      have h1 := Int.emod_nonneg (v + 2 ^ 31) (by norm_num : (2 : Int) ^ 32 ≠ 0)
      have h2 := Int.emod_lt_of_pos (v + 2 ^ 31) (by norm_num : (0 : Int) < 2 ^ 32)
      norm_num at h h1 h2 ⊢
      omega
    · intro h
      have : (v + 2 ^ 31) % 2 ^ 32 = v + 2 ^ 31 := by
        apply Int.emod_eq_of_lt <;> norm_num <;> omega
      rw [this]; ring
  · intro fo; rfl
  · intro fo; rfl
  · intro fo; rfl

/-! ## The last member of a struct body -/

/-- C35 failing input: `struct S { struct N { int b; }; };`. The declaration of the nested
tagged struct has no declarator and adds no member, so the member list stays empty and
`current` is still the address of the local `head`, whose type is `NULL`;
`checkFlexibleMember` is called on it and reads `type->kind`. In general, whenever the
body adds no member the function reads the type of no member. -/
theorem parseStructDeclarationList_no_member :
    (structNestedOnly.foldl (layoutDeclaration 1) LayoutState.init).members = [] ∧
    parseStructDeclarationList 1 structNestedOnly = none ∧
    (∀ (factor : Int) (decls : List StructDeclaration),
      (decls.foldl (layoutDeclaration factor) LayoutState.init).members = [] →
      parseStructDeclarationList factor decls = none) := by
  refine ⟨by decide, by decide, ?_⟩
  intro factor decls h
  have hadj : ∀ (chain : Option Nat) (w o : Int),
      (adjustBitFieldStorage [] chain w o).1 = [] := by
    intro chain w o
    unfold adjustBitFieldStorage
    cases bitFieldStorageClass w with
    | none => rfl
    | some c =>
      obtain ⟨sid, uid, align⟩ := c
      cases chain <;> simp
  simp only [parseStructDeclarationList, h, hadj, ite_self, List.getLast?_nil]

/-- C36 failing input: `struct { char a; struct { int b; }; }`. The member `$1` made for
the anonymous struct is placed at the running offset 1, which is not a multiple of the
alignment 4 of its type: the path of an anonymous aggregate does not call
`alignMemberOffset`. -/
theorem parseStructDeclarationList_anonymous_unaligned :
    parseStructDeclarationList 1 structCharAnon =
      some ([⟨some "a", makePrimitiveType .T_S1, 0, false⟩,
             ⟨some "$1", anonStructIntType, 1, false⟩], false) ∧
    typeAlignment anonStructIntType = 4 ∧
    alignMemberOffset anonStructIntType 1 = 4 ∧
    ¬ (4 : Int) ∣ 1 := by
  refine ⟨by decide, by decide, by decide, by decide⟩

/-! ## What `eval` writes -/

theorem evalEffect_result (fo : FloatOps) (e : AstExpression) :
    (evalEffect fo e).result = eval fo e := by
  induction e with
  | E_CONST type constExpr =>
    simp only [evalEffect, eval]
    split <;> rfl
  | binaryExpr op type left right ihl ihr =>
    simp only [evalEffect, eval]
    split
    · rfl
    · cases op <;> simp only [] <;>
        first
        | exact ihr
        | (cases hb : binaryEvaluators fo _ with
           | none => rfl
           | some t =>
             obtain ⟨chk, bi, bf⟩ := t
             simp only [← ihl, ← ihr]
             cases hl : (evalEffect fo left).result <;> simp only [EvalEffect.fresh] <;>
               cases hr : (evalEffect fo right).result <;> simp only [])
  | ternaryExpr type condition ifTrue ifFalse ihc iht ihf =>
    simp only [evalEffect, eval]
    split
    · rfl
    · simp only [← ihc, ← iht, ← ihf]
      cases hc : (evalEffect fo condition).result <;> simp only [EvalEffect.fresh]
      split <;> rfl
  | E_PAREN type parened ih =>
    simp only [evalEffect, eval]
    split
    · rfl
    · exact ih
  | castExpr type toType argument ih =>
    simp only [evalEffect, eval]
    split
    · rfl
    · simp only [← ih]
      cases ha : (evalEffect fo argument).result <;> simp only [EvalEffect.fresh]
      cases hc : evalCast fo toType _ <;> simp only []
  | unaryExpr op type argument ih =>
    simp only [evalEffect, eval]
    split
    · rfl
    · cases op <;> simp only [] <;>
        first
        | exact ih
        | rfl
        | (cases hb : unaryEvaluators fo _ with
           | none => rfl
           | some t =>
             obtain ⟨ui, uf⟩ := t
             simp only [← ih]
             cases ha : (evalEffect fo argument).result <;> simp only [EvalEffect.fresh] <;>
               (try split) <;> rfl)
  | fieldExpr op type recevier memberOffset ih =>
    simp only [evalEffect, eval]
    split
    · rfl
    · cases op <;> simp only [EvalEffect.fresh]
      simp only [← ih]
      cases hr : (evalEffect fo recevier).result <;> simp only [EvalEffect.fresh]
  | E_CALL type callee _ => simp [evalEffect, eval, EvalEffect.fresh]
  | E_NAMEREF type s => simp [evalEffect, eval, EvalEffect.fresh]
  | E_LABEL_REF type label => simp [evalEffect, eval, EvalEffect.fresh]
  | other op type => simp [evalEffect, eval, EvalEffect.fresh]

/-- C33 failing input: `p->b` with the constant receiver `p = 0` and the member `b` at
offset 4. The case `E_CONST` returns the address of the constant inside the expression
and the case `EF_ARROW` adds the offset to it in place: after the call the receiver in
the tree is the constant 4, and evaluating the same expression again returns 8, not 4.
The same holds for every constant receiver and offset. In the same way `(signed char)300`
leaves the constant 44 in the tree, and a cast of a floating constant to `int` leaves an
integer constant in the tree. -/
theorem eval_writes_into_tree :
    (∀ fo : FloatOps,
      (evalEffect fo arrowOnConstant).result = .some ⟨.CK_INT_CONST, 4⟩ ∧
      (evalEffect fo arrowOnConstant).expression =
        .fieldExpr .EF_ARROW intType (.E_CONST (.TR_POINTED intType) ⟨.CK_INT_CONST, 4⟩) 4 ∧
      (evalEffect fo arrowOnConstant).expression ≠ arrowOnConstant ∧
      (evalEffect fo (evalEffect fo arrowOnConstant).expression).result =
        .some ⟨.CK_INT_CONST, 8⟩) ∧
    (∀ (fo : FloatOps) (type pointer : TypeRef) (c : AstConst) (memberOffset : Int),
      isErrorType type = false → isErrorType pointer = false →
      (evalEffect fo (.fieldExpr .EF_ARROW type (.E_CONST pointer c) memberOffset)).expression =
        .fieldExpr .EF_ARROW type
          (.E_CONST pointer { c with i := wrap64 (c.i + memberOffset) }) memberOffset) ∧
    (∀ fo : FloatOps,
      (evalEffect fo castOfConstant).expression =
        .castExpr (makePrimitiveType .T_S1) (makePrimitiveType .T_S1)
          (.E_CONST intType ⟨.CK_INT_CONST, 44⟩)) ∧
    (∀ (fo : FloatOps) (f : Int),
      (evalEffect fo (.castExpr intType intType (.E_CONST doubleType ⟨.CK_FLOAT_CONST, f⟩))).expression =
        .castExpr intType intType
          (.E_CONST doubleType ⟨.CK_INT_CONST, fo.toSigned 32 f⟩)) := by
  refine ⟨?_, ?_, ?_, ?_⟩
  · intro fo
    have h : (evalEffect fo arrowOnConstant).expression =
        .fieldExpr .EF_ARROW intType (.E_CONST (.TR_POINTED intType) ⟨.CK_INT_CONST, 4⟩) 4 := rfl
    refine ⟨rfl, h, ?_, ?_⟩
    · rw [h]; decide
    · rw [h]; rfl
  · intro fo type pointer c memberOffset h1 h2
    simp [evalEffect, h1, h2]
  · intro fo
    rfl
  · intro fo f
    simp [evalEffect, evalCast, castToInt, intType, doubleType, makePrimitiveType, isErrorType,
      builtInTypeSize]

/-! ## Enumerators -/

theorem enumeratorValue_fst (idx : Int) (e : Enumerator)
    (hint : e.hasIntInitializer = true) :
    (enumeratorValue idx e).1 = valueFrom idx e := by
  unfold enumeratorValue valueFrom storeIntConst
  rcases e with ⟨name, _ | _ | c⟩
  · rfl
  · rfl
  · by_cases h : c.op = .CK_INT_CONST
    · simp only [Enumerator.hasIntInitializer, h, ne_eq, not_true_eq_false, decide_False,
        Bool.false_or, Bool.and_eq_true, decide_eq_true_eq] at hint
      simp [h, wrap32_of_range hint.1 hint.2]
    · simp [h]

theorem enumeratorValue_snd (idx : Int) (e : Enumerator) :
    (enumeratorValue idx e).2 = wrap32 ((enumeratorValue idx e).1 + 1) := by
  unfold enumeratorValue
  cases e.initializer <;> rfl

theorem enumeratorTurns_get (es : List Enumerator) :
    (∀ e ∈ es, e.hasIntInitializer = true) →
    ∀ (idx : Int) (i : Nat) (e : Enumerator), es[i]? = some e →
      ((enumeratorTurns idx es).map Prod.snd)[i]? =
        some (valueFrom
          (if i = 0 then idx
           else wrap32 ((((enumeratorTurns idx es).map Prod.snd)[i - 1]?).getD 0 + 1)) e) := by
  induction es with
  | nil => intro _ idx i e h; simp at h
  | cons e0 es ih =>
    intro hint idx i e h
    cases i with
    | zero =>
      simp only [List.getElem?_cons_zero, Option.some.injEq] at h
      subst h
      simp [enumeratorTurns, enumeratorValue_fst idx e0 (hint e0 (List.mem_cons_self _ _))]
    | succ j =>
      simp only [List.getElem?_cons_succ] at h
      have := ih (fun e1 h1 => hint e1 (List.mem_cons_of_mem _ h1)) (enumeratorValue idx e0).2 j e h
      simp only [enumeratorTurns, List.map_cons, List.getElem?_cons_succ, this,
        Nat.add_sub_cancel, Nat.succ_ne_zero, if_false]
      cases j with
      | zero => simp [enumeratorValue_snd]
      | succ k => simp

theorem enumeratorTurns_names (es : List Enumerator) :
    ∀ idx : Int, (enumeratorTurns idx es).map Prod.fst = es.map fun e => e.name := by
  induction es with
  | nil => intro idx; rfl
  | cons e es ih => intro idx; simp [enumeratorTurns, ih]

/-- C37 counterexample: in `enum { A = 2147483647, B }` the enumerator `B` gets
`-2147483648`, which is not the value of `A` plus 1: the counter is an `int32_t`. -/
theorem parseEnumeratorList_wraps :
    parseEnumeratorList [enumeratorInit "A" 2147483647, enumerator "B"] =
      [⟨"A", 2147483647⟩, ⟨"B", -2147483648⟩] ∧
    (-2147483648 : Int) ≠ 2147483647 + 1 := by
  refine ⟨by decide, by decide⟩

/-- C37 amended: when every initializer that is an integer constant is in the range of
`int`, the names of the returned list are the names of the turns that have one, in source
order, each with the value of its turn; and the values of the turns follow a 32-bit
counter: the value of a turn is its initializer when that is an integer constant, and
otherwise 0 for the first turn and the value of the turn before it plus 1, converted to
`int32_t`, for a later one. -/
theorem parseEnumeratorList_values (es : List Enumerator)
    (hint : ∀ e ∈ es, e.hasIntInitializer = true) :
    (parseEnumeratorList es).map (fun c => c.name) = es.filterMap (fun e => e.name) ∧
    parseEnumeratorList es =
      (enumeratorTurns 0 es).filterMap (fun turn => turn.1.map fun name => ⟨name, turn.2⟩) ∧
    (enumeratorTurns 0 es).map Prod.fst = es.map (fun e => e.name) ∧
    (∀ (i : Nat) (e : Enumerator), es[i]? = some e →
      ((enumeratorTurns 0 es).map Prod.snd)[i]? =
        some (valueFrom
          (if i = 0 then 0
           else wrap32 ((((enumeratorTurns 0 es).map Prod.snd)[i - 1]?).getD 0 + 1)) e)) := by
  refine ⟨?_, rfl, enumeratorTurns_names es 0, enumeratorTurns_get es hint 0⟩
  have key : ∀ (idx : Int) (es : List Enumerator),
      ((enumeratorTurns idx es).filterMap
        (fun turn => turn.1.map fun name => EnumConstant.mk name turn.2)).map (fun c => c.name) =
        es.filterMap (fun e => e.name) := by
    intro idx es
    induction es generalizing idx with
    | nil => rfl
    | cons e es ih =>
      rcases e with ⟨_ | name, initializer⟩
      · simp [enumeratorTurns, List.filterMap_cons, ih]
      · simp [enumeratorTurns, List.filterMap_cons, ih]
  exact key 0 es

/-- C37 witness: the initializer of `enum { A, B = 5, C }` is in the range of `int`; the
list gives `A = 0`, `B = 5`, `C = 6`, with the names in source order. -/
theorem parseEnumeratorList_values_witness :
    (∀ e ∈ [enumerator "A", enumeratorInit "B" 5, enumerator "C"],
      e.hasIntInitializer = true) ∧
    parseEnumeratorList [enumerator "A", enumeratorInit "B" 5, enumerator "C"] =
      [⟨"A", 0⟩, ⟨"B", 5⟩, ⟨"C", 6⟩] ∧
    (parseEnumeratorList [enumerator "A", enumeratorInit "B" 5, enumerator "C"]).map
        (fun c => c.name) =
      [enumerator "A", enumeratorInit "B" 5, enumerator "C"].filterMap (fun e => e.name) :=
  ⟨by decide, by decide,
    (parseEnumeratorList_values [enumerator "A", enumeratorInit "B" 5, enumerator "C"]
      (by decide)).1⟩

/-! ## The flags and the scopes of the statement parser -/

theorem u32_of_valid {x : Int} (h0 : 0 ≤ x) (h1 : x < 2 ^ 32) : u32 x = x := by
  unfold u32
  exact Int.emod_eq_of_lt h0 h1

theorem u32_valid (x : Int) : 0 ≤ u32 x ∧ u32 x < 2 ^ 32 := by
  unfold u32
  exact ⟨Int.emod_nonneg _ (by norm_num), Int.emod_lt_of_pos _ (by norm_num)⟩

theorem u32_add_u32 (a b : Int) : u32 (u32 a + b) = u32 (a + b) := by
  unfold u32
  exact Int.emod_add_emod a (2 ^ 32) b

theorem Step.refl {st : StatementState} (hv : st.valid) : Step 0 false st st := by
  refine ⟨rfl, rfl, ?_, ?_, hv, rfl, le_refl _, fun _ _ => rfl⟩
  · split
    · simp only [Nat.cast_zero, add_zero]
      exact (u32_of_valid hv.1 hv.2).symm
    · rfl
  · simp

theorem Step.trans {n m : Nat} {d e : Bool} {a b c : StatementState}
    (h1 : Step n d a b) (h2 : Step m e b c) : Step (n + m) (d || e) a c := by
  refine ⟨h2.inSwitch.trans h1.inSwitch, h2.inLoop.trans h1.inLoop, ?_, ?_, h2.valid,
    h2.scope.trans h1.scope, le_trans h1.length h2.length, ?_⟩
  · rw [h2.caseCount, h1.inSwitch, h1.caseCount]
    split
    · rw [u32_add_u32]
      congr 1
      push_cast
      ring
    · rfl
  · rw [h2.hasDefault, h1.inSwitch, h1.hasDefault]
    cases a.stateFlags.hasDefault <;> cases a.stateFlags.inSwitch <;> cases d <;> cases e <;> rfl
  · intro i hi
    rw [h2.parents i (lt_of_lt_of_le hi h1.length), h1.parents i hi]

theorem Step.cast {n m : Nat} {d e : Bool} {a b : StatementState} (h : Step n d a b)
    (hn : n = m) (hd : d = e) : Step m e a b := by
  subst hn; subst hd; exact h

theorem Step.ofFlags {n : Nat} {d : Bool} {st mid next : StatementState}
    (h : Step n d mid next)
    (hflags : mid.stateFlags.inSwitch = st.stateFlags.inSwitch ∧
      mid.stateFlags.caseCount = st.stateFlags.caseCount ∧
      mid.stateFlags.hasDefault = st.stateFlags.hasDefault)
    (hctx : mid.ctx = st.ctx) (inLoop : Bool) :
    Step n d st { next with stateFlags := { next.stateFlags with inLoop := st.stateFlags.inLoop } } := by
  refine ⟨?_, rfl, ?_, ?_, h.valid, ?_, ?_, ?_⟩
  · exact h.inSwitch.trans hflags.1
  · have := h.caseCount
    rw [hflags.1, hflags.2.1] at this
    exact this
  · have := h.hasDefault
    rw [hflags.1, hflags.2.2] at this
    exact this
  · have := h.scope; rw [hctx] at this; exact this
  · have := h.length; rw [hctx] at this; exact this
  · have := h.parents; rw [hctx] at this; exact this

theorem newScope_get_old (ctx : ParserContext) (parent : Option Nat) (i : Nat)
    (hi : i < ctx.scopes.length) :
    (newScope ctx parent).1.scopes.get? i = ctx.scopes.get? i := by
  simp only [newScope, List.get?_eq_getElem?]
  exact List.getElem?_append_left hi

theorem newScope_get_new (ctx : ParserContext) (parent : Option Nat) :
    (newScope ctx parent).1.scopes.get? ctx.scopes.length =
      some { parent := parent, symbols := [] } := by
  simp [newScope, List.get?_eq_getElem?]

/-- Leaving a scope that was made under the scope that was current in `st`: when the
construct inside kept that scope current and kept the parents, the state after it has
the scope of `st` current again. -/
theorem Step.ofScope {n : Nat} {d : Bool} {st next : StatementState}
    (h : Step n d
      { st with
        ctx := ((newScope st.ctx st.ctx.currentScope).1).inScope (some st.ctx.scopes.length) } next) :
    ∃ last, next.leaveScope (some st.ctx.scopes.length) = some last ∧ Step n d st last ∧
      last.ctx.scopes = next.ctx.scopes ∧
      (last.ctx.scopes.get? st.ctx.scopes.length).map Scope.parent =
        some st.ctx.currentScope := by
  have hlen : st.ctx.scopes.length <
      (((newScope st.ctx st.ctx.currentScope).1).inScope (some st.ctx.scopes.length)).scopes.length := by
    simp [newScope, ParserContext.inScope]
  have hp := h.parents st.ctx.scopes.length hlen
  have hnew : (((newScope st.ctx st.ctx.currentScope).1).inScope
      (some st.ctx.scopes.length)).scopes.get? st.ctx.scopes.length =
      some { parent := st.ctx.currentScope, symbols := [] } := newScope_get_new _ _
  simp only [hnew, Option.map_some'] at hp
  cases hg : next.ctx.scopes.get? st.ctx.scopes.length with
  | none => rw [hg] at hp; cases hp
  | some scope =>
    rw [hg] at hp
    simp only [Option.map_some', Option.some.injEq] at hp
    refine ⟨{ next with ctx := next.ctx.inScope scope.parent }, ?_, ?_, rfl, ?_⟩
    · simp only [StatementState.leaveScope, hg]
    · refine ⟨h.inSwitch, h.inLoop, h.caseCount, h.hasDefault, h.valid, ?_, ?_, ?_⟩
      · simp only [ParserContext.inScope, hp]
      · exact le_trans (Nat.le_of_lt hlen) h.length
      · intro i hi
        have := h.parents i (lt_trans hi hlen)
        simp only [ParserContext.inScope] at this ⊢
        rw [this, newScope_get_old _ _ _ hi]
    · simp only [ParserContext.inScope, hg, Option.map_some', hp]

theorem parseStatementImpl_step (s : Construct) :
    ∀ st : StatementState, st.valid →
      ∃ next, parseStatementImpl s st = some next ∧
        Step (caseLabels s) (hasDefaultLabel s) st next := by
  induction s with
  | simple => intro st hv; exact ⟨st, rfl, Step.refl hv⟩
  | caseLabel body ih =>
    intro st hv
    simp only [parseStatementImpl, caseLabels, hasDefaultLabel]
    by_cases hs : st.stateFlags.inSwitch = true
    · obtain ⟨next, h1, h2⟩ := ih
        { st with stateFlags := { st.stateFlags with
            caseCount := u32 (st.stateFlags.caseCount + 1) } } (u32_valid _)
      refine ⟨next, by simpa [hs] using h1, ?_⟩
      have h0 : Step 1 false st
          { st with stateFlags := { st.stateFlags with
              caseCount := u32 (st.stateFlags.caseCount + 1) } } :=
        ⟨rfl, rfl, by simp [hs], by simp, u32_valid _, rfl, le_refl _, fun _ _ => rfl⟩
      exact (h0.trans h2).cast (Nat.add_comm _ _) (Bool.false_or _)
    · obtain ⟨next, h1, h2⟩ := ih
        { st with diagnostics := st.diagnostics ++ [.DIAG_SWITCH_LABEL_NOT_IN_SWITCH] } hv
      refine ⟨next, by simpa [hs] using h1, ?_⟩
      have h0 : Step 1 false st
          { st with diagnostics := st.diagnostics ++ [.DIAG_SWITCH_LABEL_NOT_IN_SWITCH] } :=
        ⟨rfl, rfl, by simp [hs], by simp, hv, rfl, le_refl _, fun _ _ => rfl⟩
      exact (h0.trans h2).cast (Nat.add_comm _ _) (Bool.false_or _)
  | defaultLabel body ih =>
    intro st hv
    simp only [parseStatementImpl, caseLabels, hasDefaultLabel]
    by_cases hs : st.stateFlags.inSwitch = true
    · obtain ⟨next, h1, h2⟩ := ih
        { st with stateFlags := { st.stateFlags with hasDefault := true } } hv
      refine ⟨next, by simpa [hs] using h1, ?_⟩
      have h0 : Step 0 true st
          { st with stateFlags := { st.stateFlags with hasDefault := true } } :=
        ⟨rfl, rfl, by simp [hs, u32_of_valid hv.1 hv.2], by simp [hs], hv, rfl, le_refl _,
          fun _ _ => rfl⟩
      exact (h0.trans h2).cast (Nat.zero_add _) (Bool.true_or _)
    · obtain ⟨next, h1, h2⟩ := ih
        { st with diagnostics := st.diagnostics ++ [.DIAG_SWITCH_LABEL_NOT_IN_SWITCH] } hv
      refine ⟨next, by simpa [hs] using h1, ?_⟩
      have h0 : Step 0 true st
          { st with diagnostics := st.diagnostics ++ [.DIAG_SWITCH_LABEL_NOT_IN_SWITCH] } :=
        ⟨rfl, rfl, by simp [hs], by simp [hs], hv, rfl, le_refl _, fun _ _ => rfl⟩
      exact (h0.trans h2).cast (Nat.zero_add _) (Bool.true_or _)
  | block items ih =>
    intro st hv
    obtain ⟨next, h1, h2⟩ := ih
      { st with
        ctx := ((newScope st.ctx st.ctx.currentScope).1).inScope (some st.ctx.scopes.length) } hv
    obtain ⟨last, h3, h4, _, _⟩ := h2.ofScope
    refine ⟨last, ?_, h4⟩
    have hc : next.ctx.currentScope = some st.ctx.scopes.length := h2.scope
    simp only [parseStatementImpl, parseCompoundStatement, caseLabels, hasDefaultLabel]
    show (match parseStatementImpl items _ with
      | none => none
      | some st => st.leaveScope st.ctx.currentScope) = some last
    rw [show (newScope st.ctx st.ctx.currentScope).2 = st.ctx.scopes.length from rfl, h1]
    simp only [hc, h3]
  | ifThen thenB ih =>
    intro st hv
    simpa only [parseStatementImpl, caseLabels, hasDefaultLabel] using ih st hv
  | ifThenElse thenB elseB ih1 ih2 =>
    intro st hv
    obtain ⟨mid, h1, h2⟩ := ih1 st hv
    obtain ⟨next, h3, h4⟩ := ih2 mid h2.valid
    exact ⟨next, by simp only [parseStatementImpl, h1, h3], h2.trans h4⟩
  | switchOn body ih =>
    intro st hv
    obtain ⟨next, h1, h2⟩ := ih
      { st with stateFlags := { st.stateFlags with
          caseCount := 0, inSwitch := true, hasDefault := false } }
      ⟨le_refl _, by norm_num⟩
    refine ⟨{ next with
        stateFlags := { next.stateFlags with
          inSwitch := st.stateFlags.inSwitch, caseCount := st.stateFlags.caseCount,
          hasDefault := st.stateFlags.hasDefault }
        switches := next.switches ++ [(next.stateFlags.caseCount, next.stateFlags.hasDefault)] },
      by simp only [parseStatementImpl, h1], ?_⟩
    refine ⟨rfl, h2.inLoop, ?_, ?_, hv, h2.scope, h2.length, h2.parents⟩
    · simp only [caseLabels, Nat.cast_zero, add_zero, u32_of_valid hv.1 hv.2, ite_self]
    · simp [hasDefaultLabel]
  | whileLoop body ih =>
    intro st hv
    obtain ⟨next, h1, h2⟩ := ih
      { st with stateFlags := { st.stateFlags with inLoop := true } } hv
    exact ⟨_, by simp only [parseStatementImpl, h1],
      h2.ofFlags ⟨rfl, rfl, rfl⟩ rfl true⟩
  | doLoop body ih =>
    intro st hv
    obtain ⟨next, h1, h2⟩ := ih
      { st with stateFlags := { st.stateFlags with inLoop := true } } hv
    exact ⟨_, by simp only [parseStatementImpl, h1],
      h2.ofFlags ⟨rfl, rfl, rfl⟩ rfl true⟩
  | forLoop initial body ih1 ih2 =>
    intro st hv
    obtain ⟨mid, h1, h2⟩ := ih1
      { st with
        ctx := ((newScope st.ctx st.ctx.currentScope).1).inScope (some st.ctx.scopes.length) } hv
    obtain ⟨next, h3, h4⟩ := ih2
      { mid with stateFlags := { mid.stateFlags with inLoop := true } } h2.valid
    have h5 := @Step.ofFlags _ _ mid _ _ h4 ⟨rfl, rfl, rfl⟩ rfl true
    have h6 := h2.trans h5
    obtain ⟨last, h7, h8, _, _⟩ := h6.ofScope
    refine ⟨last, ?_, h8⟩
    have hc : next.ctx.currentScope = some st.ctx.scopes.length := h4.scope.trans h2.scope
    simp only [parseStatementImpl]
    rw [show (newScope st.ctx st.ctx.currentScope).2 = st.ctx.scopes.length from rfl, h1]
    simp only [h3, hc]
    exact h7
  | labeled body ih =>
    intro st hv
    simpa only [parseStatementImpl, caseLabels, hasDefaultLabel] using ih st hv
  | sequence first second ih1 ih2 =>
    intro st hv
    obtain ⟨mid, h1, h2⟩ := ih1 st hv
    obtain ⟨next, h3, h4⟩ := ih2 mid h2.valid
    exact ⟨next, by simp only [parseStatementImpl, h1, h3], h2.trans h4⟩
  | parameters list ih =>
    intro st hv
    obtain ⟨next, h1, h2⟩ := ih
      { st with
        ctx := ((newScope st.ctx st.ctx.currentScope).1).inScope (some st.ctx.scopes.length) } hv
    obtain ⟨last, h3, h4, _, _⟩ := h2.ofScope
    refine ⟨last, ?_, h4⟩
    simp only [parseStatementImpl, parseFunctionDeclaratorPart]
    rw [show (newScope st.ctx st.ctx.currentScope).2 = st.ctx.scopes.length from rfl, h1]
    exact h3

theorem parseStatementImpl_block (items : Construct) (st : StatementState) (hv : st.valid) :
    ∃ next, parseStatementImpl (.block items) st = some next ∧
      Step (caseLabels items) (hasDefaultLabel items) st next ∧
      (next.ctx.scopes.get? st.ctx.scopes.length).map Scope.parent =
        some st.ctx.currentScope := by
  obtain ⟨next, h1, h2⟩ := parseStatementImpl_step items
    { st with
        ctx := ((newScope st.ctx st.ctx.currentScope).1).inScope (some st.ctx.scopes.length) } hv
  obtain ⟨last, h3, h4, _, h5⟩ := h2.ofScope
  refine ⟨last, ?_, h4, h5⟩
  have hc : next.ctx.currentScope = some st.ctx.scopes.length := h2.scope
  simp only [parseStatementImpl, parseCompoundStatement]
  rw [show (newScope st.ctx st.ctx.currentScope).2 = st.ctx.scopes.length from rfl, h1]
  simp only [hc, h3]

theorem parseStatementImpl_forLoop (initial body : Construct) (st : StatementState)
    (hv : st.valid) :
    ∃ next, parseStatementImpl (.forLoop initial body) st = some next ∧
      Step (caseLabels initial + caseLabels body)
        (hasDefaultLabel initial || hasDefaultLabel body) st next ∧
      (next.ctx.scopes.get? st.ctx.scopes.length).map Scope.parent =
        some st.ctx.currentScope := by
  obtain ⟨mid, h1, h2⟩ := parseStatementImpl_step initial
    { st with
        ctx := ((newScope st.ctx st.ctx.currentScope).1).inScope (some st.ctx.scopes.length) } hv
  obtain ⟨next, h3, h4⟩ := parseStatementImpl_step body
    { mid with stateFlags := { mid.stateFlags with inLoop := true } } h2.valid
  have h5 := @Step.ofFlags _ _ mid _ _ h4 ⟨rfl, rfl, rfl⟩ rfl true
  have h6 := h2.trans h5
  obtain ⟨last, h7, h8, _, h9⟩ := h6.ofScope
  refine ⟨last, ?_, h8, h9⟩
  have hc : next.ctx.currentScope = some st.ctx.scopes.length := h4.scope.trans h2.scope
  simp only [parseStatementImpl]
  rw [show (newScope st.ctx st.ctx.currentScope).2 = st.ctx.scopes.length from rfl, h1]
  simp only [h3, hc]
  exact h7

theorem parseStatementImpl_parameters (list : Construct) (st : StatementState)
    (hv : st.valid) :
    ∃ next, parseStatementImpl (.parameters list) st = some next ∧
      Step (caseLabels list) (hasDefaultLabel list) st next ∧
      (next.ctx.scopes.get? st.ctx.scopes.length).map Scope.parent =
        some st.ctx.currentScope := by
  obtain ⟨next, h1, h2⟩ := parseStatementImpl_step list
    { st with
        ctx := ((newScope st.ctx st.ctx.currentScope).1).inScope (some st.ctx.scopes.length) } hv
  obtain ⟨last, h3, h4, _, h5⟩ := h2.ofScope
  refine ⟨last, ?_, h4, h5⟩
  simp only [parseStatementImpl, parseFunctionDeclaratorPart]
  rw [show (newScope st.ctx st.ctx.currentScope).2 = st.ctx.scopes.length from rfl, h1]
  exact h3

/-- C39 counterexample: inside the body of a `switch`, the loop statement
`while (n) { case 1: ; }` is a complete loop statement after which `caseCount` is 1 and
not 0 as before it: the label inside the loop is counted for the `switch` around it. -/
theorem parseStatementImpl_loop_counts_case :
    (parseStatementImpl whileWithCase (insideSwitch ctxFileScope)).map
        (fun st => st.stateFlags) =
      some { inSwitch := true, inLoop := false, caseCount := 1, hasDefault := false } ∧
    (insideSwitch ctxFileScope).stateFlags =
      { inSwitch := true, inLoop := false, caseCount := 0, hasDefault := false } := by
  refine ⟨by decide, by decide⟩

/-- C39 amended: from a state whose `caseCount` is in the range of `unsigned`, every
construct is parsed, and afterwards `inSwitch` and `inLoop` are what they were; `caseCount`
has grown, modulo 2^32, by the number of `case` labels of the construct that are in no
`switch` inside it when the construct is inside a `switch`, and is what it was otherwise;
`hasDefault` is set when such a `default` label is there inside a `switch`. For a `switch`
statement all four are what they were before it, and it is created with the number of
the `case` labels of its body that are in no `switch` inside it, modulo 2^32, and with the
flag of such a `default` label. -/
theorem parseStatementImpl_flags (s : Construct) (st : StatementState) (hv : st.valid) :
    ∃ next, parseStatementImpl s st = some next ∧
      next.stateFlags.inSwitch = st.stateFlags.inSwitch ∧
      next.stateFlags.inLoop = st.stateFlags.inLoop ∧
      next.stateFlags.caseCount =
        (if st.stateFlags.inSwitch then u32 (st.stateFlags.caseCount + caseLabels s)
         else st.stateFlags.caseCount) ∧
      next.stateFlags.hasDefault =
        (st.stateFlags.hasDefault || (st.stateFlags.inSwitch && hasDefaultLabel s)) ∧
      (∀ body, s = .switchOn body →
        next.stateFlags = st.stateFlags ∧
        ∃ inner,
          parseStatementImpl body
            { st with stateFlags := { st.stateFlags with
                caseCount := 0, inSwitch := true, hasDefault := false } } = some inner ∧
          next.switches =
            inner.switches ++ [((caseLabels body : Int) % 2 ^ 32, hasDefaultLabel body)]) := by
  obtain ⟨next, h1, h2⟩ := parseStatementImpl_step s st hv
  refine ⟨next, h1, h2.inSwitch, h2.inLoop, h2.caseCount, h2.hasDefault, ?_⟩
  intro body hs
  subst hs
  obtain ⟨inner, h3, h4⟩ := parseStatementImpl_step body
    { st with stateFlags := { st.stateFlags with
        caseCount := 0, inSwitch := true, hasDefault := false } }
    ⟨le_refl _, by norm_num⟩
  simp only [parseStatementImpl, h3, Option.some.injEq] at h1
  subst h1
  refine ⟨?_, inner, h3, ?_⟩
  · have := h4.inLoop
    simp only at this
    simp only [this]
  · have hc := h4.caseCount
    have hd := h4.hasDefault
    simp only [if_true, zero_add, Bool.false_or, Bool.true_and] at hc hd
    simp only [hc, hd, u32]

/-- C39 witness: `switch (n) { case 0: do { case 1: ; } while (n); switch (m) { case 2: ;
default: ; } }` at the start of a function body: the inner `switch` is created with one
case and a default, the outer one with two cases and no default, and the flags are as
before. -/
theorem parseStatementImpl_flags_witness :
    (bodyState ctxFileScope).valid ∧
    ∃ next, parseStatementImpl switchWithLoop (bodyState ctxFileScope) = some next ∧
      next.switches = [(1, true), (2, false)] ∧
      next.stateFlags = (bodyState ctxFileScope).stateFlags := by
  refine ⟨⟨by decide, by decide⟩, ?_⟩
  obtain ⟨next, h, -, -, -, -, hs⟩ :=
    parseStatementImpl_flags switchWithLoop (bodyState ctxFileScope) ⟨by decide, by decide⟩
  obtain ⟨hflags, inner, hinner, hsw⟩ := hs _ rfl
  have hi : parseStatementImpl
      (.block (.sequence (.caseLabel (.doLoop (.block (.caseLabel .simple))))
        (.switchOn (.block (.sequence (.caseLabel .simple) (.defaultLabel .simple))))))
      { bodyState ctxFileScope with stateFlags := { (bodyState ctxFileScope).stateFlags with
          caseCount := 0, inSwitch := true, hasDefault := false } } =
      some inner := hinner
  have hsome : (parseStatementImpl
      (.block (.sequence (.caseLabel (.doLoop (.block (.caseLabel .simple))))
        (.switchOn (.block (.sequence (.caseLabel .simple) (.defaultLabel .simple))))))
      { bodyState ctxFileScope with stateFlags := { (bodyState ctxFileScope).stateFlags with
          caseCount := 0, inSwitch := true, hasDefault := false } }).map
        (fun st => st.switches) = some [(1, true)] := by decide
  rw [hi] at hsome
  simp only [Option.map_some', Option.some.injEq] at hsome
  refine ⟨next, h, ?_, hflags⟩
  rw [hsw, hsome]
  decide

/-! ## Scope nesting -/

/-- C40: from a state whose `caseCount` is in the range of `unsigned`, every construct is
parsed, and afterwards `ctx->currentScope` is the scope that was current on entry and the
scopes that were there have the parents they had; for a compound statement, a `for`
statement and a function declarator part, the scope that the construct makes (the first
scope object made after entry) has the entry scope as its parent. -/
theorem parseStatementImpl_scopes (st : StatementState) (hv : st.valid) :
    (∀ s, ∃ next, parseStatementImpl s st = some next ∧
      next.ctx.currentScope = st.ctx.currentScope ∧
      st.ctx.scopes.length ≤ next.ctx.scopes.length ∧
      ∀ i, i < st.ctx.scopes.length →
        (next.ctx.scopes.get? i).map Scope.parent = (st.ctx.scopes.get? i).map Scope.parent) ∧
    (∀ items, ∃ next, parseStatementImpl (.block items) st = some next ∧
      next.ctx.currentScope = st.ctx.currentScope ∧
      (next.ctx.scopes.get? st.ctx.scopes.length).map Scope.parent =
        some st.ctx.currentScope) ∧
    (∀ initial body, ∃ next, parseStatementImpl (.forLoop initial body) st = some next ∧
      next.ctx.currentScope = st.ctx.currentScope ∧
      (next.ctx.scopes.get? st.ctx.scopes.length).map Scope.parent =
        some st.ctx.currentScope) ∧
    (∀ list, ∃ next, parseStatementImpl (.parameters list) st = some next ∧
      next.ctx.currentScope = st.ctx.currentScope ∧
      (next.ctx.scopes.get? st.ctx.scopes.length).map Scope.parent =
        some st.ctx.currentScope) := by
  refine ⟨?_, ?_, ?_, ?_⟩
  · intro s
    obtain ⟨next, h1, h2⟩ := parseStatementImpl_step s st hv
    exact ⟨next, h1, h2.scope, h2.length, h2.parents⟩
  · intro items
    obtain ⟨next, h1, h2, h3⟩ := parseStatementImpl_block items st hv
    exact ⟨next, h1, h2.scope, h3⟩
  · intro initial body
    obtain ⟨next, h1, h2, h3⟩ := parseStatementImpl_forLoop initial body st hv
    exact ⟨next, h1, h2.scope, h3⟩
  · intro list
    obtain ⟨next, h1, h2, h3⟩ := parseStatementImpl_parameters list st hv
    exact ⟨next, h1, h2.scope, h3⟩

/-- C40 witness: `{ for (;;) { } int f(int g(int)); }` in the file scope 0: afterwards the
scope 0 is current again; the block made scope 1 under 0, the `for` statement scope 2
under 1, its body scope 3 under 2, and the two declarator parts scope 4 under 1 and scope
5 under 4. -/
theorem parseStatementImpl_scopes_witness :
    (bodyState ctxFileScope).valid ∧
    ∃ next, parseStatementImpl blockWithFor (bodyState ctxFileScope) = some next ∧
      next.ctx.currentScope = some 0 ∧
      next.ctx.scopes.map Scope.parent = [none, some 0, some 1, some 2, some 1, some 4] := by
  refine ⟨⟨by decide, by decide⟩, ?_⟩
  obtain ⟨next, h, hc, -⟩ :=
    (parseStatementImpl_scopes (bodyState ctxFileScope) ⟨by decide, by decide⟩).1 blockWithFor
  refine ⟨next, h, hc, ?_⟩
  have hsome : (parseStatementImpl blockWithFor (bodyState ctxFileScope)).map
      (fun st => st.ctx.scopes.map Scope.parent) =
      some [none, some 0, some 1, some 2, some 1, some 4] := by decide
  rw [h] at hsome
  simpa using hsome

/-! ## A struct body that the end of the file cuts off -/

theorem parseDeclarationSpecifiers_eof (env : StructBodyOps) :
    ∃ r, parseDeclarationSpecifiers env.tagSpecifier env.ctx .DS_STRUCT
        (SpecifierState.init DeclarationSpecifiers.zero) (withEndOfFile []) = some r ∧
      r.tokens = [eofToken] ∧ r.specifiers.definition = none :=
  ⟨_, rfl, rfl, rfl⟩

theorem parseDeclarationSpecifiers_open (env : StructBodyOps) :
    ∃ r, parseDeclarationSpecifiers env.tagSpecifier env.ctx .DS_STRUCT
        (SpecifierState.init DeclarationSpecifiers.zero) (withEndOfFile tokensOpenStructBody) =
          some r ∧
      r.tokens = [identifier "a", keyword (.other 59), eofToken] ∧
      r.specifiers.definition = none :=
  ⟨_, rfl, rfl, rfl⟩

theorem parseDeclarator_eof (dops : DeclaratorOps) (diagnostics : List Diagnostic) :
    ∀ fuel, parseDeclarator dops fuel ⟨[], diagnostics⟩ = none ∨
      parseDeclarator dops fuel ⟨[], diagnostics⟩ = some ⟨[], diagnostics⟩ := by
  intro fuel
  rcases fuel with _ | _ | fuel
  · left; rfl
  · left; rfl
  · right; rfl

theorem structDeclarators_eof (env : StructBodyOps) (diagnostics : List Diagnostic) :
    ∀ fuel, structDeclarators env fuel ⟨[], diagnostics⟩ = none ∨
      structDeclarators env fuel ⟨[], diagnostics⟩ = some ⟨[], diagnostics⟩ := by
  intro fuel
  rcases fuel with _ | _ | _ | fuel
  · left; rfl
  · left; rfl
  · left; rfl
  · right; rfl

theorem structDeclaration_eof (env : StructBodyOps) (diagnostics : List Diagnostic)
    (fuel : Nat) :
    structDeclaration env fuel ⟨[], diagnostics⟩ = none ∨
      ∃ d, structDeclaration env fuel ⟨[], diagnostics⟩ = some ⟨[], d⟩ := by
  obtain ⟨r, h1, h2, h3⟩ := parseDeclarationSpecifiers_eof env
  simp only [structDeclaration, h1, h2, h3, List.dropLast_single, Bool.false_eq_true, false_and,
    if_false]
  rcases structDeclarators_eof env (diagnostics ++ r.diagnostics) fuel with h | h
  · left; rw [h]
  · right; rw [h]; exact ⟨_, rfl⟩

theorem structDeclarationLoop_eof (env : StructBodyOps) :
    ∀ (fuel : Nat) (diagnostics : List Diagnostic),
      structDeclarationLoop env fuel ⟨[], diagnostics⟩ = none := by
  intro fuel
  induction fuel with
  | zero => intro diagnostics; rfl
  | succ fuel ih =>
    intro diagnostics
    rcases structDeclaration_eof env diagnostics fuel with h | ⟨d, h⟩
    · simp only [structDeclarationLoop, h]
    · simp only [structDeclarationLoop, h]
      rw [if_pos (by decide)]
      exact ih d

theorem structDeclarators_open (env : StructBodyOps) (diagnostics : List Diagnostic) :
    ∀ fuel, structDeclarators env fuel
        ⟨[identifier "a", keyword (.other 59)], diagnostics⟩ = none ∨
      structDeclarators env fuel ⟨[identifier "a", keyword (.other 59)], diagnostics⟩ =
        some ⟨[keyword (.other 59)], diagnostics⟩ := by
  intro fuel
  rcases fuel with _ | _ | _ | _ | fuel
  · left; rfl
  · left; rfl
  · left; rfl
  · left; rfl
  · right; rfl

theorem structDeclaration_open (env : StructBodyOps) (fuel : Nat) :
    structDeclaration env fuel ⟨tokensOpenStructBody, []⟩ = none ∨
      ∃ d, structDeclaration env fuel ⟨tokensOpenStructBody, []⟩ = some ⟨[], d⟩ := by
  obtain ⟨r, h1, h2, h3⟩ := parseDeclarationSpecifiers_open env
  have hd : [identifier "a", keyword (.other 59), eofToken].dropLast =
      [identifier "a", keyword (.other 59)] := rfl
  simp only [structDeclaration, h1, h2, h3, hd, Bool.false_eq_true, false_and, if_false]
  rcases structDeclarators_open env ([] ++ r.diagnostics) fuel with h | h
  · left; rw [h]
  · right; rw [h]; exact ⟨_, rfl⟩

/-- C31 failing input: `struct S { int a;` followed by the end of the file. In the loop
`do ... while (ctx->token->code != '}')` of `parseStructDeclarationList`, once the current
token is `END_OF_FILE` every turn leaves it so: the specifiers and the declarator pass no
token, and `consume(ctx, ';')` accepts `END_OF_FILE` and asks for the next token, which is
`END_OF_FILE` again; the condition of the loop holds, so the loop does not end, whatever
the parameters. So for every amount of fuel the run is unfinished, from the end of the
file and from the tokens `int a ;` before it. On `int a ; }` the loop ends at the `}`. -/
theorem structDeclarationLoop_end_of_file :
    (∀ (env : StructBodyOps) (fuel : Nat) (diagnostics : List Diagnostic),
      structDeclarationLoop env fuel ⟨[], diagnostics⟩ = none) ∧
    (∀ (env : StructBodyOps) (fuel : Nat),
      structDeclarationLoop env fuel ⟨tokensOpenStructBody, []⟩ = none) ∧
    (∀ (env : StructBodyOps) (diagnostics : List Diagnostic) (fuel : Nat),
      ∃ d, structDeclaration env (fuel + 3) ⟨[], diagnostics⟩ = some ⟨[], d⟩) ∧
    (currentToken []).code ≠ .other 125 ∧
    (∀ fo : FloatOps,
      structDeclarationLoop (plainStructBodyOps fo) 5 ⟨tokensClosedStructBody, []⟩ =
        some ⟨[keyword (.other 125), keyword (.other 59)], []⟩) := by
  refine ⟨fun env fuel diagnostics => structDeclarationLoop_eof env fuel diagnostics, ?_, ?_,
    by decide, fun fo => rfl⟩
  · intro env fuel
    cases fuel with
    | zero => rfl
    | succ fuel =>
      rcases structDeclaration_open env fuel with h | ⟨d, h⟩
      · simp only [structDeclarationLoop, h]
      · simp only [structDeclarationLoop, h]
        rw [if_pos (by decide)]
        exact structDeclarationLoop_eof env fuel d
  · intro env diagnostics fuel
    obtain ⟨r, h1, h2, h3⟩ := parseDeclarationSpecifiers_eof env
    refine ⟨diagnostics ++ r.diagnostics, ?_⟩
    simp only [structDeclaration, h1, h2, h3, List.dropLast_single, Bool.false_eq_true,
      false_and, if_false]
    rfl

/-! ## Bit-fields and their storage -/

theorem bitField_width_of_intWidth (d : StructDeclarator) (w : Int) (hw : d.width = some w)
    (hk : d.hasIntWidth = true) (hchk : checkIfBitfieldCorrect d.type d.name w = none) :
    0 ≤ w ∧ w ≤ 64 := by
  simp only [StructDeclarator.hasIntWidth, hw, Bool.and_eq_true, decide_eq_true_eq,
    Bool.or_eq_true, Bool.not_eq_true'] at hk
  obtain ⟨_, ⟨hw1, hw2⟩, hint⟩ := hk
  have hwrap : wrap32 w = w := wrap32_of_range hw1 hw2
  unfold checkIfBitfieldCorrect at hchk
  by_cases hi : isIntegerType d.type = true
  · simp only [hi, Bool.not_true, Bool.false_eq_true, if_false, hwrap] at hchk
    rcases hint with hint | hint
    · rw [hi] at hint; cases hint
    · cases ht : d.type with
      | TR_VALUE desc =>
        rw [ht] at hchk hint
        simp only [computeTypeSize] at hint
        simp only [BYTE_BIT_SIZE] at hchk
        have h8 : wrap32 (desc.size * 8) = desc.size * 8 :=
          wrap32_of_range (by omega) (by norm_num; omega)
        split_ifs at hchk with h1 h2
        rw [h8] at h2
        exact ⟨by omega, by omega⟩
      | _ => rw [ht] at hi; simp [isIntegerType] at hi
  · simp [hi] at hchk

theorem fitsStorage_of_not_bitField {m : StructualMember} (h : isBitFieldType m.type = false) :
    m.fitsStorage := by
  intro s b w hm
  rw [hm] at h
  cases h

theorem isBitFieldType_member (type : TypeRef) (h : isBitFieldType type = false) :
    isBitFieldType (if isVLAType type then makeErrorRef else type) = false := by
  split
  · rfl
  · exact h

theorem adjustChainMember_fits (sid uid : TypeId) (align offset w : Int)
    (hcls : bitFieldStorageClass w = some (sid, uid, align)) (m : StructualMember)
    (hm : ∀ storageType bitOffset width, m.type = .TR_BITFIELD storageType bitOffset width →
      0 ≤ bitOffset ∧ 0 ≤ width ∧ bitOffset + width ≤ w) :
    (adjustChainMember (makePrimitiveType sid) (makePrimitiveType uid) offset m).fitsStorage := by
  intro s b wd ht
  obtain ⟨name, type, off, flex⟩ := m
  cases type with
  | TR_BITFIELD s0 b0 w0 =>
    simp only [adjustChainMember, TypeRef.TR_BITFIELD.injEq] at ht
    obtain ⟨hs, hb, hwd⟩ := ht
    subst hb; subst hwd
    obtain ⟨h1, h2, h3⟩ := hm s0 _ _ rfl
    refine ⟨h1, h2, ?_⟩
    unfold bitFieldStorageClass at hcls
    split_ifs at hcls with c1 c2 c3 c4 <;>
      simp only [Option.some.injEq, Prod.mk.injEq] at hcls <;>
      obtain ⟨rfl, rfl, rfl⟩ := hcls <;>
      (rw [← hs]; split <;>
        simp only [makePrimitiveType, computeTypeSize, builtInTypeSize, Option.getD_some] <;>
        omega)
  | _ => simp [adjustChainMember] at ht

theorem BitInv.closeAll {factor : Int} {st : LayoutState} {closed opened : List StructualMember}
    (h : BitInv factor st closed opened) :
    ∀ m ∈ (adjustBitFieldStorage st.members st.bitfieldChain st.bfChainWidth st.offset).1,
      m.fitsStorage := by
  obtain ⟨sid, uid, align, hcls, _, _⟩ := bitFieldStorageClass_some st.bfChainWidth h.width64
  unfold adjustBitFieldStorage
  rw [hcls]
  by_cases ho : opened = []
  · rw [h.chainNone ho]
    intro m hm
    simp only [h.members, ho, List.append_nil] at hm
    exact h.closedFits m hm
  · rw [h.chainSome ho]
    intro m hm
    simp only [h.members, List.take_left', List.drop_left', List.mem_append, List.mem_map] at hm
    rcases hm with hm | ⟨m0, hm0, rfl⟩
    · exact h.closedFits m hm
    · exact adjustChainMember_fits sid uid align _ _ hcls m0 (h.openFits m0 hm0)

theorem BitInv.ofAllFits {factor : Int} {st : LayoutState}
    (hm : ∀ m ∈ st.members, m.fitsStorage) (hc : st.bitfieldChain = none)
    (hw : st.bfChainWidth = 0) (hb : st.bitOffset = 0) :
    BitInv factor st st.members [] ∧ st.bfChainWidth = 0 :=
  ⟨⟨by simp, fun _ => hc, fun h => absurd rfl h, hm, by simp, by omega, by omega,
    by rw [hb, hw]; simp⟩, hw⟩

/-- A member without a width: all members before it are closed and fit, and so is it. -/
theorem layoutMember_plain_bitInv (factor : Int) (st : LayoutState) (d : StructDeclarator)
    (hw : d.width = none) (hm : ∀ m ∈ st.members, m.fitsStorage)
    (ht : isBitFieldType d.type = false) :
    ∃ closed opened, BitInv factor (layoutMember factor st d d.type) closed opened ∧
      (opened = [] → (layoutMember factor st d d.type).bfChainWidth = 0) := by
  refine ⟨_, [], (BitInv.ofAllFits ?_ ?_ ?_ ?_).1, fun _ => ?_⟩
  · rw [layoutMember_members]
    intro m hmem
    rcases List.mem_append.1 hmem with hmem | hmem
    · exact hm m hmem
    · simp only [List.mem_singleton] at hmem
      subst hmem
      exact fitsStorage_of_not_bitField (isBitFieldType_member d.type ht)
  · rw [layoutMember_chain, hw]; rfl
  · rw [(layoutMember_bitOffset factor st d d.type).2, hw]; rfl
  · rw [(layoutMember_bitOffset factor st d d.type).1, hw]; rfl
  · rw [(layoutMember_bitOffset factor st d d.type).2, hw]; rfl

/-- A member with a width is added to the open chain, or opens one. -/
theorem layoutMember_width_bitInv {factor : Int} {st : LayoutState}
    {closed opened : List StructualMember} (h : BitInv factor st closed opened)
    (d : StructDeclarator) (w : Int) (hw : d.width = some w) (type : TypeRef)
    (ht : ∀ storageType bitOffset width,
      (if isVLAType type then makeErrorRef else type) =
        .TR_BITFIELD storageType bitOffset width →
      0 ≤ bitOffset ∧ 0 ≤ width ∧ bitOffset + width ≤ st.bfChainWidth) :
    ∃ closed2 opened2, BitInv factor (layoutMember factor st d type) closed2 opened2 ∧
      (opened2 = [] → (layoutMember factor st d type).bfChainWidth = 0) := by
  have hbw := layoutMember_bitOffset factor st d type
  simp only [hw, Option.isSome_some, if_true] at hbw
  refine ⟨closed, opened ++ [createStructualMember d.name
    (if isVLAType type then makeErrorRef else type) (memberOffset st d type)], ⟨?_, ?_, ?_, ?_, ?_,
    ?_, ?_, ?_⟩, ?_⟩
  · rw [layoutMember_members, h.members, List.append_assoc]
  · intro hn; simp at hn
  · intro _
    rw [layoutMember_chain, hw]
    simp only [Option.isSome_some, if_true, Option.some.injEq]
    by_cases ho : opened = []
    · rw [h.chainNone ho, h.members, ho]; simp
    · rw [h.chainSome ho]; rfl
  · exact h.closedFits
  · intro m hm s b wd hmt
    rw [hbw.2]
    rcases List.mem_append.1 hm with hm | hm
    · exact h.openFits m hm s b wd hmt
    · simp only [List.mem_singleton] at hm
      subst hm
      exact ht s b wd hmt
  · rw [hbw.2]; exact h.width0
  · rw [hbw.2]; exact h.width64
  · rw [hbw.1, hbw.2]; exact h.bit
  · intro hn; simp at hn

theorem chainWidth_arith (factor W bitOffset w : Int) (hf : factor = 0 ∨ factor = 1)
    (hW0 : 0 ≤ W) (hW64 : W ≤ 64) (hb : bitOffset = W * factor) (hw0 : 0 ≤ w) (hw64 : w ≤ 64)
    (hno : W = 0 ∨ w = 0 ∨ w < u32 (maxWidth - bitOffset)) :
    0 ≤ bitOffset ∧
    W ≤ (if factor ≠ 0 then u32 (W + w) else u32 (max W w)) ∧
    (if factor ≠ 0 then u32 (W + w) else u32 (max W w)) ≤ 64 ∧
    0 ≤ (if factor ≠ 0 then u32 (W + w) else u32 (max W w)) ∧
    bitOffset + w ≤ (if factor ≠ 0 then u32 (W + w) else u32 (max W w)) ∧
    u32 (bitOffset + w * factor) =
      (if factor ≠ 0 then u32 (W + w) else u32 (max W w)) * factor := by
  rcases hf with hf | hf <;> subst hf
  · simp only [mul_zero] at hb
    subst hb
    simp only [ne_eq, not_true_eq_false, if_false, mul_zero, add_zero, zero_add]
    have hm1 : W ≤ max W w := le_max_left _ _
    have hm2 : w ≤ max W w := le_max_right _ _
    have hm3 : max W w ≤ 64 := max_le hW64 hw64
    have hu : u32 (max W w) = max W w := by
      unfold u32
      exact Int.emod_eq_of_lt (le_trans hW0 hm1) (by omega)
    rw [hu]
    refine ⟨le_refl _, hm1, hm3, le_trans hW0 hm1, hm2, rfl⟩
  · simp only [mul_one] at hb
    subst hb
    simp only [ne_eq, one_ne_zero, not_false_eq_true, if_true, mul_one]
    have hu0 : u32 (maxWidth - bitOffset) = 64 - bitOffset := by
      unfold u32 maxWidth
      exact Int.emod_eq_of_lt (by omega) (by omega)
    rw [hu0] at hno
    have hu : u32 (bitOffset + w) = bitOffset + w := by
      unfold u32
      exact Int.emod_eq_of_lt (by omega) (by omega)
    rw [hu]
    refine ⟨hW0, by omega, by omega, by omega, le_refl _, trivial⟩

theorem layoutDeclarator_bitInv {factor : Int} (hf : factor = 0 ∨ factor = 1)
    {st : LayoutState} {closed opened : List StructualMember}
    (h : BitInv factor st closed opened) (hnone : opened = [] → st.bfChainWidth = 0)
    (definition : Option TypeDefiniton) (d : StructDeclarator)
    (hk : d.hasIntWidth = true) :
    ∃ closed2 opened2, BitInv factor (layoutDeclarator factor definition st d) closed2 opened2 ∧
      (opened2 = [] → (layoutDeclarator factor definition st d).bfChainWidth = 0) := by
  have hk0 := hk
  simp only [StructDeclarator.hasIntWidth, Bool.and_eq_true, Bool.not_eq_true'] at hk
  obtain ⟨hnbf, _⟩ := hk
  rw [layoutDeclarator_eq]
  by_cases hdn : declaresNothing definition d = true
  · simp only [hdn, if_true]
    exact ⟨closed, opened, h, hnone⟩
  · simp only [hdn, Bool.false_eq_true, if_false]
    cases hw : d.width with
    | none =>
      simp only []
      apply layoutMember_plain_bitInv factor _ d hw _ hnbf
      by_cases hc : st.bitfieldChain.isSome = true
      · simp only [hc, if_true]
        exact h.closeAll
      · simp only [hc, Bool.false_eq_true, if_false]
        have ho : opened = [] := by
          by_contra ho
          rw [h.chainSome ho] at hc
          exact hc rfl
        intro m hm
        rw [h.members, ho, List.append_nil] at hm
        exact h.closedFits m hm
    | some w =>
      simp only []
      cases hchk : checkIfBitfieldCorrect d.type d.name w with
      | some diagnostic =>
        simp only []
        have h2 : BitInv factor { st with diagnostics := st.diagnostics ++ [diagnostic] }
            closed opened :=
          ⟨h.members, h.chainNone, h.chainSome, h.closedFits, h.openFits, h.width0, h.width64,
            h.bit⟩
        apply layoutMember_width_bitInv h2 d w hw
        intro s b wd ht
        have := isBitFieldType_member d.type hnbf
        rw [ht] at this
        cases this
      | none =>
        simp only []
        obtain ⟨hw0, hw64⟩ := bitField_width_of_intWidth d w hw hk0 hchk
        have huw : u32 w = w := u32_of_range hw0 (by omega)
        -- the state after the test that closes a full chain
        obtain ⟨c1, o1, st1, hst1, h1, hn1, hno⟩ : ∃ c1 o1 st1,
            st1 = (if st.bitfieldChain.isSome ∧ w > 0 ∧ u32 (maxWidth - st.bitOffset) ≤ w
              then resetChain (closeChain factor st) else st) ∧
            BitInv factor st1 c1 o1 ∧ (o1 = [] → st1.bfChainWidth = 0) ∧
            (st1.bfChainWidth = 0 ∨ w = 0 ∨ w < u32 (maxWidth - st1.bitOffset)) := by
          by_cases hc : st.bitfieldChain.isSome ∧ w > 0 ∧ u32 (maxWidth - st.bitOffset) ≤ w
          · refine ⟨(resetChain (closeChain factor st)).members, [],
              (if st.bitfieldChain.isSome ∧ w > 0 ∧ u32 (maxWidth - st.bitOffset) ≤ w
                then resetChain (closeChain factor st) else st), rfl, ?_⟩
            rw [if_pos hc]
            have := @BitInv.ofAllFits factor
              (resetChain (closeChain factor st)) h.closeAll rfl rfl rfl
            exact ⟨this.1, fun _ => rfl, Or.inl rfl⟩
          · refine ⟨closed, opened,
              (if st.bitfieldChain.isSome ∧ w > 0 ∧ u32 (maxWidth - st.bitOffset) ≤ w
                then resetChain (closeChain factor st) else st), rfl, ?_⟩
            rw [if_neg hc]
            refine ⟨h, hnone, ?_⟩
            by_cases ho : opened = []
            · exact Or.inl (hnone ho)
            · have hs : st.bitfieldChain.isSome = true := by rw [h.chainSome ho]; rfl
              by_cases hz : w = 0
              · exact Or.inr (Or.inl hz)
              · right; right
                by_contra hlt
                exact hc ⟨hs, by omega, by omega⟩
        have har := chainWidth_arith factor st1.bfChainWidth st1.bitOffset w hf h1.width0
          h1.width64 h1.bit hw0 hw64 hno
        obtain ⟨hb0, hle, h64, h0, hsum, hbit⟩ := har
        have h2 : BitInv factor
            { st1 with
              bitOffset := u32 (st1.bitOffset + w * factor)
              bfChainWidth :=
                if factor ≠ 0 then u32 (st1.bfChainWidth + w)
                else u32 (max st1.bfChainWidth w) } c1 o1 :=
          ⟨h1.members, h1.chainNone, h1.chainSome, h1.closedFits,
            fun m hm s b wd ht =>
              ⟨(h1.openFits m hm s b wd ht).1, (h1.openFits m hm s b wd ht).2.1,
                le_trans (h1.openFits m hm s b wd ht).2.2 hle⟩,
            h0, h64, hbit⟩
        rw [layoutBitField_eq]
        simp only [← hst1]
        by_cases hz : w = 0
        · simp only [hz, if_true]
          have := @BitInv.ofAllFits factor
            ({ resetChain (closeChain factor
                { st1 with
                  bitOffset := u32 (st1.bitOffset + w * factor)
                  bfChainWidth :=
                    if factor ≠ 0 then u32 (st1.bfChainWidth + w)
                    else u32 (max st1.bfChainWidth w) }) with
              diagnostics :=
                if d.name.isSome then st1.diagnostics ++ [.DIAG_ZERO_NAMED_BIT_FIELD]
                else st1.diagnostics }) h2.closeAll rfl rfl rfl
          simp only [hz] at this
          exact ⟨_, [], this.1, fun _ => rfl⟩
        · simp only [hz, if_false, Bool.false_eq_true]
          apply layoutMember_width_bitInv h2 d w hw
          intro s b wd ht
          have hv : isVLAType (makeBitFieldType d.type st1.bitOffset (u32 w)) = false := rfl
          simp only [hv, Bool.false_eq_true, if_false, makeBitFieldType,
            TypeRef.TR_BITFIELD.injEq] at ht
          obtain ⟨_, rfl, rfl⟩ := ht
          rw [huw]
          exact ⟨hb0, hw0, hsum⟩

theorem foldl_layoutDeclarator_bitInv {factor : Int} (hf : factor = 0 ∨ factor = 1)
    (definition : Option TypeDefiniton) (ds : List StructDeclarator) :
    ∀ (st : LayoutState) (closed opened : List StructualMember),
      BitInv factor st closed opened → (opened = [] → st.bfChainWidth = 0) →
      (∀ d ∈ ds, d.hasIntWidth = true) →
      ∃ closed2 opened2,
        BitInv factor (ds.foldl (layoutDeclarator factor definition) st) closed2 opened2 ∧
        (opened2 = [] → (ds.foldl (layoutDeclarator factor definition) st).bfChainWidth = 0) := by
  induction ds with
  | nil => intro st closed opened h hn _; exact ⟨closed, opened, h, hn⟩
  | cons d ds ih =>
    intro st closed opened h hn hk
    obtain ⟨c2, o2, h2, hn2⟩ :=
      layoutDeclarator_bitInv hf h hn definition d (hk d (List.mem_cons_self _ _))
    exact ih _ c2 o2 h2 hn2 fun d' hd' => hk d' (List.mem_cons_of_mem _ hd')

theorem layoutDeclaration_bitInv {factor : Int} (hf : factor = 0 ∨ factor = 1)
    {st : LayoutState} {closed opened : List StructualMember}
    (h : BitInv factor st closed opened) (hn : opened = [] → st.bfChainWidth = 0)
    (decl : StructDeclaration) (hk : decl.hasIntWidth = true) :
    ∃ closed2 opened2, BitInv factor (layoutDeclaration factor st decl) closed2 opened2 ∧
      (opened2 = [] → (layoutDeclaration factor st decl).bfChainWidth = 0) := by
  unfold layoutDeclaration
  by_cases ha : decl.isAnonAggregate = true
  · simp only [ha, if_true]
    simp only [StructDeclaration.hasIntWidth, ha, if_true, Bool.and_eq_true,
      Bool.not_eq_true'] at hk
    have hfit : (createStructualMember (some ("$" ++ toString (st.anonFieldIdx + 1)))
        decl.basicType st.offset).fitsStorage :=
      fitsStorage_of_not_bitField hk
    by_cases ho : opened = []
    · refine ⟨closed ++ [createStructualMember (some ("$" ++ toString (st.anonFieldIdx + 1)))
        decl.basicType st.offset], [], ⟨?_, ?_, ?_, ?_, ?_, h.width0, h.width64, h.bit⟩, ?_⟩
      · simp [h.members, ho]
      · intro _; exact h.chainNone ho
      · intro hne; exact absurd rfl hne
      · intro m hm
        rcases List.mem_append.1 hm with hm | hm
        · exact h.closedFits m hm
        · simp only [List.mem_singleton] at hm
          subst hm
          exact hfit
      · intro m hm; cases hm
      · intro _; exact hn ho
    · refine ⟨closed, opened ++ [createStructualMember
        (some ("$" ++ toString (st.anonFieldIdx + 1))) decl.basicType st.offset],
        ⟨?_, ?_, ?_, h.closedFits, ?_, h.width0, h.width64, h.bit⟩, ?_⟩
      · simp [h.members]
      · intro hne; simp at hne
      · intro _; exact h.chainSome ho
      · intro m hm s b w ht
        rcases List.mem_append.1 hm with hm | hm
        · exact h.openFits m hm s b w ht
        · simp only [List.mem_singleton] at hm
          subst hm
          have := hk
          simp only [createStructualMember] at ht
          rw [ht] at this
          cases this
      · intro hne; simp at hne
  · simp only [ha, Bool.false_eq_true, if_false]
    simp only [StructDeclaration.hasIntWidth, ha, Bool.false_eq_true, if_false,
      List.all_eq_true] at hk
    exact foldl_layoutDeclarator_bitInv hf decl.definition decl.declarators st closed opened h hn hk

theorem foldl_layoutDeclaration_bitInv {factor : Int} (hf : factor = 0 ∨ factor = 1)
    (decls : List StructDeclaration) :
    ∀ (st : LayoutState) (closed opened : List StructualMember),
      BitInv factor st closed opened → (opened = [] → st.bfChainWidth = 0) →
      (∀ decl ∈ decls, decl.hasIntWidth = true) →
      ∃ closed2 opened2,
        BitInv factor (decls.foldl (layoutDeclaration factor) st) closed2 opened2 ∧
        (opened2 = [] → (decls.foldl (layoutDeclaration factor) st).bfChainWidth = 0) := by
  induction decls with
  | nil => intro st closed opened h hn _; exact ⟨closed, opened, h, hn⟩
  | cons decl decls ih =>
    intro st closed opened h hn hk
    obtain ⟨c2, o2, h2, hn2⟩ :=
      layoutDeclaration_bitInv hf h hn decl (hk decl (List.mem_cons_self _ _))
    exact ih _ c2 o2 h2 hn2 fun d' hd' => hk d' (List.mem_cons_of_mem _ hd')

theorem BitInv.atStart (factor : Int) : BitInv factor LayoutState.init [] [] :=
  ⟨rfl, fun _ => rfl, fun h => absurd rfl h, by simp, by simp, le_refl _, by decide,
    by simp [LayoutState.init]⟩

theorem layoutMembers_fitsStorage {factor : Int} (hf : factor = 0 ∨ factor = 1)
    (decls : List StructDeclaration) (hk : ∀ decl ∈ decls, decl.hasIntWidth = true) :
    ∀ m ∈ layoutMembers factor decls, m.fitsStorage := by
  obtain ⟨closed, opened, h, _⟩ :=
    foldl_layoutDeclaration_bitInv hf decls LayoutState.init [] [] (BitInv.atStart factor)
      (fun _ => rfl) hk
  unfold layoutMembers
  by_cases hc : (decls.foldl (layoutDeclaration factor) LayoutState.init).bitfieldChain.isSome
      = true
  · simp only [hc, if_true]
    exact h.closeAll
  · simp only [hc, Bool.false_eq_true, if_false]
    have ho : opened = [] := by
      by_contra ho
      rw [h.chainSome ho] at hc
      exact hc rfl
    intro m hm
    rw [h.members, ho, List.append_nil] at hm
    exact h.closedFits m hm

theorem checkFlexibleMember_bitField (member : StructualMember) (flexible : Bool)
    (type storageType : TypeRef) (bitOffset width : Int)
    (h : checkFlexibleMember member = some (flexible, type))
    (ht : type = .TR_BITFIELD storageType bitOffset width) : member.type = type := by
  unfold checkFlexibleMember at h
  cases hm : member.type with
  | TR_ARRAY elementType size =>
    rw [hm] at h
    simp only at h
    split at h <;> simp only [Option.some.injEq, Prod.mk.injEq] at h <;>
      (obtain ⟨_, h2⟩ := h; rw [ht] at h2; cases h2)
  | TR_BITFIELD s b w =>
    rw [hm] at h
    simp [isCompositeType, isStructualType, isUnionType] at h
    exact h.2
  | TR_VALUE desc =>
    rw [hm] at h
    simp only at h
    split at h
    · cases hd : desc.typeDefinition with
      | none => rw [hd] at h; cases h
      | some definition =>
        rw [hd] at h
        simp only [Option.map_some', Option.some.injEq, Prod.mk.injEq] at h
        exact h.2
    · simp only [Option.some.injEq, Prod.mk.injEq] at h
      exact h.2
  | TR_POINTED p =>
    rw [hm] at h
    simp [isCompositeType, isStructualType, isUnionType] at h
    exact h.2
  | TR_VLA e =>
    rw [hm] at h
    simp [isCompositeType, isStructualType, isUnionType] at h
    exact h.2
  | TR_FUNCTION r =>
    rw [hm] at h
    simp [isCompositeType, isStructualType, isUnionType] at h
    exact h.2

/-- C34: for every body of a struct (`factor = 1`) or union (`factor = 0`) as the parser
hands it to the loop (`hasIntWidth`: the declared types are no bit-field types, a width is
in the range of `int`, and the integer type of a member with a width has at most 8 bytes;
nothing is asked of the members without a width, which may have the error type, an unknown
size or any alignment): every member with a bit-field type, in the member list at the end
of the loop and in the list that `parseStructDeclarationList` returns, has a bit offset
and a width that are not negative, ends within its storage type, and has a storage type
of at most 64 bits; and after any declarations and declarators of such a body the width
of the open chain is between 0 and 64, so that `adjustBitFieldStorage`, which is called
with that width, finds a storage class for it. -/
theorem parseStructDeclarationList_bitField_storage (factor : Int)
    (decls : List StructDeclaration) (hf : factor = 0 ∨ factor = 1)
    (hk : ∀ decl ∈ decls, decl.hasIntWidth = true) :
    (∀ m ∈ layoutMembers factor decls, m.fitsStorage) ∧
    (∀ members flexible, parseStructDeclarationList factor decls = some (members, flexible) →
      ∀ m ∈ members, m.fitsStorage) ∧
    (∀ (n : Nat) (definition : Option TypeDefiniton) (ds : List StructDeclarator),
      (∀ d ∈ ds, d.hasIntWidth = true) →
      0 ≤ (ds.foldl (layoutDeclarator factor definition)
        ((decls.take n).foldl (layoutDeclaration factor) LayoutState.init)).bfChainWidth ∧
      (ds.foldl (layoutDeclarator factor definition)
        ((decls.take n).foldl (layoutDeclaration factor) LayoutState.init)).bfChainWidth ≤ 64 ∧
      (bitFieldStorageClass (ds.foldl (layoutDeclarator factor definition)
        ((decls.take n).foldl (layoutDeclaration factor)
          LayoutState.init)).bfChainWidth).isSome = true) := by
  have hall := layoutMembers_fitsStorage hf decls hk
  refine ⟨hall, ?_, ?_⟩
  · intro members flexible hp m hm
    rw [parseStructDeclarationList_eq] at hp
    cases hl : (layoutMembers factor decls).getLast? with
    | none => rw [hl] at hp; cases hp
    | some current =>
      rw [hl] at hp
      simp only at hp
      cases hc : checkFlexibleMember current with
      | none => rw [hc] at hp; cases hp
      | some r =>
        obtain ⟨flex, type⟩ := r
        rw [hc] at hp
        simp only [Option.some.injEq, Prod.mk.injEq] at hp
        obtain ⟨hmem, _⟩ := hp
        rw [← hmem] at hm
        have hcur : current ∈ layoutMembers factor decls := List.mem_of_mem_getLast? hl
        rcases List.mem_append.1 hm with hm | hm
        · exact hall m (List.dropLast_subset _ hm)
        · simp only [List.mem_singleton] at hm
          subst hm
          intro s b w ht
          simp only at ht
          have := checkFlexibleMember_bitField current flex type s b w hc ht
          exact hall current hcur s b w (this.trans ht)
  · intro n definition ds hds
    obtain ⟨c1, o1, h1, hn1⟩ :=
      foldl_layoutDeclaration_bitInv hf (decls.take n) LayoutState.init [] []
        (BitInv.atStart factor) (fun _ => rfl)
        (fun decl hd => hk decl (List.mem_of_mem_take hd))
    obtain ⟨c2, o2, h2, _⟩ :=
      foldl_layoutDeclarator_bitInv hf definition ds _ c1 o1 h1 hn1 hds
    obtain ⟨sid, uid, align, hcls, _, _⟩ := bitFieldStorageClass_some _ h2.width64
    exact ⟨h2.width0, h2.width64, by rw [hcls]; rfl⟩

/-- C34 witness: in `struct { x; long a : 40; char b : 20; long c : 24;
unsigned long d : 64; char e; }` the member `x` has the error type, the width of `b` is
refused, `c` closes the chain of `a` and `d` that of `c`; the bit-field members `a`, `c`,
`d` get 8, 4 and 8 bytes of storage. -/
theorem parseStructDeclarationList_bitField_storage_witness :
    ((1 : Int) = 0 ∨ (1 : Int) = 1) ∧
    (∀ decl ∈ structBitFields, decl.hasIntWidth = true) ∧
    (∀ m ∈ layoutMembers 1 structBitFields, m.fitsStorage) ∧
    (layoutMembers 1 structBitFields).map (fun m => m.type) =
      [makeErrorRef, .TR_BITFIELD (makePrimitiveType .T_S8) 0 40, makePrimitiveType .T_S1,
       .TR_BITFIELD (makePrimitiveType .T_S4) 0 24,
       .TR_BITFIELD (makePrimitiveType .T_U8) 0 64, makePrimitiveType .T_S1] :=
  ⟨Or.inr rfl, by decide,
    (parseStructDeclarationList_bitField_storage 1 structBitFields (Or.inr rfl) (by decide)).1,
    by decide⟩

end CCompiler
